import Mathlib

/-!
# Pointing-device drivers: the Cirque Pinnacle pipeline

A shallow embedding of `quantum/pointing_device_drivers.c`: the tap detector
(`trackpad_tap`), the cursor glide (`cursor_glide*`), the circular scroll
detector (`circular_scroll`) and the per-tick orchestration
(`cirque_pinnacle_get_report`).

Machine integers are `Nat`/`Int` with explicit wrap-around.  The C `float` and
`double` values are IEEE-754 binary32/binary64 numbers, represented as dyadic
rationals `m * 2 ^ e` and rounded to nearest, ties to even, after every
operation.
-/

namespace PointingDevice

/-! ## Machine integers -/

/-- Conversion to `int8_t`: reduction modulo `2 ^ 8` into `[-128, 127]`. -/
def wrap8 (n : Int) : Int := (n + 128) % 256 - 128

/-- Conversion to `int16_t`: reduction modulo `2 ^ 16` into `[-32768, 32767]`. -/
def wrap16 (n : Int) : Int := (n + 32768) % 65536 - 32768

/-- Conversion to `int32_t`: reduction modulo `2 ^ 32`. -/
def wrap32 (n : Int) : Int := (n + 2147483648) % 4294967296 - 2147483648

/-- The macro `constrain_hid(amt)`:
`((amt) < -127 ? -127 : ((amt) > 127 ? 127 : (amt)))`. -/
def constrain_hid (amt : Int) : Int :=
  if amt < -127 then -127 else if amt > 127 then 127 else amt

/-! ## IEEE-754 arithmetic -/

/-- Number of binary digits of `n`, by halving (`fuel` bounds the recursion). -/
def bitlenAux : Nat → Nat → Nat
  | 0, _ => 0
  | fuel + 1, n => if n = 0 then 0 else bitlenAux fuel (n / 2) + 1

/-- Number of binary digits of `n`: `0` for `0`, else `⌊log₂ n⌋ + 1`. -/
def bitlen (n : Nat) : Nat := bitlenAux n n

/-- Integer square root, one binary digit of the result at a time. -/
def isqrtAux : Nat → Nat → Nat → Nat
  | 0, _, r => r
  | b + 1, n, r => isqrtAux b n (if (r + 2 ^ b) * (r + 2 ^ b) ≤ n then r + 2 ^ b else r)

/-- Integer square root `⌊√n⌋`. -/
def isqrt (n : Nat) : Nat := isqrtAux (bitlen n / 2 + 1) n 0

/-- A floating-point datum: the finite value `m * 2 ^ e`, an infinity, or NaN.
The sign of a zero is not tracked (a zero is `+0`). -/
inductive Flt where
  | fin (m : Int) (e : Int)
  | inf (neg : Bool)
  | nan
  deriving DecidableEq, Repr

/-- A binary interchange format: `prec` significand bits, `elo` the exponent of
the least subnormal, `ehi` the largest exponent of a leading bit. -/
structure Fmt where
  prec : Nat
  elo : Int
  ehi : Int
  deriving DecidableEq, Repr

/-- The format of C `float`. -/
def binary32 : Fmt := ⟨24, -149, 127⟩

/-- The format of C `double`. -/
def binary64 : Fmt := ⟨53, -1074, 1023⟩

/-- Multiplication by `2 ^ k` for `k ≥ 0`, the identity for `k < 0`. -/
def shl (a : Nat) (k : Int) : Nat := a * 2 ^ k.toNat

/-- Nearest integer to `num / den`, ties to even. -/
def rnEven (num den : Nat) : Nat :=
  if 2 * (num % den) < den then num / den
  else if den < 2 * (num % den) then num / den + 1
  else if (num / den) % 2 = 0 then num / den else num / den + 1

/-- Exponent of the unit in the last place used to round `a / d` (`a, d > 0`)
in format `f`. -/
def ulpExp (f : Fmt) (a d : Nat) : Int :=
  let k1 : Int := (bitlen a : Int) - (bitlen d : Int) - (f.prec : Int)
  max (if shl a (-k1) / shl d k1 < 2 ^ f.prec then k1 else k1 + 1) f.elo

/-- Round the rational `n / d` (`d > 0`) to format `f`, to nearest, ties to even. -/
def roundQ (f : Fmt) (n : Int) (d : Nat) : Flt :=
  if n = 0 then .fin 0 0
  else
    let k := ulpExp f n.natAbs d
    let m := rnEven (shl n.natAbs (-k)) (shl d k)
    if f.ehi + 1 < (bitlen m : Int) + k then .inf (decide (n < 0))
    else .fin (if n < 0 then -(m : Int) else (m : Int)) k

/-- Round the dyadic `n * 2 ^ e` to format `f`. -/
def roundDy (f : Fmt) (n : Int) (e : Int) : Flt :=
  roundQ f (n * 2 ^ e.toNat) (2 ^ (-e).toNat)

namespace Flt

/-- Conversion of an integer (`(float) n`, `(double) n`). -/
def ofInt (f : Fmt) (n : Int) : Flt := roundDy f n 0

/-- Negation. -/
def neg : Flt → Flt
  | fin m e => fin (-m) e
  | inf s => inf (!s)
  | nan => nan

/-- The function `fabs`. -/
def abs : Flt → Flt
  | fin m e => fin (Int.natAbs m) e
  | inf _ => inf false
  | nan => nan

/-- Addition in format `f`. -/
def add (f : Fmt) : Flt → Flt → Flt
  | fin m1 e1, fin m2 e2 =>
      roundDy f (m1 * 2 ^ (e1 - min e1 e2).toNat + m2 * 2 ^ (e2 - min e1 e2).toNat) (min e1 e2)
  | fin _ _, inf s => inf s
  | inf s, fin _ _ => inf s
  | inf s, inf t => if s = t then inf s else nan
  | _, _ => nan

/-- Subtraction in format `f`. -/
def sub (f : Fmt) (a b : Flt) : Flt := add f a (neg b)

/-- Multiplication in format `f`. -/
def mul (f : Fmt) : Flt → Flt → Flt
  | fin m1 e1, fin m2 e2 => roundDy f (m1 * m2) (e1 + e2)
  | fin m _, inf s => if m = 0 then nan else inf (s != decide (m < 0))
  | inf s, fin m _ => if m = 0 then nan else inf (s != decide (m < 0))
  | inf s, inf t => inf (s != t)
  | _, _ => nan

/-- Division in format `f`; `x / 0` is an infinity and `0 / 0` is NaN. -/
def div (f : Fmt) : Flt → Flt → Flt
  | fin m1 e1, fin m2 e2 =>
      if m2 = 0 then (if m1 = 0 then nan else inf (decide (m1 < 0)))
      else roundQ f (Int.sign m2 * m1 * 2 ^ (e1 - e2).toNat) (m2.natAbs * 2 ^ (e2 - e1).toNat)
  | fin _ _, inf _ => fin 0 0
  | inf s, fin m _ => inf (s != decide (m < 0))
  | _, _ => nan

/-- Comparison `a < b`; false when either side is NaN. -/
def lt : Flt → Flt → Bool
  | fin m1 e1, fin m2 e2 =>
      decide (m1 * 2 ^ (e1 - min e1 e2).toNat < m2 * 2 ^ (e2 - min e1 e2).toNat)
  | fin _ _, inf s => !s
  | inf s, fin _ _ => s
  | inf s, inf t => s && !t
  | _, _ => false

/-- Comparison `a ≤ b`; false when either side is NaN. -/
def le : Flt → Flt → Bool
  | fin m1 e1, fin m2 e2 =>
      decide (m1 * 2 ^ (e1 - min e1 e2).toNat ≤ m2 * 2 ^ (e2 - min e1 e2).toNat)
  | fin _ _, inf s => !s
  | inf s, fin _ _ => s
  | inf s, inf t => s || !t
  | _, _ => false

/-- Truncation toward zero of `m * 2 ^ e`. -/
def truncDy (m e : Int) : Int :=
  if 0 ≤ e then m * 2 ^ e.toNat
  else if 0 ≤ m then m / 2 ^ (-e).toNat
  else -((-m) / 2 ^ (-e).toNat)

/-- Conversion to a 32-bit integer.  C leaves the out-of-range and NaN cases
undefined; they are taken as the ARMv7-M `VCVT` instruction gives them:
saturation, and `0` for NaN. -/
def toInt32 : Flt → Int
  | fin m e =>
      if truncDy m e < -2147483648 then -2147483648
      else if 2147483647 < truncDy m e then 2147483647
      else truncDy m e
  | inf s => if s then -2147483648 else 2147483647
  | nan => 0

/-- The function `roundf`: nearest integer, ties away from zero. -/
def roundf : Flt → Flt
  | fin m e =>
      if 0 ≤ e then fin m e
      else
        let q := (2 * m.natAbs + 2 ^ (-e).toNat) / (2 * 2 ^ (-e).toNat)
        fin (if m < 0 then -(q : Int) else (q : Int)) 0
  | x => x

/-- Conversion from `double` to `float`. -/
def toF32 : Flt → Flt
  | fin m e => roundDy binary32 m e
  | x => x

end Flt

/-- A `double` literal `n / d`. -/
def dbl (n : Int) (d : Nat) : Flt := roundQ binary64 n d

/-- The constant `M_PI` of `math.h`, the `double` nearest to π. -/
def M_PI : Flt := .fin 884279719003555 (-48)

/-- The value `⌊π * 2 ^ 80⌋`. -/
def piFix : Nat := 3797952473636338580787993

/-- Partial sums of Euler's series
`atan (a / b) = Σ (2k)!! / (2k+1)!! * (a b / (a² + b²)) * (a² / (a² + b²)) ^ k`,
in fixed point; `t` is the current term, `k` its index, `fuel` the number of
terms still to add. -/
def atanSeries (a b : Nat) : Nat → Nat → Nat → Nat
  | 0, _, _ => 0
  | fuel + 1, k, t =>
      t + atanSeries a b fuel (k + 1) (t * (a * a) * (2 * k + 2) / ((a * a + b * b) * (2 * k + 3)))

/-- The value `atan (a / b) * 2 ^ 80` for `0 ≤ a ≤ b`, `0 < b`, up to `2 ^ -70`. -/
def atanFix (a b : Nat) : Nat :=
  atanSeries a b 90 0 (2 ^ 80 * (a * b) / (a * a + b * b))

/-- Reference `atan2f`: the binary32 rounding of `atan2 (y, x)`, computed from a
fixed-point series.  (`atan2f` is a libm function.) -/
def atan2f : Flt → Flt → Flt
  | .fin my ey, .fin mx ex =>
      let a := my.natAbs * 2 ^ (ey - min ey ex).toNat
      let b := mx.natAbs * 2 ^ (ex - min ey ex).toNat
      if a = 0 then (if mx < 0 then roundQ binary32 piFix (2 ^ 80) else .fin 0 0)
      else
        let t := if a ≤ b then atanFix a b else piFix / 2 - atanFix b a
        let u := if mx < 0 then piFix - t else t
        roundQ binary32 (if my < 0 then -(u : Int) else (u : Int)) (2 ^ 80)
  | _, _ => .nan

/-- Reference `hypotf`: the binary32 rounding of `√(x² + y²)`.  (`hypotf` is a
libm function.) -/
def hypotf : Flt → Flt → Flt
  | .fin mx ex, .fin my ey =>
      let a := mx.natAbs * 2 ^ (ex - min ex ey).toNat
      let b := my.natAbs * 2 ^ (ey - min ex ey).toNat
      let t := (a * a + b * b) * 4 ^ 32
      let r := isqrt t
      roundDy binary32 (2 * r + (if r * r = t then 0 else 1)) (min ex ey - 33)
  | .nan, _ => .nan
  | _, .nan => .nan
  | _, _ => .inf false

/-! ## Data model -/

/-- The HID mouse report `report_mouse_t`: `buttons` is a `uint8_t` mask, the
other fields are `int8_t`. -/
structure report_mouse_t where
  buttons : Nat
  x : Int
  y : Int
  v : Int
  h : Int
  deriving DecidableEq, Repr

/-- One touch sample `pinnacle_data_t`, after `cirque_pinnacle_scale_data`:
`xValue`, `yValue`, `zValue` are `uint16_t`. -/
structure pinnacle_data_t where
  xValue : Nat
  yValue : Nat
  zValue : Nat
  touchDown : Bool
  deriving DecidableEq, Repr

/-- The pad rotation selected by `POINTING_DEVICE_ROTATION_90/180/270`. -/
inductive Rotation where
  | r0 | r90 | r180 | r270
  deriving DecidableEq, Repr

/-- The compile-time configuration of the translation unit and the scale
returned by `cirque_pinnacle_get_scale()`. -/
structure Config where
  /-- `CIRQUE_PINNACLE_DISABLE_TAP` is defined. -/
  disable_tap : Bool
  /-- `CIRQUE_PINNACLE_ENABLE_CURSOR_GLIDE` is defined. -/
  enable_cursor_glide : Bool
  /-- `CIRQUE_PINNACLE_ENABLE_CIRCULAR_SCROLL` is defined. -/
  enable_circular_scroll : Bool
  /-- `POINTING_DEVICE_MOTION_PIN` is defined. -/
  motion_pin : Bool
  rotation : Rotation
  /-- `CIRQUE_PINNACLE_TAPPING_TERM`. -/
  tapping_term : Nat
  /-- `CIRQUE_PINNACLE_TOUCH_DEBOUNCE`. -/
  touch_debounce : Nat
  /-- `CIRQUE_PINNACLE_SCROLL_RING_PERCENTAGE`. -/
  scroll_ring_percentage : Nat
  /-- `CIRQUE_PINNACLE_SCROLL_MOVEMENT_PERCENTAGE`. -/
  scroll_movement_percentage : Nat
  /-- `CIRQUE_PINNACLE_SCROLL_MOVEMENT_RATIO`, a `double`. -/
  scroll_movement_ratio : Flt
  /-- `CIRQUE_PINNACLE_SCROLL_WHEEL_CLICKS`. -/
  scroll_wheel_clicks : Nat
  /-- `cirque_pinnacle_get_scale()`. -/
  scale : Nat
  deriving DecidableEq, Repr

/-- The defaults of the `#ifndef` blocks, every feature enabled, no rotation,
scale 1024. -/
def Config.default : Config where
  disable_tap := false
  enable_cursor_glide := true
  enable_circular_scroll := true
  motion_pin := false
  rotation := .r0
  tapping_term := 200
  touch_debounce := 200 * 8
  scroll_ring_percentage := 33
  scroll_movement_percentage := 6
  scroll_movement_ratio := dbl 12 10
  scroll_wheel_clicks := 9
  scale := 1024

/-- The configuration of `keyboards/splitkb/kyria/keymaps/dkao/config.h`: taps
disabled, glide and circular scroll enabled. -/
def Config.dkao : Config := { Config.default with disable_tap := true }

/-! ## Timer and button helpers -/

/-- Modelled from the spec: `timer_elapsed` of `timer.h`, which is not among the
sources; "elapsed = `(now − then) mod 2¹⁶`", `now` being the value of
`timer_read()`. -/
def timer_elapsed (now last : Nat) : Nat := (((now : Int) - (last : Int)) % 65536).toNat

/-- Modelled from the spec: `POINTING_DEVICE_BUTTON1` of `pointing_device.h`,
the primary button, bit 0 of the mask. -/
def POINTING_DEVICE_BUTTON1 : Nat := 0

/-- Modelled from the spec: `pointing_device_handle_buttons` of
`pointing_device.c`, which is not among the sources;
"`handle_buttons(current_mask, pressed, which) -> new_mask`": the bit of
`button` is set when `pressed` and cleared otherwise, in a `uint8_t` mask. -/
def pointing_device_handle_buttons (buttons : Nat) (pressed : Bool) (button : Nat) : Nat :=
  if pressed then (buttons ||| (1 <<< button)) % 256
  else (buttons &&& (255 ^^^ ((1 <<< button) % 256))) % 256

/-! ## Tap detector -/

/-- The context `trackpad_tap_context_t`. -/
structure trackpad_tap_context_t where
  timer : Nat
  z : Bool
  deriving DecidableEq, Repr

/-- The function `trackpad_tap`.  `now` is the value of `timer_read()`; the
third component of the result lists the reports flushed with
`pointing_device_set_report` and `pointing_device_send`, in order. -/
def trackpad_tap (cfg : Config) (now : Nat) (tap : trackpad_tap_context_t)
    (mouse_report : report_mouse_t) (touchData : pinnacle_data_t) :
    report_mouse_t × trackpad_tap_context_t × List report_mouse_t :=
  let zb : Bool := decide (touchData.zValue ≠ 0)
  let r1 : report_mouse_t × trackpad_tap_context_t × List report_mouse_t :=
    if zb ≠ tap.z then
      if touchData.zValue = 0 ∧ timer_elapsed now tap.timer < cfg.tapping_term ∧ tap.timer ≠ 0 then
        let pressed : report_mouse_t :=
          { mouse_report with
            buttons := pointing_device_handle_buttons mouse_report.buttons true POINTING_DEVICE_BUTTON1 }
        let released : report_mouse_t :=
          { pressed with
            buttons := pointing_device_handle_buttons pressed.buttons false POINTING_DEVICE_BUTTON1 }
        (released, { timer := now % 65536, z := zb }, [pressed, released])
      else (mouse_report, { timer := now % 65536, z := zb }, [])
    else (mouse_report, tap, [])
  if cfg.touch_debounce < timer_elapsed now r1.2.1.timer then
    (r1.1, { r1.2.1 with timer := 0 }, r1.2.2)
  else r1

/-! ## Cursor glide -/

/-- The result `cursor_glide_t`. -/
structure cursor_glide_t where
  dx : Int
  dy : Int
  valid : Bool
  deriving DecidableEq, Repr

/-- The context `cursor_glide_context_t`. -/
structure cursor_glide_context_t where
  coef : Flt
  v0 : Flt
  x : Int
  y : Int
  z : Nat
  timer : Nat
  interval : Nat
  counter : Nat
  dx0 : Int
  dy0 : Int
  deriving DecidableEq, Repr

/-- The `float` expression
`glide.v0 * glide.counter - glide.coef * glide.counter * glide.counter / 2`. -/
def glide_p (v0 coef : Flt) (counter : Nat) : Flt :=
  Flt.sub binary32 (Flt.mul binary32 v0 (Flt.ofInt binary32 counter))
    (Flt.div binary32
      (Flt.mul binary32 (Flt.mul binary32 coef (Flt.ofInt binary32 counter))
        (Flt.ofInt binary32 counter))
      (Flt.ofInt binary32 2))

/-- The `float` expression `p * glide.dx0 / glide.v0` (likewise with `dy0`). -/
def glide_proj (p v0 : Flt) (d0 : Int) : Flt :=
  Flt.div binary32 (Flt.mul binary32 p (Flt.ofInt binary32 d0)) v0

/-- The function `cursor_glide`. -/
def cursor_glide (now : Nat) (glide : cursor_glide_context_t) :
    cursor_glide_t × cursor_glide_context_t :=
  let counter := (glide.counter + 1) % 65536
  let p := glide_p glide.v0 glide.coef counter
  let x := wrap16 (Flt.toInt32 (glide_proj p glide.v0 glide.dx0))
  let y := wrap16 (Flt.toInt32 (glide_proj p glide.v0 glide.dy0))
  let dx := wrap8 (x - glide.x)
  let dy := wrap8 (y - glide.y)
  let stop : Bool := decide (dx ≤ 1 ∧ -1 ≤ dx ∧ dy ≤ 1 ∧ -1 ≤ dy)
  ({ dx := dx, dy := dy, valid := true },
   { glide with
     counter := counter
     dx0 := if stop then 0 else glide.dx0
     dy0 := if stop then 0 else glide.dy0
     x := x
     y := y
     timer := now % 65536 })

/-- The function `cursor_glide_check`. -/
def cursor_glide_check (now : Nat) (glide : cursor_glide_context_t) :
    cursor_glide_t × cursor_glide_context_t :=
  if glide.z ≠ 0 ∨ (glide.dx0 = 0 ∧ glide.dy0 = 0) ∨ timer_elapsed now glide.timer < glide.interval then
    ({ dx := 0, dy := 0, valid := false }, glide)
  else cursor_glide now glide

/-- The function `cursor_glide_start`. -/
def cursor_glide_start (now : Nat) (glide : cursor_glide_context_t) :
    cursor_glide_t × cursor_glide_context_t :=
  cursor_glide now
    { glide with
      coef := Flt.toF32 (dbl 4 10)
      interval := 10
      timer := now % 65536
      counter := 0
      v0 := hypotf (Flt.ofInt binary32 glide.dx0) (Flt.ofInt binary32 glide.dy0)
      x := 0
      y := 0
      z := 0 }

/-- The function `cursor_glide_update`. -/
def cursor_glide_update (glide : cursor_glide_context_t) (dx dy : Int) (z : Nat) :
    cursor_glide_context_t :=
  { glide with dx0 := dx, dy0 := dy, z := z }

/-! ## Circular scroll -/

/-- The enumeration `circular_scroll_status_t`. -/
inductive circular_scroll_status_t where
  | SCROLL_UNINITIALIZED
  | SCROLL_DETECTING
  | SCROLL_VALID
  | NOT_SCROLL
  deriving DecidableEq, Repr

open circular_scroll_status_t

/-- The result `circular_scroll_t`. -/
structure circular_scroll_t where
  v : Int
  h : Int
  suppress_touch : Bool
  deriving DecidableEq, Repr

/-- The context `circular_scroll_context_t`. -/
structure circular_scroll_context_t where
  mag : Flt
  x : Int
  y : Int
  z : Nat
  state : circular_scroll_status_t
  axis : Bool
  deriving DecidableEq, Repr

/-- The operand `(int32_t)scroll.x * (int32_t)x + (int32_t)scroll.y * (int32_t)y`. -/
def scroll_dot (sx sy x y : Int) : Int := wrap32 (sx * x + sy * y)

/-- The operand `(int32_t)scroll.x * (int32_t)y - (int32_t)scroll.y * (int32_t)x`. -/
def scroll_det (sx sy x y : Int) : Int := wrap32 (sx * y - sy * x)

/-- The test `mag / center >= (100.0 - CIRQUE_PINNACLE_SCROLL_RING_PERCENTAGE) / 100.0`. -/
def in_outer_ring (cfg : Config) (mag : Flt) (center : Nat) : Bool :=
  Flt.le
    (Flt.div binary64
      (Flt.sub binary64 (dbl 100 1) (Flt.ofInt binary64 cfg.scroll_ring_percentage)) (dbl 100 1))
    (Flt.div binary32 mag (Flt.ofInt binary32 center))

/-- The test `mag >= CIRQUE_PINNACLE_SCROLL_MOVEMENT_PERCENTAGE / 100.0 * center`. -/
def moved_enough (cfg : Config) (mag : Flt) (center : Nat) : Bool :=
  Flt.le
    (Flt.mul binary64
      (Flt.div binary64 (Flt.ofInt binary64 cfg.scroll_movement_percentage) (dbl 100 1))
      (Flt.ofInt binary64 center))
    mag

/-- The test `parallel_movement * CIRQUE_PINNACLE_SCROLL_MOVEMENT_RATIO > perpendicular_movement`
of the stored touchdown vector `(sx, sy)` of length `smag` against `(x, y)`. -/
def is_swipe (cfg : Config) (smag : Flt) (sx sy x y : Int) : Bool :=
  let scalar_projection := Flt.div binary32 (Flt.ofInt binary32 (scroll_dot sx sy x y)) smag
  let scalar_rejection := Flt.div binary32 (Flt.ofInt binary32 (scroll_det sx sy x y)) smag
  let parallel_movement :=
    Flt.toF32 (Flt.abs (Flt.sub binary64 smag (Flt.abs scalar_projection)))
  let perpendicular_movement := Flt.toF32 (Flt.abs scalar_rejection)
  Flt.lt perpendicular_movement (Flt.mul binary64 parallel_movement cfg.scroll_movement_ratio)

/-- The value of `wheel_clicks`:
`roundf(atan2f(det, dot) * CIRQUE_PINNACLE_SCROLL_WHEEL_CLICKS / M_PI)`, as an `int8_t`. -/
def wheel_clicks (cfg : Config) (sx sy x y : Int) : Int :=
  let ang := atan2f (Flt.ofInt binary32 (scroll_det sx sy x y))
    (Flt.ofInt binary32 (scroll_dot sx sy x y))
  wrap8 (Flt.toInt32 (Flt.roundf (Flt.toF32
    (Flt.div binary64 (Flt.mul binary32 ang (Flt.ofInt binary32 cfg.scroll_wheel_clicks)) M_PI))))

/-- The assignment to `scroll.axis`, under each `POINTING_DEVICE_ROTATION_*`. -/
def scroll_axis (cfg : Config) (x y : Int) : Bool :=
  match cfg.rotation with
  | .r90 => decide (y < 0)
  | .r180 => decide (x > 0)
  | .r270 => decide (y > 0)
  | .r0 => decide (x < 0)

/-- The first `if`/`else if` of the touched branch of `circular_scroll`: the
first touch of a stroke, or one more sample while detecting. -/
def scroll_detect (cfg : Config) (scroll : circular_scroll_context_t) (x y : Int) (center : Nat) :
    Bool × circular_scroll_context_t :=
  if scroll.z = 0 then
    let mag := hypotf (Flt.ofInt binary32 x) (Flt.ofInt binary32 y)
    if in_outer_ring cfg mag center then
      (false, { scroll with
                state := SCROLL_DETECTING, x := x, y := y, mag := mag, axis := scroll_axis cfg x y })
    else (false, scroll)
  else if scroll.state = SCROLL_DETECTING then
    let mag := hypotf (Flt.ofInt binary32 (x - scroll.x)) (Flt.ofInt binary32 (y - scroll.y))
    if moved_enough cfg mag center then
      if is_swipe cfg scroll.mag scroll.x scroll.y x y then
        (false, { scroll with state := NOT_SCROLL })
      else (true, { scroll with state := SCROLL_VALID })
    else (true, scroll)
  else (false, scroll)

/-- The block `if (scroll.state == SCROLL_VALID)` of `circular_scroll`:
`report` holds `v`, `h` and `suppress_touch`. -/
def scroll_emit (cfg : Config) (suppress : Bool) (scroll : circular_scroll_context_t) (x y : Int) :
    circular_scroll_t × circular_scroll_context_t :=
  if scroll.state = SCROLL_VALID then
    let clicks := wheel_clicks cfg scroll.x scroll.y x y
    if 1 ≤ clicks ∨ clicks ≤ -1 then
      (if scroll.axis = false then { v := wrap8 (-clicks), h := 0, suppress_touch := true }
       else { v := 0, h := clicks, suppress_touch := true },
       { scroll with x := x, y := y })
    else ({ v := 0, h := 0, suppress_touch := true }, scroll)
  else ({ v := 0, h := 0, suppress_touch := suppress }, scroll)

/-- The local `center`: `cirque_pinnacle_get_scale() / 2`, a `uint16_t`. -/
def scroll_center (cfg : Config) : Nat := (cfg.scale / 2) % 65536

/-- The centred coordinate `(int16_t)(value - center)`. -/
def centred (cfg : Config) (value : Nat) : Int :=
  wrap16 ((value : Int) - (scroll_center cfg : Int))

/-- The function `circular_scroll`. -/
def circular_scroll (cfg : Config) (scroll : circular_scroll_context_t) (touchData : pinnacle_data_t) :
    circular_scroll_t × circular_scroll_context_t :=
  let r : circular_scroll_t × circular_scroll_context_t :=
    if touchData.zValue ≠ 0 then
      let x := centred cfg touchData.xValue
      let y := centred cfg touchData.yValue
      let d := scroll_detect cfg scroll x y (scroll_center cfg)
      scroll_emit cfg d.1 d.2 x y
    else ({ v := 0, h := 0, suppress_touch := false }, scroll)
  (r.1, { r.2 with
          z := touchData.zValue
          state := if touchData.zValue = 0 then SCROLL_UNINITIALIZED else r.2.state })

/-! ## Orchestration -/

/-- The static state of the translation unit: the three contexts and the
`static uint16_t x, y` of `cirque_pinnacle_get_report`. -/
structure State where
  tap : trackpad_tap_context_t
  glide : cursor_glide_context_t
  scroll : circular_scroll_context_t
  x : Nat
  y : Nat
  deriving DecidableEq, Repr

/-- The zero-initialised statics at power-on. -/
def State.init : State where
  tap := { timer := 0, z := false }
  glide := { coef := .fin 0 0, v0 := .fin 0 0, x := 0, y := 0, z := 0, timer := 0,
             interval := 0, counter := 0, dx0 := 0, dy0 := 0 }
  scroll := { mag := .fin 0 0, x := 0, y := 0, z := 0, state := SCROLL_UNINITIALIZED,
              axis := false }
  x := 0
  y := 0

/-- What one call of `cirque_pinnacle_get_report` reads from its environment:
`now` is the value of `timer_read()`, `data_ready` that of
`cirque_pinnacle_data_ready()`, and `touchData` the sample that
`cirque_pinnacle_read_data` and `cirque_pinnacle_scale_data` deliver. -/
structure Input where
  now : Nat
  data_ready : Bool
  touchData : pinnacle_data_t
  deriving DecidableEq, Repr

/-- The result of one call: the returned report, the statics afterwards, and
the reports flushed during the call. -/
structure Output where
  report : report_mouse_t
  state : State
  sent : List report_mouse_t
  deriving DecidableEq, Repr

/-- The block of `cirque_pinnacle_get_report` that processes a sample, up to
and including the glide update.  `glide` is the result of `cursor_glide_check`.
Returns `report_x`, `report_y`, the glide result, and the call's output so far. -/
def process_sample (cfg : Config) (inp : Input) (st : State) (mouse_report : report_mouse_t)
    (glide : cursor_glide_t) : Int × Int × cursor_glide_t × Output :=
  let touchData := inp.touchData
  let sc : circular_scroll_t × circular_scroll_context_t :=
    if cfg.enable_circular_scroll then circular_scroll cfg st.scroll touchData
    else ({ v := mouse_report.v, h := mouse_report.h, suppress_touch := false }, st.scroll)
  let mouse_report : report_mouse_t := { mouse_report with v := sc.1.v, h := sc.1.h }
  let moved : Bool :=
    !sc.1.suppress_touch &&
      decide (st.x ≠ 0 ∧ st.y ≠ 0 ∧ touchData.xValue ≠ 0 ∧ touchData.yValue ≠ 0)
  let report_x : Int := if moved then wrap8 ((touchData.xValue : Int) - st.x) else 0
  let report_y : Int := if moved then wrap8 ((touchData.yValue : Int) - st.y) else 0
  let x := if sc.1.suppress_touch then st.x else touchData.xValue % 65536
  let y := if sc.1.suppress_touch then st.y else touchData.yValue % 65536
  let tp : report_mouse_t × trackpad_tap_context_t × List report_mouse_t :=
    if cfg.disable_tap then (mouse_report, st.tap, [])
    else trackpad_tap cfg inp.now st.tap mouse_report touchData
  let gl : cursor_glide_t × cursor_glide_context_t :=
    if cfg.enable_cursor_glide then
      if touchData.touchDown then
        (glide, cursor_glide_update st.glide report_x report_y touchData.zValue)
      else if !glide.valid then cursor_glide_start inp.now st.glide
      else (glide, st.glide)
    else (glide, st.glide)
  (report_x, report_y, gl.1,
   { report := tp.1
     state := { tap := tp.2.1, glide := gl.2, scroll := sc.2, x := x, y := y }
     sent := tp.2.2 })

/-- The function `cirque_pinnacle_get_report`. -/
def cirque_pinnacle_get_report (cfg : Config) (inp : Input) (st : State)
    (mouse_report : report_mouse_t) : Output :=
  let gc : cursor_glide_t × cursor_glide_context_t :=
    if cfg.enable_cursor_glide then cursor_glide_check inp.now st.glide
    else ({ dx := 0, dy := 0, valid := false }, st.glide)
  let st : State := { st with glide := gc.2 }
  if !cfg.motion_pin && !inp.data_ready then
    if !gc.1.valid then { report := mouse_report, state := st, sent := [] }
    else { report := { mouse_report with x := gc.1.dx, y := gc.1.dy }, state := st, sent := [] }
  else
    let r := process_sample cfg inp st mouse_report gc.1
    let report_x := if r.2.2.1.valid then r.2.2.1.dx else r.1
    let report_y := if r.2.2.1.valid then r.2.2.1.dy else r.2.1
    { r.2.2.2 with report := { r.2.2.2.report with x := report_x, y := report_y } }

/-! ## Executions -/

/-- The all-zero report handed to the driver at the start of a tick. -/
def report_zero : report_mouse_t := { buttons := 0, x := 0, y := 0, v := 0, h := 0 }

/-- A sample is coherent when a non-zero pressure comes with `touchDown`
("z: pressure, 0 = no touch"). -/
def pinnacle_data_t.coherent (d : pinnacle_data_t) : Prop :=
  d.zValue ≠ 0 → d.touchDown = true

instance (d : pinnacle_data_t) : Decidable d.coherent := by
  unfold pinnacle_data_t.coherent; exact inferInstance

/-- The states the statics can take: the power-on state, and the state after
one more call of `cirque_pinnacle_get_report` on a coherent sample. -/
inductive Reachable (cfg : Config) : State → Prop where
  | init : Reachable cfg State.init
  | step {st : State} (inp : Input) (mouse_report : report_mouse_t) :
      Reachable cfg st → inp.touchData.coherent →
      Reachable cfg (cirque_pinnacle_get_report cfg inp st mouse_report).state

/-- The state after the calls `inps`, each on the report `mouse_report`. -/
def run_state (cfg : Config) (mouse_report : report_mouse_t) : State → List Input → State
  | st, [] => st
  | st, inp :: inps =>
      run_state cfg mouse_report (cirque_pinnacle_get_report cfg inp st mouse_report).state inps

/-- A touched or untouched sample that is ready at time `now`. -/
def sample (now x y z : Nat) : Input :=
  { now := now, data_ready := true,
    touchData := { xValue := x, yValue := y, zValue := z, touchDown := decide (z ≠ 0) } }

/-- A tick at time `now` on which no sample is ready. -/
def no_sample (now : Nat) : Input :=
  { now := now, data_ready := false,
    touchData := { xValue := 0, yValue := 0, zValue := 0, touchDown := false } }

/-- The report flushed first by a tap: `mouse_report` with button 1 pressed. -/
def tap_pressed (mouse_report : report_mouse_t) : report_mouse_t :=
  { mouse_report with
    buttons := pointing_device_handle_buttons mouse_report.buttons true POINTING_DEVICE_BUTTON1 }

/-- The report flushed second by a tap, and returned: button 1 released again. -/
def tap_released (mouse_report : report_mouse_t) : report_mouse_t :=
  { mouse_report with
    buttons := pointing_device_handle_buttons (tap_pressed mouse_report).buttons false
      POINTING_DEVICE_BUTTON1 }

/-- One call of `trackpad_tap`: the timer value, the report and the sample. -/
structure TapCall where
  now : Nat
  mouse_report : report_mouse_t
  touchData : pinnacle_data_t
  deriving DecidableEq, Repr

/-- Successive calls of `trackpad_tap`: for each call, the returned report and
the reports it flushed. -/
def tap_calls (cfg : Config) :
    trackpad_tap_context_t → List TapCall → List (report_mouse_t × List report_mouse_t)
  | _, [] => []
  | tap, c :: cs =>
      ((trackpad_tap cfg c.now tap c.mouse_report c.touchData).1,
       (trackpad_tap cfg c.now tap c.mouse_report c.touchData).2.2) ::
        tap_calls cfg (trackpad_tap cfg c.now tap c.mouse_report c.touchData).2.1 cs

/-- The calls `cs` follow time `t` in order, each at most `term` after the
previous one. -/
def spaced (term : Nat) : Nat → List TapCall → Bool
  | _, [] => true
  | t, c :: cs => decide (t ≤ c.now) && decide (c.now ≤ t + term) && spaced term c.now cs

/-- A call with a touched sample (`zValue = 50`) on the all-zero report. -/
def tap_touch (now : Nat) : TapCall :=
  { now := now, mouse_report := report_zero,
    touchData := { xValue := 512, yValue := 512, zValue := 50, touchDown := true } }

/-- A call with an untouched sample on the all-zero report. -/
def tap_lift (now : Nat) : TapCall :=
  { now := now, mouse_report := report_zero,
    touchData := { xValue := 0, yValue := 0, zValue := 0, touchDown := false } }

/-- The two facts about the statics that make a scroll stroke exclude a glide. -/
def Inv (cfg : Config) (s : State) : Prop :=
  (s.scroll.z = 0 → s.scroll.state = SCROLL_UNINITIALIZED) ∧
  (cfg.enable_cursor_glide = true → s.scroll.z ≠ 0 → s.glide.z ≠ 0)

/-- The deltas that `cursor_glide_check` emits for a running glide on its calls
at the times `nows`, one `cursor_glide` call each while `dx0`, `dy0` are not
both zero, and the context left behind. -/
def glide_run : List Nat → cursor_glide_context_t → List cursor_glide_t × cursor_glide_context_t
  | [], g => ([], g)
  | now :: nows, g =>
      if g.dx0 = 0 ∧ g.dy0 = 0 then ([], g)
      else ((cursor_glide now g).1 :: (glide_run nows (cursor_glide now g).2).1,
            (glide_run nows (cursor_glide now g).2).2)

/-- All the deltas of a glide: that of `cursor_glide_start` at time `now`, then
those of the calls at the times `nows`. -/
def glide_deltas (now : Nat) (nows : List Nat) (g : cursor_glide_context_t) :
    List cursor_glide_t :=
  (cursor_glide_start now g).1 :: (glide_run nows (cursor_glide_start now g).2).1

/-- A glide context holding the velocity `(dx0, dy0)` of the last touched tick. -/
def glide_with (dx0 dy0 : Int) : cursor_glide_context_t :=
  { State.init.glide with dx0 := dx0, dy0 := dy0 }

/-- The rational value of a finite datum (`0` for an infinity or NaN). -/
def Flt.val : Flt → ℚ
  | .fin m e => (m : ℚ) * (2 : ℚ) ^ e
  | _ => 0

/-- The datum is finite. -/
def Flt.isFin : Flt → Bool
  | .fin _ _ => true
  | _ => false

/-- The integer `t` is the truncation toward zero of the rational `x`. -/
def IsTrunc (t : Int) (x : ℚ) : Prop :=
  (0 ≤ x → (t : ℚ) ≤ x ∧ x < (t : ℚ) + 1) ∧ (x ≤ 0 → x ≤ (t : ℚ) ∧ (t : ℚ) - 1 < x)

/-- A value `x` of binary32 approximates `r` with relative error `2 ^ -24`. -/
def Rounds (x : Flt) (r : ℚ) : Prop :=
  x.isFin = true ∧ |x.val - r| ≤ |r| / 16777216


/-- The value `glide.x` (with `d0 = dx0`) or `glide.y` (with `d0 = dy0`) after
`k` calls of `cursor_glide` in a glide: `0` as set by `cursor_glide_start`, then
`(int16_t)(p * d0 / v0)` computed at `counter = k`. -/
def glide_pos (v0 coef : Flt) (d0 : Int) (k : Nat) : Int :=
  if k = 0 then 0 else wrap16 (Flt.toInt32 (glide_proj (glide_p v0 coef k) v0 d0))

/-- The delta that the call of `cursor_glide` with `counter = k` before the
call emits in a glide with initial velocity `(a, b)`. -/
def glide_delta (v0 coef : Flt) (a b : Int) (k : Nat) : cursor_glide_t :=
  { dx := wrap8 (glide_pos v0 coef a (k + 1) - glide_pos v0 coef a k)
    dy := wrap8 (glide_pos v0 coef b (k + 1) - glide_pos v0 coef b k)
    valid := true }

/-- The test of `cursor_glide` that ends the glide. -/
def glide_stop (d : cursor_glide_t) : Prop :=
  d.dx ≤ 1 ∧ -1 ≤ d.dx ∧ d.dy ≤ 1 ∧ -1 ≤ d.dy
/-- Successive calls of `circular_scroll`: the result of each call. -/
def scroll_calls (cfg : Config) :
    circular_scroll_context_t → List pinnacle_data_t → List circular_scroll_t
  | _, [] => []
  | sc, td :: tds =>
      (circular_scroll cfg sc td).1 :: scroll_calls cfg (circular_scroll cfg sc td).2 tds

/-- The touched sample at `(x, y)` with pressure 50. -/
def touch_at (x y : Nat) : pinnacle_data_t :=
  { xValue := x, yValue := y, zValue := 50, touchDown := true }

/-- The values of `wheel_clicks` along a stroke that is in `SCROLL_VALID`: each
sample is measured against the reference vector `(rx, ry)`, which moves to the
sample whenever the value is not zero. -/
def stroke_ticks (cfg : Config) : Int → Int → List pinnacle_data_t → List Int
  | _, _, [] => []
  | rx, ry, td :: tds =>
      wheel_clicks cfg rx ry (centred cfg td.xValue) (centred cfg td.yValue) ::
        stroke_ticks cfg
          (if wheel_clicks cfg rx ry (centred cfg td.xValue) (centred cfg td.yValue) = 0 then rx
           else centred cfg td.xValue)
          (if wheel_clicks cfg rx ry (centred cfg td.xValue) (centred cfg td.yValue) = 0 then ry
           else centred cfg td.yValue)
          tds

/-- The result of `circular_scroll` in `SCROLL_VALID` for the value `clicks` of
`wheel_clicks`: `v = -clicks` on the vertical axis (`axis = false`), `h = clicks`
on the horizontal one. -/
def tick_report (axis : Bool) (clicks : Int) : circular_scroll_t :=
  if axis = false then { v := wrap8 (-clicks), h := 0, suppress_touch := true }
  else { v := 0, h := clicks, suppress_touch := true }

/-- Eight samples 45° apart around the pad centre, from the right edge and back. -/
def octagon : List pinnacle_data_t :=
  [touch_at 912 512, touch_at 812 812, touch_at 512 912, touch_at 212 812, touch_at 112 512,
   touch_at 212 212, touch_at 512 112, touch_at 812 212, touch_at 912 512]

/-- Thirty-two samples 11.25° apart on the circle of radius 400 around the pad
centre, from the right edge and back. -/
def fine_circle : List pinnacle_data_t :=
  [touch_at 912 512, touch_at 904 590, touch_at 882 665, touch_at 845 734, touch_at 795 795,
   touch_at 734 845, touch_at 665 882, touch_at 590 904, touch_at 512 912, touch_at 434 904,
   touch_at 359 882, touch_at 290 845, touch_at 229 795, touch_at 179 734, touch_at 142 665,
   touch_at 120 590, touch_at 112 512, touch_at 120 434, touch_at 142 359, touch_at 179 290,
   touch_at 229 229, touch_at 290 179, touch_at 359 142, touch_at 434 120, touch_at 512 112,
   touch_at 590 120, touch_at 665 142, touch_at 734 179, touch_at 795 229, touch_at 845 290,
   touch_at 882 359, touch_at 904 434, touch_at 912 512]


/-- Successive calls of `circular_scroll`: the context after the last call. -/
def scroll_run (cfg : Config) :
    circular_scroll_context_t → List pinnacle_data_t → circular_scroll_context_t
  | sc, [] => sc
  | sc, td :: tds => scroll_run cfg (circular_scroll cfg sc td).2 tds

/-- The `float` value `X(n) = p(n) * d0 / v0` that `cursor_glide` computes at
`counter = n`, with `d0 = dx0` or `d0 = dy0`. -/
def glide_X (v0 coef : Flt) (d0 : Int) (n : Nat) : Flt :=
  glide_proj (glide_p v0 coef n) v0 d0

/-- The integer `trunc (X(n))`, with `X(0) = 0`: the conversion of `X(n)` to an
integer without the narrowing to `int16_t`. -/
def glide_trunc (v0 coef : Flt) (d0 : Int) (n : Nat) : Int :=
  if n = 0 then 0 else Flt.toInt32 (glide_X v0 coef d0 n)

/-- The point `(x, y)` lies on the segment from `(x0, y0)` towards the origin:
`(x, y) = t * (x0, y0)` with `t = p / q`, `0 ≤ t < 1`. -/
def on_segment (x0 y0 x y : Int) : Prop :=
  ∃ p q : Nat, p < q ∧ (q : Int) * x = (p : Int) * x0 ∧ (q : Int) * y = (p : Int) * y0

/-- The squared distance between `(x0, y0)` and `(x, y)`. -/
def dist_sq (x0 y0 x y : Int) : Int := (x - x0) ^ 2 + (y - y0) ^ 2

/-! ## Pimoroni trackball -/

/-- The sensor reading `pimoroni_data_t`, with the fields that
`pimoroni_trackball_get_report` uses; all are `uint8_t`. -/
structure pimoroni_data_t where
  left : Nat
  right : Nat
  up : Nat
  down : Nat
  click : Nat
  deriving DecidableEq, Repr

/-- The constants and functions of the Pimoroni driver that
`pimoroni_trackball_get_report` uses and that are not among the sources: they
are parameters of the model.  `get_offsets` stands for
`pimoroni_trackball_get_offsets`, and `adapt_values` for
`pimoroni_trackball_adapt_values`, which takes the report field and the offset
and gives their new values. -/
structure PimoroniDriver where
  /-- `PIMORONI_TRACKBALL_ERROR_COUNT`. -/
  error_count : Nat
  /-- `PIMORONI_TRACKBALL_DEBOUNCE_CYCLES`. -/
  debounce_cycles : Nat
  /-- `PIMORONI_TRACKBALL_SCALE`. -/
  scale : Nat
  get_offsets : Nat → Nat → Nat → Int
  adapt_values : Int → Int → Int × Int

/-- The statics of `pimoroni_trackball_get_report`: `debounce` is a `uint16_t`,
`error_count` a `uint8_t`, the offsets are `int16_t`. -/
structure pimoroni_state where
  debounce : Nat
  error_count : Nat
  x_offset : Int
  y_offset : Int
  deriving DecidableEq, Repr

/-- The function `pimoroni_trackball_get_report`.  `read` is what
`read_pimoroni_trackball` delivers when it is called: the data on
`I2C_STATUS_SUCCESS`, `none` on any other status.  The third component of the
result tells whether the sensor was read. -/
def pimoroni_trackball_get_report (drv : PimoroniDriver) (read : Option pimoroni_data_t)
    (st : pimoroni_state) (mouse_report : report_mouse_t) :
    report_mouse_t × pimoroni_state × Bool :=
  if st.error_count < drv.error_count then
    match read with
    | some pimoroni_data =>
        if pimoroni_data.click &&& 128 = 0 then
          let buttons :=
            pointing_device_handle_buttons mouse_report.buttons false POINTING_DEVICE_BUTTON1
          if st.debounce = 0 then
            let x_offset := wrap16 (st.x_offset
              + drv.get_offsets pimoroni_data.right pimoroni_data.left drv.scale)
            let y_offset := wrap16 (st.y_offset
              + drv.get_offsets pimoroni_data.down pimoroni_data.up drv.scale)
            let ax := drv.adapt_values mouse_report.x x_offset
            let ay := drv.adapt_values mouse_report.y y_offset
            ({ mouse_report with buttons := buttons, x := ax.1, y := ay.1 },
             { st with error_count := 0, x_offset := ax.2, y_offset := ay.2 }, true)
          else
            ({ mouse_report with buttons := buttons },
             { st with error_count := 0, debounce := st.debounce - 1 }, true)
        else
          ({ mouse_report with
             buttons :=
               pointing_device_handle_buttons mouse_report.buttons true POINTING_DEVICE_BUTTON1 },
           { st with error_count := 0, debounce := drv.debounce_cycles % 65536 }, true)
    | none => (mouse_report, { st with error_count := (st.error_count + 1) % 256 }, true)
  else (mouse_report, st, false)

/-- Successive calls of `pimoroni_trackball_get_report`, each with what the
sensor would deliver and the report handed in: the result of each call. -/
def pimoroni_calls (drv : PimoroniDriver) :
    pimoroni_state → List (Option pimoroni_data_t × report_mouse_t) →
      List (report_mouse_t × pimoroni_state × Bool)
  | _, [] => []
  | st, c :: cs =>
      pimoroni_trackball_get_report drv c.1 st c.2 ::
        pimoroni_calls drv (pimoroni_trackball_get_report drv c.1 st c.2).2.1 cs

/-- Successive calls of `pimoroni_trackball_get_report`: the statics after the
last call. -/
def pimoroni_run (drv : PimoroniDriver) :
    pimoroni_state → List (Option pimoroni_data_t × report_mouse_t) → pimoroni_state
  | st, [] => st
  | st, c :: cs => pimoroni_run drv (pimoroni_trackball_get_report drv c.1 st c.2).2.1 cs

/-- A Pimoroni driver with error limit 10, whose helper functions add the
offset to the report field. -/
def PimoroniDriver.sample : PimoroniDriver where
  error_count := 10
  debounce_cycles := 20
  scale := 5
  get_offsets := fun neg pos scale => ((pos : Int) - (neg : Int)) * (scale : Int)
  adapt_values := fun mouse offset => (constrain_hid (mouse + offset), 0)

/-! ## Strokes through `cirque_pinnacle_get_report` -/

/-- The reports that the calls `inps` return, each on the report
`mouse_report`. -/
def run_reports (cfg : Config) (mouse_report : report_mouse_t) :
    State → List Input → List report_mouse_t
  | _, [] => []
  | st, inp :: inps =>
      (cirque_pinnacle_get_report cfg inp st mouse_report).report ::
        run_reports cfg mouse_report (cirque_pinnacle_get_report cfg inp st mouse_report).state inps

/-- Every one of the successive calls of `circular_scroll` on `tds` leaves the
state `SCROLL_DETECTING`. -/
def stays_detecting (cfg : Config) : circular_scroll_context_t → List pinnacle_data_t → Bool
  | _, [] => true
  | sc, td :: tds =>
      decide ((circular_scroll cfg sc td).2.state = SCROLL_DETECTING) &&
        stays_detecting cfg (circular_scroll cfg sc td).2 tds

/-! ## ADNS9800 -/

/-- The sensor reading `report_adns9800_t`, with the fields that
`adns9800_get_report_driver` uses.  The type is not among the sources: the
fields are signed integers of any width. -/
structure report_adns9800_t where
  x : Int
  y : Int
  deriving DecidableEq, Repr

/-- The function `adns9800_get_report_driver`.  `sensor_report` is what
`adns9800_get_report` delivers; `clamped_x` and `clamped_y` are `int8_t`. -/
def adns9800_get_report_driver (sensor_report : report_adns9800_t)
    (mouse_report : report_mouse_t) : report_mouse_t :=
  let clamped_x : Int := wrap8 (constrain_hid sensor_report.x)
  let clamped_y : Int := wrap8 (constrain_hid sensor_report.y)
  { mouse_report with x := clamped_x, y := clamped_y }

/-! ## The closed form of the glide -/

/-- The closed form `p(n) * d0 / v0` with `p(n) = v0 * n - coef * n² / 2`,
evaluated without rounding on the values of the stored `v0` and `coef`. -/
def glide_exact (v0 coef : Flt) (d0 : Int) (n : Nat) : ℚ :=
  (v0.val * n - coef.val * n * n / 2) * d0 / v0.val

/-- Truncation of a rational toward zero. -/
def trunc_q (x : ℚ) : Int := if 0 ≤ x then ⌊x⌋ else ⌈x⌉

/-- The default configuration at the run-time scale 6076, that is with
`center = 3038`. -/
def Config.scale6076 : Config := { Config.default with scale := 6076 }

/-! # Properties -/

/-! ### Helper lemmas: circular scroll -/

theorem scroll_emit_state (cfg : Config) (b : Bool) (sc : circular_scroll_context_t) (x y : Int) :
    (scroll_emit cfg b sc x y).2.state = sc.state := by
  simp only [scroll_emit]; split_ifs <;> rfl

theorem scroll_emit_suppress (cfg : Config) (b : Bool) (sc : circular_scroll_context_t) (x y : Int)
    (h : sc.state = SCROLL_VALID) : (scroll_emit cfg b sc x y).1.suppress_touch = true := by
  simp only [scroll_emit]; split_ifs <;> rfl

theorem circular_scroll_z (cfg : Config) (sc : circular_scroll_context_t) (td : pinnacle_data_t) :
    (circular_scroll cfg sc td).2.z = td.zValue := rfl

theorem circular_scroll_state_lift (cfg : Config) (sc : circular_scroll_context_t)
    (td : pinnacle_data_t) (h : td.zValue = 0) :
    (circular_scroll cfg sc td).2.state = SCROLL_UNINITIALIZED := by
  simp [circular_scroll, h]

theorem circular_scroll_valid_suppress (cfg : Config) (sc : circular_scroll_context_t)
    (td : pinnacle_data_t) (h : (circular_scroll cfg sc td).2.state = SCROLL_VALID) :
    (circular_scroll cfg sc td).1.suppress_touch = true := by
  by_cases hz : td.zValue = 0
  · rw [circular_scroll_state_lift cfg sc td hz] at h; cases h
  · simp only [circular_scroll, hz, ne_eq, not_false_eq_true, if_true, if_false] at h ⊢
    rw [scroll_emit_state] at h
    exact scroll_emit_suppress _ _ _ _ _ h

theorem scroll_detect_first (cfg : Config) (sc : circular_scroll_context_t) (x y : Int) (c : Nat)
    (hz : sc.z = 0) (hs : sc.state = SCROLL_UNINITIALIZED) :
    (scroll_detect cfg sc x y c).2.state ≠ SCROLL_VALID := by
  simp only [scroll_detect, hz, if_true]
  split_ifs <;> simp [hs]

theorem circular_scroll_first_not_valid (cfg : Config) (sc : circular_scroll_context_t)
    (td : pinnacle_data_t) (hz : sc.z = 0) (hs : sc.state = SCROLL_UNINITIALIZED) :
    (circular_scroll cfg sc td).2.state ≠ SCROLL_VALID := by
  by_cases h0 : td.zValue = 0
  · rw [circular_scroll_state_lift cfg sc td h0]; simp
  · simp only [circular_scroll, h0, ne_eq, not_false_eq_true, if_true, if_false]
    rw [scroll_emit_state]
    exact scroll_detect_first cfg sc _ _ _ hz hs

/-! ### Helper lemmas: cursor glide -/

theorem cursor_glide_z (now : Nat) (g : cursor_glide_context_t) :
    (cursor_glide now g).2.z = g.z := rfl

theorem cursor_glide_valid (now : Nat) (g : cursor_glide_context_t) :
    (cursor_glide now g).1.valid = true := rfl

theorem cursor_glide_check_z (now : Nat) (g : cursor_glide_context_t) :
    (cursor_glide_check now g).2.z = g.z := by
  unfold cursor_glide_check; split_ifs <;> rfl

theorem cursor_glide_check_touched (now : Nat) (g : cursor_glide_context_t) (h : g.z ≠ 0) :
    cursor_glide_check now g = ({ dx := 0, dy := 0, valid := false }, g) := by
  simp [cursor_glide_check, h]

/-! ### Helper lemmas: orchestration -/


theorem get_report_inv (cfg : Config) (inp : Input) (st : State) (mr : report_mouse_t)
    (hs : cfg.enable_circular_scroll = true) (hc : inp.touchData.coherent) (hi : Inv cfg st) :
    Inv cfg (cirque_pinnacle_get_report cfg inp st mr).state := by
  obtain ⟨h1, h2⟩ := hi
  by_cases hp : (!cfg.motion_pin && !inp.data_ready) = true
  · have hsc : (cirque_pinnacle_get_report cfg inp st mr).state.scroll = st.scroll := by
      simp only [cirque_pinnacle_get_report, hp, if_true]; split_ifs <;> rfl
    have hgl : (cirque_pinnacle_get_report cfg inp st mr).state.glide.z = st.glide.z := by
      simp only [cirque_pinnacle_get_report, hp, if_true]
      split_ifs <;> first | rfl | exact cursor_glide_check_z _ _
    refine ⟨?_, ?_⟩
    · rw [hsc]; exact h1
    · rw [hsc, hgl]; exact h2
  · have hsc : (cirque_pinnacle_get_report cfg inp st mr).state.scroll
        = (circular_scroll cfg st.scroll inp.touchData).2 := by
      simp only [cirque_pinnacle_get_report, hp, process_sample, hs, if_true]; rfl
    refine ⟨?_, ?_⟩
    · rw [hsc, circular_scroll_z]
      exact fun h0 => circular_scroll_state_lift cfg _ _ h0
    · intro hg hz
      rw [hsc, circular_scroll_z] at hz
      have ht := hc hz
      simp only [cirque_pinnacle_get_report, hp, process_sample, hg, ht, if_true,
        cursor_glide_update]
      exact hz

theorem reachable_inv (cfg : Config) (st : State) (hs : cfg.enable_circular_scroll = true)
    (hr : Reachable cfg st) : Inv cfg st := by
  induction hr with
  | init => exact ⟨fun _ => rfl, fun _ h => absurd rfl h⟩
  | step inp mr _ hc ih => exact get_report_inv cfg inp _ mr hs hc ih

/-! ### C1 -/

set_option maxRecDepth 100000 in
/-- C1: the returned `x` can leave `[-127, 127]`.  From power-on, a touch at
`(384, 512)` followed by a touch at `(512, 512)` returns `x = -128`: the
difference `128` is converted to `int8_t` and never passed through
`constrain_hid`. -/
theorem cirque_pinnacle_get_report_x_unclamped :
    (cirque_pinnacle_get_report Config.default (sample 10 512 512 50)
        (cirque_pinnacle_get_report Config.default (sample 0 384 512 50) State.init
          report_zero).state report_zero).report.x = -128 := by
  decide

/-! ### C2 -/

/-- C2: on a tick that processes a touched sample and leaves the scroll state
at `SCROLL_VALID`, the returned report has `x = 0` and `y = 0`. -/
theorem scroll_valid_report_zero (cfg : Config) (inp : Input) (st : State)
    (mouse_report : report_mouse_t) (hs : cfg.enable_circular_scroll = true)
    (hr : Reachable cfg st) (hp : cfg.motion_pin = true ∨ inp.data_ready = true)
    (_hz : inp.touchData.zValue ≠ 0) (ht : inp.touchData.touchDown = true)
    (hv : (cirque_pinnacle_get_report cfg inp st mouse_report).state.scroll.state = SCROLL_VALID) :
    (cirque_pinnacle_get_report cfg inp st mouse_report).report.x = 0 ∧
    (cirque_pinnacle_get_report cfg inp st mouse_report).report.y = 0 := by
  obtain ⟨h1, h2⟩ := reachable_inv cfg st hs hr
  have hp' : (!cfg.motion_pin && !inp.data_ready) = false := by
    rcases hp with h | h <;> simp [h]
  have hsc : (cirque_pinnacle_get_report cfg inp st mouse_report).state.scroll
      = (circular_scroll cfg st.scroll inp.touchData).2 := by
    simp only [cirque_pinnacle_get_report, hp', process_sample, hs, if_true]; rfl
  rw [hsc] at hv
  have hsup := circular_scroll_valid_suppress cfg _ _ hv
  have hz0 : st.scroll.z ≠ 0 := fun h0 =>
    circular_scroll_first_not_valid cfg _ inp.touchData h0 (h1 h0) hv
  by_cases hg : cfg.enable_cursor_glide = true
  · have hgz := h2 hg hz0
    simp [cirque_pinnacle_get_report, hp', process_sample, hs, hg, ht, hsup,
      cursor_glide_check_touched _ _ hgz]
  · simp [cirque_pinnacle_get_report, hp', process_sample, hs, hg, hsup]

set_option maxRecDepth 100000 in
/-- A touchdown on the right edge followed by a tangential move: the second
tick ends in `SCROLL_VALID` and reports no motion. -/
theorem scroll_valid_report_zero_witness :
    (cirque_pinnacle_get_report Config.default (sample 10 1000 700 50)
        (cirque_pinnacle_get_report Config.default (sample 0 1000 512 50) State.init
          report_zero).state report_zero).state.scroll.state = SCROLL_VALID ∧
    (cirque_pinnacle_get_report Config.default (sample 10 1000 700 50)
        (cirque_pinnacle_get_report Config.default (sample 0 1000 512 50) State.init
          report_zero).state report_zero).report.x = 0 ∧
    (cirque_pinnacle_get_report Config.default (sample 10 1000 700 50)
        (cirque_pinnacle_get_report Config.default (sample 0 1000 512 50) State.init
          report_zero).state report_zero).report.y = 0 :=
  ⟨by decide,
   scroll_valid_report_zero Config.default (sample 10 1000 700 50) _ report_zero rfl
     (Reachable.step (sample 0 1000 512 50) report_zero Reachable.init (by decide))
     (Or.inr rfl) (by decide) rfl (by decide)⟩

/-! ### C3 -/

theorem timer_elapsed_self (now : Nat) : timer_elapsed now (now % 65536) = 0 := by
  unfold timer_elapsed; omega

theorem trackpad_tap_rise (cfg : Config) (now : Nat) (tap : trackpad_tap_context_t)
    (mr : report_mouse_t) (td : pinnacle_data_t) (hz : tap.z = false) (h1 : td.zValue ≠ 0) :
    trackpad_tap cfg now tap mr td = (mr, { timer := now % 65536, z := true }, []) := by
  simp [trackpad_tap, hz, h1, timer_elapsed_self]

theorem trackpad_tap_hold (cfg : Config) (now : Nat) (tap : trackpad_tap_context_t)
    (mr : report_mouse_t) (td : pinnacle_data_t) (hz : tap.z = true) (h1 : td.zValue ≠ 0)
    (hd : timer_elapsed now tap.timer ≤ cfg.touch_debounce) :
    trackpad_tap cfg now tap mr td = (mr, tap, []) := by
  simp [trackpad_tap, hz, h1, Nat.not_lt.mpr hd]

theorem trackpad_tap_hold_expire (cfg : Config) (now : Nat) (tap : trackpad_tap_context_t)
    (mr : report_mouse_t) (td : pinnacle_data_t) (hz : tap.z = true) (h1 : td.zValue ≠ 0)
    (hd : cfg.touch_debounce < timer_elapsed now tap.timer) :
    trackpad_tap cfg now tap mr td = (mr, { tap with timer := 0 }, []) := by
  simp [trackpad_tap, hz, h1, hd]

theorem trackpad_tap_fall_tap (cfg : Config) (now : Nat) (tap : trackpad_tap_context_t)
    (mr : report_mouse_t) (td : pinnacle_data_t) (hz : tap.z = true) (h0 : td.zValue = 0)
    (ht : tap.timer ≠ 0) (hd : timer_elapsed now tap.timer < cfg.tapping_term) :
    (trackpad_tap cfg now tap mr td).1 = tap_released mr ∧
    (trackpad_tap cfg now tap mr td).2.2 = [tap_pressed mr, tap_released mr] := by
  simp only [trackpad_tap, hz, h0, ht, hd, timer_elapsed_self, tap_pressed, tap_released]
  split_ifs <;> simp_all

theorem trackpad_tap_fall_none (cfg : Config) (now : Nat) (tap : trackpad_tap_context_t)
    (mr : report_mouse_t) (td : pinnacle_data_t)
    (h : tap.timer = 0 ∨ cfg.tapping_term ≤ timer_elapsed now tap.timer) :
    (trackpad_tap cfg now tap mr td).1 = mr ∧ (trackpad_tap cfg now tap mr td).2.2 = [] := by
  have hn : ¬ (td.zValue = 0 ∧ timer_elapsed now tap.timer < cfg.tapping_term ∧ tap.timer ≠ 0) := by
    rintro ⟨_, h1, h2⟩
    rcases h with h | h
    · exact h2 h
    · omega
  simp only [trackpad_tap, hn, if_false]
  split_ifs <;> simp

theorem handle_buttons_press_bit (b : Nat) :
    (pointing_device_handle_buttons b true POINTING_DEVICE_BUTTON1) % 2 = 1 := by
  simp only [pointing_device_handle_buttons, POINTING_DEVICE_BUTTON1, if_true]
  rw [Nat.mod_mod_of_dvd _ (by decide : 2 ∣ 256)]
  simp

theorem handle_buttons_release_bit (b : Nat) :
    (pointing_device_handle_buttons b false POINTING_DEVICE_BUTTON1) % 2 = 0 := by
  simp only [pointing_device_handle_buttons, POINTING_DEVICE_BUTTON1]
  rw [if_neg (by decide), Nat.mod_mod_of_dvd _ (by decide : 2 ∣ 256),
    Nat.mod_two_eq_zero_iff_testBit_zero, Nat.testBit_and]
  have : Nat.testBit (255 ^^^ 1 <<< 0 % 256) 0 = false := by decide
  rw [this, Bool.and_false]

theorem tap_calls_append_last (cfg : Config) (T : Nat) (mids : List TapCall) (last : TapCall)
    (hT : T ≠ 0)
    (hm : ∀ c ∈ mids, c.touchData.zValue ≠ 0 ∧ timer_elapsed c.now T ≤ cfg.touch_debounce)
    (hl : last.touchData.zValue = 0) (hd : timer_elapsed last.now T < cfg.tapping_term) :
    tap_calls cfg { timer := T, z := true } (mids ++ [last]) =
      mids.map (fun c => (c.mouse_report, [])) ++
        [(tap_released last.mouse_report,
          [tap_pressed last.mouse_report, tap_released last.mouse_report])] := by
  induction mids with
  | nil =>
      obtain ⟨h1, h2⟩ := trackpad_tap_fall_tap cfg last.now { timer := T, z := true }
        last.mouse_report last.touchData rfl hl hT hd
      simp [tap_calls, h1, h2]
  | cons c cs ih =>
      obtain ⟨hc1, hc2⟩ := hm c (List.mem_cons_self _ _)
      have h := trackpad_tap_hold cfg c.now { timer := T, z := true } c.mouse_report
        c.touchData rfl hc1 hc2
      rw [List.cons_append, tap_calls, h, List.map_cons, List.cons_append,
        ih (fun d hd' => hm d (List.mem_cons_of_mem _ hd'))]

set_option maxRecDepth 100000 in
/-- C3, as stated, fails: a stroke that rises when the timer reads `0` and
falls 50 ms later sends nothing, and so does a stroke that rises at `1`, is
still held at `2001` and falls when the wrapped timer reads `51`. -/
theorem tap_short_stroke_without_tap :
    tap_calls Config.default { timer := 0, z := false } [tap_touch 0, tap_lift 50]
      = [(report_zero, []), (report_zero, [])] ∧
    timer_elapsed 50 0 < Config.default.tapping_term ∧
    tap_calls Config.default { timer := 0, z := false } [tap_touch 1, tap_touch 2001, tap_lift 51]
      = [(report_zero, []), (report_zero, []), (report_zero, [])] ∧
    timer_elapsed 51 1 < Config.default.tapping_term := by
  decide

/-- C3, amended: a stroke that rises at a non-zero timer value `t0`, is held
on calls at most `CIRQUE_PINNACLE_TOUCH_DEBOUNCE` after `t0`, and falls less
than `CIRQUE_PINNACLE_TAPPING_TERM` after `t0`, flushes exactly two reports, on
the falling-edge call: button 1 pressed, then button 1 released. -/
theorem tap_stroke_emits_once (cfg : Config) (tap : trackpad_tap_context_t)
    (first : TapCall) (mids : List TapCall) (last : TapCall)
    (hz : tap.z = false) (h1 : first.touchData.zValue ≠ 0) (ht : first.now % 65536 ≠ 0)
    (hm : ∀ c ∈ mids, c.touchData.zValue ≠ 0 ∧
      timer_elapsed c.now (first.now % 65536) ≤ cfg.touch_debounce)
    (hl : last.touchData.zValue = 0)
    (hd : timer_elapsed last.now (first.now % 65536) < cfg.tapping_term) :
    tap_calls cfg tap (first :: (mids ++ [last])) =
      (first.mouse_report, []) :: (mids.map (fun c => (c.mouse_report, [])) ++
        [(tap_released last.mouse_report,
          [tap_pressed last.mouse_report, tap_released last.mouse_report])]) ∧
    (tap_pressed last.mouse_report).buttons % 2 = 1 ∧
    (tap_released last.mouse_report).buttons % 2 = 0 := by
  refine ⟨?_, handle_buttons_press_bit _, handle_buttons_release_bit _⟩
  have h := trackpad_tap_rise cfg first.now tap first.mouse_report first.touchData hz h1
  rw [tap_calls, h, tap_calls_append_last cfg _ mids last ht hm hl hd]

set_option maxRecDepth 100000 in
/-- The stroke touched at `1000`, held at `1050`, lifted at `1100`. -/
theorem tap_stroke_emits_once_witness :
    tap_calls Config.default { timer := 0, z := false }
      (tap_touch 1000 :: ([tap_touch 1050] ++ [tap_lift 1100])) =
      (report_zero, []) :: ([tap_touch 1050].map (fun c => (c.mouse_report, [])) ++
        [(tap_released report_zero, [tap_pressed report_zero, tap_released report_zero])]) ∧
    (tap_pressed report_zero).buttons % 2 = 1 ∧
    (tap_released report_zero).buttons % 2 = 0 :=
  tap_stroke_emits_once Config.default { timer := 0, z := false } (tap_touch 1000)
    [tap_touch 1050] (tap_lift 1100) rfl (by decide) (by decide) (by decide) rfl (by decide)

/-! ### C4 -/

theorem tap_calls_long (cfg : Config) (T0 : Nat) (mids : List TapCall) (last : TapCall)
    (hcfg : cfg.touch_debounce + cfg.tapping_term < 65536)
    (_hl : last.touchData.zValue = 0) (hd : T0 + cfg.tapping_term ≤ last.now) :
    ∀ (tap : trackpad_tap_context_t) (tp : Nat), tap.z = true →
      (tap.timer = 0 ∨ (tap.timer = T0 % 65536 ∧ T0 ≤ tp ∧ tp ≤ T0 + cfg.touch_debounce)) →
      (∀ c ∈ mids, c.touchData.zValue ≠ 0) →
      spaced cfg.tapping_term tp (mids ++ [last]) = true →
      tap_calls cfg tap (mids ++ [last]) = (mids ++ [last]).map (fun c => (c.mouse_report, [])) := by
  induction mids with
  | nil =>
      intro tap tp _ hinv _ hsp
      simp only [List.nil_append, spaced, Bool.and_true, Bool.and_eq_true, decide_eq_true_eq] at hsp
      have hnone := trackpad_tap_fall_none cfg last.now tap last.mouse_report last.touchData (by
        rcases hinv with h | ⟨h, h1, h2⟩
        · exact Or.inl h
        · right; rw [h]; unfold timer_elapsed; omega)
      simp [tap_calls, hnone.1, hnone.2]
  | cons c cs ih =>
      intro tap tp hz hinv hm hsp
      rw [List.cons_append] at hsp
      simp only [spaced, Bool.and_eq_true, decide_eq_true_eq] at hsp
      obtain ⟨⟨hs1, hs2⟩, hs3⟩ := hsp
      have hc := hm c (List.mem_cons_self _ _)
      have hm' : ∀ d ∈ cs, d.touchData.zValue ≠ 0 := fun d hd' => hm d (List.mem_cons_of_mem _ hd')
      by_cases he : timer_elapsed c.now tap.timer ≤ cfg.touch_debounce
      · have h := trackpad_tap_hold cfg c.now tap c.mouse_report c.touchData hz hc he
        rw [List.cons_append, tap_calls, h, List.map_cons, ih tap c.now hz ?_ hm' hs3]
        rcases hinv with h0 | ⟨h0, h1, h2⟩
        · exact Or.inl h0
        · right
          refine ⟨h0, by omega, ?_⟩
          rw [h0] at he; unfold timer_elapsed at he; omega
      · have h := trackpad_tap_hold_expire cfg c.now tap c.mouse_report c.touchData hz hc
          (by omega)
        rw [List.cons_append, tap_calls, h, List.map_cons,
          ih { tap with timer := 0 } c.now hz (Or.inl rfl) hm' hs3]

/-- C4: a stroke that lasts at least `CIRQUE_PINNACLE_TAPPING_TERM` in true
time (`now` is the unwrapped time of each call), with calls at most one tapping
term apart, flushes no report and returns every report unchanged. -/
theorem tap_long_stroke_no_tap (cfg : Config) (tap : trackpad_tap_context_t)
    (first : TapCall) (mids : List TapCall) (last : TapCall)
    (hcfg : cfg.touch_debounce + cfg.tapping_term < 65536)
    (hz : tap.z = false) (h1 : first.touchData.zValue ≠ 0)
    (hm : ∀ c ∈ mids, c.touchData.zValue ≠ 0) (hl : last.touchData.zValue = 0)
    (hsp : spaced cfg.tapping_term first.now (mids ++ [last]) = true)
    (hd : first.now + cfg.tapping_term ≤ last.now) :
    tap_calls cfg tap (first :: (mids ++ [last])) =
      (first :: (mids ++ [last])).map (fun c => (c.mouse_report, [])) := by
  have h := trackpad_tap_rise cfg first.now tap first.mouse_report first.touchData hz h1
  rw [tap_calls, h, List.map_cons, tap_calls_long cfg first.now mids last hcfg hl hd _ first.now rfl
    (Or.inr ⟨rfl, le_refl _, by omega⟩) hm hsp]

set_option maxRecDepth 100000 in
/-- A touch held from `70000` to `70500`, polled every 100 ms. -/
theorem tap_long_stroke_no_tap_witness :
    tap_calls Config.default { timer := 0, z := false }
      (tap_touch 70000 :: ([tap_touch 70100, tap_touch 70200, tap_touch 70300, tap_touch 70400]
        ++ [tap_lift 70500])) =
      (tap_touch 70000 :: ([tap_touch 70100, tap_touch 70200, tap_touch 70300, tap_touch 70400]
        ++ [tap_lift 70500])).map (fun c => (c.mouse_report, [])) :=
  tap_long_stroke_no_tap Config.default { timer := 0, z := false } (tap_touch 70000)
    [tap_touch 70100, tap_touch 70200, tap_touch 70300, tap_touch 70400] (tap_lift 70500)
    (by decide) rfl (by decide) (by decide) rfl (by decide) (by decide)

/-! ### C5 -/

set_option maxRecDepth 100000 in
/-- C5, as stated, fails: after a drag of 40 units per tick and a lift, a glide
is active at `now = 30`; the touchdown processed on that tick (a first touch,
whose live delta is 0) still returns the glide delta `x = 40`. -/
theorem touchdown_tick_carries_glide :
    (run_state Config.default report_zero State.init
      [sample 0 400 400 50, sample 10 440 400 50, sample 20 0 0 0]).glide.z = 0 ∧
    (run_state Config.default report_zero State.init
      [sample 0 400 400 50, sample 10 440 400 50, sample 20 0 0 0]).glide.dx0 = 40 ∧
    (run_state Config.default report_zero State.init
      [sample 0 400 400 50, sample 10 440 400 50, sample 20 0 0 0]).x = 0 ∧
    (cirque_pinnacle_get_report Config.default (sample 30 500 500 50)
      (run_state Config.default report_zero State.init
        [sample 0 400 400 50, sample 10 440 400 50, sample 20 0 0 0]) report_zero).report.x = 40 := by
  decide

/-- C5, amended: when a glide is active at the start of a tick and the sample
processed in that tick is a touchdown, the returned report still carries the
glide delta computed by `cursor_glide_check` at the start of the tick; the
touchdown is recorded in the glide context (`glide.z` becomes the non-zero
`zValue`), so that every later `cursor_glide_check` is invalid until the next
lift. -/
theorem touchdown_cancels_glide_next_tick (cfg : Config) (inp : Input) (st : State)
    (mouse_report : report_mouse_t) (hg : cfg.enable_cursor_glide = true)
    (hp : cfg.motion_pin = true ∨ inp.data_ready = true)
    (hz0 : st.glide.z = 0) (hd0 : ¬ (st.glide.dx0 = 0 ∧ st.glide.dy0 = 0))
    (hti : st.glide.interval ≤ timer_elapsed inp.now st.glide.timer)
    (ht : inp.touchData.touchDown = true) (hz : inp.touchData.zValue ≠ 0) :
    (cirque_pinnacle_get_report cfg inp st mouse_report).report.x
      = (cursor_glide inp.now st.glide).1.dx ∧
    (cirque_pinnacle_get_report cfg inp st mouse_report).report.y
      = (cursor_glide inp.now st.glide).1.dy ∧
    (cirque_pinnacle_get_report cfg inp st mouse_report).state.glide.z = inp.touchData.zValue ∧
    ∀ now : Nat,
      (cursor_glide_check now (cirque_pinnacle_get_report cfg inp st mouse_report).state.glide).1.valid
        = false := by
  have hp' : (!cfg.motion_pin && !inp.data_ready) = false := by
    rcases hp with h | h <;> simp [h]
  have hchk : cursor_glide_check inp.now st.glide = cursor_glide inp.now st.glide := by
    have : ¬ (st.glide.z ≠ 0 ∨ (st.glide.dx0 = 0 ∧ st.glide.dy0 = 0) ∨
        timer_elapsed inp.now st.glide.timer < st.glide.interval) := by
      rintro (h | h | h)
      · exact h hz0
      · exact hd0 h
      · omega
    simp only [cursor_glide_check, this, if_false]
  have hgl : (cirque_pinnacle_get_report cfg inp st mouse_report).state.glide.z
      = inp.touchData.zValue := by
    simp only [cirque_pinnacle_get_report, hp', process_sample, hg, ht, if_true,
      cursor_glide_update]
    rfl
  refine ⟨?_, ?_, hgl, ?_⟩
  · simp [cirque_pinnacle_get_report, hp', process_sample, hg, ht, hchk, cursor_glide_valid]
  · simp [cirque_pinnacle_get_report, hp', process_sample, hg, ht, hchk, cursor_glide_valid]
  · intro now
    rw [cursor_glide_check_touched now _ (by rw [hgl]; exact hz)]

set_option maxRecDepth 100000 in
/-- The glide left by a drag and a lift, met by a touchdown at `now = 30`. -/
theorem touchdown_cancels_glide_next_tick_witness :
    (cirque_pinnacle_get_report Config.default (sample 30 500 500 50)
      (run_state Config.default report_zero State.init
        [sample 0 400 400 50, sample 10 440 400 50, sample 20 0 0 0]) report_zero).report.x
      = (cursor_glide 30 (run_state Config.default report_zero State.init
        [sample 0 400 400 50, sample 10 440 400 50, sample 20 0 0 0]).glide).1.dx ∧
    (cirque_pinnacle_get_report Config.default (sample 30 500 500 50)
      (run_state Config.default report_zero State.init
        [sample 0 400 400 50, sample 10 440 400 50, sample 20 0 0 0]) report_zero).report.y
      = (cursor_glide 30 (run_state Config.default report_zero State.init
        [sample 0 400 400 50, sample 10 440 400 50, sample 20 0 0 0]).glide).1.dy ∧
    (cirque_pinnacle_get_report Config.default (sample 30 500 500 50)
      (run_state Config.default report_zero State.init
        [sample 0 400 400 50, sample 10 440 400 50, sample 20 0 0 0]) report_zero).state.glide.z
      = (sample 30 500 500 50).touchData.zValue ∧
    ∀ now : Nat,
      (cursor_glide_check now (cirque_pinnacle_get_report Config.default (sample 30 500 500 50)
        (run_state Config.default report_zero State.init
          [sample 0 400 400 50, sample 10 440 400 50, sample 20 0 0 0])
        report_zero).state.glide).1.valid = false :=
  touchdown_cancels_glide_next_tick Config.default (sample 30 500 500 50)
    (run_state Config.default report_zero State.init
      [sample 0 400 400 50, sample 10 440 400 50, sample 20 0 0 0]) report_zero rfl (Or.inr rfl)
    (by decide) (by decide) (by decide) rfl (by decide)

/-! ### C6 -/

set_option maxRecDepth 100000 in
/-- C6: `cursor_glide_start` with a zero recorded velocity (the power-on
context) sets `v0 = 0`, evaluates `p * dx0 / v0` as `0 / 0` (NaN), and returns
`valid = true`. -/
theorem cursor_glide_start_zero_velocity :
    State.init.glide.dx0 = 0 ∧ State.init.glide.dy0 = 0 ∧
    (cursor_glide_start 0 State.init.glide).2.v0 = .fin 0 0 ∧
    glide_proj (glide_p (.fin 0 0) (Flt.toF32 (dbl 4 10)) 1) (.fin 0 0) 0 = .nan ∧
    (cursor_glide_start 0 State.init.glide).1.valid = true := by
  decide

/-! ### C7 -/

theorem circular_scroll_axis_kept (cfg : Config) (sc : circular_scroll_context_t)
    (td : pinnacle_data_t) (hz : sc.z ≠ 0) : (circular_scroll cfg sc td).2.axis = sc.axis := by
  simp only [circular_scroll, scroll_detect, scroll_emit, hz, if_false]
  split_ifs <;> rfl

theorem circular_scroll_axis_report (cfg : Config) (sc : circular_scroll_context_t)
    (td : pinnacle_data_t) :
    ((circular_scroll cfg sc td).2.axis = true → (circular_scroll cfg sc td).1.v = 0) ∧
    ((circular_scroll cfg sc td).2.axis = false → (circular_scroll cfg sc td).1.h = 0) := by
  simp only [circular_scroll, scroll_emit]
  split_ifs <;> simp_all

theorem scroll_calls_axis (cfg : Config) (tds : List pinnacle_data_t)
    (hall : ∀ td ∈ tds, td.zValue ≠ 0) :
    ∀ sc : circular_scroll_context_t, sc.z ≠ 0 →
      ∀ r ∈ scroll_calls cfg sc tds, (sc.axis = true → r.v = 0) ∧ (sc.axis = false → r.h = 0) := by
  induction tds with
  | nil => intro sc _ r hr; simp [scroll_calls] at hr
  | cons td tds ih =>
      intro sc hz r hr
      simp only [scroll_calls, List.mem_cons] at hr
      have hax := circular_scroll_axis_kept cfg sc td hz
      rcases hr with hr | hr
      · have h := circular_scroll_axis_report cfg sc td
        rw [hax] at h; rw [hr]; exact h
      · have h := ih (fun t ht => hall t (List.mem_cons_of_mem _ ht)) (circular_scroll cfg sc td).2
          (by rw [circular_scroll_z]; exact hall td (List.mem_cons_self _ _)) r hr
        rw [hax] at h; exact h

theorem circular_scroll_touchdown (cfg : Config) (sc : circular_scroll_context_t)
    (td : pinnacle_data_t) (hz : sc.z = 0) (ht : td.zValue ≠ 0)
    (hring : in_outer_ring cfg
      (hypotf (Flt.ofInt binary32 (centred cfg td.xValue))
        (Flt.ofInt binary32 (centred cfg td.yValue))) (scroll_center cfg) = true) :
    (circular_scroll cfg sc td).2.axis
      = scroll_axis cfg (centred cfg td.xValue) (centred cfg td.yValue) ∧
    (circular_scroll cfg sc td).2.state = circular_scroll_status_t.SCROLL_DETECTING ∧
    (circular_scroll cfg sc td).1 = { v := 0, h := 0, suppress_touch := false } := by
  simp [circular_scroll, scroll_detect, scroll_emit, hz, ht, hring]

set_option maxRecDepth 100000 in
/-- C7, as stated, fails: a touchdown on the left edge (`x0 = -488`) followed by
a tangential move reports its tick in `h`, not in `v`. -/
theorem left_touchdown_scrolls_horizontally :
    centred Config.default 24 = -488 ∧
    scroll_calls Config.default State.init.scroll [touch_at 24 512, touch_at 24 700] =
      [{ v := 0, h := 0, suppress_touch := false }, { v := 0, h := -1, suppress_touch := true }] := by
  decide

/-- C7, amended: with no pad rotation configured, a touchdown inside the outer
annulus at centred position `(x0, y0)` selects the horizontal axis when it is
on the left half (`x0 < 0`): every report of the stroke has `v = 0`, ticks go
to `h`; otherwise it selects the vertical axis: every report of the stroke has
`h = 0`, ticks go to `v`. -/
theorem scroll_axis_by_touchdown_half (cfg : Config) (sc : circular_scroll_context_t)
    (td : pinnacle_data_t) (tds : List pinnacle_data_t)
    (hrot : cfg.rotation = Rotation.r0) (hz : sc.z = 0) (ht : td.zValue ≠ 0)
    (hall : ∀ t ∈ tds, t.zValue ≠ 0)
    (hring : in_outer_ring cfg
      (hypotf (Flt.ofInt binary32 (centred cfg td.xValue))
        (Flt.ofInt binary32 (centred cfg td.yValue))) (scroll_center cfg) = true) :
    (circular_scroll cfg sc td).2.axis = decide (centred cfg td.xValue < 0) ∧
    ∀ r ∈ scroll_calls cfg sc (td :: tds),
      (centred cfg td.xValue < 0 → r.v = 0) ∧ (0 ≤ centred cfg td.xValue → r.h = 0) := by
  obtain ⟨hax, _, hrep⟩ := circular_scroll_touchdown cfg sc td hz ht hring
  have hax' : (circular_scroll cfg sc td).2.axis = decide (centred cfg td.xValue < 0) := by
    rw [hax]; simp [scroll_axis, hrot]
  refine ⟨hax', ?_⟩
  intro r hr
  simp only [scroll_calls, List.mem_cons] at hr
  rcases hr with hr | hr
  · rw [hr, hrep]; simp
  · have h := scroll_calls_axis cfg tds hall (circular_scroll cfg sc td).2
      (by rw [circular_scroll_z]; exact ht) r hr
    rw [hax'] at h
    constructor
    · intro hlt; exact h.1 (by simpa using hlt)
    · intro hge; exact h.2 (by simpa using hge)

set_option maxRecDepth 100000 in
/-- The left-edge touchdown at `(24, 512)` followed by a tangential move. -/
theorem scroll_axis_by_touchdown_half_witness :
    (circular_scroll Config.default State.init.scroll (touch_at 24 512)).2.axis
      = decide (centred Config.default (touch_at 24 512).xValue < 0) ∧
    ∀ r ∈ scroll_calls Config.default State.init.scroll (touch_at 24 512 :: [touch_at 24 700]),
      (centred Config.default (touch_at 24 512).xValue < 0 → r.v = 0) ∧
      (0 ≤ centred Config.default (touch_at 24 512).xValue → r.h = 0) :=
  scroll_axis_by_touchdown_half Config.default State.init.scroll (touch_at 24 512)
    [touch_at 24 700] rfl rfl (by decide) (by decide) (by decide)

/-! ### C8 -/

theorem circular_scroll_valid_step (cfg : Config) (sc : circular_scroll_context_t)
    (td : pinnacle_data_t) (hz : sc.z ≠ 0) (hs : sc.state = circular_scroll_status_t.SCROLL_VALID)
    (ht : td.zValue ≠ 0) :
    (circular_scroll cfg sc td).1 =
      tick_report sc.axis
        (wheel_clicks cfg sc.x sc.y (centred cfg td.xValue) (centred cfg td.yValue)) ∧
    (circular_scroll cfg sc td).2 =
      { sc with
        x := if wheel_clicks cfg sc.x sc.y (centred cfg td.xValue) (centred cfg td.yValue) = 0
          then sc.x else centred cfg td.xValue
        y := if wheel_clicks cfg sc.x sc.y (centred cfg td.xValue) (centred cfg td.yValue) = 0
          then sc.y else centred cfg td.yValue
        z := td.zValue } := by
  have hd : scroll_detect cfg sc (centred cfg td.xValue) (centred cfg td.yValue)
      (scroll_center cfg) = (false, sc) := by
    simp [scroll_detect, hz, hs]
  simp only [circular_scroll, ht, ne_eq, not_false_eq_true, if_true, if_false, hd, scroll_emit,
    hs, tick_report]
  generalize wheel_clicks cfg sc.x sc.y (centred cfg td.xValue) (centred cfg td.yValue) = c
  by_cases hc : c = 0
  · subst hc
    have h8 : wrap8 (-0) = 0 := by decide
    cases sc
    simp_all
  · have hc' : 1 ≤ c ∨ c ≤ -1 := by omega
    cases sc
    simp_all

theorem scroll_calls_valid (cfg : Config) (tds : List pinnacle_data_t)
    (hall : ∀ t ∈ tds, t.zValue ≠ 0) :
    ∀ sc : circular_scroll_context_t, sc.z ≠ 0 →
      sc.state = circular_scroll_status_t.SCROLL_VALID →
      scroll_calls cfg sc tds = (stroke_ticks cfg sc.x sc.y tds).map (tick_report sc.axis) := by
  induction tds with
  | nil => intro sc _ _; rfl
  | cons td tds ih =>
      intro sc hz hs
      have ht := hall td (List.mem_cons_self _ _)
      obtain ⟨h1, h2⟩ := circular_scroll_valid_step cfg sc td hz hs ht
      have h3 := ih (fun t h => hall t (List.mem_cons_of_mem _ h)) (circular_scroll cfg sc td).2
        (by rw [circular_scroll_z]; exact ht) (by rw [h2]; exact hs)
      rw [scroll_calls, stroke_ticks, List.map_cons, h1, h3, h2]

set_option maxRecDepth 1000000 in
/-- C8, as stated, fails: a stroke from the right edge once around the pad
centre totals 16 ticks when sampled every 45° and 32 ticks when sampled every
11.25°, neither within 1 of 18. -/
theorem revolution_ticks_depend_on_spacing :
    ((scroll_calls Config.default State.init.scroll octagon).map (fun r => r.v)).sum = -16 ∧
    ((scroll_calls Config.default State.init.scroll fine_circle).map (fun r => r.v)).sum = -32 := by
  decide

/-- C8, amended: in `SCROLL_VALID`, the tick of each touched sample is the
rounded angle `wheel_clicks` between the sample and the reference vector left by
the last sample that produced a tick, reported as `h = ticks` on the horizontal
axis and `v = -ticks` on the vertical one; the ticks of a stroke are these
per-sample roundings, whose total over a revolution depends on the spacing of
the samples. -/
theorem stroke_ticks_are_per_sample_roundings (cfg : Config) (sc : circular_scroll_context_t)
    (tds : List pinnacle_data_t) (hz : sc.z ≠ 0)
    (hs : sc.state = circular_scroll_status_t.SCROLL_VALID) (hall : ∀ t ∈ tds, t.zValue ≠ 0) :
    scroll_calls cfg sc tds = (stroke_ticks cfg sc.x sc.y tds).map (tick_report sc.axis) ∧
    (sc.axis = true →
      ((scroll_calls cfg sc tds).map (fun r => r.h)).sum = (stroke_ticks cfg sc.x sc.y tds).sum) ∧
    (sc.axis = false →
      ((scroll_calls cfg sc tds).map (fun r => r.v)).sum
        = ((stroke_ticks cfg sc.x sc.y tds).map (fun c => wrap8 (-c))).sum) := by
  have h := scroll_calls_valid cfg tds hall sc hz hs
  refine ⟨h, ?_, ?_⟩
  · intro ha
    rw [h, List.map_map]
    congr 1
    conv_rhs => rw [← List.map_id (stroke_ticks cfg sc.x sc.y tds)]
    apply List.map_congr_left
    intro c _
    simp [tick_report, ha]
  · intro ha
    rw [h, List.map_map]
    congr 1
    apply List.map_congr_left
    intro c _
    simp [tick_report, ha]

set_option maxRecDepth 1000000 in
/-- The stroke of `octagon`, from its second sample on, where the state is
`SCROLL_VALID` with reference `(300, 300)`. -/
theorem stroke_ticks_are_per_sample_roundings_witness :
    scroll_calls Config.default
        { mag := .fin 0 0, x := 300, y := 300, z := 50,
          state := circular_scroll_status_t.SCROLL_VALID, axis := false }
        (octagon.drop 2) =
      (stroke_ticks Config.default 300 300 (octagon.drop 2)).map (tick_report false) ∧
    (false = true →
      ((scroll_calls Config.default
        { mag := .fin 0 0, x := 300, y := 300, z := 50,
          state := circular_scroll_status_t.SCROLL_VALID, axis := false }
        (octagon.drop 2)).map (fun r => r.h)).sum
        = (stroke_ticks Config.default 300 300 (octagon.drop 2)).sum) ∧
    (false = false →
      ((scroll_calls Config.default
        { mag := .fin 0 0, x := 300, y := 300, z := 50,
          state := circular_scroll_status_t.SCROLL_VALID, axis := false }
        (octagon.drop 2)).map (fun r => r.v)).sum
        = ((stroke_ticks Config.default 300 300 (octagon.drop 2)).map (fun c => wrap8 (-c))).sum) :=
  stroke_ticks_are_per_sample_roundings Config.default
    { mag := .fin 0 0, x := 300, y := 300, z := 50,
      state := circular_scroll_status_t.SCROLL_VALID, axis := false }
    (octagon.drop 2) (by decide) rfl (by decide)


/-! ## Error analysis of the glide in binary32 -/

/-! ### Rounding: binary digits -/

theorem bitlenAux_zero (fuel : Nat) : bitlenAux fuel 0 = 0 := by
  cases fuel <;> simp [bitlenAux]

theorem bitlenAux_spec : ∀ (fuel n : Nat), n ≤ fuel → 0 < n →
    2 ^ (bitlenAux fuel n - 1) ≤ n ∧ n < 2 ^ bitlenAux fuel n := by
  intro fuel
  induction fuel with
  | zero => intro n h1 h2; omega
  | succ fuel ih =>
      intro n h1 h2
      have hn : n ≠ 0 := by omega
      simp only [bitlenAux, hn, if_false]
      by_cases h0 : n / 2 = 0
      · rw [h0, bitlenAux_zero]
        have : n = 1 := by omega
        subst this; simp
      · obtain ⟨ih1, ih2⟩ := ih (n / 2) (by omega) (by omega)
        have hb : 1 ≤ bitlenAux fuel (n / 2) := by
          by_contra hb
          have : bitlenAux fuel (n / 2) = 0 := by omega
          rw [this] at ih2; simp at ih2; omega
        constructor
        · have : bitlenAux fuel (n / 2) + 1 - 1 = (bitlenAux fuel (n / 2) - 1) + 1 := by omega
          rw [this, pow_succ]; omega
        · rw [pow_succ]; omega

theorem bitlen_spec (n : Nat) (h : 0 < n) : 2 ^ (bitlen n - 1) ≤ n ∧ n < 2 ^ bitlen n :=
  bitlenAux_spec n n (le_refl _) h

theorem bitlen_pos (n : Nat) (h : 0 < n) : 1 ≤ bitlen n := by
  by_contra hb
  have h0 : bitlen n = 0 := by omega
  have := (bitlen_spec n h).2
  rw [h0] at this; simp at this; omega

theorem bitlen_le (n b : Nat) (h : n < 2 ^ b) : bitlen n ≤ b := by
  by_cases h0 : n = 0
  · subst h0; simp [bitlen, bitlenAux_zero]
  · by_contra hb
    have h1 := (bitlen_spec n (by omega)).1
    have : 2 ^ b ≤ 2 ^ (bitlen n - 1) := Nat.pow_le_pow_right (by decide) (by omega)
    omega

/-! ### Rounding: nearest integer -/

theorem rnEven_spec (num den : Nat) (hd : 0 < den) :
    2 * num ≤ 2 * rnEven num den * den + den ∧ 2 * rnEven num den * den ≤ 2 * num + den := by
  have h1 := Nat.div_add_mod num den
  have h2 := Nat.mod_lt num hd
  have e1 : 2 * (num / den + 1) * den = 2 * (den * (num / den)) + 2 * den := by ring
  have e2 : 2 * (num / den) * den = 2 * (den * (num / den)) := by ring
  unfold rnEven
  split_ifs <;> (first | rw [e1] | rw [e2]) <;> omega

/-! ### Rounding: the error of `roundQ` -/

theorem two_zpow_pos (k : Int) : (0 : ℚ) < (2 : ℚ) ^ k := zpow_pos (by norm_num) k

theorem shl_ratio (a d : Nat) (k : Int) :
    ((shl a (-k) : Nat) : ℚ) * ((d : ℚ) * (2 : ℚ) ^ k) = (a : ℚ) * ((shl d k : Nat) : ℚ) := by
  unfold shl
  rcases le_or_lt 0 k with h | h
  · have h1 : (-k).toNat = 0 := by omega
    have h2 : ((k.toNat : Int)) = k := Int.toNat_of_nonneg h
    rw [h1]
    push_cast
    rw [← zpow_natCast (2 : ℚ) k.toNat, h2]
    ring
  · have h1 : k.toNat = 0 := by omega
    have h2 : (((-k).toNat : Int)) = -k := Int.toNat_of_nonneg (by omega)
    rw [h1]
    push_cast
    rw [← zpow_natCast (2 : ℚ) (-k).toNat, h2, zpow_neg]
    have := two_zpow_pos k
    field_simp
    ring

theorem shl_pos (d : Nat) (k : Int) (hd : 0 < d) : 0 < shl d k := by
  unfold shl; positivity

/-- The scaled quotient `a / (d * 2 ^ k)`. -/
theorem shl_div (a d : Nat) (k : Int) (hd : 0 < d) :
    ((shl a (-k) : Nat) : ℚ) / ((shl d k : Nat) : ℚ) = (a : ℚ) / ((d : ℚ) * (2 : ℚ) ^ k) := by
  have h1 : (0 : ℚ) < ((shl d k : Nat) : ℚ) := by exact_mod_cast shl_pos d k hd
  have h2 : (0 : ℚ) < (d : ℚ) * (2 : ℚ) ^ k := by
    have := two_zpow_pos k
    have hd' : (0 : ℚ) < d := by exact_mod_cast hd
    positivity
  rw [div_eq_div_iff h1.ne' h2.ne']
  exact shl_ratio a d k

theorem bitlen_cast (n : Nat) (h : 0 < n) :
    (2 : ℚ) ^ ((bitlen n : Int) - 1) ≤ (n : ℚ) ∧ (n : ℚ) < (2 : ℚ) ^ (bitlen n : Int) := by
  obtain ⟨h1, h2⟩ := bitlen_spec n h
  have hb := bitlen_pos n h
  constructor
  · have e : ((bitlen n : Int) - 1) = ((bitlen n - 1 : Nat) : Int) := by omega
    rw [e, zpow_natCast]
    exact_mod_cast h1
  · rw [zpow_natCast]
    exact_mod_cast h2

theorem ulpExp_normal (f : Fmt) (a d : Nat) (ha : 0 < a) (hd : 0 < d)
    (hlo : (2 : ℚ) ^ (f.elo + f.prec - 1) ≤ (a : ℚ) / d) :
    (2 : ℚ) ^ ((f.prec : Int) - 1) * ((d : ℚ) * (2 : ℚ) ^ (ulpExp f a d)) ≤ (a : ℚ) ∧
    (a : ℚ) < (2 : ℚ) ^ (f.prec : Int) * ((d : ℚ) * (2 : ℚ) ^ (ulpExp f a d)) := by
  have h2 : (2 : ℚ) ≠ 0 := by norm_num
  obtain ⟨a1, a2⟩ := bitlen_cast a ha
  obtain ⟨d1, d2⟩ := bitlen_cast d hd
  have hdq : (0 : ℚ) < d := by exact_mod_cast hd
  have haq : (0 : ℚ) < a := by exact_mod_cast ha
  set p : Int := (f.prec : Int) with hp
  set k1 : Int := (bitlen a : Int) - (bitlen d : Int) - p with hk1
  -- bounds at `k1`
  have lo1 : (2 : ℚ) ^ (p - 1) * ((d : ℚ) * (2 : ℚ) ^ k1) < (a : ℚ) := by
    calc (2 : ℚ) ^ (p - 1) * ((d : ℚ) * (2 : ℚ) ^ k1)
        < (2 : ℚ) ^ (p - 1) * ((2 : ℚ) ^ (bitlen d : Int) * (2 : ℚ) ^ k1) := by
          have := two_zpow_pos (p - 1); have := two_zpow_pos k1
          gcongr
      _ = (2 : ℚ) ^ ((bitlen a : Int) - 1) := by
          rw [← zpow_add₀ h2, ← zpow_add₀ h2]; congr 1; omega
      _ ≤ a := a1
  have hi1 : (a : ℚ) < (2 : ℚ) ^ (p + 1) * ((d : ℚ) * (2 : ℚ) ^ k1) := by
    calc (a : ℚ) < (2 : ℚ) ^ (bitlen a : Int) := a2
      _ = (2 : ℚ) ^ (p + 1) * ((2 : ℚ) ^ ((bitlen d : Int) - 1) * (2 : ℚ) ^ k1) := by
          rw [← zpow_add₀ h2, ← zpow_add₀ h2]; congr 1; omega
      _ ≤ (2 : ℚ) ^ (p + 1) * ((d : ℚ) * (2 : ℚ) ^ k1) := by
          have := two_zpow_pos (p + 1); have := two_zpow_pos k1
          gcongr
  -- the test of `ulpExp`
  have htest : (shl a (-k1) / shl d k1 < 2 ^ f.prec) ↔
      (a : ℚ) < (2 : ℚ) ^ p * ((d : ℚ) * (2 : ℚ) ^ k1) := by
    rw [Nat.div_lt_iff_lt_mul (shl_pos d k1 hd)]
    have hr := shl_ratio a d k1
    have hs : (0 : ℚ) < ((shl d k1 : Nat) : ℚ) := by exact_mod_cast shl_pos d k1 hd
    have hz := two_zpow_pos k1
    have e : (shl a (-k1) < 2 ^ f.prec * shl d k1) ↔
        ((shl a (-k1) : Nat) : ℚ) < (2 : ℚ) ^ f.prec * ((shl d k1 : Nat) : ℚ) := by
      constructor
      · intro h; exact_mod_cast h
      · intro h; exact_mod_cast h
    rw [e, hp, zpow_natCast]
    constructor
    · intro h
      have h3 : ((shl a (-k1) : Nat) : ℚ) * ((d : ℚ) * (2 : ℚ) ^ k1)
          < (2 : ℚ) ^ f.prec * ((shl d k1 : Nat) : ℚ) * ((d : ℚ) * (2 : ℚ) ^ k1) := by
        apply mul_lt_mul_of_pos_right h; positivity
      rw [hr] at h3
      have h4 : (a : ℚ) * ((shl d k1 : Nat) : ℚ)
          < ((2 : ℚ) ^ f.prec * ((d : ℚ) * (2 : ℚ) ^ k1)) * ((shl d k1 : Nat) : ℚ) := by
        linarith
      exact lt_of_mul_lt_mul_right h4 hs.le
    · intro h
      have h3 : (a : ℚ) * ((shl d k1 : Nat) : ℚ)
          < ((2 : ℚ) ^ f.prec * ((d : ℚ) * (2 : ℚ) ^ k1)) * ((shl d k1 : Nat) : ℚ) :=
        mul_lt_mul_of_pos_right h hs
      rw [← hr] at h3
      have h4 : ((shl a (-k1) : Nat) : ℚ) * ((d : ℚ) * (2 : ℚ) ^ k1)
          < ((2 : ℚ) ^ f.prec * ((shl d k1 : Nat) : ℚ)) * ((d : ℚ) * (2 : ℚ) ^ k1) := by
        linarith
      exact lt_of_mul_lt_mul_right h4 (by positivity)
  -- the exponent before clamping
  have key : ∀ k2 : Int,
      (2 : ℚ) ^ (p - 1) * ((d : ℚ) * (2 : ℚ) ^ k2) ≤ (a : ℚ) →
      (a : ℚ) < (2 : ℚ) ^ p * ((d : ℚ) * (2 : ℚ) ^ k2) →
      (2 : ℚ) ^ (p - 1) * ((d : ℚ) * (2 : ℚ) ^ (max k2 f.elo)) ≤ (a : ℚ) ∧
      (a : ℚ) < (2 : ℚ) ^ p * ((d : ℚ) * (2 : ℚ) ^ (max k2 f.elo)) := by
    intro k2 l u
    have hk : f.elo ≤ k2 := by
      by_contra hc
      have hc' : k2 + p ≤ f.elo + p - 1 := by omega
      have h5 : (a : ℚ) / d < (2 : ℚ) ^ (k2 + p) := by
        rw [div_lt_iff₀ hdq, zpow_add₀ h2]
        linarith
      have h6 : (2 : ℚ) ^ (k2 + p) ≤ (2 : ℚ) ^ (f.elo + p - 1) :=
        zpow_le_zpow_right₀ (by norm_num) hc'
      linarith
    rw [max_eq_left hk]
    exact ⟨l, u⟩
  unfold ulpExp
  simp only []
  by_cases ht : shl a (-k1) / shl d k1 < 2 ^ f.prec
  · rw [if_pos ht]
    exact key k1 lo1.le (htest.mp ht)
  · rw [if_neg ht]
    have hge : (2 : ℚ) ^ p * ((d : ℚ) * (2 : ℚ) ^ k1) ≤ (a : ℚ) := by
      by_contra hc
      exact ht (htest.mpr (not_le.mp hc))
    apply key (k1 + 1)
    · rw [zpow_add_one₀ h2, zpow_sub_one₀ h2]
      have : (2 : ℚ) ^ p * (2 : ℚ)⁻¹ * ((d : ℚ) * ((2 : ℚ) ^ k1 * 2))
          = (2 : ℚ) ^ p * ((d : ℚ) * (2 : ℚ) ^ k1) := by field_simp; ring
      rw [this]; exact hge
    · rw [zpow_add_one₀ h2 k1]
      rw [zpow_add_one₀ h2 p] at hi1
      linarith

/-- In the normal range `roundQ` returns the nearest integer multiple of the
unit in the last place given by `ulpExp`. -/
theorem roundQ_eq (f : Fmt) (n : Int) (d : Nat) (hn : n ≠ 0) (hd : 0 < d)
    (hlo : (2 : ℚ) ^ (f.elo + f.prec - 1) ≤ |(n : ℚ) / d|)
    (hhi : |(n : ℚ) / d| < (2 : ℚ) ^ f.ehi) :
    roundQ f n d =
      .fin (if n < 0 then -(rnEven (shl n.natAbs (-(ulpExp f n.natAbs d)))
              (shl d (ulpExp f n.natAbs d)) : Int)
            else (rnEven (shl n.natAbs (-(ulpExp f n.natAbs d)))
              (shl d (ulpExp f n.natAbs d)) : Int))
        (ulpExp f n.natAbs d) := by
  have h2 : (2 : ℚ) ≠ 0 := by norm_num
  have hdq : (0 : ℚ) < d := by exact_mod_cast hd
  have ha : 0 < n.natAbs := Int.natAbs_pos.mpr hn
  have habs : |(n : ℚ) / d| = (n.natAbs : ℚ) / d := by
    rw [abs_div, abs_of_pos hdq, Nat.cast_natAbs, Int.cast_abs]
  rw [habs] at hlo hhi
  obtain ⟨l, u⟩ := ulpExp_normal f n.natAbs d ha hd hlo
  set a := n.natAbs with hadef
  set k := ulpExp f a d with hk
  set m := rnEven (shl a (-k)) (shl d k) with hm
  have hz := two_zpow_pos k
  have hsd : (0 : ℚ) < ((shl d k : Nat) : ℚ) := by exact_mod_cast shl_pos d k hd
  have hden : (0 : ℚ) < (d : ℚ) * (2 : ℚ) ^ k := by positivity
  -- |m - a / (d 2^k)| ≤ 1/2
  obtain ⟨r1, r2⟩ := rnEven_spec (shl a (-k)) (shl d k) (shl_pos d k hd)
  have r1q : 2 * ((shl a (-k) : Nat) : ℚ) ≤ 2 * (m : ℚ) * ((shl d k : Nat) : ℚ) + ((shl d k : Nat) : ℚ) := by
    exact_mod_cast r1
  have r2q : 2 * (m : ℚ) * ((shl d k : Nat) : ℚ) ≤ 2 * ((shl a (-k) : Nat) : ℚ) + ((shl d k : Nat) : ℚ) := by
    exact_mod_cast r2
  have hr := shl_ratio a d k
  -- multiply by d 2^k and divide by shl d k
  have e1 : 2 * (a : ℚ) ≤ (2 * (m : ℚ) + 1) * ((d : ℚ) * (2 : ℚ) ^ k) := by
    have : 2 * (((shl a (-k) : Nat) : ℚ) * ((d : ℚ) * (2 : ℚ) ^ k))
        ≤ ((2 * (m : ℚ) + 1) * ((d : ℚ) * (2 : ℚ) ^ k)) * ((shl d k : Nat) : ℚ) := by
      have := mul_le_mul_of_nonneg_right r1q hden.le
      linarith
    rw [hr] at this
    have h3 : (2 * (a : ℚ)) * ((shl d k : Nat) : ℚ)
        ≤ ((2 * (m : ℚ) + 1) * ((d : ℚ) * (2 : ℚ) ^ k)) * ((shl d k : Nat) : ℚ) := by linarith
    exact le_of_mul_le_mul_right h3 hsd
  have e2 : (2 * (m : ℚ) - 1) * ((d : ℚ) * (2 : ℚ) ^ k) ≤ 2 * (a : ℚ) := by
    have : ((2 * (m : ℚ) - 1) * ((d : ℚ) * (2 : ℚ) ^ k)) * ((shl d k : Nat) : ℚ)
        ≤ 2 * (((shl a (-k) : Nat) : ℚ) * ((d : ℚ) * (2 : ℚ) ^ k)) := by
      have := mul_le_mul_of_nonneg_right r2q hden.le
      linarith
    rw [hr] at this
    have h3 : ((2 * (m : ℚ) - 1) * ((d : ℚ) * (2 : ℚ) ^ k)) * ((shl d k : Nat) : ℚ)
        ≤ (2 * (a : ℚ)) * ((shl d k : Nat) : ℚ) := by linarith
    exact le_of_mul_le_mul_right h3 hsd
  -- m ≤ 2 ^ prec
  have hp1 := two_zpow_pos ((f.prec : Int) - 1)
  have hpp : (2 : ℚ) ^ (f.prec : Int) = 2 * (2 : ℚ) ^ ((f.prec : Int) - 1) := by
    rw [zpow_sub_one₀ h2]; field_simp
  have hmle : (m : ℚ) ≤ (2 : ℚ) ^ (f.prec : Int) := by
    have h3 : (2 * (m : ℚ) - 1) * ((d : ℚ) * (2 : ℚ) ^ k)
        < (2 * (2 : ℚ) ^ (f.prec : Int)) * ((d : ℚ) * (2 : ℚ) ^ k) := by linarith
    have h4 : 2 * (m : ℚ) - 1 < 2 * (2 : ℚ) ^ (f.prec : Int) := lt_of_mul_lt_mul_right h3 hden.le
    -- integers: 2 m - 1 < 2 * 2^prec gives m ≤ 2^prec
    rw [zpow_natCast] at h4 ⊢
    have h5 : (2 * (m : Int) - 1 : Int) < 2 * 2 ^ f.prec := by exact_mod_cast h4
    have h6 : (m : Int) ≤ 2 ^ f.prec := by omega
    exact_mod_cast h6
  have hbit : bitlen m ≤ f.prec + 1 := by
    apply bitlen_le
    have : m ≤ 2 ^ f.prec := by
      rw [zpow_natCast] at hmle; exact_mod_cast hmle
    calc m ≤ 2 ^ f.prec := this
      _ < 2 ^ (f.prec + 1) := Nat.pow_lt_pow_right (by decide) (by omega)
  have hkp : k + f.prec ≤ f.ehi := by
    by_contra hc
    have h3 : (2 : ℚ) ^ f.ehi ≤ (2 : ℚ) ^ (k + (f.prec : Int) - 1) :=
      zpow_le_zpow_right₀ (by norm_num) (by omega)
    have h4 : (2 : ℚ) ^ (k + (f.prec : Int) - 1) * d ≤ a := by
      have : (2 : ℚ) ^ (k + (f.prec : Int) - 1) = (2 : ℚ) ^ ((f.prec : Int) - 1) * (2 : ℚ) ^ k := by
        rw [← zpow_add₀ h2]; congr 1; omega
      rw [this]; linarith
    rw [div_lt_iff₀ hdq] at hhi
    have := mul_le_mul_of_nonneg_right h3 hdq.le
    linarith
  have hnov : ¬ (f.ehi + 1 < (bitlen m : Int) + k) := by omega
  unfold roundQ
  simp only [hn, if_false]
  rw [if_neg hnov]


/-- The error of rounding a non-zero rational in the normal range: at most
`2 ^ -prec` relative. -/
theorem roundQ_spec (f : Fmt) (n : Int) (d : Nat) (hn : n ≠ 0) (hd : 0 < d)
    (hlo : (2 : ℚ) ^ (f.elo + f.prec - 1) ≤ |(n : ℚ) / d|)
    (hhi : |(n : ℚ) / d| < (2 : ℚ) ^ f.ehi) :
    (roundQ f n d).isFin = true ∧
    |(roundQ f n d).val - (n : ℚ) / d| ≤ |(n : ℚ) / d| / (2 : ℚ) ^ (f.prec : Int) := by
  have hround := roundQ_eq f n d hn hd hlo hhi
  have h2 : (2 : ℚ) ≠ 0 := by norm_num
  have hdq : (0 : ℚ) < d := by exact_mod_cast hd
  have ha : 0 < n.natAbs := Int.natAbs_pos.mpr hn
  have habs : |(n : ℚ) / d| = (n.natAbs : ℚ) / d := by
    rw [abs_div, abs_of_pos hdq, Nat.cast_natAbs, Int.cast_abs]
  rw [habs] at hlo hhi ⊢
  obtain ⟨l, u⟩ := ulpExp_normal f n.natAbs d ha hd hlo
  set a := n.natAbs with hadef
  set k := ulpExp f a d with hk
  set m := rnEven (shl a (-k)) (shl d k) with hm
  have hz := two_zpow_pos k
  have hsd : (0 : ℚ) < ((shl d k : Nat) : ℚ) := by exact_mod_cast shl_pos d k hd
  have hden : (0 : ℚ) < (d : ℚ) * (2 : ℚ) ^ k := by positivity
  obtain ⟨r1, r2⟩ := rnEven_spec (shl a (-k)) (shl d k) (shl_pos d k hd)
  have r1q : 2 * ((shl a (-k) : Nat) : ℚ) ≤ 2 * (m : ℚ) * ((shl d k : Nat) : ℚ) + ((shl d k : Nat) : ℚ) := by
    exact_mod_cast r1
  have r2q : 2 * (m : ℚ) * ((shl d k : Nat) : ℚ) ≤ 2 * ((shl a (-k) : Nat) : ℚ) + ((shl d k : Nat) : ℚ) := by
    exact_mod_cast r2
  have hr := shl_ratio a d k
  have e1 : 2 * (a : ℚ) ≤ (2 * (m : ℚ) + 1) * ((d : ℚ) * (2 : ℚ) ^ k) := by
    have : 2 * (((shl a (-k) : Nat) : ℚ) * ((d : ℚ) * (2 : ℚ) ^ k))
        ≤ ((2 * (m : ℚ) + 1) * ((d : ℚ) * (2 : ℚ) ^ k)) * ((shl d k : Nat) : ℚ) := by
      have := mul_le_mul_of_nonneg_right r1q hden.le
      linarith
    rw [hr] at this
    have h3 : (2 * (a : ℚ)) * ((shl d k : Nat) : ℚ)
        ≤ ((2 * (m : ℚ) + 1) * ((d : ℚ) * (2 : ℚ) ^ k)) * ((shl d k : Nat) : ℚ) := by linarith
    exact le_of_mul_le_mul_right h3 hsd
  have e2 : (2 * (m : ℚ) - 1) * ((d : ℚ) * (2 : ℚ) ^ k) ≤ 2 * (a : ℚ) := by
    have : ((2 * (m : ℚ) - 1) * ((d : ℚ) * (2 : ℚ) ^ k)) * ((shl d k : Nat) : ℚ)
        ≤ 2 * (((shl a (-k) : Nat) : ℚ) * ((d : ℚ) * (2 : ℚ) ^ k)) := by
      have := mul_le_mul_of_nonneg_right r2q hden.le
      linarith
    rw [hr] at this
    have h3 : ((2 * (m : ℚ) - 1) * ((d : ℚ) * (2 : ℚ) ^ k)) * ((shl d k : Nat) : ℚ)
        ≤ (2 * (a : ℚ)) * ((shl d k : Nat) : ℚ) := by linarith
    exact le_of_mul_le_mul_right h3 hsd
  have hp1 := two_zpow_pos ((f.prec : Int) - 1)
  have hpp : (2 : ℚ) ^ (f.prec : Int) = 2 * (2 : ℚ) ^ ((f.prec : Int) - 1) := by
    rw [zpow_sub_one₀ h2]; field_simp
  rw [hround]
  refine ⟨rfl, ?_⟩
  -- the error
  have hval : (Flt.fin (if n < 0 then -(m : Int) else (m : Int)) k).val - (n : ℚ) / d
      = (if n < 0 then (-1 : ℚ) else 1) * ((m : ℚ) * (2 : ℚ) ^ k - (a : ℚ) / d) := by
    simp only [Flt.val]
    have hna : (n : ℚ) = (if n < 0 then (-1 : ℚ) else 1) * (a : ℚ) := by
      rw [hadef, Nat.cast_natAbs, Int.cast_abs]
      split_ifs with hneg
      · have : (n : ℚ) < 0 := by exact_mod_cast hneg
        rw [abs_of_neg this]; ring
      · have : (0 : ℚ) ≤ n := by exact_mod_cast (not_lt.mp hneg)
        rw [abs_of_nonneg this]; ring
    rw [hna]
    split_ifs <;> (push_cast; ring)
  rw [hval, abs_mul]
  have hsgn : |(if n < 0 then (-1 : ℚ) else 1)| = 1 := by split_ifs <;> simp
  rw [hsgn, one_mul, abs_le]
  have hpz := two_zpow_pos (f.prec : Int)
  set y : ℚ := (a : ℚ) / ((d : ℚ) * (2 : ℚ) ^ k) with hy
  have hyd : (a : ℚ) / d = y * (2 : ℚ) ^ k := by
    rw [hy]; field_simp; ring
  have hy1 : y ≤ (m : ℚ) + 1 / 2 := by
    rw [hy, div_le_iff₀ hden]; linarith
  have hy2 : (m : ℚ) - 1 / 2 ≤ y := by
    rw [hy, le_div_iff₀ hden]; linarith
  have hy3 : (2 : ℚ) ^ ((f.prec : Int) - 1) ≤ y := by
    rw [hy, le_div_iff₀ hden]; exact l
  rw [hyd]
  have hb1 : (2 : ℚ) ^ k / 2 ≤ y * (2 : ℚ) ^ k / (2 : ℚ) ^ (f.prec : Int) := by
    rw [le_div_iff₀ hpz, hpp]
    have := mul_le_mul_of_nonneg_right hy3 hz.le
    linarith
  have hm1 : (m : ℚ) * (2 : ℚ) ^ k - y * (2 : ℚ) ^ k ≤ (2 : ℚ) ^ k / 2 := by
    have := mul_le_mul_of_nonneg_right hy2 hz.le
    linarith
  have hm2 : -((2 : ℚ) ^ k / 2) ≤ (m : ℚ) * (2 : ℚ) ^ k - y * (2 : ℚ) ^ k := by
    have := mul_le_mul_of_nonneg_right hy1 hz.le
    linarith
  constructor <;> linarith

/-! ### Rounding: the operations of binary32 -/

theorem dy_ratio (n e : Int) :
    (((n * 2 ^ e.toNat : Int) : ℚ)) / (((2 ^ (-e).toNat : Nat) : ℚ)) = (n : ℚ) * (2 : ℚ) ^ e := by
  rcases le_or_lt 0 e with h | h
  · have h1 : (-e).toNat = 0 := by omega
    have h2 : ((e.toNat : Int)) = e := Int.toNat_of_nonneg h
    rw [h1]
    push_cast
    rw [← zpow_natCast (2 : ℚ) e.toNat, h2]
    simp
  · have h1 : e.toNat = 0 := by omega
    have h2 : (((-e).toNat : Int)) = -e := Int.toNat_of_nonneg (by omega)
    rw [h1]
    push_cast
    rw [← zpow_natCast (2 : ℚ) (-e).toNat, h2, zpow_neg]
    have := two_zpow_pos e
    field_simp

theorem roundDy_zero (f : Fmt) (e : Int) : roundDy f 0 e = .fin 0 0 := by
  simp [roundDy, roundQ]

theorem roundDy_spec (f : Fmt) (n e : Int)
    (hlo : (2 : ℚ) ^ (f.elo + f.prec - 1) ≤ |(n : ℚ) * (2 : ℚ) ^ e|)
    (hhi : |(n : ℚ) * (2 : ℚ) ^ e| < (2 : ℚ) ^ f.ehi) :
    (roundDy f n e).isFin = true ∧
    |(roundDy f n e).val - (n : ℚ) * (2 : ℚ) ^ e|
      ≤ |(n : ℚ) * (2 : ℚ) ^ e| / (2 : ℚ) ^ (f.prec : Int) := by
  have hr := dy_ratio n e
  have hpos : (0 : ℚ) < |(n : ℚ) * (2 : ℚ) ^ e| :=
    lt_of_lt_of_le (two_zpow_pos _) hlo
  have hn : n ≠ 0 := by
    rintro rfl; simp at hpos
  have hn' : n * 2 ^ e.toNat ≠ 0 := mul_ne_zero hn (by positivity)
  have hd : 0 < 2 ^ (-e).toNat := by positivity
  have h := roundQ_spec f (n * 2 ^ e.toNat) (2 ^ (-e).toNat) hn' hd (by rw [hr]; exact hlo)
    (by rw [hr]; exact hhi)
  rw [hr] at h
  exact h

/-- The unit roundoff of binary32. -/
theorem prec32 : (2 : ℚ) ^ ((binary32.prec : Int)) = 16777216 := by
  norm_num [binary32]

/-- A range that lies within the normal numbers of binary32. -/
theorem normal32 (x : ℚ) (h1 : 1 / 1000000 ≤ |x|) (h2 : |x| ≤ 1000000000) :
    (2 : ℚ) ^ (binary32.elo + binary32.prec - 1) ≤ |x| ∧ |x| < (2 : ℚ) ^ binary32.ehi := by
  constructor
  · have : (2 : ℚ) ^ (binary32.elo + binary32.prec - 1) ≤ 1 / 1000000 := by
      have e : binary32.elo + binary32.prec - 1 = -126 := by decide
      rw [e]
      norm_num
    linarith
  · have : (1000000000 : ℚ) < (2 : ℚ) ^ binary32.ehi := by
      have e : binary32.ehi = 127 := by decide
      rw [e]
      norm_num
    linarith

theorem Flt.mul_rounds (a b : Flt) (ha : a.isFin = true) (hb : b.isFin = true)
    (h1 : 1 / 1000000 ≤ |a.val * b.val|) (h2 : |a.val * b.val| ≤ 1000000000) :
    Rounds (Flt.mul binary32 a b) (a.val * b.val) := by
  cases a with
  | fin m1 e1 =>
    cases b with
    | fin m2 e2 =>
      have hv : (Flt.fin m1 e1).val * (Flt.fin m2 e2).val
          = ((m1 * m2 : Int) : ℚ) * (2 : ℚ) ^ (e1 + e2) := by
        simp only [Flt.val]; push_cast
        rw [zpow_add₀ (by norm_num : (2 : ℚ) ≠ 0)]; ring
      rw [hv] at h1 h2 ⊢
      obtain ⟨n1, n2⟩ := normal32 _ h1 h2
      have := roundDy_spec binary32 (m1 * m2) (e1 + e2) n1 n2
      rw [prec32] at this
      exact this
    | inf s => simp [Flt.isFin] at hb
    | nan => simp [Flt.isFin] at hb
  | inf s => simp [Flt.isFin] at ha
  | nan => simp [Flt.isFin] at ha

theorem Flt.sub_rounds (a b : Flt) (ha : a.isFin = true) (hb : b.isFin = true)
    (h1 : 1 / 1000000 ≤ |a.val - b.val|) (h2 : |a.val - b.val| ≤ 1000000000) :
    Rounds (Flt.sub binary32 a b) (a.val - b.val) := by
  cases a with
  | fin m1 e1 =>
    cases b with
    | fin m2 e2 =>
      have hv : (Flt.fin m1 e1).val - (Flt.fin m2 e2).val
          = ((m1 * 2 ^ (e1 - min e1 e2).toNat + (-m2) * 2 ^ (e2 - min e1 e2).toNat : Int) : ℚ)
            * (2 : ℚ) ^ (min e1 e2) := by
        simp only [Flt.val]; push_cast
        have h2' : (2 : ℚ) ≠ 0 := by norm_num
        have a1 : ((2 : ℚ) ^ (e1 - min e1 e2).toNat) * (2 : ℚ) ^ (min e1 e2) = (2 : ℚ) ^ e1 := by
          rw [← zpow_natCast, ← zpow_add₀ h2', Int.toNat_of_nonneg (by omega)]; congr 1; omega
        have a2 : ((2 : ℚ) ^ (e2 - min e1 e2).toNat) * (2 : ℚ) ^ (min e1 e2) = (2 : ℚ) ^ e2 := by
          rw [← zpow_natCast, ← zpow_add₀ h2', Int.toNat_of_nonneg (by omega)]; congr 1; omega
        rw [add_mul, mul_assoc, a1, mul_assoc, a2]; ring
      rw [hv] at h1 h2 ⊢
      obtain ⟨n1, n2⟩ := normal32 _ h1 h2
      have := roundDy_spec binary32 _ (min e1 e2) n1 n2
      rw [prec32] at this
      exact this
    | inf s => simp [Flt.isFin] at hb
    | nan => simp [Flt.isFin] at hb
  | inf s => simp [Flt.isFin] at ha
  | nan => simp [Flt.isFin] at ha

theorem pow_ratio (e : Int) :
    ((2 : ℚ) ^ e.toNat) / ((2 : ℚ) ^ (-e).toNat) = (2 : ℚ) ^ e := by
  have h := dy_ratio 1 e
  push_cast at h
  rw [one_mul, one_mul] at h
  exact h

theorem sign_div_natAbs (m1 m2 : Int) (hm2 : m2 ≠ 0) :
    ((Int.sign m2 * m1 : Int) : ℚ) / ((m2.natAbs : Nat) : ℚ) = (m1 : ℚ) / (m2 : ℚ) := by
  rw [Nat.cast_natAbs, Int.cast_abs]
  rcases lt_trichotomy m2 0 with h | h | h
  · have hq : (m2 : ℚ) < 0 := by exact_mod_cast h
    rw [Int.sign_eq_neg_one_of_neg h, abs_of_neg hq]
    push_cast
    rw [div_neg, neg_one_mul, neg_div, neg_neg]
  · exact absurd h hm2
  · have hq : (0 : ℚ) < m2 := by exact_mod_cast h
    rw [Int.sign_eq_one_of_pos h, abs_of_pos hq]
    push_cast
    rw [one_mul]

theorem Flt.div_rounds (a b : Flt) (ha : a.isFin = true) (hb : b.isFin = true)
    (hb0 : b.val ≠ 0)
    (h1 : 1 / 1000000 ≤ |a.val / b.val|) (h2 : |a.val / b.val| ≤ 1000000000) :
    Rounds (Flt.div binary32 a b) (a.val / b.val) := by
  cases a with
  | fin m1 e1 =>
    cases b with
    | fin m2 e2 =>
      have h2' : (2 : ℚ) ≠ 0 := by norm_num
      have hm2 : m2 ≠ 0 := by
        rintro rfl; simp [Flt.val] at hb0
      have hm2q : (m2 : ℚ) ≠ 0 := by exact_mod_cast hm2
      have hd : 0 < m2.natAbs * 2 ^ (e2 - e1).toNat := by
        have := Int.natAbs_pos.mpr hm2
        positivity
      have hv : (Flt.fin m1 e1).val / (Flt.fin m2 e2).val
          = ((Int.sign m2 * m1 * 2 ^ (e1 - e2).toNat : Int) : ℚ)
            / ((m2.natAbs * 2 ^ (e2 - e1).toNat : Nat) : ℚ) := by
        simp only [Flt.val]
        have hz2 := two_zpow_pos e2
        have e : (e2 - e1) = -(e1 - e2) := by ring
        calc (m1 : ℚ) * (2 : ℚ) ^ e1 / ((m2 : ℚ) * (2 : ℚ) ^ e2)
            = ((m1 : ℚ) / (m2 : ℚ)) * (2 : ℚ) ^ (e1 - e2) := by
              rw [zpow_sub₀ h2']; field_simp
          _ = (((Int.sign m2 * m1 : Int) : ℚ) / ((m2.natAbs : Nat) : ℚ))
                * (((2 : ℚ) ^ (e1 - e2).toNat) / ((2 : ℚ) ^ (-(e1 - e2)).toNat)) := by
              rw [sign_div_natAbs m1 m2 hm2, pow_ratio]
          _ = _ := by
              rw [e]; push_cast; rw [div_mul_div_comm]
      have hn : Int.sign m2 * m1 * 2 ^ (e1 - e2).toNat ≠ 0 := by
        intro h0
        rw [hv, h0] at h1
        norm_num at h1
      rw [hv] at h1 h2 ⊢
      obtain ⟨n1, n2⟩ := normal32 _ h1 h2
      have := roundQ_spec binary32 _ _ hn hd n1 n2
      rw [prec32] at this
      simp only [Flt.div, hm2, if_false]
      exact this
    | inf s => simp [Flt.isFin] at hb
    | nan => simp [Flt.isFin] at hb
  | inf s => simp [Flt.isFin] at ha
  | nan => simp [Flt.isFin] at ha

/-- Integers below `2 ^ 24` in magnitude convert exactly. -/
theorem Flt.ofInt_exact (n : Int) (h : n.natAbs < 2 ^ 24) :
    (Flt.ofInt binary32 n).isFin = true ∧ (Flt.ofInt binary32 n).val = (n : ℚ) := by
  by_cases hn : n = 0
  · subst hn
    simp [Flt.ofInt, roundDy_zero, Flt.isFin, Flt.val]
  · have ha : 0 < n.natAbs := Int.natAbs_pos.mpr hn
    have haq : (1 : ℚ) ≤ (n.natAbs : ℚ) := by exact_mod_cast ha
    have hlt : (n.natAbs : ℚ) < 16777216 := by exact_mod_cast h
    have habs : |(n : ℚ) / ((1 : Nat) : ℚ)| = (n.natAbs : ℚ) := by
      rw [Nat.cast_one, div_one, Nat.cast_natAbs, Int.cast_abs]
    obtain ⟨n1, n2⟩ := normal32 ((n : ℚ) / ((1 : Nat) : ℚ)) (by rw [habs]; linarith)
      (by rw [habs]; linarith)
    have heq := roundQ_eq binary32 n 1 hn Nat.one_pos n1 n2
    rw [habs] at n1
    have hnorm := ulpExp_normal binary32 n.natAbs 1 ha Nat.one_pos
      (by rw [Nat.cast_one, div_one]; exact n1)
    set k := ulpExp binary32 n.natAbs 1 with hk
    obtain ⟨l, _⟩ := hnorm
    have hk0 : k ≤ 0 := by
      by_contra hc
      have h1 : (2 : ℚ) ^ (1 : Int) ≤ (2 : ℚ) ^ k := zpow_le_zpow_right₀ (by norm_num) (by omega)
      have h3 : (2 : ℚ) ^ ((binary32.prec : Int) - 1) = 8388608 := by norm_num [binary32]
      rw [h3] at l
      norm_num at h1 l
      linarith
    have hs1 : shl 1 k = 1 := by
      have : k.toNat = 0 := by omega
      simp [shl, this]
    have hrn : ∀ N : Nat, rnEven N 1 = N := by
      intro N; simp [rnEven, Nat.mod_one]
    have hof : Flt.ofInt binary32 n = roundQ binary32 n 1 := by
      simp [Flt.ofInt, roundDy]
    rw [hof, heq, hs1, hrn]
    refine ⟨rfl, ?_⟩
    have hsh : ((shl n.natAbs (-k) : Nat) : ℚ) * (2 : ℚ) ^ k = (n.natAbs : ℚ) := by
      have := shl_ratio n.natAbs 1 k
      rw [hs1] at this
      simpa using this
    simp only [Flt.val]
    split_ifs with hneg
    · have hq : (n : ℚ) < 0 := by exact_mod_cast hneg
      push_cast
      rw [neg_mul, hsh, Nat.cast_natAbs, Int.cast_abs, abs_of_neg hq, neg_neg]
    · have hq : (0 : ℚ) ≤ n := by exact_mod_cast (not_lt.mp hneg)
      push_cast
      rw [hsh, Nat.cast_natAbs, Int.cast_abs, abs_of_nonneg hq]

/-! ### Rounding: `hypotf` -/

theorem isqrtAux_spec (n : Nat) : ∀ (b r : Nat), r * r ≤ n → n < (r + 2 ^ b) * (r + 2 ^ b) →
    isqrtAux b n r * isqrtAux b n r ≤ n ∧ n < (isqrtAux b n r + 1) * (isqrtAux b n r + 1) := by
  intro b
  induction b with
  | zero => intro r h1 h2; simpa [isqrtAux] using ⟨h1, h2⟩
  | succ b ih =>
      intro r h1 h2
      simp only [isqrtAux]
      split_ifs with hc
      · apply ih _ hc
        have : r + 2 ^ b + 2 ^ b = r + 2 ^ (b + 1) := by rw [pow_succ]; ring
        rw [this]; exact h2
      · exact ih r h1 (not_le.mp hc)

theorem isqrt_spec (n : Nat) : isqrt n * isqrt n ≤ n ∧ n < (isqrt n + 1) * (isqrt n + 1) := by
  unfold isqrt
  apply isqrtAux_spec n _ 0 (Nat.zero_le _)
  rw [Nat.zero_add, ← pow_add]
  by_cases h0 : n = 0
  · subst h0; positivity
  · have h1 := (bitlen_spec n (Nat.pos_of_ne_zero h0)).2
    have h2 : bitlen n ≤ bitlen n / 2 + 1 + (bitlen n / 2 + 1) := by omega
    exact lt_of_lt_of_le h1 (Nat.pow_le_pow_right (by decide) h2)

theorem le_isqrt (n c : Nat) (h : c * c ≤ n) : c ≤ isqrt n := by
  by_contra hc
  have h1 : isqrt n + 1 ≤ c := by omega
  have h2 := (isqrt_spec n).2
  have h3 : (isqrt n + 1) * (isqrt n + 1) ≤ c * c := Nat.mul_le_mul h1 h1
  omega

theorem scaled_abs (m e mn : Int) (h : mn ≤ e) :
    (((m.natAbs * 2 ^ (e - mn).toNat : Nat) : ℚ)) * (2 : ℚ) ^ mn = |(m : ℚ) * (2 : ℚ) ^ e| := by
  have h2' : (2 : ℚ) ≠ 0 := by norm_num
  have a1 : ((2 : ℚ) ^ (e - mn).toNat) * (2 : ℚ) ^ mn = (2 : ℚ) ^ e := by
    rw [← zpow_natCast, ← zpow_add₀ h2', Int.toNat_of_nonneg (by omega)]; congr 1; omega
  push_cast
  rw [mul_assoc, a1, abs_mul, abs_of_pos (two_zpow_pos e), Nat.cast_natAbs, Int.cast_abs]

theorem hypot_arith (A B Z R s W X Y : ℚ) (hZpos : 0 < Z) (hA : A * Z = |X|) (hB : B * Z = |Y|)
    (r1q : R * R ≤ (A * A + B * B) * 18446744073709551616) (hrq : 4294967296 ≤ R)
    (hraq : A * 4294967296 ≤ R) (hrbq : B * 4294967296 ≤ R) (hs0 : 0 ≤ s) (hs1 : s ≤ 1)
    (hWe : W = (2 * R + s) * Z / 8589934592) :
    |X| ≤ W ∧ |Y| ≤ W ∧ W ^ 2 ≤ (X ^ 2 + Y ^ 2) * (1 + 5 / 17179869184) := by
  have hS : X ^ 2 + Y ^ 2 = (A ^ 2 + B ^ 2) * Z ^ 2 := by
    rw [← sq_abs X, ← sq_abs Y, ← hA, ← hB]; ring
  have hr0 : 0 ≤ R := by linarith
  have hsZ : 0 ≤ s * Z := mul_nonneg hs0 hZpos.le
  refine ⟨?_, ?_, ?_⟩
  · rw [hWe, ← hA, le_div_iff₀ (by norm_num)]
    have := mul_le_mul_of_nonneg_right hraq hZpos.le
    linarith
  · rw [hWe, ← hB, le_div_iff₀ (by norm_num)]
    have := mul_le_mul_of_nonneg_right hrbq hZpos.le
    linarith
  · have hrs : R * s ≤ R := mul_le_of_le_one_right hr0 hs1
    have hss : s * s ≤ s := mul_le_of_le_one_left hs0 hs1
    have e1 : (2 * R + s) ^ 2 ≤ 4 * (R * R) + 5 * R := by
      have : (2 * R + s) ^ 2 = 4 * (R * R) + 4 * (R * s) + s * s := by ring
      rw [this]; linarith
    have e2 : 5 * R ≤ 5 * (R * R) / 4294967296 := by
      rw [le_div_iff₀ (by norm_num)]
      have := mul_le_mul_of_nonneg_left hrq hr0
      linarith
    have e3 : (2 * R + s) ^ 2 ≤ ((A * A + B * B) * 18446744073709551616) * (4 + 5 / 4294967296) := by
      have : (2 * R + s) ^ 2 ≤ (R * R) * (4 + 5 / 4294967296) := by linarith
      exact le_trans this (mul_le_mul_of_nonneg_right r1q (by norm_num))
    rw [hWe, hS]
    have hZ2 : 0 ≤ Z ^ 2 := sq_nonneg Z
    have h5 := mul_le_mul_of_nonneg_right e3 hZ2
    have e4 : ((2 * R + s) * Z / 8589934592) ^ 2
        = (2 * R + s) ^ 2 * Z ^ 2 / 73786976294838206464 := by ring
    rw [e4, div_le_iff₀ (by norm_num)]
    have e5 : (A * A + B * B) * 18446744073709551616 * (4 + 5 / 4294967296) * Z ^ 2
        = (A ^ 2 + B ^ 2) * Z ^ 2 * (1 + 5 / 17179869184) * 73786976294838206464 := by ring
    rw [e5] at h5
    exact h5

/-- The reference `hypotf` on finite data of moderate size: at least either
argument in magnitude, up to one rounding, and at most `√(x² + y²)`, up to
`10⁻⁶` relative on the square. -/
theorem hypotf_spec (mx ex my ey : Int)
    (h1 : 1 ≤ (Flt.fin mx ex).val ^ 2 + (Flt.fin my ey).val ^ 2)
    (h2 : (Flt.fin mx ex).val ^ 2 + (Flt.fin my ey).val ^ 2 ≤ 10000000000) :
    (hypotf (.fin mx ex) (.fin my ey)).isFin = true ∧
    (16777215 / 16777216 : ℚ) * |(Flt.fin mx ex).val| ≤ (hypotf (.fin mx ex) (.fin my ey)).val ∧
    (16777215 / 16777216 : ℚ) * |(Flt.fin my ey).val| ≤ (hypotf (.fin mx ex) (.fin my ey)).val ∧
    (hypotf (.fin mx ex) (.fin my ey)).val ^ 2
      ≤ ((Flt.fin mx ex).val ^ 2 + (Flt.fin my ey).val ^ 2) * (1000001 / 1000000) := by
  have h2' : (2 : ℚ) ≠ 0 := by norm_num
  have hA := scaled_abs mx ex (min ex ey) (min_le_left _ _)
  have hB := scaled_abs my ey (min ex ey) (min_le_right _ _)
  have hdef : hypotf (.fin mx ex) (.fin my ey) =
      roundDy binary32
        (2 * (isqrt ((mx.natAbs * 2 ^ (ex - min ex ey).toNat * (mx.natAbs * 2 ^ (ex - min ex ey).toNat)
            + my.natAbs * 2 ^ (ey - min ex ey).toNat * (my.natAbs * 2 ^ (ey - min ex ey).toNat))
            * 4 ^ 32) : Int)
          + (if isqrt ((mx.natAbs * 2 ^ (ex - min ex ey).toNat * (mx.natAbs * 2 ^ (ex - min ex ey).toNat)
            + my.natAbs * 2 ^ (ey - min ex ey).toNat * (my.natAbs * 2 ^ (ey - min ex ey).toNat))
            * 4 ^ 32)
            * isqrt ((mx.natAbs * 2 ^ (ex - min ex ey).toNat * (mx.natAbs * 2 ^ (ex - min ex ey).toNat)
            + my.natAbs * 2 ^ (ey - min ex ey).toNat * (my.natAbs * 2 ^ (ey - min ex ey).toNat))
            * 4 ^ 32)
            = (mx.natAbs * 2 ^ (ex - min ex ey).toNat * (mx.natAbs * 2 ^ (ex - min ex ey).toNat)
            + my.natAbs * 2 ^ (ey - min ex ey).toNat * (my.natAbs * 2 ^ (ey - min ex ey).toNat))
            * 4 ^ 32 then 0 else 1))
        (min ex ey - 33) := by
    simp only [hypotf]
  rw [hdef]
  generalize min ex ey = mn at hA hB ⊢
  generalize mx.natAbs * 2 ^ (ex - mn).toNat = a at hA ⊢
  generalize my.natAbs * 2 ^ (ey - mn).toNat = b at hB ⊢
  have hvX : (Flt.fin mx ex).val = (mx : ℚ) * (2 : ℚ) ^ ex := rfl
  have hvY : (Flt.fin my ey).val = (my : ℚ) * (2 : ℚ) ^ ey := rfl
  rw [hvX, hvY] at h1 h2 ⊢
  generalize (mx : ℚ) * (2 : ℚ) ^ ex = X at hA h1 h2 ⊢
  generalize (my : ℚ) * (2 : ℚ) ^ ey = Y at hB h1 h2 ⊢
  have hZpos : (0 : ℚ) < (2 : ℚ) ^ mn := two_zpow_pos mn
  have hS : X ^ 2 + Y ^ 2 = ((a : ℚ) ^ 2 + (b : ℚ) ^ 2) * ((2 : ℚ) ^ mn) ^ 2 := by
    rw [← sq_abs X, ← sq_abs Y, ← hA, ← hB]; ring
  have hab : 1 ≤ a * a + b * b := by
    by_contra hc
    have h0 : a * a + b * b = 0 := by omega
    have ha0 : a = 0 := by
      by_contra hne
      have : 0 < a * a := Nat.mul_pos (Nat.pos_of_ne_zero hne) (Nat.pos_of_ne_zero hne)
      omega
    have hb0 : b = 0 := by
      by_contra hne
      have : 0 < b * b := Nat.mul_pos (Nat.pos_of_ne_zero hne) (Nat.pos_of_ne_zero hne)
      omega
    rw [hS, ha0, hb0] at h1
    norm_num at h1
  obtain ⟨r1, _⟩ := isqrt_spec ((a * a + b * b) * 4 ^ 32)
  have h32 : 4294967296 ≤ isqrt ((a * a + b * b) * 4 ^ 32) := by
    apply le_isqrt
    calc 4294967296 * 4294967296 = 1 * 4 ^ 32 := by norm_num
      _ ≤ (a * a + b * b) * 4 ^ 32 := Nat.mul_le_mul_right _ hab
  have hra : a * 4294967296 ≤ isqrt ((a * a + b * b) * 4 ^ 32) := by
    apply le_isqrt
    calc a * 4294967296 * (a * 4294967296) = (a * a) * 4 ^ 32 := by ring
      _ ≤ (a * a + b * b) * 4 ^ 32 := Nat.mul_le_mul_right _ (Nat.le_add_right _ _)
  have hrb : b * 4294967296 ≤ isqrt ((a * a + b * b) * 4 ^ 32) := by
    apply le_isqrt
    calc b * 4294967296 * (b * 4294967296) = (b * b) * 4 ^ 32 := by ring
      _ ≤ (a * a + b * b) * 4 ^ 32 := Nat.mul_le_mul_right _ (Nat.le_add_left _ _)
  have hs : ∃ s : Int, (if isqrt ((a * a + b * b) * 4 ^ 32) * isqrt ((a * a + b * b) * 4 ^ 32)
      = (a * a + b * b) * 4 ^ 32 then (0 : Int) else 1) = s ∧ (0 : ℚ) ≤ (s : ℚ) ∧ (s : ℚ) ≤ 1 := by
    split_ifs
    · exact ⟨0, rfl, by norm_num, by norm_num⟩
    · exact ⟨1, rfl, by norm_num, by norm_num⟩
  obtain ⟨s, hse, hs0, hs1⟩ := hs
  rw [hse]
  generalize isqrt ((a * a + b * b) * 4 ^ 32) = r at r1 h32 hra hrb ⊢
  have r1q : (r : ℚ) * r ≤ ((a : ℚ) * a + (b : ℚ) * b) * 18446744073709551616 := by
    have : r * r ≤ (a * a + b * b) * 18446744073709551616 := by
      have e : (4 : Nat) ^ 32 = 18446744073709551616 := by norm_num
      rw [e] at r1; exact r1
    exact_mod_cast this
  have hrq : (4294967296 : ℚ) ≤ r := by exact_mod_cast h32
  have hraq : (a : ℚ) * 4294967296 ≤ (r : ℚ) := by exact_mod_cast hra
  have hrbq : (b : ℚ) * 4294967296 ≤ (r : ℚ) := by exact_mod_cast hrb
  have hWe : ((2 * (r : Int) + s : Int) : ℚ) * (2 : ℚ) ^ (mn - 33)
      = (2 * (r : ℚ) + (s : ℚ)) * (2 : ℚ) ^ mn / 8589934592 := by
    rw [zpow_sub₀ h2']; push_cast; norm_num; ring
  obtain ⟨hWX, hWY, hWsq⟩ := hypot_arith a b ((2 : ℚ) ^ mn) r s _ X Y hZpos hA hB r1q hrq hraq
    hrbq hs0 hs1 hWe
  have hround : ∀ W : ℚ, W = ((2 * (r : Int) + s : Int) : ℚ) * (2 : ℚ) ^ (mn - 33) →
      (2 : ℚ) ^ (binary32.elo + binary32.prec - 1) ≤ |W| → |W| < (2 : ℚ) ^ binary32.ehi →
      (roundDy binary32 (2 * (r : Int) + s) (mn - 33)).isFin = true ∧
      |(roundDy binary32 (2 * (r : Int) + s) (mn - 33)).val - W| ≤ |W| / 16777216 := by
    intro W hW n1 n2
    have := roundDy_spec binary32 (2 * (r : Int) + s) (mn - 33) (by rw [← hW]; exact n1)
      (by rw [← hW]; exact n2)
    rw [prec32, ← hW] at this
    exact this
  generalize ((2 * (r : Int) + s : Int) : ℚ) * (2 : ℚ) ^ (mn - 33) = W at hWX hWY hWsq hround
  generalize roundDy binary32 (2 * (r : Int) + s) (mn - 33) = res at hround ⊢
  have hW0 : 0 ≤ W := le_trans (abs_nonneg X) hWX
  have hx : X ^ 2 ≤ W ^ 2 := by
    rw [← sq_abs X]; exact pow_le_pow_left₀ (abs_nonneg X) hWX 2
  have hy : Y ^ 2 ≤ W ^ 2 := by
    rw [← sq_abs Y]; exact pow_le_pow_left₀ (abs_nonneg Y) hWY 2
  have hmax : 1 / 2 ≤ W := by
    by_contra hc
    have hc' : W < 1 / 2 := not_le.mp hc
    have h9 : W * W < 1 / 2 * (1 / 2) := mul_lt_mul'' hc' hc' hW0 hW0
    have h10 : W ^ 2 = W * W := by ring
    rw [h10] at hx hy
    linarith
  have hWhi : W ≤ 1000000 := by
    by_contra hc
    have hc' : 1000000 < W := not_le.mp hc
    have h9 : (1000000 : ℚ) * 1000000 < W * W :=
      mul_lt_mul'' hc' hc' (by norm_num) (by norm_num)
    have h10 : W ^ 2 = W * W := by ring
    have h11 : W ^ 2 ≤ 10000000000 * (1 + 5 / 17179869184) :=
      le_trans hWsq (mul_le_mul_of_nonneg_right h2 (by norm_num))
    rw [h10] at h11
    have h12 : (10000000000 : ℚ) * (1 + 5 / 17179869184) < 1000000 * 1000000 := by norm_num
    linarith
  have hWabs : |W| = W := abs_of_nonneg hW0
  obtain ⟨n1, n2⟩ := normal32 W (by rw [hWabs]; linarith) (by rw [hWabs]; linarith)
  obtain ⟨hf, he⟩ := hround W rfl n1 n2
  rw [hWabs, abs_le] at he
  refine ⟨hf, ?_, ?_, ?_⟩
  · have := mul_le_mul_of_nonneg_left hWX (by norm_num : (0 : ℚ) ≤ 16777215 / 16777216)
    linarith
  · have := mul_le_mul_of_nonneg_left hWY (by norm_num : (0 : ℚ) ≤ 16777215 / 16777216)
    linarith
  · have hv0 : 0 ≤ res.val := by linarith
    have hv1 : res.val ≤ W * (16777217 / 16777216) := by linarith
    have hv2 : res.val ^ 2 ≤ (W * (16777217 / 16777216)) ^ 2 := pow_le_pow_left₀ hv0 hv1 2
    have hS0 : 0 ≤ X ^ 2 + Y ^ 2 := by positivity
    have e6 : (W * (16777217 / 16777216)) ^ 2 = W ^ 2 * (16777217 / 16777216) ^ 2 := by ring
    have h7 : W ^ 2 * (16777217 / 16777216) ^ 2
        ≤ (X ^ 2 + Y ^ 2) * (1 + 5 / 17179869184) * (16777217 / 16777216) ^ 2 :=
      mul_le_mul_of_nonneg_right hWsq (by positivity)
    have h8 : (X ^ 2 + Y ^ 2) * (1 + 5 / 17179869184) * (16777217 / 16777216) ^ 2
        ≤ (X ^ 2 + Y ^ 2) * (1000001 / 1000000) := by
      rw [mul_assoc]
      exact mul_le_mul_of_nonneg_left (by norm_num) hS0
    linarith

/-! ### The glide position in binary32 -/

theorem rounds_bound (x : Flt) (r lo hi : ℚ) (h : Rounds x r) (h0 : 0 ≤ lo) (h1 : lo ≤ r)
    (h2 : r ≤ hi) :
    x.isFin = true ∧ r - hi / 16777216 ≤ x.val ∧ x.val ≤ r + hi / 16777216 := by
  have hr : |r| = r := abs_of_nonneg (le_trans h0 h1)
  have h3 := h.2
  rw [hr, abs_le] at h3
  have h4 : r / 16777216 ≤ hi / 16777216 := div_le_div_of_nonneg_right h2 (by norm_num)
  exact ⟨h.1, by linarith, by linarith⟩

theorem pos_range (x lo hi : ℚ) (h1 : lo ≤ x) (h2 : x ≤ hi) (hlo : 1 / 1000000 ≤ lo)
    (hhi : hi ≤ 1000000000) : 1 / 1000000 ≤ |x| ∧ |x| ≤ 1000000000 := by
  have : |x| = x := abs_of_nonneg (by linarith)
  rw [this]
  exact ⟨by linarith, by linarith⟩

set_option maxRecDepth 100000 in
theorem coef_eq : Flt.toF32 (dbl 4 10) = .fin 13421773 (-25) := by decide

theorem coef_val : (Flt.toF32 (dbl 4 10)).val = 13421773 / 33554432 := by
  rw [coef_eq]; norm_num [Flt.val]

theorem coef_fin : (Flt.toF32 (dbl 4 10)).isFin = true := by
  rw [coef_eq]; rfl

theorem glide_arith1 (v K : ℚ) (hv1 : 16777215 / 16777216 ≤ v) (hv2 : v ≤ 182) (hK1 : 1 ≤ K)
    (hw : 2 / 5 ≤ v - 13421773 / 33554432 * (K - 1 / 2)) :
    K ≤ 456 ∧ 16777215 / 16777216 ≤ v * K ∧ v * K ≤ 83000 ∧
    2 / 5 ≤ 13421773 / 33554432 * K ∧ 13421773 / 33554432 * K ≤ 183 ∧
    2 / 5 * K ≤ v * K - 13421773 / 33554432 * K * K / 2 ∧
    v * K - 13421773 / 33554432 * K * K / 2 ≤ 83000 := by
  have hK2 : K ≤ 456 := by linarith
  have h1 : 16777215 / 16777216 * 1 ≤ v * K :=
    mul_le_mul hv1 hK1 (by norm_num) (by linarith)
  have h2 : v * K ≤ 182 * 456 := mul_le_mul hv2 hK2 (by linarith) (by norm_num)
  have hpw : v * K - 13421773 / 33554432 * K * K / 2
      = K * (v - 13421773 / 33554432 * (K - 1 / 2)) + 13421773 / 33554432 * (K * (K - 1)) / 2 := by
    ring
  have e1 : K * (2 / 5) ≤ K * (v - 13421773 / 33554432 * (K - 1 / 2)) :=
    mul_le_mul_of_nonneg_left hw (by linarith)
  have e2 : 0 ≤ K * (K - 1) := mul_nonneg (by linarith) (by linarith)
  have e3 : 0 ≤ K * K := mul_nonneg (by linarith) (by linarith)
  refine ⟨hK2, by linarith, by linarith, by linarith, by linarith, ?_, ?_⟩
  · rw [hpw]; linarith
  · have : 13421773 / 33554432 * K * K / 2 = 13421773 / 33554432 / 2 * (K * K) := by ring
    rw [this]; linarith

theorem glide_arith2 (K t2 : ℚ) (hK1 : 1 ≤ K) (hK2 : K ≤ 456)
    (b2l : 13421773 / 33554432 * K - 183 / 16777216 ≤ t2)
    (b2u : t2 ≤ 13421773 / 33554432 * K + 183 / 16777216) :
    1 / 3 ≤ t2 * K ∧ t2 * K ≤ 84000 ∧
    13421773 / 33554432 * K * K - 1 / 200 ≤ t2 * K ∧
    t2 * K ≤ 13421773 / 33554432 * K * K + 1 / 200 := by
  have hK0 : 0 ≤ K := by linarith
  have l := mul_le_mul_of_nonneg_right b2l hK0
  have u := mul_le_mul_of_nonneg_right b2u hK0
  have e3 : K * K ≤ 456 * 456 := mul_le_mul hK2 hK2 hK0 (by norm_num)
  have e4 : 1 * 1 ≤ K * K := mul_le_mul hK1 hK1 (by norm_num) hK0
  have el : (13421773 / 33554432 * K - 183 / 16777216) * K
      = 13421773 / 33554432 * (K * K) - 183 / 16777216 * K := by ring
  have eu : (13421773 / 33554432 * K + 183 / 16777216) * K
      = 13421773 / 33554432 * (K * K) + 183 / 16777216 * K := by ring
  have ek : 13421773 / 33554432 * K * K = 13421773 / 33554432 * (K * K) := by ring
  rw [el] at l
  rw [eu] at u
  rw [ek]
  refine ⟨by linarith, by linarith, by linarith, by linarith⟩

theorem glide_arith3 (v K p t1 t3 t4 P : ℚ)
    (hp : p = v * K - 13421773 / 33554432 * K * K / 2) (_hp1 : 2 / 5 ≤ p) (_hp2 : p ≤ 83000)
    (b1l : v * K - 83000 / 16777216 ≤ t1) (b1u : t1 ≤ v * K + 83000 / 16777216)
    (b3l : 13421773 / 33554432 * K * K - 1 / 90 ≤ t3)
    (b3u : t3 ≤ 13421773 / 33554432 * K * K + 1 / 90)
    (b4l : t3 / 2 - 42001 / 16777216 ≤ t4) (b4u : t4 ≤ t3 / 2 + 42001 / 16777216)
    (b5 : t1 - t4 - 83001 / 16777216 ≤ P ∧ P ≤ t1 - t4 + 83001 / 16777216) :
    p - 1 / 50 ≤ P ∧ P ≤ p + 1 / 50 := by
  obtain ⟨b5l, b5u⟩ := b5
  refine ⟨by linarith, by linarith⟩

theorem glide_arith3a (v K p t1 t3 t4 : ℚ)
    (hp : p = v * K - 13421773 / 33554432 * K * K / 2) (hp1 : 2 / 5 ≤ p) (hp2 : p ≤ 83000)
    (b1l : v * K - 83000 / 16777216 ≤ t1) (b1u : t1 ≤ v * K + 83000 / 16777216)
    (b3l : 13421773 / 33554432 * K * K - 1 / 90 ≤ t3)
    (b3u : t3 ≤ 13421773 / 33554432 * K * K + 1 / 90)
    (b4l : t3 / 2 - 42001 / 16777216 ≤ t4) (b4u : t4 ≤ t3 / 2 + 42001 / 16777216) :
    1 / 3 ≤ t1 - t4 ∧ t1 - t4 ≤ 83001 := by
  refine ⟨by linarith, by linarith⟩

/-- The accuracy of `glide_p`: within `1/50` of `v k − c k² / 2` while the
velocity `v − c (k − 1/2)` is at least `2/5`. -/
theorem glide_p_error (v0 : Flt) (k : Nat) (hv : v0.isFin = true)
    (hv1 : 16777215 / 16777216 ≤ v0.val) (hv2 : v0.val ≤ 182) (hk1 : 1 ≤ k)
    (hw : 2 / 5 ≤ v0.val - 13421773 / 33554432 * ((k : ℚ) - 1 / 2)) :
    (glide_p v0 (Flt.toF32 (dbl 4 10)) k).isFin = true ∧
    v0.val * k - 13421773 / 33554432 * k * k / 2 - 1 / 50
      ≤ (glide_p v0 (Flt.toF32 (dbl 4 10)) k).val ∧
    (glide_p v0 (Flt.toF32 (dbl 4 10)) k).val
      ≤ v0.val * k - 13421773 / 33554432 * k * k / 2 + 1 / 50 := by
  have hK1 : (1 : ℚ) ≤ (k : ℚ) := by exact_mod_cast hk1
  obtain ⟨hK2, hvK1, hvK2, hcK1, hcK2, hp1, hp2⟩ := glide_arith1 v0.val k hv1 hv2 hK1 hw
  have hk24 : (k : Int).natAbs < 2 ^ 24 := by
    have : k ≤ 456 := by exact_mod_cast hK2
    omega
  obtain ⟨kf, kv⟩ := Flt.ofInt_exact (k : Int) hk24
  obtain ⟨tf, tv⟩ := Flt.ofInt_exact (2 : Int) (by decide)
  have kv' : (Flt.ofInt binary32 (k : Int)).val = (k : ℚ) := by rw [kv]; norm_num
  have tv' : (Flt.ofInt binary32 (2 : Int)).val = 2 := by rw [tv]; norm_num
  -- t1 = v0 * k
  have r1 := Flt.mul_rounds v0 (Flt.ofInt binary32 (k : Int)) hv kf
    (by rw [kv']; exact (pos_range _ _ _ hvK1 hvK2 (by norm_num) (by norm_num)).1)
    (by rw [kv']; exact (pos_range _ _ _ hvK1 hvK2 (by norm_num) (by norm_num)).2)
  rw [kv'] at r1
  obtain ⟨f1, b1l, b1u⟩ := rounds_bound _ _ _ _ r1 (by norm_num) hvK1 hvK2
  -- t2 = coef * k
  have r2 := Flt.mul_rounds (Flt.toF32 (dbl 4 10)) (Flt.ofInt binary32 (k : Int)) coef_fin kf
    (by rw [kv', coef_val]; exact (pos_range _ _ _ hcK1 hcK2 (by norm_num) (by norm_num)).1)
    (by rw [kv', coef_val]; exact (pos_range _ _ _ hcK1 hcK2 (by norm_num) (by norm_num)).2)
  rw [kv', coef_val] at r2
  obtain ⟨f2, b2l, b2u⟩ := rounds_bound _ _ _ _ r2 (by norm_num) hcK1 hcK2
  obtain ⟨h2K1, h2K2, c3l, c3u⟩ := glide_arith2 k _ hK1 hK2 b2l b2u
  -- t3 = t2 * k
  have r3 := Flt.mul_rounds _ (Flt.ofInt binary32 (k : Int)) f2 kf
    (by rw [kv']; exact (pos_range _ _ _ h2K1 h2K2 (by norm_num) (by norm_num)).1)
    (by rw [kv']; exact (pos_range _ _ _ h2K1 h2K2 (by norm_num) (by norm_num)).2)
  rw [kv'] at r3
  obtain ⟨f3, b3l, b3u⟩ := rounds_bound _ _ _ _ r3 (by norm_num) h2K1 h2K2
  have b3l' := le_trans (by linarith : 13421773 / 33554432 * (k : ℚ) * k - 1 / 90 ≤ _) b3l
  have b3u' := le_trans b3u (by linarith : _ ≤ 13421773 / 33554432 * (k : ℚ) * k + 1 / 90)
  -- t4 = t3 / 2
  have h41 : (1 / 8 : ℚ) ≤ (Flt.mul binary32 (Flt.mul binary32 (Flt.toF32 (dbl 4 10))
      (Flt.ofInt binary32 (k : Int))) (Flt.ofInt binary32 (k : Int))).val / 2 := by linarith
  have h42 : (Flt.mul binary32 (Flt.mul binary32 (Flt.toF32 (dbl 4 10))
      (Flt.ofInt binary32 (k : Int))) (Flt.ofInt binary32 (k : Int))).val / 2 ≤ 42001 := by
    linarith
  have r4 := Flt.div_rounds _ (Flt.ofInt binary32 (2 : Int)) f3 tf (by rw [tv']; norm_num)
    (by rw [tv']; exact (pos_range _ _ _ h41 h42 (by norm_num) (by norm_num)).1)
    (by rw [tv']; exact (pos_range _ _ _ h41 h42 (by norm_num) (by norm_num)).2)
  rw [tv'] at r4
  obtain ⟨f4, b4l, b4u⟩ := rounds_bound _ _ _ _ r4 (by norm_num) h41 h42
  -- P = t1 - t4
  have hp1' : (2 / 5 : ℚ) ≤ v0.val * k - 13421773 / 33554432 * k * k / 2 := by linarith
  obtain ⟨hd1, hd2⟩ := glide_arith3a v0.val k _ _ _ _ rfl hp1' hp2 b1l b1u b3l' b3u' b4l b4u
  have r5 := Flt.sub_rounds _ _ f1 f4
    (pos_range _ _ _ hd1 hd2 (by norm_num) (by norm_num)).1
    (pos_range _ _ _ hd1 hd2 (by norm_num) (by norm_num)).2
  obtain ⟨f5, b5l, b5u⟩ := rounds_bound _ _ _ _ r5 (by norm_num) hd1 hd2
  obtain ⟨hPl, hPu⟩ := glide_arith3 v0.val k _ _ _ _ _ rfl hp1' hp2 b1l b1u b3l' b3u'
    b4l b4u ⟨b5l, b5u⟩
  exact ⟨f5, hPl, hPu⟩

/-! ### Truncation -/

theorem isTrunc_zero : IsTrunc 0 0 := by
  constructor <;> intro _ <;> norm_num

theorem ediv_cast_bounds (m : Int) (D : Nat) (hD : 0 < D) :
    ((m / (D : Int) : Int) : ℚ) ≤ (m : ℚ) / D ∧ (m : ℚ) / D < ((m / (D : Int) : Int) : ℚ) + 1 := by
  have hDq : (0 : ℚ) < D := by exact_mod_cast hD
  have hDi : (0 : Int) < D := by exact_mod_cast hD
  have h1 : (m / (D : Int)) * (D : Int) ≤ m := Int.ediv_mul_le m hDi.ne'
  have h2 : m < (m / (D : Int) + 1) * (D : Int) := Int.lt_ediv_add_one_mul_self m hDi
  constructor
  · rw [le_div_iff₀ hDq]; exact_mod_cast h1
  · rw [div_lt_iff₀ hDq]; exact_mod_cast h2

theorem isTrunc_ediv_nonneg (m : Int) (D : Nat) (hD : 0 < D) (hm : 0 ≤ m) :
    IsTrunc (m / (D : Int)) ((m : ℚ) / D) := by
  obtain ⟨b1, b2⟩ := ediv_cast_bounds m D hD
  have hDq : (0 : ℚ) < D := by exact_mod_cast hD
  have hmq : (0 : ℚ) ≤ (m : ℚ) := by exact_mod_cast hm
  constructor
  · intro _; exact ⟨b1, b2⟩
  · intro hle
    have h0 : (m : ℚ) / D = 0 := le_antisymm hle (div_nonneg hmq hDq.le)
    rw [h0] at b1 b2 ⊢
    have c1 : ((m / (D : Int) : Int) : ℚ) < ((1 : Int) : ℚ) := by push_cast; linarith
    have c2 : ((-1 : Int) : ℚ) < ((m / (D : Int) : Int) : ℚ) := by push_cast; linarith
    have c3 : (m / (D : Int)) < 1 := by exact_mod_cast c1
    have c4 : -1 < (m / (D : Int)) := by exact_mod_cast c2
    have hz : (m / (D : Int)) = 0 := by omega
    rw [hz]; norm_num

theorem isTrunc_ediv_neg (m : Int) (D : Nat) (hD : 0 < D) (hm : m < 0) :
    IsTrunc (-((-m) / (D : Int))) ((m : ℚ) / D) := by
  obtain ⟨b1, b2⟩ := ediv_cast_bounds (-m) D hD
  have hDq : (0 : ℚ) < D := by exact_mod_cast hD
  have hmq : (m : ℚ) < 0 := by exact_mod_cast hm
  have hneg : (m : ℚ) / D < 0 := div_neg_of_neg_of_pos hmq hDq
  have e1 : (((-m : Int)) : ℚ) / D = -((m : ℚ) / D) := by push_cast; rw [neg_div]
  rw [e1] at b1 b2
  have e2 : ((-((-m) / (D : Int)) : Int) : ℚ) = -(((-m) / (D : Int) : Int) : ℚ) := by push_cast; rfl
  constructor
  · intro h0; linarith
  · intro _
    rw [e2]
    constructor <;> linarith

theorem truncDy_spec (m e : Int) : IsTrunc (Flt.truncDy m e) ((m : ℚ) * (2 : ℚ) ^ e) := by
  unfold Flt.truncDy
  rcases le_or_lt 0 e with h | h
  · rw [if_pos h]
    have hc : (((m * 2 ^ e.toNat : Int)) : ℚ) = (m : ℚ) * (2 : ℚ) ^ e := by
      push_cast
      rw [← zpow_natCast (2 : ℚ) e.toNat, Int.toNat_of_nonneg h]
    unfold IsTrunc
    rw [hc]
    constructor <;> intro _ <;> constructor <;> linarith
  · rw [if_neg (not_le.mpr h)]
    have hD : 0 < 2 ^ (-e).toNat := by positivity
    have hx : (m : ℚ) * (2 : ℚ) ^ e = (m : ℚ) / ((2 ^ (-e).toNat : Nat) : ℚ) := by
      push_cast
      rw [← zpow_natCast (2 : ℚ) (-e).toNat, Int.toNat_of_nonneg (by omega), zpow_neg]
      rw [div_eq_mul_inv, inv_inv]
    have hcast : ((2 : Int) ^ (-e).toNat) = (((2 ^ (-e).toNat : Nat)) : Int) := by
      push_cast; rfl
    rw [hx, hcast]
    split_ifs with hm
    · exact isTrunc_ediv_nonneg m _ hD hm
    · exact isTrunc_ediv_neg m _ hD (not_le.mp hm)

theorem isTrunc_abs_le (t : Int) (x : ℚ) (M : Int) (h : IsTrunc t x) (hM : |x| < (M : ℚ) + 1)
    (hM0 : 0 ≤ M) : -M ≤ t ∧ t ≤ M := by
  rcases le_total 0 x with hx | hx
  · obtain ⟨b1, b2⟩ := h.1 hx
    rw [abs_of_nonneg hx] at hM
    have c1 : (t : ℚ) < (M : ℚ) + 1 := by linarith
    have c2 : (-1 : ℚ) < (t : ℚ) := by linarith
    have c3 : t < M + 1 := by exact_mod_cast c1
    have c4 : -1 < t := by exact_mod_cast c2
    omega
  · obtain ⟨b1, b2⟩ := h.2 hx
    rw [abs_of_nonpos hx] at hM
    have c1 : (-(M : ℚ) - 1) < (t : ℚ) := by linarith
    have c2 : (t : ℚ) < 1 := by linarith
    have c3 : -M - 1 < t := by exact_mod_cast c1
    have c4 : t < 1 := by exact_mod_cast c2
    omega

/-- Truncations of values less than `A` apart are at most `A` apart. -/
theorem isTrunc_diff (t1 t2 : Int) (x1 x2 : ℚ) (A : Int) (h1 : IsTrunc t1 x1) (h2 : IsTrunc t2 x2)
    (hA : 1 ≤ A) (hd : |x1 - x2| < (A : ℚ)) : -A ≤ t1 - t2 ∧ t1 - t2 ≤ A := by
  rw [abs_lt] at hd
  have hAq : (1 : ℚ) ≤ (A : ℚ) := by exact_mod_cast hA
  have key : ((t1 : ℚ) - t2 < (A : ℚ) + 1) ∧ (-(A : ℚ) - 1 < (t1 : ℚ) - t2) := by
    rcases le_total 0 x1 with hx1 | hx1 <;> rcases le_total 0 x2 with hx2 | hx2
    · obtain ⟨a1, a2⟩ := h1.1 hx1; obtain ⟨b1, b2⟩ := h2.1 hx2
      constructor <;> linarith
    · obtain ⟨a1, a2⟩ := h1.1 hx1; obtain ⟨b1, b2⟩ := h2.2 hx2
      constructor <;> linarith
    · obtain ⟨a1, a2⟩ := h1.2 hx1; obtain ⟨b1, b2⟩ := h2.1 hx2
      constructor <;> linarith
    · obtain ⟨a1, a2⟩ := h1.2 hx1; obtain ⟨b1, b2⟩ := h2.2 hx2
      constructor <;> linarith
  obtain ⟨k1, k2⟩ := key
  have c1 : ((t1 - t2 : Int) : ℚ) < ((A + 1 : Int) : ℚ) := by push_cast; linarith
  have c2 : ((-A - 1 : Int) : ℚ) < ((t1 - t2 : Int) : ℚ) := by push_cast; linarith
  have c3 : t1 - t2 < A + 1 := by exact_mod_cast c1
  have c4 : -A - 1 < t1 - t2 := by exact_mod_cast c2
  omega

/-! ### The glide position: projection and truncation -/

theorem proj_range1 (P p A v : ℚ) (hPl : p - 1 / 50 ≤ P) (hPu : P ≤ p + 1 / 50)
    (hp1 : 2 / 5 ≤ p) (hp2 : p ≤ 83000) (hA1 : 1 ≤ |A|)
    (hv2 : v ≤ 182) (hav : 16777215 / 16777216 * |A| ≤ v) :
    1 / 1000000 ≤ |P * A| ∧ |P * A| ≤ 1000000000 := by
  have hP0 : 0 < P := by linarith
  have hA2 : |A| ≤ 183 := by linarith
  rw [abs_mul, abs_of_pos hP0]
  have h1 : (19 / 50 : ℚ) * 1 ≤ P * |A| := mul_le_mul (by linarith) hA1 (by norm_num) hP0.le
  have h2 : P * |A| ≤ 83001 * 183 := mul_le_mul (by linarith) hA2 (abs_nonneg A) (by norm_num)
  constructor <;> linarith

theorem proj_range2 (P p A v U : ℚ) (hPl : p - 1 / 50 ≤ P) (hPu : P ≤ p + 1 / 50)
    (hp1 : 2 / 5 ≤ p) (hp2 : p ≤ 83000) (hA1 : 1 ≤ |A|)
    (hv1 : 16777215 / 16777216 ≤ v) (hv2 : v ≤ 182) (hav : 16777215 / 16777216 * |A| ≤ v)
    (hU : |U - P * A| ≤ |P * A| / 16777216) :
    1 / 1000000 ≤ |U / v| ∧ |U / v| ≤ 1000000000 := by
  have hP0 : 0 < P := by linarith
  have hv0 : 0 < v := by linarith
  have hA2 : |A| ≤ 183 := by linarith
  have hPA : |P * A| = P * |A| := by rw [abs_mul, abs_of_pos hP0]
  rw [hPA] at hU
  have h1 : (19 / 50 : ℚ) * 1 ≤ P * |A| := mul_le_mul (by linarith) hA1 (by norm_num) hP0.le
  have h2 : P * |A| ≤ 83001 * 183 := mul_le_mul (by linarith) hA2 (abs_nonneg A) (by norm_num)
  have t1 : |U| ≤ |P * A| + |U - P * A| := by
    have := abs_add (P * A) (U - P * A)
    simpa using this
  have t2 : |P * A| ≤ |U| + |U - P * A| := by
    have := abs_sub_abs_le_abs_sub (P * A) U
    rw [abs_sub_comm (P * A) U] at this
    linarith
  rw [hPA] at t1 t2
  rw [abs_div, abs_of_pos hv0]
  constructor
  · rw [le_div_iff₀ hv0]; linarith
  · rw [div_le_iff₀ hv0]; linarith

theorem proj_arith (P p A v U x : ℚ) (hPl : p - 1 / 50 ≤ P) (hPu : P ≤ p + 1 / 50)
    (hp1 : 2 / 5 ≤ p) (hp2 : p ≤ 83000)
    (hv1 : 16777215 / 16777216 ≤ v)
    (hU : |U - P * A| ≤ |P * A| / 16777216) (hx : |x - U / v| ≤ |U / v| / 16777216) :
    |x - p * A / v| ≤ |A| / v / 25 := by
  have hP0 : 0 < P := by linarith
  have hv0 : 0 < v := by linarith
  have hPA : |P * A| = P * |A| := by rw [abs_mul, abs_of_pos hP0]
  rw [hPA] at hU
  have t1 : |U| ≤ |P * A| + |U - P * A| := by
    have := abs_add (P * A) (U - P * A)
    simpa using this
  rw [hPA] at t1
  set r : ℚ := |A| / v with hr
  have hr0 : 0 ≤ r := div_nonneg (abs_nonneg A) hv0.le
  have hAr : |A| = r * v := by rw [hr]; field_simp
  have hUv : |U / v| ≤ P * r * (16777217 / 16777216) := by
    rw [abs_div, abs_of_pos hv0, div_le_iff₀ hv0]
    have : P * r * (16777217 / 16777216) * v = P * (r * v) * (16777217 / 16777216) := by ring
    rw [this, ← hAr]; linarith
  have e1 : |x - U / v| ≤ P * r * (16777217 / 16777216) / 16777216 :=
    le_trans hx (div_le_div_of_nonneg_right hUv (by norm_num))
  have e2 : |U / v - P * A / v| ≤ P * r / 16777216 := by
    rw [← sub_div, abs_div, abs_of_pos hv0, div_le_iff₀ hv0]
    have : P * r / 16777216 * v = P * (r * v) / 16777216 := by ring
    rw [this, ← hAr]; exact hU
  have e3 : |P * A / v - p * A / v| ≤ r / 50 := by
    have : P * A / v - p * A / v = (P - p) * (A / v) := by ring
    rw [this, abs_mul, abs_div, abs_of_pos hv0, ← hr]
    have hPp : |P - p| ≤ 1 / 50 := by rw [abs_le]; constructor <;> linarith
    have := mul_le_mul_of_nonneg_right hPp hr0
    linarith
  have hsum : x - p * A / v = (x - U / v) + (U / v - P * A / v) + (P * A / v - p * A / v) := by
    ring
  have hPr : P * r ≤ 83001 * r := mul_le_mul_of_nonneg_right (by linarith) hr0
  calc |x - p * A / v|
      = |(x - U / v) + (U / v - P * A / v) + (P * A / v - p * A / v)| := by rw [← hsum]
    _ ≤ |x - U / v| + |U / v - P * A / v| + |P * A / v - p * A / v| := abs_add_three _ _ _
    _ ≤ P * r * (16777217 / 16777216) / 16777216 + P * r / 16777216 + r / 50 := by linarith
    _ ≤ r / 25 := by linarith

theorem glide_proj_zero (P v0 : Flt) (hP : P.isFin = true) (hv : v0.isFin = true)
    (hv0 : v0.val ≠ 0) : glide_proj P v0 0 = .fin 0 0 := by
  cases P with
  | fin mp ep =>
    cases v0 with
    | fin mv ev =>
      have hmv : mv ≠ 0 := by
        rintro rfl; simp [Flt.val] at hv0
      have h0 : Flt.ofInt binary32 0 = .fin 0 0 := by
        simp [Flt.ofInt, roundDy_zero]
      simp [glide_proj, h0, Flt.mul, Flt.div, roundDy_zero, hmv, roundQ]
    | inf s => simp [Flt.isFin] at hv
    | nan => simp [Flt.isFin] at hv
  | inf s => simp [Flt.isFin] at hP
  | nan => simp [Flt.isFin] at hP

theorem pos_bound (v K A : ℚ) (hv1 : 16777215 / 16777216 ≤ v) (hv2 : v ≤ 182)
    (hA : |A| ≤ 128) (hp0 : 0 ≤ v * K - 13421773 / 33554432 * K * K / 2) :
    |(v * K - 13421773 / 33554432 * K * K / 2) * A / v| ≤ 29120 := by
  have hv0 : 0 < v := by linarith
  have hsq := sq_nonneg (K - v * (33554432 / 13421773))
  have hp : v * K - 13421773 / 33554432 * K * K / 2 ≤ v * v * (33554432 / 13421773) / 2 := by
    have e : (K - v * (33554432 / 13421773)) ^ 2
        = K * K - 2 * (33554432 / 13421773) * (v * K)
          + (33554432 / 13421773) ^ 2 * (v * v) := by ring
    rw [e] at hsq
    have h3 : 0 ≤ 13421773 / 33554432 / 2 * (K * K - 2 * (33554432 / 13421773) * (v * K)
          + (33554432 / 13421773) ^ 2 * (v * v)) := mul_nonneg (by norm_num) hsq
    have e2 : 13421773 / 33554432 / 2 * (K * K - 2 * (33554432 / 13421773) * (v * K)
          + (33554432 / 13421773) ^ 2 * (v * v))
        = 13421773 / 33554432 * K * K / 2 - v * K + v * v * (33554432 / 13421773) / 2 := by
      ring
    rw [e2] at h3
    linarith
  rw [abs_div, abs_mul, abs_of_nonneg hp0, abs_of_pos hv0, div_le_iff₀ hv0]
  have h4 : (v * K - 13421773 / 33554432 * K * K / 2) * |A|
      ≤ (v * v * (33554432 / 13421773) / 2) * 128 :=
    mul_le_mul hp hA (abs_nonneg A) (by positivity)
  have h5 : v * v ≤ 182 * v := mul_le_mul_of_nonneg_right hv2 hv0.le
  linarith

theorem wrap16_id (t : Int) (h1 : -32768 ≤ t) (h2 : t ≤ 32767) : wrap16 t = t := by
  unfold wrap16; omega

theorem wrap8_id (t : Int) (h1 : -128 ≤ t) (h2 : t ≤ 127) : wrap8 t = t := by
  unfold wrap8; omega

theorem toInt32_isTrunc (x : Flt) (hx : x.isFin = true) (hb : |x.val| < 29122) :
    IsTrunc (wrap16 (Flt.toInt32 x)) x.val := by
  cases x with
  | fin m e =>
    have ht := truncDy_spec m e
    have hv : (Flt.fin m e).val = (m : ℚ) * (2 : ℚ) ^ e := rfl
    rw [hv] at hb ⊢
    obtain ⟨b1, b2⟩ := isTrunc_abs_le _ _ 29121 ht (by push_cast; linarith) (by norm_num)
    have h32 : Flt.toInt32 (.fin m e) = Flt.truncDy m e := by
      simp only [Flt.toInt32]
      rw [if_neg (by omega), if_neg (by omega)]
    rw [h32, wrap16_id _ (by omega) (by omega)]
    exact ht
  | inf s => simp [Flt.isFin] at hx
  | nan => simp [Flt.isFin] at hx

/-- The position computed by `cursor_glide` on its `k`-th call, along one axis
with initial velocity `a`: the truncation of a value within `|a| / v / 25` of
`(v k − c k² / 2) a / v`. -/
theorem glide_pos_spec (v0 : Flt) (a : Int) (k : Nat) (hv : v0.isFin = true)
    (hv1 : 16777215 / 16777216 ≤ v0.val) (hv2 : v0.val ≤ 182) (hk1 : 1 ≤ k)
    (hw : 2 / 5 ≤ v0.val - 13421773 / 33554432 * ((k : ℚ) - 1 / 2))
    (ha1 : -128 ≤ a) (ha2 : a ≤ 128) (hav : 16777215 / 16777216 * |(a : ℚ)| ≤ v0.val) :
    ∃ x : ℚ,
      IsTrunc (wrap16 (Flt.toInt32 (glide_proj (glide_p v0 (Flt.toF32 (dbl 4 10)) k) v0 a))) x ∧
      |x - (v0.val * k - 13421773 / 33554432 * k * k / 2) * a / v0.val|
        ≤ |(a : ℚ)| / v0.val / 25 := by
  have hK1 : (1 : ℚ) ≤ (k : ℚ) := by exact_mod_cast hk1
  obtain ⟨hK2, _, _, _, _, hp1, hp2⟩ := glide_arith1 v0.val k hv1 hv2 hK1 hw
  have hp1' : (2 / 5 : ℚ) ≤ v0.val * k - 13421773 / 33554432 * k * k / 2 := by linarith
  obtain ⟨Pf, Pl, Pu⟩ := glide_p_error v0 k hv hv1 hv2 hk1 hw
  have hv0 : 0 < v0.val := by linarith
  by_cases ha0 : a = 0
  · subst ha0
    rw [glide_proj_zero _ _ Pf hv hv0.ne']
    refine ⟨0, ?_, ?_⟩
    · have : wrap16 (Flt.toInt32 (.fin 0 0)) = 0 := by decide
      rw [this]; exact isTrunc_zero
    · simp
  · have hA1 : (1 : ℚ) ≤ |(a : ℚ)| := by
      have : 1 ≤ |a| := Int.one_le_abs ha0
      exact_mod_cast this
    have hA2 : |(a : ℚ)| ≤ 128 := by
      rw [abs_le]; constructor
      · exact_mod_cast ha1
      · exact_mod_cast ha2
    obtain ⟨af, av⟩ := Flt.ofInt_exact a (by omega)
    obtain ⟨q1, q2⟩ := proj_range1 _ _ (a : ℚ) _ Pl Pu hp1' hp2 hA1 hv2 hav
    have rU := Flt.mul_rounds _ (Flt.ofInt binary32 a) Pf af (by rw [av]; exact q1)
      (by rw [av]; exact q2)
    rw [av] at rU
    obtain ⟨q3, q4⟩ := proj_range2 _ _ (a : ℚ) _ _ Pl Pu hp1' hp2 hA1 hv1 hv2 hav rU.2
    have rX := Flt.div_rounds _ v0 rU.1 hv hv0.ne' q3 q4
    have herr := proj_arith _ _ (a : ℚ) _ _ _ Pl Pu hp1' hp2 hv1 rU.2 rX.2
    have hXb := pos_bound v0.val k (a : ℚ) hv1 hv2 hA2 (by linarith)
    have hr : |(a : ℚ)| / v0.val / 25 ≤ 1 := by
      rw [div_div, div_le_iff₀ (by positivity)]
      linarith
    refine ⟨_, toInt32_isTrunc _ rX.1 ?_, herr⟩
    have t := abs_sub_abs_le_abs_sub
      (Flt.div binary32 (Flt.mul binary32 (glide_p v0 (Flt.toF32 (dbl 4 10)) k)
        (Flt.ofInt binary32 a)) v0).val
      ((v0.val * k - 13421773 / 33554432 * k * k / 2) * a / v0.val)
    have herr' : |(Flt.div binary32 (Flt.mul binary32 (glide_p v0 (Flt.toF32 (dbl 4 10)) k)
        (Flt.ofInt binary32 a)) v0).val
        - (v0.val * k - 13421773 / 33554432 * k * k / 2) * a / v0.val| ≤ 1 :=
      le_trans herr hr
    have : glide_proj (glide_p v0 (Flt.toF32 (dbl 4 10)) k) v0 a
        = Flt.div binary32 (Flt.mul binary32 (glide_p v0 (Flt.toF32 (dbl 4 10)) k)
          (Flt.ofInt binary32 a)) v0 := rfl
    rw [this]
    linarith

/-! ### The glide as a sequence of positions -/

theorem isTrunc_neg (t : Int) (x : ℚ) (h : IsTrunc t x) : IsTrunc (-t) (-x) := by
  obtain ⟨h1, h2⟩ := h
  constructor
  · intro hx
    obtain ⟨a, b⟩ := h2 (by linarith)
    push_cast
    constructor <;> linarith
  · intro hx
    obtain ⟨a, b⟩ := h1 (by linarith)
    push_cast
    constructor <;> linarith

/-- The last call: the velocity has fallen to `17/20` or less, so the position
moves by at most 1. -/
theorem stop_arith (r x0 x1 X0 X1 : ℚ) (t0 t1 : Int)
    (hr1 : r ≤ 16777216 / 16777215) (hX : |X1 - X0| ≤ r * (17 / 20))
    (e0 : |x0 - X0| ≤ r / 25) (e1 : |x1 - X1| ≤ r / 25)
    (i0 : IsTrunc t0 x0) (i1 : IsTrunc t1 x1) : -1 ≤ t1 - t0 ∧ t1 - t0 ≤ 1 := by
  apply isTrunc_diff t1 t0 x1 x0 1 i1 i0 (le_refl _)
  have h : x1 - x0 = (x1 - X1) + (X1 - X0) + (X0 - x0) := by ring
  have e0' : |X0 - x0| ≤ r / 25 := by rw [abs_sub_comm]; exact e0
  calc |x1 - x0| = |(x1 - X1) + (X1 - X0) + (X0 - x0)| := by rw [h]
    _ ≤ |x1 - X1| + |X1 - X0| + |X0 - x0| := abs_add_three _ _ _
    _ ≤ r / 25 + r * (17 / 20) + r / 25 := by linarith
    _ < ((1 : Int) : ℚ) := by push_cast; linarith

/-- Three consecutive positions of a glide with positive initial velocity:
the steps are non-negative, at most `a`, and grow by at most 1. -/
theorem chain_arith (r w a' x0 x1 x2 X0 X1 X2 : ℚ) (a t0 t1 t2 : Int) (hr0 : 0 < r)
    (ha : a' = (a : ℚ)) (har : r * (w + 13421773 / 33554432 + 2 / 25) ≤ a') (_ha1 : 1 ≤ a)
    (hw : 2 / 5 ≤ w)
    (hX1 : X1 - X0 = r * (w + 13421773 / 33554432)) (hX2 : X2 - X1 = r * w)
    (e0 : |x0 - X0| ≤ r / 25) (e1 : |x1 - X1| ≤ r / 25) (e2 : |x2 - X2| ≤ r / 25)
    (h0 : 0 ≤ x0)
    (i0 : IsTrunc t0 x0) (i1 : IsTrunc t1 x1) (i2 : IsTrunc t2 x2) :
    0 ≤ t1 - t0 ∧ t1 - t0 ≤ a ∧ 0 ≤ t2 - t1 ∧ t2 - t1 ≤ a ∧ t2 - t1 ≤ t1 - t0 + 1 := by
  rw [abs_le] at e0 e1 e2
  have hrw : 0 < r * w := mul_pos hr0 (by linarith)
  have e3 : r * (w + 13421773 / 33554432) = r * w + r * (13421773 / 33554432) := by ring
  have e4 : r * (w + 13421773 / 33554432 + 2 / 25)
      = r * w + r * (13421773 / 33554432) + r * (2 / 25) := by ring
  rw [e3] at hX1
  rw [e4] at har
  have hrw2 : r * (2 / 5) ≤ r * w := mul_le_mul_of_nonneg_left hw hr0.le
  have d1 : 0 < x1 - x0 := by linarith
  have d2 : 0 < x2 - x1 := by linarith
  obtain ⟨a0, b0⟩ := i0.1 h0
  obtain ⟨a1, b1⟩ := i1.1 (by linarith)
  obtain ⟨a2, b2⟩ := i2.1 (by linarith)
  have c1 : ((-1 : Int) : ℚ) < ((t1 - t0 : Int) : ℚ) := by push_cast; linarith
  have c2 : ((t1 - t0 : Int) : ℚ) < ((a + 1 : Int) : ℚ) := by push_cast; linarith
  have c3 : ((-1 : Int) : ℚ) < ((t2 - t1 : Int) : ℚ) := by push_cast; linarith
  have c4 : ((t2 - t1 : Int) : ℚ) < ((a + 1 : Int) : ℚ) := by push_cast; linarith
  have c5 : ((t2 - t1 : Int) : ℚ) < ((t1 - t0 + 2 : Int) : ℚ) := by push_cast; linarith
  have c1' : -1 < t1 - t0 := by exact_mod_cast c1
  have c2' : t1 - t0 < a + 1 := by exact_mod_cast c2
  have c3' : -1 < t2 - t1 := by exact_mod_cast c3
  have c4' : t2 - t1 < a + 1 := by exact_mod_cast c4
  have c5' : t2 - t1 < t1 - t0 + 2 := by exact_mod_cast c5
  omega

/-- The number of the last call: the first `n ≥ 1` at which the velocity
`v − c (n − 1/2)` is at most `17/20`; there it is still at least `2/5`, and
`n − 1 ≤ (5/2) √S`. -/
theorem exists_last_call (v S : ℚ) (hv1 : 16777215 / 16777216 ≤ v)
    (hS : v ^ 2 ≤ S * (1000001 / 1000000)) (hS2 : S ≤ 32768) :
    ∃ n : Nat, 1 ≤ n ∧ 2 / 5 ≤ v - 13421773 / 33554432 * ((n : ℚ) - 1 / 2) ∧
      v - 13421773 / 33554432 * ((n : ℚ) - 1 / 2) ≤ 17 / 20 ∧
      4 * ((n : ℚ) - 1) ^ 2 ≤ 25 * S ∧ ((n : ℚ) - 1) * (13421773 / 33554432) ≤ v := by
  have hS0 : 0 ≤ S := by
    have : 0 ≤ v ^ 2 := sq_nonneg v
    linarith
  by_cases hy : v - 13421773 / 33554432 * (1 - 1 / 2) ≤ 17 / 20
  · refine ⟨1, le_refl _, ?_, ?_, ?_, ?_⟩
    · push_cast; linarith
    · push_cast; exact hy
    · push_cast; norm_num; exact hS0
    · push_cast; linarith
  · have hy' : 17 / 20 < v - 13421773 / 33554432 * (1 - 1 / 2) := not_le.mp hy
    obtain ⟨y, hydef⟩ : ∃ y : ℚ, y = (v - 17 / 20) * (33554432 / 13421773) + 1 / 2 :=
      ⟨_, rfl⟩
    have hy1 : 1 < y := by rw [hydef]; linarith
    have hvy : v = 13421773 / 33554432 * (y - 1 / 2) + 17 / 20 := by rw [hydef]; ring
    have hc1 : y ≤ (⌈y⌉₊ : ℚ) := Nat.le_ceil y
    have hc2 : (⌈y⌉₊ : ℚ) < y + 1 := Nat.ceil_lt_add_one (by linarith)
    refine ⟨⌈y⌉₊, ?_, ?_, ?_, ?_, ?_⟩
    · have : (1 : ℚ) ≤ (⌈y⌉₊ : ℚ) := by linarith
      exact_mod_cast this
    · rw [hvy]; linarith
    · rw [hvy]; linarith
    rotate_left
    · linarith
    · have h1 : (0 : ℚ) < (⌈y⌉₊ : ℚ) - 1 := by linarith
      have h2 : 2 * ((⌈y⌉₊ : ℚ) - 1) < 5 * v - 13 / 4 := by
        linarith
      have h3 : (2 * ((⌈y⌉₊ : ℚ) - 1)) * (2 * ((⌈y⌉₊ : ℚ) - 1))
          < (5 * v - 13 / 4) * (5 * v - 13 / 4) :=
        mul_lt_mul'' h2 h2 (by linarith) (by linarith)
      have h4 : (5 * v - 13 / 4) * (5 * v - 13 / 4) = 25 * v ^ 2 - 65 / 2 * v + 169 / 16 := by
        ring
      have h5 : 4 * ((⌈y⌉₊ : ℚ) - 1) ^ 2 = (2 * ((⌈y⌉₊ : ℚ) - 1)) * (2 * ((⌈y⌉₊ : ℚ) - 1)) := by
        ring
      rw [h5]
      linarith

/-! ### The run of a glide, call by call -/

theorem glide_run_stopped (nows : List Nat) (g : cursor_glide_context_t)
    (h : g.dx0 = 0 ∧ g.dy0 = 0) : glide_run nows g = ([], g) := by
  cases nows with
  | nil => rfl
  | cons now rest => simp [glide_run, h]

/-- One call of `cursor_glide` in a glide with velocity `(a, b)`, at
`counter = k`. -/
theorem cursor_glide_step (V C : Flt) (a b : Int) (k now : Nat) (g : cursor_glide_context_t)
    (hk : k + 1 < 65536) (hc : g.counter = k) (hv : g.v0 = V) (hC : g.coef = C)
    (hx : g.x = glide_pos V C a k) (hy : g.y = glide_pos V C b k)
    (ha : g.dx0 = a) (hb : g.dy0 = b) :
    (cursor_glide now g).1 = glide_delta V C a b k ∧
    (cursor_glide now g).2.counter = k + 1 ∧
    (cursor_glide now g).2.v0 = V ∧
    (cursor_glide now g).2.coef = C ∧
    (cursor_glide now g).2.x = glide_pos V C a (k + 1) ∧
    (cursor_glide now g).2.y = glide_pos V C b (k + 1) ∧
    (glide_stop (glide_delta V C a b k) →
      (cursor_glide now g).2.dx0 = 0 ∧ (cursor_glide now g).2.dy0 = 0) ∧
    (¬ glide_stop (glide_delta V C a b k) →
      (cursor_glide now g).2.dx0 = a ∧ (cursor_glide now g).2.dy0 = b) := by
  have hm : (k + 1) % 65536 = k + 1 := Nat.mod_eq_of_lt hk
  have hp : ∀ d, glide_pos V C d (k + 1)
      = wrap16 (Flt.toInt32 (glide_proj (glide_p V C (k + 1)) V d)) := by
    intro d
    simp [glide_pos]
  simp only [cursor_glide, glide_delta, glide_stop, hc, hv, hC, hx, hy, ha, hb, hm, ← hp]
  refine ⟨trivial, trivial, trivial, trivial, trivial, trivial, ?_, ?_⟩
  · intro h
    simp [h]
  · intro h
    simp [h]

/-- The deltas of a running glide are the `glide_delta`s of consecutive
counters, the run ends no later than at a counter `n` whose delta passes the
stop test, and it has ended once `nows` offers enough calls. -/
theorem glide_run_spec (V C : Flt) (a b : Int) (n : Nat) (hn : n < 65536)
    (hstop : ∀ m, m + 1 = n → glide_stop (glide_delta V C a b m)) (hab : ¬ (a = 0 ∧ b = 0)) :
    ∀ (nows : List Nat) (k : Nat) (g : cursor_glide_context_t), k < n →
      g.counter = k → g.v0 = V → g.coef = C →
      g.x = glide_pos V C a k → g.y = glide_pos V C b k → g.dx0 = a → g.dy0 = b →
      ∃ m, k + m ≤ n ∧
        (glide_run nows g).1 = (List.range m).map (fun i => glide_delta V C a b (k + i)) ∧
        (n ≤ k + nows.length → (glide_run nows g).2.dx0 = 0 ∧ (glide_run nows g).2.dy0 = 0 ∧
          1 ≤ m ∧ glide_stop (glide_delta V C a b (k + m - 1))) := by
  intro nows
  induction nows with
  | nil =>
    intro k g hk _ _ _ _ _ _ _
    refine ⟨0, by omega, by simp [glide_run], ?_⟩
    intro h
    simp at h
    omega
  | cons now rest ih =>
    intro k g hk hc hv hC hx hy ha hb
    obtain ⟨s1, s2, s3, s4, s5, s6, s7, s8⟩ :=
      cursor_glide_step V C a b k now g (by omega) hc hv hC hx hy ha hb
    have hgo : ¬ (g.dx0 = 0 ∧ g.dy0 = 0) := by rw [ha, hb]; exact hab
    have hrun : glide_run (now :: rest) g
        = ((cursor_glide now g).1 :: (glide_run rest (cursor_glide now g).2).1,
            (glide_run rest (cursor_glide now g).2).2) := by
      simp [glide_run, hgo]
    rw [hrun]
    by_cases hs : glide_stop (glide_delta V C a b k)
    · rw [glide_run_stopped rest _ (s7 hs)]
      refine ⟨1, by omega, by simp [s1, List.range_succ], ?_⟩
      intro _
      exact ⟨(s7 hs).1, (s7 hs).2, le_refl _, hs⟩
    · have hk1 : k + 1 < n := by
        rcases Nat.lt_or_ge (k + 1) n with h | h
        · exact h
        · exact absurd (hstop k (by omega)) hs
      obtain ⟨a', b'⟩ := s8 hs
      obtain ⟨m, m1, m2, m3⟩ := ih (k + 1) _ hk1 s2 s3 s4 s5 s6 a' b'
      refine ⟨m + 1, by omega, ?_, ?_⟩
      · rw [m2, s1, List.range_succ_eq_map]
        simp [Function.comp_def, Nat.add_assoc, Nat.add_comm 1]
      · intro h
        have e : k + (m + 1) - 1 = k + 1 + m - 1 := by omega
        rw [e]
        simp at h
        obtain ⟨z1, z2, z3, z4⟩ := m3 (by omega)
        exact ⟨z1, z2, by omega, z4⟩

/-! ### The initial velocity and the positions of a glide -/

theorem glide_v0_spec (a b : Int) (ha1 : -128 ≤ a) (ha2 : a ≤ 128) (hb1 : -128 ≤ b)
    (hb2 : b ≤ 128) (hab : ¬ (a = 0 ∧ b = 0)) :
    (hypotf (Flt.ofInt binary32 a) (Flt.ofInt binary32 b)).isFin = true ∧
    16777215 / 16777216 * |(a : ℚ)| ≤ (hypotf (Flt.ofInt binary32 a) (Flt.ofInt binary32 b)).val ∧
    16777215 / 16777216 * |(b : ℚ)| ≤ (hypotf (Flt.ofInt binary32 a) (Flt.ofInt binary32 b)).val ∧
    (hypotf (Flt.ofInt binary32 a) (Flt.ofInt binary32 b)).val ^ 2
      ≤ ((a : ℚ) ^ 2 + (b : ℚ) ^ 2) * (1000001 / 1000000) ∧
    16777215 / 16777216 ≤ (hypotf (Flt.ofInt binary32 a) (Flt.ofInt binary32 b)).val ∧
    (hypotf (Flt.ofInt binary32 a) (Flt.ofInt binary32 b)).val ≤ 182 := by
  obtain ⟨fa, va⟩ := Flt.ofInt_exact a (by norm_num; omega)
  obtain ⟨fb, vb⟩ := Flt.ofInt_exact b (by norm_num; omega)
  have hA1 : |(a : ℚ)| ≤ 128 := by
    rw [abs_le]; constructor
    · exact_mod_cast ha1
    · exact_mod_cast ha2
  have hB1 : |(b : ℚ)| ≤ 128 := by
    rw [abs_le]; constructor
    · exact_mod_cast hb1
    · exact_mod_cast hb2
  have hA2 : (a : ℚ) ^ 2 ≤ 16384 := by
    have := abs_nonneg (a : ℚ)
    rw [← sq_abs]; nlinarith
  have hB2 : (b : ℚ) ^ 2 ≤ 16384 := by
    have := abs_nonneg (b : ℚ)
    rw [← sq_abs]; nlinarith
  have hone : 1 ≤ |(a : ℚ)| ∨ 1 ≤ |(b : ℚ)| := by
    by_cases h : a = 0
    · right
      have hb : b ≠ 0 := fun hb => hab ⟨h, hb⟩
      have : (1 : Int) ≤ |b| := Int.one_le_abs hb
      exact_mod_cast this
    · left
      have : (1 : Int) ≤ |a| := Int.one_le_abs h
      exact_mod_cast this
  have hS1 : 1 ≤ (a : ℚ) ^ 2 + (b : ℚ) ^ 2 := by
    have h1 := sq_nonneg (a : ℚ)
    have h2 := sq_nonneg (b : ℚ)
    rcases hone with h | h
    · have : 1 ≤ |(a : ℚ)| ^ 2 := by nlinarith
      rw [sq_abs] at this; linarith
    · have : 1 ≤ |(b : ℚ)| ^ 2 := by nlinarith
      rw [sq_abs] at this; linarith
  cases hA : Flt.ofInt binary32 a with
  | fin mx ex =>
    cases hB : Flt.ofInt binary32 b with
    | fin my ey =>
      rw [hA] at va
      rw [hB] at vb
      obtain ⟨r1, r2, r3, r4⟩ := hypotf_spec mx ex my ey (by rw [va, vb]; exact hS1)
        (by rw [va, vb]; linarith)
      rw [va] at r2 r4
      rw [vb] at r3 r4
      have hv1 : 16777215 / 16777216 ≤ (hypotf (.fin mx ex) (.fin my ey)).val := by
        rcases hone with h | h <;> linarith
      refine ⟨r1, r2, r3, r4, hv1, ?_⟩
      by_contra hc
      have hc' : 182 < (hypotf (.fin mx ex) (.fin my ey)).val := not_le.mp hc
      nlinarith
    | inf s => rw [hB] at fb; simp [Flt.isFin] at fb
    | nan => rw [hB] at fb; simp [Flt.isFin] at fb
  | inf s => rw [hA] at fa; simp [Flt.isFin] at fa
  | nan => rw [hA] at fa; simp [Flt.isFin] at fa

theorem sign_arith (v p A x : ℚ) (hv : 0 < v) (hp : 1 / 25 ≤ p)
    (he : |x - p * A / v| ≤ |A| / v / 25) : 0 ≤ A * x := by
  rw [abs_le] at he
  rcases le_total 0 A with hA | hA
  · rw [abs_of_nonneg hA] at he
    have hq : 0 ≤ A / v := div_nonneg hA hv.le
    have e : p * A / v - A / v / 25 = (A / v) * (p - 1 / 25) := by ring
    have : 0 ≤ (A / v) * (p - 1 / 25) := mul_nonneg hq (by linarith)
    exact mul_nonneg hA (by linarith)
  · rw [abs_of_nonpos hA] at he
    have hq : 0 ≤ (-A) / v := div_nonneg (by linarith) hv.le
    have e : p * A / v + -A / v / 25 = -((-A / v) * (p - 1 / 25)) := by ring
    have : 0 ≤ (-A / v) * (p - 1 / 25) := mul_nonneg hq (by linarith)
    exact mul_nonneg_of_nonpos_of_nonpos hA (by linarith)

theorem pos_lower (v K : ℚ) (hK : 1 ≤ K)
    (hw : 2 / 5 ≤ v - 13421773 / 33554432 * (K - 1 / 2)) :
    1 / 25 ≤ v * K - 13421773 / 33554432 * K * K / 2 := by
  have e : v * K - 13421773 / 33554432 * K * K / 2
      = K * (v - 13421773 / 33554432 * (K - 1 / 2)) + 13421773 / 33554432 * K * (K - 1) / 2 := by
    ring
  have h1 : 1 * (2 / 5) ≤ K * (v - 13421773 / 33554432 * (K - 1 / 2)) :=
    mul_le_mul hK hw (by norm_num) (by linarith)
  have h2 : 0 ≤ 13421773 / 33554432 * K * (K - 1) / 2 := by
    have : 0 ≤ K * (K - 1) := mul_nonneg (by linarith) (by linarith)
    linarith
  rw [e]; linarith

/-- Every position of the glide up to call `n` is the truncation of a real
within `|a| / v / 25` of the exact position, of the sign of `a`. -/
theorem glide_pos_all (V : Flt) (a : Int) (n : Nat) (hv : V.isFin = true)
    (hv1 : 16777215 / 16777216 ≤ V.val) (hv2 : V.val ≤ 182)
    (ha1 : -128 ≤ a) (ha2 : a ≤ 128) (hav : 16777215 / 16777216 * |(a : ℚ)| ≤ V.val)
    (hn : 2 / 5 ≤ V.val - 13421773 / 33554432 * ((n : ℚ) - 1 / 2)) (k : Nat) (hk : k ≤ n) :
    ∃ x : ℚ, IsTrunc (glide_pos V (Flt.toF32 (dbl 4 10)) a k) x ∧
      |x - (V.val * k - 13421773 / 33554432 * k * k / 2) * a / V.val| ≤ |(a : ℚ)| / V.val / 25 ∧
      0 ≤ (a : ℚ) * x := by
  have hv0 : 0 < V.val := by linarith
  rcases Nat.eq_zero_or_pos k with h0 | hpos
  · subst h0
    refine ⟨0, ?_, ?_, by simp⟩
    · simp only [glide_pos, if_true]; exact isTrunc_zero
    · have : (0 : ℚ) ≤ |(a : ℚ)| / V.val / 25 := by positivity
      simpa using this
  · have hkq : (1 : ℚ) ≤ (k : ℚ) := by exact_mod_cast hpos
    have hkn : (k : ℚ) ≤ (n : ℚ) := by exact_mod_cast hk
    have hw : 2 / 5 ≤ V.val - 13421773 / 33554432 * ((k : ℚ) - 1 / 2) := by linarith
    obtain ⟨x, h1, h2⟩ := glide_pos_spec V a k hv hv1 hv2 hpos hw ha1 ha2 hav
    refine ⟨x, ?_, h2, ?_⟩
    · have hk0 : k ≠ 0 := by omega
      simp only [glide_pos, hk0, if_false]; exact h1
    · exact sign_arith V.val _ a x hv0 (pos_lower V.val k hkq hw) h2

/-! ### The end of the glide and the growth of its deltas -/

theorem isTrunc_zero_eq (t : Int) (h : IsTrunc t 0) : t = 0 := by
  obtain ⟨a, b⟩ := h.1 (le_refl _)
  have a' : t ≤ 0 := by exact_mod_cast a
  have b' : (0 : Int) < t + 1 := by exact_mod_cast b
  omega

theorem step_exact (v A K : ℚ) (hv : v ≠ 0) :
    (v * (K + 1) - 13421773 / 33554432 * (K + 1) * (K + 1) / 2) * A / v
      - (v * K - 13421773 / 33554432 * K * K / 2) * A / v
      = A / v * (v - 13421773 / 33554432 * (K + 1 - 1 / 2)) := by
  field_simp
  ring

/-- At the call whose velocity has fallen to `17/20` or less, the component
moves by at most 1. -/
theorem glide_axis_stop (V : Flt) (a : Int) (m : Nat) (hv : V.isFin = true)
    (hv1 : 16777215 / 16777216 ≤ V.val) (hv2 : V.val ≤ 182)
    (ha1 : -128 ≤ a) (ha2 : a ≤ 128) (hav : 16777215 / 16777216 * |(a : ℚ)| ≤ V.val)
    (hw1 : 2 / 5 ≤ V.val - 13421773 / 33554432 * (((m + 1 : Nat) : ℚ) - 1 / 2))
    (hw2 : V.val - 13421773 / 33554432 * (((m + 1 : Nat) : ℚ) - 1 / 2) ≤ 17 / 20) :
    wrap8 (glide_pos V (Flt.toF32 (dbl 4 10)) a (m + 1) - glide_pos V (Flt.toF32 (dbl 4 10)) a m) ≤ 1 ∧
    -1 ≤ wrap8 (glide_pos V (Flt.toF32 (dbl 4 10)) a (m + 1)
      - glide_pos V (Flt.toF32 (dbl 4 10)) a m) := by
  have hv0 : 0 < V.val := by linarith
  obtain ⟨x0, i0, e0, _⟩ := glide_pos_all V a (m + 1) hv hv1 hv2 ha1 ha2 hav hw1 m (by omega)
  obtain ⟨x1, i1, e1, _⟩ := glide_pos_all V a (m + 1) hv hv1 hv2 ha1 ha2 hav hw1 (m + 1) (le_refl _)
  have hr1 : |(a : ℚ)| / V.val ≤ 16777216 / 16777215 := by
    rw [div_le_iff₀ hv0]; linarith
  have hr0 : 0 ≤ |(a : ℚ)| / V.val := by positivity
  have hw1' := hw1
  have hw2' := hw2
  push_cast at hw1' hw2'
  have hX : |(V.val * ((m : ℚ) + 1)
      - 13421773 / 33554432 * ((m : ℚ) + 1) * ((m : ℚ) + 1) / 2) * a / V.val
      - (V.val * m - 13421773 / 33554432 * m * m / 2) * a / V.val|
      ≤ |(a : ℚ)| / V.val * (17 / 20) := by
    rw [step_exact V.val a m (ne_of_gt hv0), abs_mul, abs_div, abs_of_pos hv0,
      abs_of_nonneg (by linarith : (0 : ℚ) ≤ V.val - 13421773 / 33554432 * ((m : ℚ) + 1 - 1 / 2))]
    exact mul_le_mul_of_nonneg_left hw2' hr0
  have e1'' : |x1 - (V.val * ((m : ℚ) + 1)
      - 13421773 / 33554432 * ((m : ℚ) + 1) * ((m : ℚ) + 1) / 2) * a / V.val|
      ≤ |(a : ℚ)| / V.val / 25 := by
    have := e1
    push_cast at this
    exact this
  obtain ⟨d1, d2⟩ := stop_arith (|(a : ℚ)| / V.val) x0 x1 _ _ _ _ hr1 hX e0 e1'' i0 i1
  rw [wrap8_id _ (by omega) (by omega)]
  exact ⟨d2, d1⟩

theorem chain_core (v : ℚ) (a : Int) (j : Nat) (t0 t1 t2 : Int) (x0 x1 x2 : ℚ)
    (hv1 : 16777215 / 16777216 ≤ v) (ha1 : 1 ≤ a)
    (hw : 2 / 5 ≤ v - 13421773 / 33554432 * (((j + 2 : Nat) : ℚ) - 1 / 2))
    (i0 : IsTrunc t0 x0) (i1 : IsTrunc t1 x1) (i2 : IsTrunc t2 x2)
    (e0 : |x0 - (v * (j : Nat) - 13421773 / 33554432 * (j : Nat) * (j : Nat) / 2) * a / v|
      ≤ |(a : ℚ)| / v / 25)
    (e1 : |x1 - (v * ((j + 1 : Nat) : ℚ)
      - 13421773 / 33554432 * ((j + 1 : Nat) : ℚ) * ((j + 1 : Nat) : ℚ) / 2) * a / v|
      ≤ |(a : ℚ)| / v / 25)
    (e2 : |x2 - (v * ((j + 2 : Nat) : ℚ)
      - 13421773 / 33554432 * ((j + 2 : Nat) : ℚ) * ((j + 2 : Nat) : ℚ) / 2) * a / v|
      ≤ |(a : ℚ)| / v / 25)
    (h0 : 0 ≤ (a : ℚ) * x0) :
    0 ≤ t1 - t0 ∧ t1 - t0 ≤ a ∧ 0 ≤ t2 - t1 ∧ t2 - t1 ≤ a ∧ t2 - t1 ≤ t1 - t0 + 1 := by
  have hv0 : 0 < v := by linarith
  have haq : (1 : ℚ) ≤ (a : ℚ) := by exact_mod_cast ha1
  have ha0 : (0 : ℚ) < (a : ℚ) := by linarith
  have hr0 : 0 < (a : ℚ) / v := div_pos ha0 hv0
  have hx0 : 0 ≤ x0 := nonneg_of_mul_nonneg_right h0 ha0
  rw [abs_of_pos ha0] at e0 e1 e2
  push_cast at hw e1 e2
  have hj0 : (0 : ℚ) ≤ (j : ℚ) := Nat.cast_nonneg j
  have hX1 : (v * ((j : ℚ) + 1) - 13421773 / 33554432 * ((j : ℚ) + 1) * ((j : ℚ) + 1) / 2) * a / v
      - (v * j - 13421773 / 33554432 * j * j / 2) * a / v
      = a / v * (v - 13421773 / 33554432 * ((j : ℚ) + 2 - 1 / 2) + 13421773 / 33554432) := by
    rw [step_exact v a j (ne_of_gt hv0)]; ring
  have hX2 : (v * ((j : ℚ) + 2) - 13421773 / 33554432 * ((j : ℚ) + 2) * ((j : ℚ) + 2) / 2) * a / v
      - (v * ((j : ℚ) + 1) - 13421773 / 33554432 * ((j : ℚ) + 1) * ((j : ℚ) + 1) / 2) * a / v
      = a / v * (v - 13421773 / 33554432 * ((j : ℚ) + 2 - 1 / 2)) := by
    have := step_exact v a ((j : ℚ) + 1) (ne_of_gt hv0)
    have e : (j : ℚ) + 1 + 1 = (j : ℚ) + 2 := by ring
    rw [e] at this
    exact this
  have har : (a : ℚ) / v * (v - 13421773 / 33554432 * ((j : ℚ) + 2 - 1 / 2)
      + 13421773 / 33554432 + 2 / 25) ≤ (a : ℚ) := by
    have h1 : v - 13421773 / 33554432 * ((j : ℚ) + 2 - 1 / 2) + 13421773 / 33554432 + 2 / 25 ≤ v := by
      linarith
    calc (a : ℚ) / v * (v - 13421773 / 33554432 * ((j : ℚ) + 2 - 1 / 2)
          + 13421773 / 33554432 + 2 / 25) ≤ (a : ℚ) / v * v := mul_le_mul_of_nonneg_left h1 hr0.le
      _ = (a : ℚ) := by field_simp
  exact chain_arith ((a : ℚ) / v) _ (a : ℚ) x0 x1 x2 _ _ _ a t0 t1 t2 hr0 rfl har ha1 hw hX1 hX2
    e0 e1 e2 hx0 i0 i1 i2

/-- Between consecutive calls up to the last one, the magnitude of the emitted
component grows by at most 1. -/
theorem glide_axis_chain (V : Flt) (a : Int) (n j : Nat) (hv : V.isFin = true)
    (hv1 : 16777215 / 16777216 ≤ V.val) (hv2 : V.val ≤ 182)
    (ha1 : -128 ≤ a) (ha2 : a ≤ 127) (hav : 16777215 / 16777216 * |(a : ℚ)| ≤ V.val)
    (hn : 2 / 5 ≤ V.val - 13421773 / 33554432 * ((n : ℚ) - 1 / 2)) (hj : j + 2 ≤ n) :
    |wrap8 (glide_pos V (Flt.toF32 (dbl 4 10)) a (j + 1 + 1)
        - glide_pos V (Flt.toF32 (dbl 4 10)) a (j + 1))|
      ≤ |wrap8 (glide_pos V (Flt.toF32 (dbl 4 10)) a (j + 1)
        - glide_pos V (Flt.toF32 (dbl 4 10)) a j)| + 1 := by
  obtain ⟨x0, i0, e0, s0⟩ := glide_pos_all V a n hv hv1 hv2 ha1 (by omega) hav hn j (by omega)
  obtain ⟨x1, i1, e1, _⟩ := glide_pos_all V a n hv hv1 hv2 ha1 (by omega) hav hn (j + 1) (by omega)
  obtain ⟨x2, i2, e2, _⟩ := glide_pos_all V a n hv hv1 hv2 ha1 (by omega) hav hn (j + 2) (by omega)
  have hjn : ((j + 2 : Nat) : ℚ) ≤ (n : ℚ) := by exact_mod_cast hj
  have hw : 2 / 5 ≤ V.val - 13421773 / 33554432 * (((j + 2 : Nat) : ℚ) - 1 / 2) := by linarith
  generalize glide_pos V (Flt.toF32 (dbl 4 10)) a j = t0 at i0 ⊢
  generalize glide_pos V (Flt.toF32 (dbl 4 10)) a (j + 1) = t1 at i1 ⊢
  have e12 : j + 1 + 1 = j + 2 := rfl
  rw [e12]
  generalize glide_pos V (Flt.toF32 (dbl 4 10)) a (j + 2) = t2 at i2 ⊢
  rcases lt_trichotomy a 0 with hneg | hzero | hpos
  · have n0 : |(-x0) - (V.val * (j : Nat) - 13421773 / 33554432 * (j : Nat) * (j : Nat) / 2)
        * ((-a : Int) : ℚ) / V.val| ≤ |((-a : Int) : ℚ)| / V.val / 25 := by
      have e : (-x0) - (V.val * (j : Nat) - 13421773 / 33554432 * (j : Nat) * (j : Nat) / 2)
          * ((-a : Int) : ℚ) / V.val
          = -(x0 - (V.val * (j : Nat) - 13421773 / 33554432 * (j : Nat) * (j : Nat) / 2)
            * a / V.val) := by push_cast; ring
      rw [e, abs_neg]; push_cast; rw [abs_neg]; exact e0
    have n1 : |(-x1) - (V.val * ((j + 1 : Nat) : ℚ)
        - 13421773 / 33554432 * ((j + 1 : Nat) : ℚ) * ((j + 1 : Nat) : ℚ) / 2)
        * ((-a : Int) : ℚ) / V.val| ≤ |((-a : Int) : ℚ)| / V.val / 25 := by
      have e : (-x1) - (V.val * ((j + 1 : Nat) : ℚ)
          - 13421773 / 33554432 * ((j + 1 : Nat) : ℚ) * ((j + 1 : Nat) : ℚ) / 2)
          * ((-a : Int) : ℚ) / V.val
          = -(x1 - (V.val * ((j + 1 : Nat) : ℚ)
          - 13421773 / 33554432 * ((j + 1 : Nat) : ℚ) * ((j + 1 : Nat) : ℚ) / 2)
            * a / V.val) := by push_cast; ring
      rw [e, abs_neg, Int.cast_neg, abs_neg]; exact e1
    have n2 : |(-x2) - (V.val * ((j + 2 : Nat) : ℚ)
        - 13421773 / 33554432 * ((j + 2 : Nat) : ℚ) * ((j + 2 : Nat) : ℚ) / 2)
        * ((-a : Int) : ℚ) / V.val| ≤ |((-a : Int) : ℚ)| / V.val / 25 := by
      have e : (-x2) - (V.val * ((j + 2 : Nat) : ℚ)
          - 13421773 / 33554432 * ((j + 2 : Nat) : ℚ) * ((j + 2 : Nat) : ℚ) / 2)
          * ((-a : Int) : ℚ) / V.val
          = -(x2 - (V.val * ((j + 2 : Nat) : ℚ)
          - 13421773 / 33554432 * ((j + 2 : Nat) : ℚ) * ((j + 2 : Nat) : ℚ) / 2)
            * a / V.val) := by push_cast; ring
      rw [e, abs_neg, Int.cast_neg, abs_neg]; exact e2
    have s0' : 0 ≤ ((-a : Int) : ℚ) * (-x0) := by push_cast; linarith
    obtain ⟨c1, c2, c3, c4, c5⟩ := chain_core V.val (-a) j (-t0) (-t1) (-t2) (-x0) (-x1) (-x2)
      hv1 (by omega) hw (isTrunc_neg _ _ i0) (isTrunc_neg _ _ i1) (isTrunc_neg _ _ i2)
      n0 n1 n2 s0'
    rw [wrap8_id _ (by omega) (by omega), wrap8_id _ (by omega) (by omega),
      abs_of_nonpos (by omega : t2 - t1 ≤ 0), abs_of_nonpos (by omega : t1 - t0 ≤ 0)]
    omega
  · subst hzero
    have z : ∀ (x X : ℚ), |x - X * ((0 : Int) : ℚ) / V.val| ≤ |((0 : Int) : ℚ)| / V.val / 25 →
        x = 0 := by
      intro x X h
      simp at h
      exact h
    rw [z _ _ e0] at i0
    rw [z _ _ e1] at i1
    rw [z _ _ e2] at i2
    rw [isTrunc_zero_eq _ i0, isTrunc_zero_eq _ i1, isTrunc_zero_eq _ i2]
    decide
  · obtain ⟨c1, c2, c3, c4, c5⟩ := chain_core V.val a j t0 t1 t2 x0 x1 x2
      hv1 (by omega) hw i0 i1 i2 e0 e1 e2 s0
    rw [wrap8_id _ (by omega) (by omega), wrap8_id _ (by omega) (by omega),
      abs_of_nonneg c3, abs_of_nonneg c1]
    omega

/-- The analysis of a glide with initial velocity `(a, b)`: a call number `n`
within the bound at which the stop test passes, and up to which the deltas
grow by at most 1 per call. -/
theorem glide_analysis (a b : Int) (ha1 : -128 ≤ a) (ha2 : a ≤ 127) (hb1 : -128 ≤ b)
    (hb2 : b ≤ 127) (hab : ¬ (a = 0 ∧ b = 0)) :
    ∃ n : Nat, 1 ≤ n ∧ n < 65536 ∧ 4 * ((n : Int) - 1) ^ 2 ≤ 25 * (a ^ 2 + b ^ 2) ∧
      ((n : ℚ) - 1) * (13421773 / 33554432)
        ≤ (hypotf (Flt.ofInt binary32 a) (Flt.ofInt binary32 b)).val ∧
      (∀ m, m + 1 = n → glide_stop (glide_delta
        (hypotf (Flt.ofInt binary32 a) (Flt.ofInt binary32 b)) (Flt.toF32 (dbl 4 10)) a b m)) ∧
      (∀ j, j + 2 ≤ n →
        |(glide_delta (hypotf (Flt.ofInt binary32 a) (Flt.ofInt binary32 b))
            (Flt.toF32 (dbl 4 10)) a b (j + 1)).dx|
          ≤ |(glide_delta (hypotf (Flt.ofInt binary32 a) (Flt.ofInt binary32 b))
            (Flt.toF32 (dbl 4 10)) a b j).dx| + 1 ∧
        |(glide_delta (hypotf (Flt.ofInt binary32 a) (Flt.ofInt binary32 b))
            (Flt.toF32 (dbl 4 10)) a b (j + 1)).dy|
          ≤ |(glide_delta (hypotf (Flt.ofInt binary32 a) (Flt.ofInt binary32 b))
            (Flt.toF32 (dbl 4 10)) a b j).dy| + 1) := by
  obtain ⟨hv, hav, hbv, hS, hv1, hv2⟩ :=
    glide_v0_spec a b ha1 (by omega) hb1 (by omega) hab
  generalize hypotf (Flt.ofInt binary32 a) (Flt.ofInt binary32 b) = V at hv hav hbv hS hv1 hv2 ⊢
  have hSi : a ^ 2 + b ^ 2 ≤ 32768 := by nlinarith
  have hSq : (a : ℚ) ^ 2 + (b : ℚ) ^ 2 ≤ 32768 := by exact_mod_cast hSi
  obtain ⟨n, n1, w1, w2, nb, nv⟩ := exists_last_call V.val _ hv1 hS hSq
  have nbi : 4 * ((n : Int) - 1) ^ 2 ≤ 25 * (a ^ 2 + b ^ 2) := by exact_mod_cast nb
  refine ⟨n, n1, ?_, nbi, nv, ?_, ?_⟩
  · by_contra hc
    have hc' : (65535 : Int) ≤ (n : Int) - 1 := by omega
    nlinarith
  · intro m hm
    subst hm
    obtain ⟨x1, x2⟩ := glide_axis_stop V a m hv hv1 hv2 ha1 (by omega) hav w1 w2
    obtain ⟨y1, y2⟩ := glide_axis_stop V b m hv hv1 hv2 hb1 (by omega) hbv w1 w2
    exact ⟨x1, x2, y1, y2⟩
  · intro j hj
    exact ⟨glide_axis_chain V a n j hv hv1 hv2 ha1 ha2 hav w1 hj,
      glide_axis_chain V b n j hv hv1 hv2 hb1 hb2 hbv w1 hj⟩

/-- The deltas of a whole glide, from `cursor_glide_start` on, are the first
`m` of the `glide_delta`s. -/
theorem glide_deltas_spec (now : Nat) (nows : List Nat) (g : cursor_glide_context_t)
    (n : Nat) (hn : n < 65536) (hn1 : 1 ≤ n)
    (hstop : ∀ m, m + 1 = n → glide_stop (glide_delta
      (hypotf (Flt.ofInt binary32 g.dx0) (Flt.ofInt binary32 g.dy0)) (Flt.toF32 (dbl 4 10))
      g.dx0 g.dy0 m))
    (hab : ¬ (g.dx0 = 0 ∧ g.dy0 = 0)) :
    ∃ m, m ≤ n ∧
      glide_deltas now nows g = (List.range m).map (fun i => glide_delta
        (hypotf (Flt.ofInt binary32 g.dx0) (Flt.ofInt binary32 g.dy0)) (Flt.toF32 (dbl 4 10))
        g.dx0 g.dy0 i) ∧
      (n ≤ nows.length + 1 →
        (glide_run nows (cursor_glide_start now g).2).2.dx0 = 0 ∧
        (glide_run nows (cursor_glide_start now g).2).2.dy0 = 0 ∧
        1 ≤ m ∧ glide_stop (glide_delta
          (hypotf (Flt.ofInt binary32 g.dx0) (Flt.ofInt binary32 g.dy0)) (Flt.toF32 (dbl 4 10))
          g.dx0 g.dy0 (m - 1))) := by
  obtain ⟨g0, hg0⟩ : ∃ g0 : cursor_glide_context_t, g0 =
      { g with
        coef := Flt.toF32 (dbl 4 10)
        interval := 10
        timer := now % 65536
        counter := 0
        v0 := hypotf (Flt.ofInt binary32 g.dx0) (Flt.ofInt binary32 g.dy0)
        x := 0
        y := 0
        z := 0 } := ⟨_, rfl⟩
  have hs : cursor_glide_start now g = cursor_glide now g0 := by rw [hg0]; rfl
  have hx0 : g0.dx0 = g.dx0 := by rw [hg0]
  have hy0 : g0.dy0 = g.dy0 := by rw [hg0]
  obtain ⟨m, m1, m2, m3⟩ := glide_run_spec
    (hypotf (Flt.ofInt binary32 g.dx0) (Flt.ofInt binary32 g.dy0)) (Flt.toF32 (dbl 4 10))
    g.dx0 g.dy0 n hn hstop hab (now :: nows) 0 g0 (by omega) (by rw [hg0]) (by rw [hg0])
    (by rw [hg0]) (by rw [hg0]; rfl) (by rw [hg0]; rfl) hx0 hy0
  have hrun : glide_run (now :: nows) g0
        = ((cursor_glide now g0).1 :: (glide_run nows (cursor_glide now g0).2).1,
            (glide_run nows (cursor_glide now g0).2).2) := by
    have : ¬ (g0.dx0 = 0 ∧ g0.dy0 = 0) := by rw [hx0, hy0]; exact hab
    simp [glide_run, this]
  rw [hrun] at m2 m3
  refine ⟨m, by omega, ?_, ?_⟩
  · simp only [Nat.zero_add] at m2
    rw [glide_deltas, hs]
    exact m2
  · intro h
    rw [hs]
    have := m3 (by simp only [List.length_cons]; omega)
    simp only [Nat.zero_add] at this
    exact this
/-! ### C9 -/

set_option maxRecDepth 100000 in
/-- C9, as stated, fails: the glide started with velocity `(4, 0)` emits
`dx = 3` on its first call and `dx = 4` on its second, so the second
delta is larger in magnitude than the first (`dx² + dy²` grows from 9 to 16). -/
theorem glide_delta_can_grow :
    glide_deltas 0 [10, 20] (glide_with 4 0) =
      [{ dx := 3, dy := 0, valid := true }, { dx := 4, dy := 0, valid := true },
       { dx := 3, dy := 0, valid := true }] ∧
    ∃ d1 d2 rest, glide_deltas 0 [10, 20] (glide_with 4 0) = d1 :: d2 :: rest ∧
      d1.dx ^ 2 + d1.dy ^ 2 < d2.dx ^ 2 + d2.dy ^ 2 := by
  have h : glide_deltas 0 [10, 20] (glide_with 4 0) =
      [{ dx := 3, dy := 0, valid := true }, { dx := 4, dy := 0, valid := true },
       { dx := 3, dy := 0, valid := true }] := by
    decide
  exact ⟨h, _, _, _, h, by decide⟩

/-- C9, amended: in every glide started by `cursor_glide_start` with
`(dx0, dy0) ≠ (0, 0)`, each component of the delta emitted by a call of
`cursor_glide` exceeds in magnitude that of the previous call by at most 1. -/
theorem glide_delta_grows_at_most_one (now : Nat) (nows : List Nat) (g : cursor_glide_context_t)
    (hx1 : -128 ≤ g.dx0) (hx2 : g.dx0 ≤ 127) (hy1 : -128 ≤ g.dy0) (hy2 : g.dy0 ≤ 127)
    (hne : ¬ (g.dx0 = 0 ∧ g.dy0 = 0)) :
    List.Chain' (fun d d' : cursor_glide_t => |d'.dx| ≤ |d.dx| + 1 ∧ |d'.dy| ≤ |d.dy| + 1)
      (glide_deltas now nows g) := by
  obtain ⟨n, n1, n2, _, _, hstop, hchain⟩ := glide_analysis g.dx0 g.dy0 hx1 hx2 hy1 hy2 hne
  obtain ⟨m, m1, m2, _⟩ := glide_deltas_spec now nows g n n2 n1 hstop hne
  rw [m2, List.chain'_map]
  cases m with
  | zero => simp
  | succ k =>
    rw [List.chain'_range_succ]
    intro j hj
    exact hchain j (by omega)

set_option maxRecDepth 100000 in
/-- The glide started with velocity `(4, 0)`. -/
theorem glide_delta_grows_at_most_one_witness :
    (-128 ≤ (glide_with 4 0).dx0 ∧ (glide_with 4 0).dx0 ≤ 127 ∧ -128 ≤ (glide_with 4 0).dy0 ∧
      (glide_with 4 0).dy0 ≤ 127 ∧ ¬ ((glide_with 4 0).dx0 = 0 ∧ (glide_with 4 0).dy0 = 0)) ∧
    List.Chain' (fun d d' : cursor_glide_t => |d'.dx| ≤ |d.dx| + 1 ∧ |d'.dy| ≤ |d.dy| + 1)
      (glide_deltas 0 [10, 20, 30, 40, 50, 60] (glide_with 4 0)) :=
  ⟨by decide, glide_delta_grows_at_most_one 0 [10, 20, 30, 40, 50, 60] (glide_with 4 0)
    (by decide) (by decide) (by decide) (by decide) (by decide)⟩


/-! ### C10 -/

/-- C10: a glide started by `cursor_glide_start` with `(dx0, dy0) ≠ (0, 0)`
makes at most `v0 / coef + 1` calls of `cursor_glide`, both for
`v0 = hypot(dx0, dy0)`, `coef = 0.4` (that is `(calls - 1)² · 4 ≤ 25 (dx0² + dy0²)`)
and for the `float` values the code holds; once more than `v0 / coef` calls
have followed the start, `dx0` and `dy0` are zero, the last delta emitted
had both components in `[-1, 1]`, and `cursor_glide_check` returns
`valid = false`. -/
theorem glide_ends_within_bound (now : Nat) (nows : List Nat) (g : cursor_glide_context_t)
    (hx1 : -128 ≤ g.dx0) (hx2 : g.dx0 ≤ 127) (hy1 : -128 ≤ g.dy0) (hy2 : g.dy0 ≤ 127)
    (hne : ¬ (g.dx0 = 0 ∧ g.dy0 = 0)) :
    4 * (((glide_deltas now nows g).length : Int) - 1) ^ 2 ≤ 25 * (g.dx0 ^ 2 + g.dy0 ^ 2) ∧
    (((glide_deltas now nows g).length : ℚ) - 1) * (cursor_glide_start now g).2.coef.val
      ≤ (cursor_glide_start now g).2.v0.val ∧
    (25 * (g.dx0 ^ 2 + g.dy0 ^ 2) < 4 * (nows.length : Int) ^ 2 →
      (glide_run nows (cursor_glide_start now g).2).2.dx0 = 0 ∧
      (glide_run nows (cursor_glide_start now g).2).2.dy0 = 0 ∧
      (∃ d, (glide_deltas now nows g).getLast? = some d ∧ glide_stop d) ∧
      ∀ t, (cursor_glide_check t (glide_run nows (cursor_glide_start now g).2).2).1.valid
        = false) := by
  obtain ⟨n, n1, n2, n3, n4, hstop, _⟩ := glide_analysis g.dx0 g.dy0 hx1 hx2 hy1 hy2 hne
  obtain ⟨m, m1, m2, m3⟩ := glide_deltas_spec now nows g n n2 n1 hstop hne
  have hlen : (glide_deltas now nows g).length = m := by rw [m2]; simp
  have hm1 : 1 ≤ m := by rw [← hlen]; simp [glide_deltas]
  have hmi : (0 : Int) ≤ (m : Int) - 1 := by omega
  have hmn : (m : Int) - 1 ≤ (n : Int) - 1 := by omega
  have hc : (cursor_glide_start now g).2.coef = Flt.toF32 (dbl 4 10) := rfl
  have hv : (cursor_glide_start now g).2.v0
      = hypotf (Flt.ofInt binary32 g.dx0) (Flt.ofInt binary32 g.dy0) := rfl
  refine ⟨?_, ?_, ?_⟩
  · rw [hlen]
    have : ((m : Int) - 1) ^ 2 ≤ ((n : Int) - 1) ^ 2 := pow_le_pow_left₀ hmi hmn 2
    linarith
  · rw [hlen, hc, hv, coef_val]
    have h1 : ((m : ℚ) - 1) ≤ ((n : ℚ) - 1) := by exact_mod_cast hmn
    have h2 : ((m : ℚ) - 1) * (13421773 / 33554432) ≤ ((n : ℚ) - 1) * (13421773 / 33554432) :=
      mul_le_mul_of_nonneg_right h1 (by norm_num)
    linarith
  · intro hL
    have hnl : n ≤ nows.length + 1 := by
      by_contra hcon
      have h1 : (nows.length : Int) ≤ (n : Int) - 1 := by omega
      have h2 : (nows.length : Int) ^ 2 ≤ ((n : Int) - 1) ^ 2 :=
        pow_le_pow_left₀ (by omega) h1 2
      linarith
    obtain ⟨z1, z2, z3, z4⟩ := m3 hnl
    refine ⟨z1, z2, ⟨_, ?_, z4⟩, ?_⟩
    · rw [m2]
      obtain ⟨k, rfl⟩ : ∃ k, m = k + 1 := ⟨m - 1, by omega⟩
      simp [List.range_succ]
    · intro t
      simp [cursor_glide_check, z1, z2]

set_option maxRecDepth 100000 in
/-- The glide started with velocity `(-3, 2)`, followed by ten more calls. -/
theorem glide_ends_within_bound_witness :
    (-128 ≤ (glide_with (-3) 2).dx0 ∧ (glide_with (-3) 2).dx0 ≤ 127 ∧
      -128 ≤ (glide_with (-3) 2).dy0 ∧ (glide_with (-3) 2).dy0 ≤ 127 ∧
      ¬ ((glide_with (-3) 2).dx0 = 0 ∧ (glide_with (-3) 2).dy0 = 0) ∧
      25 * ((glide_with (-3) 2).dx0 ^ 2 + (glide_with (-3) 2).dy0 ^ 2)
        < 4 * (([10, 20, 30, 40, 50, 60, 70, 80, 90, 100] : List Nat).length : Int) ^ 2) ∧
    (glide_run [10, 20, 30, 40, 50, 60, 70, 80, 90, 100]
      (cursor_glide_start 0 (glide_with (-3) 2)).2).2.dx0 = 0 ∧
    (glide_run [10, 20, 30, 40, 50, 60, 70, 80, 90, 100]
      (cursor_glide_start 0 (glide_with (-3) 2)).2).2.dy0 = 0 :=
  ⟨by decide,
    ((glide_ends_within_bound 0 [10, 20, 30, 40, 50, 60, 70, 80, 90, 100] (glide_with (-3) 2)
      (by decide) (by decide) (by decide) (by decide) (by decide)).2.2 (by decide)).1,
    ((glide_ends_within_bound 0 [10, 20, 30, 40, 50, 60, 70, 80, 90, 100] (glide_with (-3) 2)
      (by decide) (by decide) (by decide) (by decide) (by decide)).2.2 (by decide)).2.1⟩

/-! ### C11 -/

theorem circular_scroll_terminal (cfg : Config) (sc : circular_scroll_context_t)
    (td : pinnacle_data_t) (hz : sc.z ≠ 0) (ht : td.zValue ≠ 0)
    (hs : sc.state = SCROLL_VALID ∨ sc.state = NOT_SCROLL) :
    (circular_scroll cfg sc td).2.state = sc.state := by
  have hd : sc.state ≠ SCROLL_DETECTING := by
    rcases hs with h | h <;> rw [h] <;> decide
  simp [circular_scroll, scroll_detect, ht, hz, hd, scroll_emit_state]

theorem scroll_run_terminal (cfg : Config) (tds : List pinnacle_data_t)
    (hall : ∀ t ∈ tds, t.zValue ≠ 0) :
    ∀ sc : circular_scroll_context_t, sc.z ≠ 0 →
      sc.state = SCROLL_VALID ∨ sc.state = NOT_SCROLL →
      (scroll_run cfg sc tds).state = sc.state := by
  induction tds with
  | nil => intro sc _ _; rfl
  | cons t ts ih =>
    intro sc hz hs
    have ht : t.zValue ≠ 0 := hall t (List.mem_cons_self _ _)
    have h1 := circular_scroll_terminal cfg sc t hz ht hs
    rw [scroll_run, ih (fun u hu => hall u (List.mem_cons_of_mem _ hu)) _
      (by rw [circular_scroll_z]; exact ht) (by rw [h1]; exact hs), h1]

theorem circular_scroll_enter_detecting (cfg : Config) (sc : circular_scroll_context_t)
    (td : pinnacle_data_t) (h : (circular_scroll cfg sc td).2.state = SCROLL_DETECTING)
    (hpre : sc.state ≠ SCROLL_DETECTING) : sc.z = 0 ∧ td.zValue ≠ 0 := by
  by_cases ht : td.zValue = 0
  · rw [circular_scroll_state_lift cfg sc td ht] at h
    exact absurd h (by decide)
  · refine ⟨?_, ht⟩
    by_contra hz
    simp [circular_scroll, scroll_detect, ht, hz, hpre, scroll_emit_state] at h

/-- C11: the state machine of `circular_scroll` is monotone within a stroke.
From a context in which `z = 0` goes with `SCROLL_UNINITIALIZED` (as at
power-on, and again after every call): a call with `zValue = 0` leaves
`SCROLL_UNINITIALIZED`; `SCROLL_DETECTING` is entered only by the first touched
sample of a stroke (`scroll.z = 0`, `zValue ≠ 0`); and from `SCROLL_VALID` or
`NOT_SCROLL` the state is the same after any number of touched samples. -/
theorem scroll_state_monotone (cfg : Config) (sc : circular_scroll_context_t)
    (td : pinnacle_data_t) (tds : List pinnacle_data_t)
    (hinv : sc.z = 0 → sc.state = SCROLL_UNINITIALIZED) :
    ((circular_scroll cfg sc td).2.z = 0 →
      (circular_scroll cfg sc td).2.state = SCROLL_UNINITIALIZED) ∧
    (td.zValue = 0 → (circular_scroll cfg sc td).2.state = SCROLL_UNINITIALIZED) ∧
    ((circular_scroll cfg sc td).2.state = SCROLL_DETECTING → sc.state ≠ SCROLL_DETECTING →
      sc.z = 0 ∧ td.zValue ≠ 0) ∧
    ((∀ t ∈ tds, t.zValue ≠ 0) → sc.state = SCROLL_VALID ∨ sc.state = NOT_SCROLL →
      (scroll_run cfg sc tds).state = sc.state) := by
  refine ⟨?_, circular_scroll_state_lift cfg sc td, circular_scroll_enter_detecting cfg sc td, ?_⟩
  · intro h
    rw [circular_scroll_z] at h
    exact circular_scroll_state_lift cfg sc td h
  · intro hall hs
    have hz : sc.z ≠ 0 := by
      intro h0
      have := hinv h0
      rcases hs with h | h <;> rw [h] at this <;> exact absurd this (by decide)
    exact scroll_run_terminal cfg tds hall sc hz hs

set_option maxRecDepth 100000 in
/-- A stroke in `SCROLL_VALID` with reference vector `(400, 0)`, continued by
two touched samples. -/
theorem scroll_state_monotone_witness :
    (scroll_run Config.default
      { mag := .fin 400 0, x := 400, y := 0, z := 50, state := SCROLL_VALID, axis := false }
      [touch_at 812 812, touch_at 512 912]).state = SCROLL_VALID :=
  (scroll_state_monotone Config.default
    { mag := .fin 400 0, x := 400, y := 0, z := 50, state := SCROLL_VALID, axis := false }
    (touch_at 812 812) [touch_at 812 812, touch_at 512 912] (by decide)).2.2.2
    (by decide) (Or.inl rfl)

/-! ## Rounding in any format, and comparisons -/

theorem Flt.exists_fin (x : Flt) (h : x.isFin = true) : ∃ m e, x = .fin m e := by
  cases x with
  | fin m e => exact ⟨m, e, rfl⟩
  | inf s => simp [Flt.isFin] at h
  | nan => simp [Flt.isFin] at h

theorem Flt.val_eq_zero_iff (m e : Int) : (Flt.fin m e).val = 0 ↔ m = 0 := by
  have hz := two_zpow_pos e
  simp only [Flt.val]
  constructor
  · intro h
    rcases mul_eq_zero.mp h with h1 | h1
    · exact_mod_cast h1
    · exact absurd h1 hz.ne'
  · intro h; rw [h]; simp

theorem Flt.mul_spec (f : Fmt) (a b : Flt) (ha : a.isFin = true) (hb : b.isFin = true)
    (hlo : (2 : ℚ) ^ (f.elo + f.prec - 1) ≤ |a.val * b.val|)
    (hhi : |a.val * b.val| < (2 : ℚ) ^ f.ehi) :
    (Flt.mul f a b).isFin = true ∧
    |(Flt.mul f a b).val - a.val * b.val| ≤ |a.val * b.val| / (2 : ℚ) ^ (f.prec : Int) := by
  obtain ⟨m1, e1, rfl⟩ := Flt.exists_fin a ha
  obtain ⟨m2, e2, rfl⟩ := Flt.exists_fin b hb
  have hv : (Flt.fin m1 e1).val * (Flt.fin m2 e2).val
      = ((m1 * m2 : Int) : ℚ) * (2 : ℚ) ^ (e1 + e2) := by
    simp only [Flt.val]; push_cast
    rw [zpow_add₀ (by norm_num : (2 : ℚ) ≠ 0)]; ring
  rw [hv] at hlo hhi ⊢
  exact roundDy_spec f (m1 * m2) (e1 + e2) hlo hhi

theorem Flt.mul_zero (f : Fmt) (a b : Flt) (ha : a.isFin = true) (hb : b.isFin = true)
    (h0 : a.val = 0 ∨ b.val = 0) : Flt.mul f a b = .fin 0 0 := by
  obtain ⟨m1, e1, rfl⟩ := Flt.exists_fin a ha
  obtain ⟨m2, e2, rfl⟩ := Flt.exists_fin b hb
  have hm : m1 * m2 = 0 := by
    rcases h0 with h | h
    · rw [(Flt.val_eq_zero_iff m1 e1).mp h]; simp
    · rw [(Flt.val_eq_zero_iff m2 e2).mp h]; simp
  simp only [Flt.mul, hm, roundDy_zero]

theorem Flt.div_spec (f : Fmt) (a b : Flt) (ha : a.isFin = true) (hb : b.isFin = true)
    (hb0 : b.val ≠ 0)
    (hlo : (2 : ℚ) ^ (f.elo + f.prec - 1) ≤ |a.val / b.val|)
    (hhi : |a.val / b.val| < (2 : ℚ) ^ f.ehi) :
    (Flt.div f a b).isFin = true ∧
    |(Flt.div f a b).val - a.val / b.val| ≤ |a.val / b.val| / (2 : ℚ) ^ (f.prec : Int) := by
  obtain ⟨m1, e1, rfl⟩ := Flt.exists_fin a ha
  obtain ⟨m2, e2, rfl⟩ := Flt.exists_fin b hb
  have h2' : (2 : ℚ) ≠ 0 := by norm_num
  have hm2 : m2 ≠ 0 := by
    rintro rfl; simp [Flt.val] at hb0
  have hm2q : (m2 : ℚ) ≠ 0 := by exact_mod_cast hm2
  have hd : 0 < m2.natAbs * 2 ^ (e2 - e1).toNat := by
    have := Int.natAbs_pos.mpr hm2
    positivity
  have hv : (Flt.fin m1 e1).val / (Flt.fin m2 e2).val
      = ((Int.sign m2 * m1 * 2 ^ (e1 - e2).toNat : Int) : ℚ)
        / ((m2.natAbs * 2 ^ (e2 - e1).toNat : Nat) : ℚ) := by
    simp only [Flt.val]
    have hz2 := two_zpow_pos e2
    have e : (e2 - e1) = -(e1 - e2) := by ring
    calc (m1 : ℚ) * (2 : ℚ) ^ e1 / ((m2 : ℚ) * (2 : ℚ) ^ e2)
        = ((m1 : ℚ) / (m2 : ℚ)) * (2 : ℚ) ^ (e1 - e2) := by
          rw [zpow_sub₀ h2']; field_simp
      _ = (((Int.sign m2 * m1 : Int) : ℚ) / ((m2.natAbs : Nat) : ℚ))
            * (((2 : ℚ) ^ (e1 - e2).toNat) / ((2 : ℚ) ^ (-(e1 - e2)).toNat)) := by
          rw [sign_div_natAbs m1 m2 hm2, pow_ratio]
      _ = _ := by
          rw [e]; push_cast; rw [div_mul_div_comm]
  have hn : Int.sign m2 * m1 * 2 ^ (e1 - e2).toNat ≠ 0 := by
    intro h0
    rw [hv, h0] at hlo
    have := two_zpow_pos (f.elo + f.prec - 1)
    norm_num at hlo
    linarith
  rw [hv] at hlo hhi ⊢
  have := roundQ_spec f _ _ hn hd hlo hhi
  simp only [Flt.div, hm2, if_false]
  exact this

theorem Flt.div_zero (f : Fmt) (a b : Flt) (ha : a.isFin = true) (hb : b.isFin = true)
    (ha0 : a.val = 0) (hb0 : b.val ≠ 0) : Flt.div f a b = .fin 0 0 := by
  obtain ⟨m1, e1, rfl⟩ := Flt.exists_fin a ha
  obtain ⟨m2, e2, rfl⟩ := Flt.exists_fin b hb
  have hm1 : m1 = 0 := (Flt.val_eq_zero_iff m1 e1).mp ha0
  have hm2 : m2 ≠ 0 := fun h => hb0 ((Flt.val_eq_zero_iff m2 e2).mpr h)
  simp [Flt.div, hm1, hm2, roundQ]

theorem Flt.toF32_spec (x : Flt) (hx : x.isFin = true)
    (hlo : (2 : ℚ) ^ (binary32.elo + binary32.prec - 1) ≤ |x.val|)
    (hhi : |x.val| < (2 : ℚ) ^ binary32.ehi) :
    (Flt.toF32 x).isFin = true ∧ |(Flt.toF32 x).val - x.val| ≤ |x.val| / 16777216 := by
  obtain ⟨m, e, rfl⟩ := Flt.exists_fin x hx
  have := roundDy_spec binary32 m e hlo hhi
  rw [prec32] at this
  exact this

theorem Flt.toF32_zero (x : Flt) (hx : x.isFin = true) (h0 : x.val = 0) :
    Flt.toF32 x = .fin 0 0 := by
  obtain ⟨m, e, rfl⟩ := Flt.exists_fin x hx
  rw [(Flt.val_eq_zero_iff m e).mp h0]
  simp [Flt.toF32, roundDy_zero]

theorem Flt.sub_spec (f : Fmt) (a b : Flt) (ha : a.isFin = true) (hb : b.isFin = true)
    (hlo : (2 : ℚ) ^ (f.elo + f.prec - 1) ≤ |a.val - b.val|)
    (hhi : |a.val - b.val| < (2 : ℚ) ^ f.ehi) :
    (Flt.sub f a b).isFin = true ∧
    |(Flt.sub f a b).val - (a.val - b.val)| ≤ |a.val - b.val| / (2 : ℚ) ^ (f.prec : Int) := by
  obtain ⟨m1, e1, rfl⟩ := Flt.exists_fin a ha
  obtain ⟨m2, e2, rfl⟩ := Flt.exists_fin b hb
  have hv : (Flt.fin m1 e1).val - (Flt.fin m2 e2).val
      = ((m1 * 2 ^ (e1 - min e1 e2).toNat + (-m2) * 2 ^ (e2 - min e1 e2).toNat : Int) : ℚ)
        * (2 : ℚ) ^ (min e1 e2) := by
    simp only [Flt.val]; push_cast
    have h2' : (2 : ℚ) ≠ 0 := by norm_num
    have a1 : ((2 : ℚ) ^ (e1 - min e1 e2).toNat) * (2 : ℚ) ^ (min e1 e2) = (2 : ℚ) ^ e1 := by
      rw [← zpow_natCast, ← zpow_add₀ h2', Int.toNat_of_nonneg (by omega)]; congr 1; omega
    have a2 : ((2 : ℚ) ^ (e2 - min e1 e2).toNat) * (2 : ℚ) ^ (min e1 e2) = (2 : ℚ) ^ e2 := by
      rw [← zpow_natCast, ← zpow_add₀ h2', Int.toNat_of_nonneg (by omega)]; congr 1; omega
    rw [add_mul, mul_assoc, a1, mul_assoc, a2]; ring
  rw [hv] at hlo hhi ⊢
  exact roundDy_spec f _ (min e1 e2) hlo hhi

/-- Conversion of a non-zero integer: one rounding. -/
theorem Flt.ofInt_spec (f : Fmt) (n : Int) (hn : n ≠ 0) (hf : f.elo + f.prec ≤ 1)
    (hhi : |(n : ℚ)| < (2 : ℚ) ^ f.ehi) :
    (Flt.ofInt f n).isFin = true ∧
    |(Flt.ofInt f n).val - (n : ℚ)| ≤ |(n : ℚ)| / (2 : ℚ) ^ (f.prec : Int) := by
  have h1 : (1 : ℚ) ≤ |(n : ℚ)| := by
    have : (1 : Int) ≤ |n| := Int.one_le_abs hn
    exact_mod_cast this
  have hlo : (2 : ℚ) ^ (f.elo + f.prec - 1) ≤ |(n : ℚ) * (2 : ℚ) ^ (0 : Int)| := by
    rw [zpow_zero, mul_one]
    have : (2 : ℚ) ^ (f.elo + f.prec - 1) ≤ (2 : ℚ) ^ (0 : Int) :=
      zpow_le_zpow_right₀ (by norm_num) (by omega)
    rw [zpow_zero] at this
    linarith
  have := roundDy_spec f n 0 hlo (by rw [zpow_zero, mul_one]; exact hhi)
  rw [zpow_zero, mul_one] at this
  exact this

theorem Flt.ofInt_zero (f : Fmt) : Flt.ofInt f 0 = .fin 0 0 := by
  simp [Flt.ofInt, roundDy_zero]

theorem scaled_val (m e mn : Int) (h : mn ≤ e) :
    (((m * 2 ^ (e - mn).toNat : Int) : ℚ)) * (2 : ℚ) ^ mn = (m : ℚ) * (2 : ℚ) ^ e := by
  have h2' : (2 : ℚ) ≠ 0 := by norm_num
  have a1 : ((2 : ℚ) ^ (e - mn).toNat) * (2 : ℚ) ^ mn = (2 : ℚ) ^ e := by
    rw [← zpow_natCast, ← zpow_add₀ h2', Int.toNat_of_nonneg (by omega)]; congr 1; omega
  push_cast
  rw [mul_assoc, a1]

theorem Flt.le_iff (a b : Flt) (ha : a.isFin = true) (hb : b.isFin = true) :
    Flt.le a b = true ↔ a.val ≤ b.val := by
  obtain ⟨m1, e1, rfl⟩ := Flt.exists_fin a ha
  obtain ⟨m2, e2, rfl⟩ := Flt.exists_fin b hb
  have s1 := scaled_val m1 e1 (min e1 e2) (min_le_left _ _)
  have s2 := scaled_val m2 e2 (min e1 e2) (min_le_right _ _)
  have hz := two_zpow_pos (min e1 e2)
  simp only [Flt.le, decide_eq_true_eq, Flt.val]
  rw [← s1, ← s2]
  constructor
  · intro h
    have hq : ((m1 * 2 ^ (e1 - min e1 e2).toNat : Int) : ℚ)
        ≤ ((m2 * 2 ^ (e2 - min e1 e2).toNat : Int) : ℚ) := by exact_mod_cast h
    exact mul_le_mul_of_nonneg_right hq hz.le
  · intro h
    have hq := le_of_mul_le_mul_right h hz
    exact_mod_cast hq

theorem Flt.lt_iff (a b : Flt) (ha : a.isFin = true) (hb : b.isFin = true) :
    Flt.lt a b = true ↔ a.val < b.val := by
  obtain ⟨m1, e1, rfl⟩ := Flt.exists_fin a ha
  obtain ⟨m2, e2, rfl⟩ := Flt.exists_fin b hb
  have s1 := scaled_val m1 e1 (min e1 e2) (min_le_left _ _)
  have s2 := scaled_val m2 e2 (min e1 e2) (min_le_right _ _)
  have hz := two_zpow_pos (min e1 e2)
  simp only [Flt.lt, decide_eq_true_eq, Flt.val]
  rw [← s1, ← s2]
  constructor
  · intro h
    have hq : ((m1 * 2 ^ (e1 - min e1 e2).toNat : Int) : ℚ)
        < ((m2 * 2 ^ (e2 - min e1 e2).toNat : Int) : ℚ) := by exact_mod_cast h
    exact mul_lt_mul_of_pos_right hq hz
  · intro h
    have hq := lt_of_mul_lt_mul_right h hz.le
    exact_mod_cast hq

/-! ### `hypotf` from below, and on integers -/

theorem hypot_arith_lo (A B Z R s W X Y : ℚ) (_hZpos : 0 < Z) (hA : A * Z = |X|)
    (hB : B * Z = |Y|)
    (_r1q : R * R ≤ (A * A + B * B) * 18446744073709551616)
    (r2q : (A * A + B * B) * 18446744073709551616 < (R + 1) * (R + 1))
    (hrq : 4294967296 ≤ R)
    (hs : (s = 0 ∧ R * R = (A * A + B * B) * 18446744073709551616) ∨ s = 1)
    (hWe : W = (2 * R + s) * Z / 8589934592) :
    (X ^ 2 + Y ^ 2) * (1 - 1 / 2147483648) ≤ W ^ 2 := by
  have hS : X ^ 2 + Y ^ 2 = (A ^ 2 + B ^ 2) * Z ^ 2 := by
    rw [← sq_abs X, ← sq_abs Y, ← hA, ← hB]; ring
  have hr0 : 0 ≤ R := by linarith
  have hZ2 : 0 ≤ Z ^ 2 := sq_nonneg Z
  have key : 4 * ((A * A + B * B) * 18446744073709551616) * (1 - 1 / 2147483648)
      ≤ (2 * R + s) ^ 2 := by
    rcases hs with ⟨h0, he⟩ | h1
    · rw [h0, ← he]
      have : 0 ≤ R * R := mul_nonneg hr0 hr0
      have e : (2 * R + 0) ^ 2 = 4 * (R * R) := by ring
      rw [e]
      nlinarith
    · rw [h1]
      have e : (2 * R + 1) ^ 2 = 4 * (R * R) + 4 * R + 1 := by ring
      rw [e]
      have h3 : 4294967296 * R ≤ R * R := mul_le_mul_of_nonneg_right hrq hr0
      have h4 : (R + 1) * (R + 1) = R * R + 2 * R + 1 := by ring
      rw [h4] at r2q
      nlinarith
  rw [hWe, hS]
  have e4 : ((2 * R + s) * Z / 8589934592) ^ 2
      = (2 * R + s) ^ 2 * Z ^ 2 / 73786976294838206464 := by ring
  rw [e4, le_div_iff₀ (by norm_num)]
  have h5 := mul_le_mul_of_nonneg_right key hZ2
  have e5 : (A ^ 2 + B ^ 2) * Z ^ 2 * (1 - 1 / 2147483648) * 73786976294838206464
      = 4 * ((A * A + B * B) * 18446744073709551616) * (1 - 1 / 2147483648) * Z ^ 2 := by ring
  rw [e5]
  exact h5

/-- The reference `hypotf` on finite data of moderate size is at least
`√(x² + y²)`, up to `10⁻⁶` relative on the square. -/
theorem hypotf_lower (mx ex my ey : Int)
    (h1 : 1 ≤ (Flt.fin mx ex).val ^ 2 + (Flt.fin my ey).val ^ 2)
    (h2 : (Flt.fin mx ex).val ^ 2 + (Flt.fin my ey).val ^ 2 ≤ 10000000000) :
    ((Flt.fin mx ex).val ^ 2 + (Flt.fin my ey).val ^ 2) * (999999 / 1000000)
      ≤ (hypotf (.fin mx ex) (.fin my ey)).val ^ 2 := by
  have h2' : (2 : ℚ) ≠ 0 := by norm_num
  have hA := scaled_abs mx ex (min ex ey) (min_le_left _ _)
  have hB := scaled_abs my ey (min ex ey) (min_le_right _ _)
  have hdef : hypotf (.fin mx ex) (.fin my ey) =
      roundDy binary32
        (2 * (isqrt ((mx.natAbs * 2 ^ (ex - min ex ey).toNat * (mx.natAbs * 2 ^ (ex - min ex ey).toNat)
            + my.natAbs * 2 ^ (ey - min ex ey).toNat * (my.natAbs * 2 ^ (ey - min ex ey).toNat))
            * 4 ^ 32) : Int)
          + (if isqrt ((mx.natAbs * 2 ^ (ex - min ex ey).toNat * (mx.natAbs * 2 ^ (ex - min ex ey).toNat)
            + my.natAbs * 2 ^ (ey - min ex ey).toNat * (my.natAbs * 2 ^ (ey - min ex ey).toNat))
            * 4 ^ 32)
            * isqrt ((mx.natAbs * 2 ^ (ex - min ex ey).toNat * (mx.natAbs * 2 ^ (ex - min ex ey).toNat)
            + my.natAbs * 2 ^ (ey - min ex ey).toNat * (my.natAbs * 2 ^ (ey - min ex ey).toNat))
            * 4 ^ 32)
            = (mx.natAbs * 2 ^ (ex - min ex ey).toNat * (mx.natAbs * 2 ^ (ex - min ex ey).toNat)
            + my.natAbs * 2 ^ (ey - min ex ey).toNat * (my.natAbs * 2 ^ (ey - min ex ey).toNat))
            * 4 ^ 32 then 0 else 1))
        (min ex ey - 33) := by
    simp only [hypotf]
  rw [hdef]
  generalize min ex ey = mn at hA hB ⊢
  generalize mx.natAbs * 2 ^ (ex - mn).toNat = a at hA ⊢
  generalize my.natAbs * 2 ^ (ey - mn).toNat = b at hB ⊢
  have hvX : (Flt.fin mx ex).val = (mx : ℚ) * (2 : ℚ) ^ ex := rfl
  have hvY : (Flt.fin my ey).val = (my : ℚ) * (2 : ℚ) ^ ey := rfl
  rw [hvX, hvY] at h1 h2 ⊢
  generalize (mx : ℚ) * (2 : ℚ) ^ ex = X at hA h1 h2 ⊢
  generalize (my : ℚ) * (2 : ℚ) ^ ey = Y at hB h1 h2 ⊢
  have hZpos : (0 : ℚ) < (2 : ℚ) ^ mn := two_zpow_pos mn
  have hS : X ^ 2 + Y ^ 2 = ((a : ℚ) ^ 2 + (b : ℚ) ^ 2) * ((2 : ℚ) ^ mn) ^ 2 := by
    rw [← sq_abs X, ← sq_abs Y, ← hA, ← hB]; ring
  have hab : 1 ≤ a * a + b * b := by
    by_contra hc
    have h0 : a * a + b * b = 0 := by omega
    have ha0 : a = 0 := by
      by_contra hne
      have : 0 < a * a := Nat.mul_pos (Nat.pos_of_ne_zero hne) (Nat.pos_of_ne_zero hne)
      omega
    have hb0 : b = 0 := by
      by_contra hne
      have : 0 < b * b := Nat.mul_pos (Nat.pos_of_ne_zero hne) (Nat.pos_of_ne_zero hne)
      omega
    rw [hS, ha0, hb0] at h1
    norm_num at h1
  obtain ⟨r1, r2⟩ := isqrt_spec ((a * a + b * b) * 4 ^ 32)
  have h32 : 4294967296 ≤ isqrt ((a * a + b * b) * 4 ^ 32) := by
    apply le_isqrt
    calc 4294967296 * 4294967296 = 1 * 4 ^ 32 := by norm_num
      _ ≤ (a * a + b * b) * 4 ^ 32 := Nat.mul_le_mul_right _ hab
  have hra : a * 4294967296 ≤ isqrt ((a * a + b * b) * 4 ^ 32) := by
    apply le_isqrt
    calc a * 4294967296 * (a * 4294967296) = (a * a) * 4 ^ 32 := by ring
      _ ≤ (a * a + b * b) * 4 ^ 32 := Nat.mul_le_mul_right _ (Nat.le_add_right _ _)
  have hrb : b * 4294967296 ≤ isqrt ((a * a + b * b) * 4 ^ 32) := by
    apply le_isqrt
    calc b * 4294967296 * (b * 4294967296) = (b * b) * 4 ^ 32 := by ring
      _ ≤ (a * a + b * b) * 4 ^ 32 := Nat.mul_le_mul_right _ (Nat.le_add_left _ _)
  have hs : ∃ s : Int, (if isqrt ((a * a + b * b) * 4 ^ 32) * isqrt ((a * a + b * b) * 4 ^ 32)
      = (a * a + b * b) * 4 ^ 32 then (0 : Int) else 1) = s ∧ (0 : ℚ) ≤ (s : ℚ) ∧ (s : ℚ) ≤ 1 ∧
      (((s : ℚ) = 0 ∧ isqrt ((a * a + b * b) * 4 ^ 32) * isqrt ((a * a + b * b) * 4 ^ 32)
        = (a * a + b * b) * 4 ^ 32) ∨ (s : ℚ) = 1) := by
    split_ifs with hc
    · exact ⟨0, rfl, by norm_num, by norm_num, Or.inl ⟨by norm_num, hc⟩⟩
    · exact ⟨1, rfl, by norm_num, by norm_num, Or.inr (by norm_num)⟩
  obtain ⟨s, hse, hs0, hs1, hs2⟩ := hs
  rw [hse]
  generalize isqrt ((a * a + b * b) * 4 ^ 32) = r at r1 r2 h32 hra hrb hs2 ⊢
  have e4 : (4 : Nat) ^ 32 = 18446744073709551616 := by norm_num
  rw [e4] at r1 r2 hs2
  have r1q : (r : ℚ) * r ≤ ((a : ℚ) * a + (b : ℚ) * b) * 18446744073709551616 := by
    exact_mod_cast r1
  have r2q : ((a : ℚ) * a + (b : ℚ) * b) * 18446744073709551616 < ((r : ℚ) + 1) * ((r : ℚ) + 1) := by
    exact_mod_cast r2
  have hs2q : ((s : ℚ) = 0 ∧ (r : ℚ) * r = ((a : ℚ) * a + (b : ℚ) * b) * 18446744073709551616)
      ∨ (s : ℚ) = 1 := by
    rcases hs2 with ⟨h0, he⟩ | h
    · exact Or.inl ⟨h0, by exact_mod_cast he⟩
    · exact Or.inr h
  have hrq : (4294967296 : ℚ) ≤ r := by exact_mod_cast h32
  have hraq : (a : ℚ) * 4294967296 ≤ (r : ℚ) := by exact_mod_cast hra
  have hrbq : (b : ℚ) * 4294967296 ≤ (r : ℚ) := by exact_mod_cast hrb
  have hWe : ((2 * (r : Int) + s : Int) : ℚ) * (2 : ℚ) ^ (mn - 33)
      = (2 * (r : ℚ) + (s : ℚ)) * (2 : ℚ) ^ mn / 8589934592 := by
    rw [zpow_sub₀ h2']; push_cast; norm_num; ring
  obtain ⟨hWX, hWY, hWsq⟩ := hypot_arith a b ((2 : ℚ) ^ mn) r s _ X Y hZpos hA hB r1q hrq hraq
    hrbq hs0 hs1 hWe
  have hWlo := hypot_arith_lo a b ((2 : ℚ) ^ mn) r s _ X Y hZpos hA hB r1q r2q hrq hs2q hWe
  have hround : ∀ W : ℚ, W = ((2 * (r : Int) + s : Int) : ℚ) * (2 : ℚ) ^ (mn - 33) →
      (2 : ℚ) ^ (binary32.elo + binary32.prec - 1) ≤ |W| → |W| < (2 : ℚ) ^ binary32.ehi →
      (roundDy binary32 (2 * (r : Int) + s) (mn - 33)).isFin = true ∧
      |(roundDy binary32 (2 * (r : Int) + s) (mn - 33)).val - W| ≤ |W| / 16777216 := by
    intro W hW n1 n2
    have := roundDy_spec binary32 (2 * (r : Int) + s) (mn - 33) (by rw [← hW]; exact n1)
      (by rw [← hW]; exact n2)
    rw [prec32, ← hW] at this
    exact this
  generalize ((2 * (r : Int) + s : Int) : ℚ) * (2 : ℚ) ^ (mn - 33) = W at hWX hWY hWsq hWlo hround
  generalize roundDy binary32 (2 * (r : Int) + s) (mn - 33) = res at hround ⊢
  have hW0 : 0 ≤ W := le_trans (abs_nonneg X) hWX
  have hx : X ^ 2 ≤ W ^ 2 := by
    rw [← sq_abs X]; exact pow_le_pow_left₀ (abs_nonneg X) hWX 2
  have hy : Y ^ 2 ≤ W ^ 2 := by
    rw [← sq_abs Y]; exact pow_le_pow_left₀ (abs_nonneg Y) hWY 2
  have hmax : 1 / 2 ≤ W := by
    by_contra hc
    have hc' : W < 1 / 2 := not_le.mp hc
    have h9 : W * W < 1 / 2 * (1 / 2) := mul_lt_mul'' hc' hc' hW0 hW0
    have h10 : W ^ 2 = W * W := by ring
    rw [h10] at hx hy
    linarith
  have hWhi : W ≤ 1000000 := by
    by_contra hc
    have hc' : 1000000 < W := not_le.mp hc
    have h9 : (1000000 : ℚ) * 1000000 < W * W :=
      mul_lt_mul'' hc' hc' (by norm_num) (by norm_num)
    have h10 : W ^ 2 = W * W := by ring
    have h11 : W ^ 2 ≤ 10000000000 * (1 + 5 / 17179869184) :=
      le_trans hWsq (mul_le_mul_of_nonneg_right h2 (by norm_num))
    rw [h10] at h11
    have h12 : (10000000000 : ℚ) * (1 + 5 / 17179869184) < 1000000 * 1000000 := by norm_num
    linarith
  have hWabs : |W| = W := abs_of_nonneg hW0
  obtain ⟨n1, n2⟩ := normal32 W (by rw [hWabs]; linarith) (by rw [hWabs]; linarith)
  obtain ⟨hf, he⟩ := hround W rfl n1 n2
  rw [hWabs, abs_le] at he
  have hv1 : W * (16777215 / 16777216) ≤ res.val := by linarith
  have hv2 : (W * (16777215 / 16777216)) ^ 2 ≤ res.val ^ 2 :=
    pow_le_pow_left₀ (by positivity) hv1 2
  have hS0 : 0 ≤ X ^ 2 + Y ^ 2 := by positivity
  have e6 : (W * (16777215 / 16777216)) ^ 2 = W ^ 2 * (16777215 / 16777216) ^ 2 := by ring
  have h7 : (X ^ 2 + Y ^ 2) * (1 - 1 / 2147483648) * (16777215 / 16777216) ^ 2
      ≤ W ^ 2 * (16777215 / 16777216) ^ 2 :=
    mul_le_mul_of_nonneg_right hWlo (by positivity)
  have h8 : (X ^ 2 + Y ^ 2) * (999999 / 1000000)
      ≤ (X ^ 2 + Y ^ 2) * (1 - 1 / 2147483648) * (16777215 / 16777216) ^ 2 := by
    rw [mul_assoc]
    exact mul_le_mul_of_nonneg_left (by norm_num) hS0
  linarith

/-- The reference `hypotf` of two integers of at most 16 bits, not both zero. -/
theorem hypotf_ofInt_spec (a b : Int) (ha1 : -65535 ≤ a) (ha2 : a ≤ 65535) (hb1 : -65535 ≤ b)
    (hb2 : b ≤ 65535) (hab : ¬ (a = 0 ∧ b = 0)) :
    (hypotf (Flt.ofInt binary32 a) (Flt.ofInt binary32 b)).isFin = true ∧
    16777215 / 16777216 ≤ (hypotf (Flt.ofInt binary32 a) (Flt.ofInt binary32 b)).val ∧
    ((a : ℚ) ^ 2 + (b : ℚ) ^ 2) * (999999 / 1000000)
      ≤ (hypotf (Flt.ofInt binary32 a) (Flt.ofInt binary32 b)).val ^ 2 ∧
    (hypotf (Flt.ofInt binary32 a) (Flt.ofInt binary32 b)).val ^ 2
      ≤ ((a : ℚ) ^ 2 + (b : ℚ) ^ 2) * (1000001 / 1000000) := by
  obtain ⟨fa, va⟩ := Flt.ofInt_exact a (by norm_num; omega)
  obtain ⟨fb, vb⟩ := Flt.ofInt_exact b (by norm_num; omega)
  have hA1 : |(a : ℚ)| ≤ 65535 := by
    rw [abs_le]; constructor
    · exact_mod_cast ha1
    · exact_mod_cast ha2
  have hB1 : |(b : ℚ)| ≤ 65535 := by
    rw [abs_le]; constructor
    · exact_mod_cast hb1
    · exact_mod_cast hb2
  have hA2 : (a : ℚ) ^ 2 ≤ 4294836225 := by
    have := abs_nonneg (a : ℚ)
    rw [← sq_abs]; nlinarith
  have hB2 : (b : ℚ) ^ 2 ≤ 4294836225 := by
    have := abs_nonneg (b : ℚ)
    rw [← sq_abs]; nlinarith
  have hone : 1 ≤ |(a : ℚ)| ∨ 1 ≤ |(b : ℚ)| := by
    by_cases h : a = 0
    · right
      have hb : b ≠ 0 := fun hb => hab ⟨h, hb⟩
      have : (1 : Int) ≤ |b| := Int.one_le_abs hb
      exact_mod_cast this
    · left
      have : (1 : Int) ≤ |a| := Int.one_le_abs h
      exact_mod_cast this
  have hS1 : 1 ≤ (a : ℚ) ^ 2 + (b : ℚ) ^ 2 := by
    have h1 := sq_nonneg (a : ℚ)
    have h2 := sq_nonneg (b : ℚ)
    rcases hone with h | h
    · have : 1 ≤ |(a : ℚ)| ^ 2 := by nlinarith
      rw [sq_abs] at this; linarith
    · have : 1 ≤ |(b : ℚ)| ^ 2 := by nlinarith
      rw [sq_abs] at this; linarith
  obtain ⟨mx, ex, hA⟩ := Flt.exists_fin _ fa
  obtain ⟨my, ey, hB⟩ := Flt.exists_fin _ fb
  rw [hA] at va
  rw [hB] at vb
  rw [hA, hB]
  obtain ⟨r1, r2, r3, r4⟩ := hypotf_spec mx ex my ey (by rw [va, vb]; exact hS1)
    (by rw [va, vb]; linarith)
  have r5 := hypotf_lower mx ex my ey (by rw [va, vb]; exact hS1) (by rw [va, vb]; linarith)
  rw [va] at r2 r4 r5
  rw [vb] at r3 r4 r5
  refine ⟨r1, ?_, r5, r4⟩
  rcases hone with h | h <;> linarith

theorem hypotf_zero : hypotf (Flt.ofInt binary32 0) (Flt.ofInt binary32 0) = .fin 0 0 := by
  decide

theorem centred_range (cfg : Config) (v : Nat) :
    -32768 ≤ centred cfg v ∧ centred cfg v ≤ 32767 := by
  unfold centred wrap16; omega


/-! ### C12 -/

theorem Flt.abs_spec (x : Flt) (hx : x.isFin = true) :
    (Flt.abs x).isFin = true ∧ (Flt.abs x).val = |x.val| := by
  obtain ⟨m, e, rfl⟩ := Flt.exists_fin x hx
  refine ⟨rfl, ?_⟩
  simp only [Flt.abs, Flt.val]
  rw [abs_mul, abs_of_pos (two_zpow_pos e), Int.cast_natCast, Nat.cast_natAbs, Int.cast_abs]

set_option maxRecDepth 100000 in
theorem movement_threshold :
    Flt.mul binary64 (Flt.div binary64 (Flt.ofInt binary64 ((6 : Nat) : Int)) (dbl 100 1))
      (Flt.ofInt binary64 ((512 : Nat) : Int)) = .fin 8646911284551352 (-48) := by
  decide

/-- With the default movement percentage 6 and `center = 512`, the test
`mag >= 6 / 100.0 * center` on `mag = hypotf (dx, dy)` holds exactly when
`dx² + dy² ≥ 944`, that is when `√(dx² + dy²) ≥ 0.06 * 512`. -/
theorem moved_enough_iff (cfg : Config) (hc : scroll_center cfg = 512)
    (hp : cfg.scroll_movement_percentage = 6) (dx dy : Int)
    (hx1 : -65535 ≤ dx) (hx2 : dx ≤ 65535) (hy1 : -65535 ≤ dy) (hy2 : dy ≤ 65535) :
    moved_enough cfg (hypotf (Flt.ofInt binary32 dx) (Flt.ofInt binary32 dy)) (scroll_center cfg)
      = decide (944 ≤ dx ^ 2 + dy ^ 2) := by
  have hthr : (Flt.fin 8646911284551352 (-48)).val = 8646911284551352 / 281474976710656 := by
    norm_num [Flt.val]
  simp only [moved_enough, hc, hp, movement_threshold]
  by_cases h0 : dx = 0 ∧ dy = 0
  · obtain ⟨rfl, rfl⟩ := h0
    rw [hypotf_zero]
    decide
  · obtain ⟨r1, r2, r3, r4⟩ := hypotf_ofInt_spec dx dy hx1 hx2 hy1 hy2 h0
    generalize hypotf (Flt.ofInt binary32 dx) (Flt.ofInt binary32 dy) = v at r1 r2 r3 r4
    have hv0 : 0 < v.val := by linarith
    by_cases hn : 944 ≤ dx ^ 2 + dy ^ 2
    · have hnq : (944 : ℚ) ≤ (dx : ℚ) ^ 2 + (dy : ℚ) ^ 2 := by exact_mod_cast hn
      have hle : (Flt.fin 8646911284551352 (-48)).val ≤ v.val := by
        rw [hthr]
        by_contra hcon
        have hlt : v.val < 8646911284551352 / 281474976710656 := not_le.mp hcon
        have h1 : v.val * v.val
            < 8646911284551352 / 281474976710656 * (8646911284551352 / 281474976710656) :=
          mul_lt_mul'' hlt hlt hv0.le hv0.le
        have h2 : v.val ^ 2 = v.val * v.val := by ring
        rw [h2] at r3
        have h3 : (944 : ℚ) * (999999 / 1000000)
            ≤ ((dx : ℚ) ^ 2 + (dy : ℚ) ^ 2) * (999999 / 1000000) :=
          mul_le_mul_of_nonneg_right hnq (by norm_num)
        norm_num at h1
        linarith
      rw [(Flt.le_iff (.fin 8646911284551352 (-48)) v rfl r1).mpr hle]
      simp [hn]
    · have hn' : dx ^ 2 + dy ^ 2 ≤ 943 := by omega
      have hnq : (dx : ℚ) ^ 2 + (dy : ℚ) ^ 2 ≤ 943 := by exact_mod_cast hn'
      have hlt : ¬ ((Flt.fin 8646911284551352 (-48)).val ≤ v.val) := by
        rw [hthr]
        intro hle
        have h1 : 8646911284551352 / 281474976710656 * (8646911284551352 / 281474976710656)
            ≤ v.val * v.val := mul_le_mul hle hle (by norm_num) hv0.le
        have h2 : v.val ^ 2 = v.val * v.val := by ring
        rw [h2] at r4
        have h3 : ((dx : ℚ) ^ 2 + (dy : ℚ) ^ 2) * (1000001 / 1000000)
            ≤ (943 : ℚ) * (1000001 / 1000000) :=
          mul_le_mul_of_nonneg_right hnq (by norm_num)
        norm_num at h1
        linarith
      have : Flt.le (Flt.fin 8646911284551352 (-48)) v = false := by
        by_contra hcon
        have ht : Flt.le (Flt.fin 8646911284551352 (-48)) v = true := by
          simpa using hcon
        exact hlt ((Flt.le_iff (.fin 8646911284551352 (-48)) v rfl r1).mp ht)
      rw [this]
      simp [hn]

/-- What lying on the segment towards the centre gives for the products of the
swipe test. -/
theorem segment_facts (x0 y0 x y : Int) (h : on_segment x0 y0 x y) :
    x0 * y - y0 * x = 0 ∧ 0 ≤ x0 * x + y0 * y ∧ x0 * x + y0 * y ≤ x0 ^ 2 + y0 ^ 2 ∧
    (x0 ^ 2 + y0 ^ 2 - (x0 * x + y0 * y)) ^ 2 = dist_sq x0 y0 x y * (x0 ^ 2 + y0 ^ 2) := by
  obtain ⟨p, q, hpq, hx, hy⟩ := h
  have hq : (0 : Int) < q := by
    have : 0 < q := by omega
    exact_mod_cast this
  have hpq' : (p : Int) < q := by exact_mod_cast hpq
  have hp0 : (0 : Int) ≤ p := Int.natCast_nonneg p
  have hS : 0 ≤ x0 ^ 2 + y0 ^ 2 := by positivity
  have hdet : (q : Int) * (x0 * y - y0 * x) = 0 := by
    have : (q : Int) * (x0 * y - y0 * x) = x0 * ((q : Int) * y) - y0 * ((q : Int) * x) := by ring
    rw [this, hx, hy]; ring
  have hdot : (q : Int) * (x0 * x + y0 * y) = (p : Int) * (x0 ^ 2 + y0 ^ 2) := by
    have : (q : Int) * (x0 * x + y0 * y) = x0 * ((q : Int) * x) + y0 * ((q : Int) * y) := by ring
    rw [this, hx, hy]; ring
  refine ⟨?_, ?_, ?_, ?_⟩
  · rcases mul_eq_zero.mp hdet with h1 | h1
    · omega
    · exact h1
  · have h1 : 0 ≤ (q : Int) * (x0 * x + y0 * y) := by
      rw [hdot]; exact mul_nonneg hp0 hS
    exact nonneg_of_mul_nonneg_right h1 hq
  · have h1 : (q : Int) * (x0 * x + y0 * y) ≤ (q : Int) * (x0 ^ 2 + y0 ^ 2) := by
      rw [hdot]; exact mul_le_mul_of_nonneg_right hpq'.le hS
    exact le_of_mul_le_mul_left h1 hq
  · have hq2 : ((q : Int) ^ 2) ≠ 0 := by positivity
    apply mul_left_cancel₀ hq2
    have e1 : (q : Int) ^ 2 * (x0 ^ 2 + y0 ^ 2 - (x0 * x + y0 * y)) ^ 2
        = ((q : Int) * (x0 ^ 2 + y0 ^ 2) - (q : Int) * (x0 * x + y0 * y)) ^ 2 := by ring
    have e2 : (q : Int) ^ 2 * (dist_sq x0 y0 x y * (x0 ^ 2 + y0 ^ 2))
        = (((q : Int) * x - (q : Int) * x0) ^ 2 + ((q : Int) * y - (q : Int) * y0) ^ 2)
          * (x0 ^ 2 + y0 ^ 2) := by
      unfold dist_sq; ring
    rw [e1, e2, hdot, hx, hy]
    ring

theorem proj_swipe_arith (S D v F P : ℚ) (hD1 : 1 ≤ D)
    (hD2 : D ≤ S * (1999 / 2000)) (hv0 : 0 < v) (hvl : S * (999999 / 1000000) ≤ v ^ 2)
    (hvu : v ≤ 46342)
    (hF : |F - D| ≤ D / 16777216) :
    1 / 1000000 ≤ |F / v| ∧ |F / v| ≤ 1000000000 ∧
    (|P - F / v| ≤ |F / v| / 16777216 → 0 ≤ P ∧ P ≤ v * (2099 / 2100)) := by
  rw [abs_le] at hF
  have hF0 : 0 < F := by linarith
  have hq0 : 0 < F / v := div_pos hF0 hv0
  have hv2 : v ^ 2 = v * v := by ring
  rw [hv2] at hvl
  have hFv : F ≤ v * v * (99951 / 100000) := by
    have h1 : D ≤ v * v * (1000000 / 999999) * (1999 / 2000) := by
      have : S ≤ v * v * (1000000 / 999999) := by linarith
      have := mul_le_mul_of_nonneg_right this (by norm_num : (0 : ℚ) ≤ 1999 / 2000)
      linarith
    have h2 : 0 ≤ v * v := by positivity
    nlinarith
  have hqu : F / v ≤ v * (99951 / 100000) := by
    rw [div_le_iff₀ hv0]; linarith
  rw [abs_of_pos hq0]
  refine ⟨?_, by linarith, ?_⟩
  · rw [le_div_iff₀ hv0]; linarith
  · intro hP
    rw [abs_le] at hP
    constructor <;> linarith

set_option maxRecDepth 100000 in
theorem ratio_eq : dbl 12 10 = .fin 5404319552844595 (-52) := by decide

set_option maxRecDepth 100000 in
theorem perpendicular_zero : Flt.toF32 (Flt.abs (.fin 0 0)) = .fin 0 0 := by decide

/-- From a projection below the touchdown radius the swipe test succeeds when the
rejection is zero. -/
theorem swipe_of_small_projection (v0 P : Flt) (hv : v0.isFin = true) (hP : P.isFin = true)
    (hv1 : 16777215 / 16777216 ≤ v0.val) (hv2 : v0.val ≤ 46342)
    (hPv : |P.val| ≤ v0.val * (2099 / 2100)) :
    Flt.lt (.fin 0 0)
      (Flt.mul binary64 (Flt.toF32 (Flt.abs (Flt.sub binary64 v0 (Flt.abs P)))) (dbl 12 10))
      = true := by
  obtain ⟨fA, vA⟩ := Flt.abs_spec P hP
  have hP0 : 0 ≤ |P.val| := abs_nonneg _
  have hdiff1 : v0.val / 2100 ≤ v0.val - |P.val| := by linarith
  have hdiff2 : v0.val - |P.val| ≤ 46342 := by linarith
  have hdpos : 0 < v0.val - |P.val| := by linarith
  have e64lo : (2 : ℚ) ^ (binary64.elo + binary64.prec - 1) ≤ 1 / 10000 := by
    have e : binary64.elo + binary64.prec - 1 = -1022 := by decide
    rw [e]
    have h1 : (2 : ℚ) ^ (-1022 : Int) ≤ (2 : ℚ) ^ (-14 : Int) :=
      zpow_le_zpow_right₀ (by norm_num) (by norm_num)
    have h2 : (2 : ℚ) ^ (-14 : Int) ≤ 1 / 10000 := by norm_num
    linarith
  have e64hi : (100000 : ℚ) < (2 : ℚ) ^ binary64.ehi := by
    have e : binary64.ehi = 1023 := by decide
    rw [e]
    have h1 : (2 : ℚ) ^ (17 : Int) ≤ (2 : ℚ) ^ (1023 : Int) :=
      zpow_le_zpow_right₀ (by norm_num) (by norm_num)
    have h2 : (2 : ℚ) ^ (17 : Int) = 131072 := by norm_num
    linarith
  have hp64 : (2 : ℚ) ^ ((binary64.prec : Int)) = 9007199254740992 := by
    norm_num [binary64]
  -- the subtraction
  obtain ⟨fd, rd⟩ := Flt.sub_spec binary64 v0 (Flt.abs P) hv fA
    (by rw [vA, abs_of_pos hdpos]; linarith) (by rw [vA, abs_of_pos hdpos]; linarith)
  rw [vA, abs_of_pos hdpos, hp64, abs_le] at rd
  generalize Flt.sub binary64 v0 (Flt.abs P) = d at fd rd ⊢
  have hd1 : 1 / 2200 ≤ d.val := by linarith
  have hd2 : d.val ≤ 46343 := by linarith
  obtain ⟨fB, vB⟩ := Flt.abs_spec d fd
  rw [abs_of_pos (by linarith : (0 : ℚ) < d.val)] at vB
  -- the conversion to float
  obtain ⟨n1, n2⟩ := normal32 (Flt.abs d).val
    (by rw [vB, abs_of_pos (by linarith : (0 : ℚ) < d.val)]; linarith)
    (by rw [vB, abs_of_pos (by linarith : (0 : ℚ) < d.val)]; linarith)
  obtain ⟨fp, rp⟩ := Flt.toF32_spec (Flt.abs d) fB n1 n2
  rw [vB, abs_of_pos (by linarith : (0 : ℚ) < d.val), abs_le] at rp
  generalize Flt.toF32 (Flt.abs d) = par at fp rp ⊢
  have hpar1 : 1 / 2300 ≤ par.val := by linarith
  have hpar2 : par.val ≤ 46344 := by linarith
  -- the product
  rw [ratio_eq]
  have hrv : (Flt.fin 5404319552844595 (-52)).val = 5404319552844595 / 4503599627370496 := by
    norm_num [Flt.val]
  have hprod0 : 0 < par.val * (Flt.fin 5404319552844595 (-52)).val := by
    rw [hrv]; positivity
  have hprod1 : 1 / 2300 ≤ par.val * (Flt.fin 5404319552844595 (-52)).val := by
    rw [hrv]; linarith
  have hprod2 : par.val * (Flt.fin 5404319552844595 (-52)).val ≤ 46344 * 2 := by
    rw [hrv]; linarith
  obtain ⟨fm, rm⟩ := Flt.mul_spec binary64 par (.fin 5404319552844595 (-52)) fp rfl
    (by rw [abs_of_pos hprod0]; linarith) (by rw [abs_of_pos hprod0]; linarith)
  rw [abs_of_pos hprod0, hp64, abs_le] at rm
  have hz : (Flt.fin 0 0).val = 0 := by simp [Flt.val]
  rw [Flt.lt_iff (.fin 0 0) _ rfl fm, hz]
  linarith

/-- A sample on the segment from the touchdown towards the centre, at least
`√944` away from the touchdown, passes the swipe test. -/
theorem is_swipe_segment (cfg : Config) (hr : cfg.scroll_movement_ratio = dbl 12 10)
    (x0 y0 x y : Int) (hx1 : -32768 ≤ x0) (hx2 : x0 ≤ 32767) (hy1 : -32768 ≤ y0)
    (hy2 : y0 ≤ 32767) (hseg : on_segment x0 y0 x y) (hn : 944 ≤ dist_sq x0 y0 x y) :
    is_swipe cfg (hypotf (Flt.ofInt binary32 x0) (Flt.ofInt binary32 y0)) x0 y0 x y = true := by
  obtain ⟨hdet, hD0, hDS, hsq⟩ := segment_facts x0 y0 x y hseg
  have hS2 : x0 ^ 2 + y0 ^ 2 ≤ 2147483648 := by nlinarith
  have hS0 : 0 ≤ x0 ^ 2 + y0 ^ 2 := by positivity
  have hne : ¬ (x0 = 0 ∧ y0 = 0) := by
    rintro ⟨rfl, rfl⟩
    have : (0 : Int) ^ 2 + 0 ^ 2 - (0 * x + 0 * y) = 0 := by ring
    rw [this] at hsq
    have h2 : dist_sq 0 0 x y * ((0 : Int) ^ 2 + 0 ^ 2) = 0 := by ring
    obtain ⟨p, q, hpq, hx, hy⟩ := hseg
    have hq : (q : Int) ≠ 0 := by
      have : 0 < q := by omega
      exact_mod_cast this.ne'
    have hx' : x = 0 := by
      rcases mul_eq_zero.mp (by rw [hx]; ring : (q : Int) * x = 0) with h | h
      · exact absurd h hq
      · exact h
    have hy' : y = 0 := by
      rcases mul_eq_zero.mp (by rw [hy]; ring : (q : Int) * y = 0) with h | h
      · exact absurd h hq
      · exact h
    rw [hx', hy'] at hn
    simp [dist_sq] at hn
  obtain ⟨fv, v1, v3, v4⟩ := hypotf_ofInt_spec x0 y0 (by omega) (by omega) (by omega) (by omega)
    hne
  -- the projection stays below S by a margin
  have hmargin : 2000 * (x0 * x + y0 * y) ≤ 1999 * (x0 ^ 2 + y0 ^ 2) := by
    by_contra hcon
    have h1 : 2000 * (x0 ^ 2 + y0 ^ 2 - (x0 * x + y0 * y)) < x0 ^ 2 + y0 ^ 2 := by omega
    have h0 : 0 ≤ x0 ^ 2 + y0 ^ 2 - (x0 * x + y0 * y) := by omega
    have h3 : 944 * (x0 ^ 2 + y0 ^ 2)
        ≤ (x0 ^ 2 + y0 ^ 2 - (x0 * x + y0 * y)) ^ 2 := by
      rw [hsq]; exact mul_le_mul_of_nonneg_right hn hS0
    nlinarith
  have hdotv : scroll_dot x0 y0 x y = x0 * x + y0 * y := by
    unfold scroll_dot wrap32; omega
  have hdetv : scroll_det x0 y0 x y = 0 := by
    unfold scroll_det; rw [hdet]; rfl
  generalize hypotf (Flt.ofInt binary32 x0) (Flt.ofInt binary32 y0) = v0 at fv v1 v3 v4 ⊢
  have hv0 : 0 < v0.val := by linarith
  have hSq : (x0 : ℚ) ^ 2 + (y0 : ℚ) ^ 2 ≤ 2147483648 := by exact_mod_cast hS2
  have hvu : v0.val ≤ 46342 := by
    by_contra hcon
    have hc' : 46342 < v0.val := not_le.mp hcon
    have h9 : (46342 : ℚ) * 46342 < v0.val * v0.val :=
      mul_lt_mul'' hc' hc' (by norm_num) (by norm_num)
    have h10 : v0.val ^ 2 = v0.val * v0.val := by ring
    rw [h10] at v4
    have h11 : ((x0 : ℚ) ^ 2 + (y0 : ℚ) ^ 2) * (1000001 / 1000000)
        ≤ 2147483648 * (1000001 / 1000000) := mul_le_mul_of_nonneg_right hSq (by norm_num)
    norm_num at h9 h11
    linarith
  have hproj : (Flt.div binary32 (Flt.ofInt binary32 (x0 * x + y0 * y)) v0).isFin = true ∧
      |(Flt.div binary32 (Flt.ofInt binary32 (x0 * x + y0 * y)) v0).val|
        ≤ v0.val * (2099 / 2100) := by
    by_cases hD : x0 * x + y0 * y = 0
    · rw [hD, Flt.ofInt_zero,
        Flt.div_zero binary32 (.fin 0 0) v0 rfl fv (by simp [Flt.val]) hv0.ne']
      refine ⟨rfl, ?_⟩
      have hz : (Flt.fin 0 0).val = 0 := by simp [Flt.val]
      rw [hz, abs_zero]
      positivity
    · have hD1 : (1 : ℚ) ≤ ((x0 * x + y0 * y : Int) : ℚ) := by
        have : 1 ≤ x0 * x + y0 * y := by omega
        exact_mod_cast this
      have hDq : ((x0 * x + y0 * y : Int) : ℚ)
          ≤ ((x0 : ℚ) ^ 2 + (y0 : ℚ) ^ 2) * (1999 / 2000) := by
        have : (2000 : ℚ) * ((x0 * x + y0 * y : Int) : ℚ)
            ≤ 1999 * ((x0 : ℚ) ^ 2 + (y0 : ℚ) ^ 2) := by exact_mod_cast hmargin
        linarith
      have e32hi : |((x0 * x + y0 * y : Int) : ℚ)| < (2 : ℚ) ^ binary32.ehi := by
        have e : binary32.ehi = 127 := by decide
        rw [e, abs_of_pos (by linarith)]
        have : (2147483648 : ℚ) < (2 : ℚ) ^ (127 : Int) := by norm_num
        linarith
      obtain ⟨fF, rF⟩ := Flt.ofInt_spec binary32 (x0 * x + y0 * y) hD (by decide) e32hi
      rw [prec32, abs_of_pos (by linarith : (0 : ℚ) < ((x0 * x + y0 * y : Int) : ℚ))] at rF
      obtain ⟨q1, q2, q3⟩ := proj_swipe_arith _ _ v0.val
        (Flt.ofInt binary32 (x0 * x + y0 * y)).val
        (Flt.div binary32 (Flt.ofInt binary32 (x0 * x + y0 * y)) v0).val hD1 hDq hv0 v3 hvu rF
      have rX := Flt.div_rounds _ v0 fF fv hv0.ne' q1 q2
      obtain ⟨p1, p2⟩ := q3 rX.2
      exact ⟨rX.1, by rw [abs_of_nonneg p1]; exact p2⟩
  unfold is_swipe
  simp only [hdotv, hdetv, hr]
  rw [Flt.ofInt_zero, Flt.div_zero binary32 (.fin 0 0) v0 rfl fv (by simp [Flt.val]) hv0.ne',
    perpendicular_zero]
  exact swipe_of_small_projection v0 _ fv hproj.1 v1 hvu hproj.2

theorem scroll_calls_append (cfg : Config) (l1 l2 : List pinnacle_data_t) :
    ∀ sc : circular_scroll_context_t,
      scroll_calls cfg sc (l1 ++ l2)
        = scroll_calls cfg sc l1 ++ scroll_calls cfg (scroll_run cfg sc l1) l2 := by
  induction l1 with
  | nil => intro sc; rfl
  | cons t ts ih =>
    intro sc
    rw [List.cons_append, scroll_calls, scroll_calls, scroll_run, ih, List.cons_append]

theorem scroll_run_append (cfg : Config) (l1 l2 : List pinnacle_data_t) :
    ∀ sc : circular_scroll_context_t,
      scroll_run cfg sc (l1 ++ l2) = scroll_run cfg (scroll_run cfg sc l1) l2 := by
  induction l1 with
  | nil => intro sc; rfl
  | cons t ts ih =>
    intro sc
    rw [List.cons_append, scroll_run, scroll_run, ih]

theorem circular_scroll_touchdown_ctx (cfg : Config) (sc : circular_scroll_context_t)
    (td : pinnacle_data_t) (hz : sc.z = 0) (ht : td.zValue ≠ 0)
    (hring : in_outer_ring cfg
      (hypotf (Flt.ofInt binary32 (centred cfg td.xValue))
        (Flt.ofInt binary32 (centred cfg td.yValue))) (scroll_center cfg) = true) :
    (circular_scroll cfg sc td).2.x = centred cfg td.xValue ∧
    (circular_scroll cfg sc td).2.y = centred cfg td.yValue ∧
    (circular_scroll cfg sc td).2.mag
      = hypotf (Flt.ofInt binary32 (centred cfg td.xValue))
        (Flt.ofInt binary32 (centred cfg td.yValue)) := by
  simp [circular_scroll, scroll_detect, scroll_emit, hz, ht, hring]

theorem circular_scroll_detecting_hold (cfg : Config) (sc : circular_scroll_context_t)
    (td : pinnacle_data_t) (hz : sc.z ≠ 0)
    (hs : sc.state = circular_scroll_status_t.SCROLL_DETECTING) (ht : td.zValue ≠ 0)
    (hm : moved_enough cfg
      (hypotf (Flt.ofInt binary32 (centred cfg td.xValue - sc.x))
        (Flt.ofInt binary32 (centred cfg td.yValue - sc.y))) (scroll_center cfg) = false) :
    circular_scroll cfg sc td
      = ({ v := 0, h := 0, suppress_touch := true }, { sc with z := td.zValue }) := by
  simp [circular_scroll, scroll_detect, scroll_emit, hz, hs, ht, hm]

theorem circular_scroll_detecting_swipe (cfg : Config) (sc : circular_scroll_context_t)
    (td : pinnacle_data_t) (hz : sc.z ≠ 0)
    (hs : sc.state = circular_scroll_status_t.SCROLL_DETECTING) (ht : td.zValue ≠ 0)
    (hm : moved_enough cfg
      (hypotf (Flt.ofInt binary32 (centred cfg td.xValue - sc.x))
        (Flt.ofInt binary32 (centred cfg td.yValue - sc.y))) (scroll_center cfg) = true)
    (hw : is_swipe cfg sc.mag sc.x sc.y (centred cfg td.xValue) (centred cfg td.yValue) = true) :
    (circular_scroll cfg sc td).1 = { v := 0, h := 0, suppress_touch := false } ∧
    (circular_scroll cfg sc td).2.state = circular_scroll_status_t.NOT_SCROLL := by
  simp [circular_scroll, scroll_detect, scroll_emit, hz, hs, ht, hm, hw]

theorem circular_scroll_not_scroll (cfg : Config) (sc : circular_scroll_context_t)
    (td : pinnacle_data_t) (hz : sc.z ≠ 0)
    (hs : sc.state = circular_scroll_status_t.NOT_SCROLL) (ht : td.zValue ≠ 0) :
    (circular_scroll cfg sc td).1 = { v := 0, h := 0, suppress_touch := false } ∧
    (circular_scroll cfg sc td).2.state = circular_scroll_status_t.NOT_SCROLL := by
  simp [circular_scroll, scroll_detect, scroll_emit, hz, hs, ht]

theorem scroll_calls_not_scroll (cfg : Config) (tds : List pinnacle_data_t)
    (hall : ∀ t ∈ tds, t.zValue ≠ 0) :
    ∀ sc : circular_scroll_context_t, sc.z ≠ 0 →
      sc.state = circular_scroll_status_t.NOT_SCROLL →
      scroll_calls cfg sc tds
        = tds.map (fun _ => ({ v := 0, h := 0, suppress_touch := false } : circular_scroll_t)) ∧
      (scroll_run cfg sc tds).state = circular_scroll_status_t.NOT_SCROLL := by
  induction tds with
  | nil => intro sc _ hs; exact ⟨rfl, hs⟩
  | cons t ts ih =>
    intro sc hz hs
    have ht : t.zValue ≠ 0 := hall t (List.mem_cons_self _ _)
    obtain ⟨h1, h2⟩ := circular_scroll_not_scroll cfg sc t hz hs ht
    obtain ⟨i1, i2⟩ := ih (fun u hu => hall u (List.mem_cons_of_mem _ hu))
      (circular_scroll cfg sc t).2 (by rw [circular_scroll_z]; exact ht) h2
    refine ⟨?_, ?_⟩
    · rw [scroll_calls, h1, i1]; rfl
    · rw [scroll_run]; exact i2

theorem scroll_calls_detecting (cfg : Config) (hc : scroll_center cfg = 512)
    (hp : cfg.scroll_movement_percentage = 6) (X0 Y0 : Int) (M0 : Flt)
    (hX1 : -32768 ≤ X0) (hX2 : X0 ≤ 32767) (hY1 : -32768 ≤ Y0) (hY2 : Y0 ≤ 32767)
    (pre : List pinnacle_data_t)
    (hpre : ∀ t ∈ pre, t.zValue ≠ 0 ∧
      dist_sq X0 Y0 (centred cfg t.xValue) (centred cfg t.yValue) < 944) :
    ∀ sc : circular_scroll_context_t, sc.z ≠ 0 →
      sc.state = circular_scroll_status_t.SCROLL_DETECTING →
      sc.x = X0 → sc.y = Y0 → sc.mag = M0 →
      scroll_calls cfg sc pre
        = pre.map (fun _ => ({ v := 0, h := 0, suppress_touch := true } : circular_scroll_t)) ∧
      (scroll_run cfg sc pre).z ≠ 0 ∧
      (scroll_run cfg sc pre).state = circular_scroll_status_t.SCROLL_DETECTING ∧
      (scroll_run cfg sc pre).x = X0 ∧ (scroll_run cfg sc pre).y = Y0 ∧
      (scroll_run cfg sc pre).mag = M0 := by
  induction pre with
  | nil => intro sc hz hs hx hy hm; exact ⟨rfl, hz, hs, hx, hy, hm⟩
  | cons t ts ih =>
    intro sc hz hs hx hy hm
    obtain ⟨ht, hd⟩ := hpre t (List.mem_cons_self _ _)
    obtain ⟨x1, x2⟩ := centred_range cfg t.xValue
    obtain ⟨y1, y2⟩ := centred_range cfg t.yValue
    have hme : moved_enough cfg
        (hypotf (Flt.ofInt binary32 (centred cfg t.xValue - sc.x))
          (Flt.ofInt binary32 (centred cfg t.yValue - sc.y))) (scroll_center cfg) = false := by
      rw [hx, hy, moved_enough_iff cfg hc hp _ _ (by omega) (by omega) (by omega) (by omega)]
      unfold dist_sq at hd
      simp only [decide_eq_false_iff_not, not_le]
      exact hd
    have hstep := circular_scroll_detecting_hold cfg sc t hz hs ht hme
    obtain ⟨i1, i2⟩ := ih (fun u hu => hpre u (List.mem_cons_of_mem _ hu))
      (circular_scroll cfg sc t).2 (by rw [circular_scroll_z]; exact ht)
      (by rw [hstep]; exact hs) (by rw [hstep]; exact hx) (by rw [hstep]; exact hy)
      (by rw [hstep]; exact hm)
    refine ⟨?_, ?_⟩
    · rw [scroll_calls, i1, hstep]; rfl
    · rw [scroll_run]; exact i2

/-- C12: with the default movement percentage 6, movement ratio 1.2 and
`center = 512`: after a touchdown in the outer ring at the centred position
`P0`, samples nearer to `P0` than `0.06 * center` keep the stroke suppressed in
`SCROLL_DETECTING`; the first sample `s` on the segment from `P0` towards the
centre whose distance from `P0` is at least `0.06 * center` moves the state to
`NOT_SCROLL`; `suppress_touch` is false on `s` and on every later touched
sample; and `v = h = 0` on every sample of the stroke. -/
theorem edge_swipe_releases (cfg : Config) (hc : scroll_center cfg = 512)
    (hp : cfg.scroll_movement_percentage = 6) (hr : cfg.scroll_movement_ratio = dbl 12 10)
    (sc : circular_scroll_context_t) (td0 : pinnacle_data_t) (pre : List pinnacle_data_t)
    (s : pinnacle_data_t) (post : List pinnacle_data_t)
    (hz : sc.z = 0) (ht0 : td0.zValue ≠ 0)
    (hring : in_outer_ring cfg
      (hypotf (Flt.ofInt binary32 (centred cfg td0.xValue))
        (Flt.ofInt binary32 (centred cfg td0.yValue))) (scroll_center cfg) = true)
    (hpre : ∀ t ∈ pre, t.zValue ≠ 0 ∧
      10000 * dist_sq (centred cfg td0.xValue) (centred cfg td0.yValue)
          (centred cfg t.xValue) (centred cfg t.yValue)
        < (((cfg.scroll_movement_percentage * scroll_center cfg : Nat) : Int)) ^ 2)
    (hs : s.zValue ≠ 0)
    (hseg : on_segment (centred cfg td0.xValue) (centred cfg td0.yValue)
      (centred cfg s.xValue) (centred cfg s.yValue))
    (hdist : (((cfg.scroll_movement_percentage * scroll_center cfg : Nat) : Int)) ^ 2
      ≤ 10000 * dist_sq (centred cfg td0.xValue) (centred cfg td0.yValue)
          (centred cfg s.xValue) (centred cfg s.yValue))
    (hpost : ∀ t ∈ post, t.zValue ≠ 0) :
    scroll_calls cfg sc (td0 :: (pre ++ s :: post))
      = { v := 0, h := 0, suppress_touch := false } ::
        (pre.map (fun _ => ({ v := 0, h := 0, suppress_touch := true } : circular_scroll_t))
          ++ { v := 0, h := 0, suppress_touch := false } ::
            post.map (fun _ => ({ v := 0, h := 0, suppress_touch := false } : circular_scroll_t))) ∧
    (scroll_run cfg sc (td0 :: pre)).state = circular_scroll_status_t.SCROLL_DETECTING ∧
    (scroll_run cfg sc (td0 :: (pre ++ [s]))).state = circular_scroll_status_t.NOT_SCROLL ∧
    (scroll_run cfg sc (td0 :: (pre ++ s :: post))).state
      = circular_scroll_status_t.NOT_SCROLL := by
  obtain ⟨_, t2, t3⟩ := circular_scroll_touchdown cfg sc td0 hz ht0 hring
  obtain ⟨c1, c2, c3⟩ := circular_scroll_touchdown_ctx cfg sc td0 hz ht0 hring
  obtain ⟨X1, X2⟩ := centred_range cfg td0.xValue
  obtain ⟨Y1, Y2⟩ := centred_range cfg td0.yValue
  have hpre' : ∀ t ∈ pre, t.zValue ≠ 0 ∧
      dist_sq (centred cfg td0.xValue) (centred cfg td0.yValue)
        (centred cfg t.xValue) (centred cfg t.yValue) < 944 := by
    intro t ht
    obtain ⟨h1, h2⟩ := hpre t ht
    rw [hp, hc] at h2
    refine ⟨h1, ?_⟩
    norm_num at h2
    omega
  have hdist' : 944 ≤ dist_sq (centred cfg td0.xValue) (centred cfg td0.yValue)
      (centred cfg s.xValue) (centred cfg s.yValue) := by
    rw [hp, hc] at hdist
    norm_num at hdist
    omega
  obtain ⟨p1, p2, p3, p4, p5, p6⟩ := scroll_calls_detecting cfg hc hp
    (centred cfg td0.xValue) (centred cfg td0.yValue)
    (hypotf (Flt.ofInt binary32 (centred cfg td0.xValue))
      (Flt.ofInt binary32 (centred cfg td0.yValue)))
    X1 X2 Y1 Y2 pre hpre' (circular_scroll cfg sc td0).2
    (by rw [circular_scroll_z]; exact ht0) t2 c1 c2 c3
  obtain ⟨x1, x2⟩ := centred_range cfg s.xValue
  obtain ⟨y1, y2⟩ := centred_range cfg s.yValue
  have hme : moved_enough cfg
      (hypotf (Flt.ofInt binary32 (centred cfg s.xValue
          - (scroll_run cfg (circular_scroll cfg sc td0).2 pre).x))
        (Flt.ofInt binary32 (centred cfg s.yValue
          - (scroll_run cfg (circular_scroll cfg sc td0).2 pre).y))) (scroll_center cfg)
      = true := by
    rw [p4, p5, moved_enough_iff cfg hc hp _ _ (by omega) (by omega) (by omega) (by omega)]
    unfold dist_sq at hdist'
    simp only [decide_eq_true_eq]
    exact hdist'
  have hsw : is_swipe cfg (scroll_run cfg (circular_scroll cfg sc td0).2 pre).mag
      (scroll_run cfg (circular_scroll cfg sc td0).2 pre).x
      (scroll_run cfg (circular_scroll cfg sc td0).2 pre).y
      (centred cfg s.xValue) (centred cfg s.yValue) = true := by
    rw [p4, p5, p6]
    exact is_swipe_segment cfg hr _ _ _ _ X1 X2 Y1 Y2 hseg hdist'
  obtain ⟨s1, s2⟩ := circular_scroll_detecting_swipe cfg _ s p2 p3 hs hme hsw
  obtain ⟨q1, q2⟩ := scroll_calls_not_scroll cfg post hpost
    (circular_scroll cfg (scroll_run cfg (circular_scroll cfg sc td0).2 pre) s).2
    (by rw [circular_scroll_z]; exact hs) s2
  refine ⟨?_, ?_, ?_, ?_⟩
  · rw [scroll_calls, t3, scroll_calls_append, p1, scroll_calls, s1, q1]
  · rw [scroll_run]; exact p3
  · rw [scroll_run, scroll_run_append, scroll_run, scroll_run]; exact s2
  · rw [scroll_run, scroll_run_append, scroll_run]; exact q2

set_option maxRecDepth 100000 in
/-- A touchdown on the right edge at `(1000, 512)`, then an inward straight line
through `(980, 512)` and `(960, 512)` to `(600, 512)`. -/
theorem edge_swipe_releases_witness :
    scroll_calls Config.default State.init.scroll
        [touch_at 1000 512, touch_at 980 512, touch_at 960 512, touch_at 600 512]
      = [{ v := 0, h := 0, suppress_touch := false }, { v := 0, h := 0, suppress_touch := true },
         { v := 0, h := 0, suppress_touch := false },
         { v := 0, h := 0, suppress_touch := false }] :=
  (edge_swipe_releases Config.default (by decide) rfl rfl State.init.scroll
    (touch_at 1000 512) [touch_at 980 512] (touch_at 960 512) [touch_at 600 512]
    rfl (by decide) (by decide) (by decide) (by decide)
    ⟨56, 61, by decide, by decide, by decide⟩ (by decide) (by decide)).1

set_option maxRecDepth 100000 in
/-- C12, as stated, fails: with the default macros at scale 6076
(`center = 3038`), a touchdown in the outer ring at the centred position
`(2100, 612)` followed by the sample at `(1925, 561)`, which lies on the segment
towards the centre (`t = 11 / 12`) at a distance `√33226 ≥ 0.06 * 3038` from the
touchdown, leaves the state `SCROLL_DETECTING` with `suppress_touch = true`:
`hypotf` gives `182.27999…`, below the threshold `182.28000…`. -/
theorem swipe_at_threshold_stays_detecting :
    centred Config.scale6076 (touch_at 5138 3650).xValue = 2100 ∧
    centred Config.scale6076 (touch_at 5138 3650).yValue = 612 ∧
    centred Config.scale6076 (touch_at 4963 3599).xValue = 1925 ∧
    centred Config.scale6076 (touch_at 4963 3599).yValue = 561 ∧
    in_outer_ring Config.scale6076
      (hypotf (Flt.ofInt binary32 (centred Config.scale6076 (touch_at 5138 3650).xValue))
        (Flt.ofInt binary32 (centred Config.scale6076 (touch_at 5138 3650).yValue)))
      (scroll_center Config.scale6076) = true ∧
    on_segment (centred Config.scale6076 (touch_at 5138 3650).xValue)
      (centred Config.scale6076 (touch_at 5138 3650).yValue)
      (centred Config.scale6076 (touch_at 4963 3599).xValue)
      (centred Config.scale6076 (touch_at 4963 3599).yValue) ∧
    (((Config.scale6076.scroll_movement_percentage * scroll_center Config.scale6076 : Nat) : Int))
        ^ 2
      ≤ 10000 * dist_sq (centred Config.scale6076 (touch_at 5138 3650).xValue)
          (centred Config.scale6076 (touch_at 5138 3650).yValue)
          (centred Config.scale6076 (touch_at 4963 3599).xValue)
          (centred Config.scale6076 (touch_at 4963 3599).yValue) ∧
    scroll_calls Config.scale6076 State.init.scroll [touch_at 5138 3650, touch_at 4963 3599]
      = [{ v := 0, h := 0, suppress_touch := false }, { v := 0, h := 0, suppress_touch := true }] ∧
    (scroll_run Config.scale6076 State.init.scroll [touch_at 5138 3650, touch_at 4963 3599]).state
      = SCROLL_DETECTING :=
  ⟨by decide, by decide, by decide, by decide, by decide,
   ⟨11, 12, by decide, by decide, by decide⟩, by decide, by decide, by decide⟩

/-! ### C13 -/

/-- C13: on a tick that processes a sample which `circular_scroll` does not
suppress and after which no glide report is valid (with the glide enabled: the
sample has `touchDown` and `cursor_glide_check` was not valid; a sample
without `touchDown` starts a glide, whose report is valid), the returned
`(x, y)` is `(sx - last_sx, sy - last_sy)` when the four coordinates are
non-zero and both differences fit in `[-127, 127]`, and `(0, 0)` when the
stored last position or the sample position is `(0, 0)`; the stored last
position becomes `(sx, sy)`. -/
theorem live_delta_reported (cfg : Config) (inp : Input) (st : State)
    (mouse_report : report_mouse_t)
    (hp : cfg.motion_pin = true ∨ inp.data_ready = true)
    (hs : cfg.enable_circular_scroll = true →
      (circular_scroll cfg st.scroll inp.touchData).1.suppress_touch = false)
    (hg : cfg.enable_cursor_glide = true →
      inp.touchData.touchDown = true ∧ (cursor_glide_check inp.now st.glide).1.valid = false)
    (hx : inp.touchData.xValue < 65536) (hy : inp.touchData.yValue < 65536) :
    (st.x ≠ 0 → st.y ≠ 0 → inp.touchData.xValue ≠ 0 → inp.touchData.yValue ≠ 0 →
      -127 ≤ (inp.touchData.xValue : Int) - st.x → (inp.touchData.xValue : Int) - st.x ≤ 127 →
      -127 ≤ (inp.touchData.yValue : Int) - st.y → (inp.touchData.yValue : Int) - st.y ≤ 127 →
      (cirque_pinnacle_get_report cfg inp st mouse_report).report.x
        = (inp.touchData.xValue : Int) - st.x ∧
      (cirque_pinnacle_get_report cfg inp st mouse_report).report.y
        = (inp.touchData.yValue : Int) - st.y) ∧
    ((st.x = 0 ∧ st.y = 0) ∨ (inp.touchData.xValue = 0 ∧ inp.touchData.yValue = 0) →
      (cirque_pinnacle_get_report cfg inp st mouse_report).report.x = 0 ∧
      (cirque_pinnacle_get_report cfg inp st mouse_report).report.y = 0) ∧
    (cirque_pinnacle_get_report cfg inp st mouse_report).state.x = inp.touchData.xValue ∧
    (cirque_pinnacle_get_report cfg inp st mouse_report).state.y = inp.touchData.yValue := by
  have hp' : (!cfg.motion_pin && !inp.data_ready) = false := by
    rcases hp with h | h <;> simp [h]
  have hsup : (if cfg.enable_circular_scroll = true then circular_scroll cfg st.scroll inp.touchData
      else ({ v := mouse_report.v, h := mouse_report.h, suppress_touch := false },
        st.scroll)).1.suppress_touch = false := by
    by_cases h : cfg.enable_circular_scroll = true
    · simp only [h, if_true]; exact hs h
    · simp [h]
  have hmx : inp.touchData.xValue % 65536 = inp.touchData.xValue := Nat.mod_eq_of_lt hx
  have hmy : inp.touchData.yValue % 65536 = inp.touchData.yValue := Nat.mod_eq_of_lt hy
  have hval : ∀ rx ry : Int,
      (if cfg.enable_cursor_glide = true then
        if inp.touchData.touchDown = true then
          ((if cfg.enable_cursor_glide = true then cursor_glide_check inp.now st.glide
            else ({ dx := 0, dy := 0, valid := false }, st.glide)).1,
           cursor_glide_update (if cfg.enable_cursor_glide = true then
              cursor_glide_check inp.now st.glide
            else ({ dx := 0, dy := 0, valid := false }, st.glide)).2 rx ry inp.touchData.zValue)
        else if (!(if cfg.enable_cursor_glide = true then cursor_glide_check inp.now st.glide
            else ({ dx := 0, dy := 0, valid := false }, st.glide)).1.valid) = true then
          cursor_glide_start inp.now (if cfg.enable_cursor_glide = true then
              cursor_glide_check inp.now st.glide
            else ({ dx := 0, dy := 0, valid := false }, st.glide)).2
        else ((if cfg.enable_cursor_glide = true then cursor_glide_check inp.now st.glide
            else ({ dx := 0, dy := 0, valid := false }, st.glide)).1,
          (if cfg.enable_cursor_glide = true then cursor_glide_check inp.now st.glide
            else ({ dx := 0, dy := 0, valid := false }, st.glide)).2)
      else ((if cfg.enable_cursor_glide = true then cursor_glide_check inp.now st.glide
            else ({ dx := 0, dy := 0, valid := false }, st.glide)).1,
          (if cfg.enable_cursor_glide = true then cursor_glide_check inp.now st.glide
            else ({ dx := 0, dy := 0, valid := false }, st.glide)).2)).1.valid = false := by
    intro rx ry
    by_cases h : cfg.enable_cursor_glide = true
    · obtain ⟨h1, h2⟩ := hg h
      simp [h, h1, h2]
    · simp [h]
  simp only [cirque_pinnacle_get_report, hp', process_sample, hsup, hval, hmx, hmy]
  simp only [Bool.not_false, Bool.true_and, Bool.false_eq_true, if_false]
  refine ⟨?_, ?_, trivial, trivial⟩
  · intro a b c d e1 e2 e3 e4
    have hm : (st.x ≠ 0 ∧ st.y ≠ 0 ∧ inp.touchData.xValue ≠ 0 ∧ inp.touchData.yValue ≠ 0) :=
      ⟨a, b, c, d⟩
    have hd := decide_eq_true hm
    simp only [hd, if_true]
    exact ⟨wrap8_id _ (by omega) (by omega), wrap8_id _ (by omega) (by omega)⟩
  · intro h
    have hm : ¬ (st.x ≠ 0 ∧ st.y ≠ 0 ∧ inp.touchData.xValue ≠ 0 ∧ inp.touchData.yValue ≠ 0) := by
      rintro ⟨a, b, c, d⟩
      rcases h with ⟨h1, _⟩ | ⟨h1, _⟩
      · exact a h1
      · exact c h1
    have hd := decide_eq_false hm
    simp [hd]

set_option maxRecDepth 100000 in
/-- The second sample of a drag from `(400, 400)` to `(440, 410)`. -/
theorem live_delta_reported_witness :
    (cirque_pinnacle_get_report Config.default (sample 10 440 410 50)
      (run_state Config.default report_zero State.init [sample 0 400 400 50])
      report_zero).report.x
        = ((sample 10 440 410 50).touchData.xValue : Int)
          - (run_state Config.default report_zero State.init [sample 0 400 400 50]).x ∧
    (cirque_pinnacle_get_report Config.default (sample 10 440 410 50)
      (run_state Config.default report_zero State.init [sample 0 400 400 50])
      report_zero).report.y
        = ((sample 10 440 410 50).touchData.yValue : Int)
          - (run_state Config.default report_zero State.init [sample 0 400 400 50]).y :=
  (live_delta_reported Config.default (sample 10 440 410 50)
    (run_state Config.default report_zero State.init [sample 0 400 400 50]) report_zero
    (Or.inr rfl) (fun _ => by decide) (fun _ => by decide) (by decide) (by decide)).1
    (by decide) (by decide) (by decide) (by decide) (by decide) (by decide) (by decide)
    (by decide)

/-! ### C14 -/

/-- C14: when `cirque_pinnacle_data_ready()` is false (in a build without
`POINTING_DEVICE_MOTION_PIN`, where it is consulted) and `cursor_glide_check`
reports no valid glide, `cirque_pinnacle_get_report` returns its input report
and leaves all the statics as they were, flushing nothing. -/
theorem no_sample_no_glide_is_identity (cfg : Config) (inp : Input) (st : State)
    (mouse_report : report_mouse_t) (hm : cfg.motion_pin = false)
    (hd : inp.data_ready = false)
    (hg : cfg.enable_cursor_glide = true →
      (cursor_glide_check inp.now st.glide).1.valid = false) :
    cirque_pinnacle_get_report cfg inp st mouse_report
      = { report := mouse_report, state := st, sent := [] } := by
  by_cases h : cfg.enable_cursor_glide = true
  · have hv := hg h
    have hctx : (cursor_glide_check inp.now st.glide).2 = st.glide := by
      unfold cursor_glide_check at hv ⊢
      split_ifs at hv ⊢ with hc
      · rfl
      · rw [cursor_glide_valid] at hv
        exact absurd hv (by decide)
    simp [cirque_pinnacle_get_report, hm, hd, h, hv, hctx]
  · simp [cirque_pinnacle_get_report, hm, hd, h]

/-- A tick without a sample in the power-on state. -/
theorem no_sample_no_glide_is_identity_witness :
    cirque_pinnacle_get_report Config.default (no_sample 5) State.init report_zero
      = { report := report_zero, state := State.init, sent := [] } :=
  no_sample_no_glide_is_identity Config.default (no_sample 5) State.init report_zero rfl rfl
    (fun _ => by decide)

/-! ### C15 -/

set_option maxRecDepth 100000 in
theorem release_clears_bit0 : ∀ b < 256,
    pointing_device_handle_buttons
      (pointing_device_handle_buttons b true POINTING_DEVICE_BUTTON1) false
      POINTING_DEVICE_BUTTON1 = b / 2 * 2 := by
  decide

theorem testBit_clear_bit0 (b i : Nat) (hi : i ≠ 0) : (b / 2 * 2).testBit i = b.testBit i := by
  obtain ⟨j, rfl⟩ : ∃ j, i = j + 1 := ⟨i - 1, by omega⟩
  rw [Nat.testBit_succ, Nat.testBit_succ, Nat.mul_div_cancel _ (by norm_num)]

/-- C15: `trackpad_tap` returns the input report with `x`, `y`, `v`, `h`
unchanged and `buttons` changed at most in the bit of button 1; a call that
flushes nothing (emits no tap) returns the whole report unchanged. -/
theorem trackpad_tap_frame (cfg : Config) (now : Nat) (tap : trackpad_tap_context_t)
    (mouse_report : report_mouse_t) (touchData : pinnacle_data_t)
    (hb : mouse_report.buttons < 256) :
    (trackpad_tap cfg now tap mouse_report touchData).1.x = mouse_report.x ∧
    (trackpad_tap cfg now tap mouse_report touchData).1.y = mouse_report.y ∧
    (trackpad_tap cfg now tap mouse_report touchData).1.v = mouse_report.v ∧
    (trackpad_tap cfg now tap mouse_report touchData).1.h = mouse_report.h ∧
    (∀ i, i ≠ POINTING_DEVICE_BUTTON1 →
      (trackpad_tap cfg now tap mouse_report touchData).1.buttons.testBit i
        = mouse_report.buttons.testBit i) ∧
    ((trackpad_tap cfg now tap mouse_report touchData).2.2 = [] →
      (trackpad_tap cfg now tap mouse_report touchData).1 = mouse_report) := by
  have hr := release_clears_bit0 mouse_report.buttons hb
  simp only [trackpad_tap]
  split_ifs <;> simp_all [testBit_clear_bit0, POINTING_DEVICE_BUTTON1]

set_option maxRecDepth 100000 in
/-- The lift that ends a tap, on a report with buttons 1 and 2 held. -/
theorem trackpad_tap_frame_witness :
    (trackpad_tap Config.default 1050 { timer := 1000, z := true }
      { buttons := 3, x := 5, y := -4, v := 1, h := 0 }
      { xValue := 0, yValue := 0, zValue := 0, touchDown := false }).1
      = { buttons := 2, x := 5, y := -4, v := 1, h := 0 } ∧
    (trackpad_tap Config.default 1050 { timer := 1000, z := true }
      { buttons := 3, x := 5, y := -4, v := 1, h := 0 }
      { xValue := 0, yValue := 0, zValue := 0, touchDown := false }).1.x = 5 :=
  ⟨by decide,
    (trackpad_tap_frame Config.default 1050 { timer := 1000, z := true }
      { buttons := 3, x := 5, y := -4, v := 1, h := 0 }
      { xValue := 0, yValue := 0, zValue := 0, touchDown := false } (by decide)).1⟩

/-! ### The range of `atan2f` and of `wheel_clicks` -/

theorem atanSeries_le (a b : Nat) (hab : a * a ≤ b * b) :
    ∀ fuel k t, atanSeries a b fuel k t ≤ 2 * t := by
  intro fuel
  induction fuel with
  | zero => intro k t; simp [atanSeries]
  | succ fuel ih =>
    intro k t
    simp only [atanSeries]
    have h1 := ih (k + 1) (t * (a * a) * (2 * k + 2) / ((a * a + b * b) * (2 * k + 3)))
    have h2 : 2 * (t * (a * a) * (2 * k + 2) / ((a * a + b * b) * (2 * k + 3))) ≤ t := by
      calc 2 * (t * (a * a) * (2 * k + 2) / ((a * a + b * b) * (2 * k + 3)))
          ≤ 2 * (t * (a * a) * (2 * k + 2)) / ((a * a + b * b) * (2 * k + 3)) :=
            Nat.mul_div_le_mul_div_assoc _ _ _
        _ ≤ t := by
            apply Nat.div_le_of_le_mul
            have h3 : 2 * (a * a) ≤ a * a + b * b := by omega
            have h4 : 2 * k + 2 ≤ 2 * k + 3 := by omega
            calc 2 * (t * (a * a) * (2 * k + 2)) = (2 * (a * a)) * (2 * k + 2) * t := by ring
              _ ≤ (a * a + b * b) * (2 * k + 3) * t :=
                Nat.mul_le_mul_right _ (Nat.mul_le_mul h3 h4)
    omega

theorem atanFix_le (a b : Nat) (hab : a ≤ b) : atanFix a b ≤ 2 ^ 80 := by
  have hsq : a * a ≤ b * b := Nat.mul_le_mul hab hab
  have h1 := atanSeries_le a b hsq 90 0 (2 ^ 80 * (a * b) / (a * a + b * b))
  have h2 : 2 ^ 80 * (a * b) / (a * a + b * b) ≤ 2 ^ 79 := by
    apply Nat.div_le_of_le_mul
    have h3 : 2 * (a * b) ≤ a * a + b * b := by
      obtain ⟨d, rfl⟩ : ∃ d, b = a + d := ⟨b - a, by omega⟩
      nlinarith
    calc 2 ^ 80 * (a * b) = 2 ^ 79 * (2 * (a * b)) := by ring
      _ ≤ 2 ^ 79 * (a * a + b * b) := Nat.mul_le_mul_left _ h3
      _ = (a * a + b * b) * 2 ^ 79 := by ring
  unfold atanFix
  omega

/-- The reference `atan2f` of finite data is the rounding of a fixed-point
value of magnitude at most `piFix`. -/
theorem atan2f_eq (my ey mx ex : Int) :
    ∃ n : Int, n.natAbs ≤ piFix ∧
      atan2f (.fin my ey) (.fin mx ex) = roundQ binary32 n (2 ^ 80) := by
  simp only [atan2f]
  generalize my.natAbs * 2 ^ (ey - min ey ex).toNat = a
  generalize mx.natAbs * 2 ^ (ex - min ey ex).toNat = b
  by_cases ha : a = 0
  · simp only [ha, if_true]
    by_cases hx : mx < 0
    · exact ⟨piFix, by simp, by simp [hx]⟩
    · exact ⟨0, by simp, by simp [hx, roundQ]⟩
  · simp only [ha, if_false]
    have ht : (if a ≤ b then atanFix a b else piFix / 2 - atanFix b a) ≤ piFix / 2 := by
      split_ifs with h
      · have := atanFix_le a b h
        have e : (2 : Nat) ^ 80 ≤ piFix / 2 := by decide
        omega
      · omega
    generalize (if a ≤ b then atanFix a b else piFix / 2 - atanFix b a) = t at ht
    have hu : (if mx < 0 then piFix - t else t) ≤ piFix := by
      split_ifs
      · omega
      · have : piFix / 2 ≤ piFix := Nat.div_le_self _ _
        omega
    generalize (if mx < 0 then piFix - t else t) = u at hu
    refine ⟨if my < 0 then -(u : Int) else (u : Int), ?_, rfl⟩
    split_ifs <;> simpa using hu

theorem piFix_val : ((piFix : Nat) : ℚ) / ((2 ^ 80 : Nat) : ℚ)
    ≤ 884279719003555 / 281474976710656 * (1 + 1 / 1000000000) := by
  norm_num [piFix]

theorem M_PI_val : M_PI.val = 884279719003555 / 281474976710656 := by
  norm_num [M_PI, Flt.val]

/-- The reference `atan2f` of finite data is finite, at most `π` in magnitude
up to one rounding, and either zero or at least `2 ^ -81` in magnitude. -/
theorem atan2f_range (y x : Flt) (hy : y.isFin = true) (hx : x.isFin = true) :
    (atan2f y x).isFin = true ∧
    |(atan2f y x).val| ≤ 884279719003555 / 281474976710656 * (1 + 1 / 10000000) ∧
    ((atan2f y x).val = 0 ∨ 1 / 2417851639229258349412352 ≤ |(atan2f y x).val|) := by
  obtain ⟨my, ey, rfl⟩ := Flt.exists_fin y hy
  obtain ⟨mx, ex, rfl⟩ := Flt.exists_fin x hx
  obtain ⟨n, hn, he⟩ := atan2f_eq my ey mx ex
  rw [he]
  by_cases h0 : n = 0
  · subst h0
    simp [roundQ, Flt.isFin, Flt.val]
    norm_num
  · have hd : (0 : ℚ) < ((2 ^ 80 : Nat) : ℚ) := by positivity
    have habs : |(n : ℚ) / ((2 ^ 80 : Nat) : ℚ)| = (n.natAbs : ℚ) / ((2 ^ 80 : Nat) : ℚ) := by
      rw [abs_div, abs_of_pos hd, Nat.cast_natAbs, Int.cast_abs]
    have h1 : (1 : ℚ) ≤ (n.natAbs : ℚ) := by
      have := Int.natAbs_pos.mpr h0
      exact_mod_cast this
    have h2 : (n.natAbs : ℚ) ≤ (piFix : ℚ) := by exact_mod_cast hn
    have hup : (n.natAbs : ℚ) / ((2 ^ 80 : Nat) : ℚ)
        ≤ 884279719003555 / 281474976710656 * (1 + 1 / 1000000000) :=
      le_trans (div_le_div_of_nonneg_right h2 hd.le) piFix_val
    have hlow : (1 : ℚ) / 1208925819614629174706176 ≤ (n.natAbs : ℚ) / ((2 ^ 80 : Nat) : ℚ) := by
      rw [le_div_iff₀ hd]; push_cast; norm_num
      exact Int.natAbs_pos.mpr h0
    have hlo : (2 : ℚ) ^ (binary32.elo + binary32.prec - 1)
        ≤ |(n : ℚ) / ((2 ^ 80 : Nat) : ℚ)| := by
      rw [habs]
      have e : binary32.elo + binary32.prec - 1 = -126 := by decide
      rw [e]
      have : (2 : ℚ) ^ (-126 : Int) ≤ 1 / 1208925819614629174706176 := by norm_num
      linarith
    have hhi : |(n : ℚ) / ((2 ^ 80 : Nat) : ℚ)| < (2 : ℚ) ^ binary32.ehi := by
      rw [habs]
      have e : binary32.ehi = 127 := by decide
      rw [e]
      have : (4 : ℚ) < (2 : ℚ) ^ (127 : Int) := by norm_num
      linarith
    obtain ⟨r1, r2⟩ := roundQ_spec binary32 n (2 ^ 80) h0 (by positivity) hlo hhi
    rw [prec32, habs] at r2
    refine ⟨r1, ?_, Or.inr ?_⟩
    · have := abs_sub_abs_le_abs_sub (roundQ binary32 n (2 ^ 80)).val
        ((n : ℚ) / ((2 ^ 80 : Nat) : ℚ))
      rw [habs] at this
      linarith
    · have := abs_sub_abs_le_abs_sub ((n : ℚ) / ((2 ^ 80 : Nat) : ℚ))
        (roundQ binary32 n (2 ^ 80)).val
      rw [habs, abs_sub_comm] at this
      linarith

theorem roundf_toInt32_bound (x : Flt) (hx : x.isFin = true) (K : Nat) (hK : K ≤ 1000)
    (hb : |x.val| < (K : ℚ) + 1 / 2) :
    -(K : Int) ≤ Flt.toInt32 (Flt.roundf x) ∧ Flt.toInt32 (Flt.roundf x) ≤ (K : Int) := by
  obtain ⟨m, e, rfl⟩ := Flt.exists_fin x hx
  have hv : (Flt.fin m e).val = (m : ℚ) * (2 : ℚ) ^ e := rfl
  rw [hv] at hb
  rcases le_or_lt 0 e with he | he
  · have hr : Flt.roundf (.fin m e) = .fin m e := by simp [Flt.roundf, he]
    have ht : Flt.truncDy m e = m * 2 ^ e.toNat := by simp [Flt.truncDy, he]
    have hq : (m : ℚ) * (2 : ℚ) ^ e = ((m * 2 ^ e.toNat : Int) : ℚ) := by
      push_cast
      rw [← zpow_natCast (2 : ℚ) e.toNat, Int.toNat_of_nonneg he]
    rw [hq, abs_lt] at hb
    obtain ⟨b1, b2⟩ := hb
    have c1 : ((-(K : Int) - 1 : Int) : ℚ) < ((m * 2 ^ e.toNat : Int) : ℚ) := by
      push_cast; push_cast at b1; linarith
    have c2 : ((m * 2 ^ e.toNat : Int) : ℚ) < (((K : Int) + 1 : Int) : ℚ) := by
      push_cast; push_cast at b2; linarith
    have c1' : -(K : Int) - 1 < m * 2 ^ e.toNat := by exact_mod_cast c1
    have c2' : m * 2 ^ e.toNat < (K : Int) + 1 := by exact_mod_cast c2
    rw [hr]
    simp only [Flt.toInt32, ht]
    split_ifs <;> omega
  · have hD : (0 : ℚ) < (2 : ℚ) ^ (-e).toNat := by positivity
    have hq : (m : ℚ) * (2 : ℚ) ^ e = (m : ℚ) / (2 : ℚ) ^ (-e).toNat := by
      rw [← zpow_natCast (2 : ℚ) (-e).toNat, Int.toNat_of_nonneg (by omega), zpow_neg,
        div_inv_eq_mul]
    rw [hq, abs_div, abs_of_pos hD, div_lt_iff₀ hD] at hb
    have hmq : |(m : ℚ)| = ((m.natAbs : Nat) : ℚ) := by
      rw [Nat.cast_natAbs, Int.cast_abs]
    rw [hmq] at hb
    have hnat : 2 * m.natAbs + 2 ^ (-e).toNat < (K + 1) * (2 * 2 ^ (-e).toNat) := by
      have : (2 : ℚ) * (m.natAbs : ℚ) + (2 : ℚ) ^ (-e).toNat
          < ((K : ℚ) + 1) * (2 * (2 : ℚ) ^ (-e).toNat) := by linarith
      exact_mod_cast this
    have hqle : (2 * m.natAbs + 2 ^ (-e).toNat) / (2 * 2 ^ (-e).toNat) ≤ K := by
      have := (Nat.div_lt_iff_lt_mul (by positivity : 0 < 2 * 2 ^ (-e).toNat)).mpr hnat
      omega
    have hr : Flt.roundf (.fin m e)
        = .fin (if m < 0 then
            -(((2 * m.natAbs + 2 ^ (-e).toNat) / (2 * 2 ^ (-e).toNat) : Nat) : Int)
          else (((2 * m.natAbs + 2 ^ (-e).toNat) / (2 * 2 ^ (-e).toNat) : Nat) : Int)) 0 := by
      have hne : ¬ (0 ≤ e) := by omega
      simp only [Flt.roundf, hne, if_false]
    rw [hr]
    generalize (2 * m.natAbs + 2 ^ (-e).toNat) / (2 * 2 ^ (-e).toNat) = q at hqle
    simp only [Flt.toInt32, Flt.truncDy, le_refl, if_true, Int.toNat_zero, pow_zero, mul_one]
    split_ifs <;> omega

theorem ofInt32_fin (n : Int) (h1 : -2147483648 ≤ n) (h2 : n ≤ 2147483647) :
    (Flt.ofInt binary32 n).isFin = true := by
  by_cases hn : n = 0
  · rw [hn, Flt.ofInt_zero]; rfl
  · refine (Flt.ofInt_spec binary32 n hn (by decide) ?_).1
    have e : binary32.ehi = 127 := by decide
    rw [e]
    have h3 : |(n : ℚ)| ≤ 2147483648 := by
      rw [abs_le]; constructor
      · exact_mod_cast h1
      · have : (n : ℚ) ≤ 2147483647 := by exact_mod_cast h2
        linarith
    have : (2147483648 : ℚ) < (2 : ℚ) ^ (127 : Int) := by norm_num
    linarith

theorem wrap32_range (n : Int) : -2147483648 ≤ wrap32 n ∧ wrap32 n ≤ 2147483647 := by
  unfold wrap32; omega

theorem wheel_arith (A C m1 d1 t1 : ℚ) (hA : |A| ≤ 884279719003555 / 281474976710656 * (1 + 1 / 10000000))
    (hAlo : 1 / 2417851639229258349412352 ≤ |A|) (hC1 : 1 ≤ C) (hC2 : C ≤ 127)
    (e1 : |m1 - A * C| ≤ |A * C| / 16777216)
    (e2 : |d1 - m1 / (884279719003555 / 281474976710656)|
      ≤ |m1 / (884279719003555 / 281474976710656)| / 9007199254740992)
    (e3 : |t1 - d1| ≤ |d1| / 16777216) :
    1 / 4835703278458516698824704 ≤ |m1| ∧ |m1| ≤ 1000 ∧
    1 / 38685626227668133590597632 ≤ |d1| ∧ |d1| ≤ 1000 ∧ |t1| < C + 1 / 2 := by
  have hAC : |A * C| = |A| * C := by rw [abs_mul, abs_of_pos (by linarith : (0 : ℚ) < C)]
  rw [hAC] at e1
  have hq : |m1 / (884279719003555 / 281474976710656)|
      = |m1| * (281474976710656 / 884279719003555) := by
    rw [abs_div, abs_of_pos (by norm_num : (0 : ℚ) < 884279719003555 / 281474976710656)]
    field_simp
  rw [hq] at e2
  have hA0 : 0 ≤ |A| := abs_nonneg A
  have hm0 : 0 ≤ |m1| := abs_nonneg m1
  have hd0 : 0 ≤ |d1| := abs_nonneg d1
  have p1 : |A| * C ≤ |A| * 127 := mul_le_mul_of_nonneg_left hC2 hA0
  have p2 : |A| * 1 ≤ |A| * C := mul_le_mul_of_nonneg_left hC1 hA0
  have p3 : |A| * C ≤ 884279719003555 / 281474976710656 * (1 + 1 / 10000000) * C :=
    mul_le_mul_of_nonneg_right hA (by linarith)
  have a1 := abs_sub_abs_le_abs_sub m1 (A * C)
  have a1' := abs_sub_abs_le_abs_sub (A * C) m1
  rw [hAC] at a1 a1'
  rw [abs_sub_comm (A * C) m1] at a1'
  have a2 := abs_sub_abs_le_abs_sub d1 (m1 / (884279719003555 / 281474976710656))
  have a2' := abs_sub_abs_le_abs_sub (m1 / (884279719003555 / 281474976710656)) d1
  rw [hq] at a2 a2'
  rw [abs_sub_comm (m1 / (884279719003555 / 281474976710656)) d1] at a2'
  have a3 := abs_sub_abs_le_abs_sub t1 d1
  have b1 : |m1| ≤ |A| * C * (1 + 1 / 16777216) := by linarith
  have b1' : |A| * C * (1 - 1 / 16777216) ≤ |m1| := by linarith
  have b2 : |d1| ≤ |m1| * (281474976710656 / 884279719003555) * (1 + 1 / 9007199254740992) := by
    linarith
  have b2' : |m1| * (281474976710656 / 884279719003555) * (1 - 1 / 9007199254740992) ≤ |d1| := by
    linarith
  have b3 : |t1| ≤ |d1| * (1 + 1 / 16777216) := by linarith
  have c1 : |d1| ≤ |A| * C * (1 + 1 / 16777216) * (281474976710656 / 884279719003555)
      * (1 + 1 / 9007199254740992) := by
    have := mul_le_mul_of_nonneg_right b1
      (by norm_num : (0 : ℚ) ≤ (281474976710656 / 884279719003555) * (1 + 1 / 9007199254740992))
    linarith
  have c2 : |d1| ≤ C * (1 + 1 / 5000000) := by
    have := mul_le_mul_of_nonneg_right p3
      (by norm_num : (0 : ℚ) ≤ (1 + 1 / 16777216) * (281474976710656 / 884279719003555)
        * (1 + 1 / 9007199254740992))
    have e : 884279719003555 / 281474976710656 * (1 + 1 / 10000000) * C
        * ((1 + 1 / 16777216) * (281474976710656 / 884279719003555)
          * (1 + 1 / 9007199254740992))
        = C * ((1 + 1 / 10000000) * (1 + 1 / 16777216) * (1 + 1 / 9007199254740992)) := by
      field_simp; ring
    rw [e] at this
    have h2 : C * ((1 + 1 / 10000000) * (1 + 1 / 16777216) * (1 + 1 / 9007199254740992))
        ≤ C * (1 + 1 / 5000000) := mul_le_mul_of_nonneg_left (by norm_num) (by linarith)
    linarith
  refine ⟨by linarith, by linarith, ?_, by linarith, ?_⟩
  · have := mul_le_mul_of_nonneg_right b1'
      (by norm_num : (0 : ℚ) ≤ (281474976710656 / 884279719003555) * (1 - 1 / 9007199254740992))
    linarith
  · linarith

set_option maxRecDepth 100000 in
theorem wheel_zero :
    wrap8 (Flt.toInt32 (Flt.roundf (Flt.toF32 (Flt.div binary64 (.fin 0 0) M_PI)))) = 0 := by
  decide

/-- The value of `wheel_clicks` is at most `CIRQUE_PINNACLE_SCROLL_WHEEL_CLICKS`
in magnitude, when that is at most 127. -/
theorem wheel_clicks_bound (cfg : Config) (hc : cfg.scroll_wheel_clicks ≤ 127)
    (sx sy x y : Int) :
    -(cfg.scroll_wheel_clicks : Int) ≤ wheel_clicks cfg sx sy x y ∧
    wheel_clicks cfg sx sy x y ≤ (cfg.scroll_wheel_clicks : Int) := by
  obtain ⟨d1, d2⟩ := wrap32_range (sx * y - sy * x)
  obtain ⟨t1, t2⟩ := wrap32_range (sx * x + sy * y)
  have hD := ofInt32_fin (scroll_det sx sy x y) d1 d2
  have hT := ofInt32_fin (scroll_dot sx sy x y) t1 t2
  obtain ⟨fA, uA, lA⟩ := atan2f_range _ _ hD hT
  obtain ⟨fC, vC⟩ := Flt.ofInt_exact (cfg.scroll_wheel_clicks : Int) (by norm_num; omega)
  unfold wheel_clicks
  simp only []
  generalize atan2f (Flt.ofInt binary32 (scroll_det sx sy x y))
    (Flt.ofInt binary32 (scroll_dot sx sy x y)) = A at fA uA lA ⊢
  generalize Flt.ofInt binary32 (cfg.scroll_wheel_clicks : Int) = Cf at fC vC ⊢
  by_cases hz : A.val = 0 ∨ cfg.scroll_wheel_clicks = 0
  · have h0 : A.val = 0 ∨ Cf.val = 0 := by
      rcases hz with h | h
      · exact Or.inl h
      · right; rw [vC, h]; simp
    rw [Flt.mul_zero binary32 A Cf fA fC h0, wheel_zero]
    omega
  · push_neg at hz
    obtain ⟨hA0, hC0⟩ := hz
    have hAlo : 1 / 2417851639229258349412352 ≤ |A.val| := by
      rcases lA with h | h
      · exact absurd h hA0
      · exact h
    have hC1 : (1 : ℚ) ≤ (cfg.scroll_wheel_clicks : ℚ) := by
      have : 1 ≤ cfg.scroll_wheel_clicks := by omega
      exact_mod_cast this
    have hC2 : (cfg.scroll_wheel_clicks : ℚ) ≤ 127 := by exact_mod_cast hc
    have vC' : Cf.val = (cfg.scroll_wheel_clicks : ℚ) := by rw [vC]; simp
    have hA0' : 0 ≤ |A.val| := abs_nonneg _
    have hAC : |A.val * Cf.val| = |A.val| * (cfg.scroll_wheel_clicks : ℚ) := by
      rw [vC', abs_mul, abs_of_pos (by linarith : (0 : ℚ) < (cfg.scroll_wheel_clicks : ℚ))]
    have p1 : |A.val| * (cfg.scroll_wheel_clicks : ℚ) ≤ |A.val| * 127 :=
      mul_le_mul_of_nonneg_left hC2 hA0'
    have p2 : |A.val| * 1 ≤ |A.val| * (cfg.scroll_wheel_clicks : ℚ) :=
      mul_le_mul_of_nonneg_left hC1 hA0'
    have e32lo : (2 : ℚ) ^ (binary32.elo + binary32.prec - 1)
        ≤ 1 / 38685626227668133590597632 := by
      have e : binary32.elo + binary32.prec - 1 = -126 := by decide
      rw [e]; norm_num
    have e32hi : (1000 : ℚ) < (2 : ℚ) ^ binary32.ehi := by
      have e : binary32.ehi = 127 := by decide
      rw [e]; norm_num
    have e64lo : (2 : ℚ) ^ (binary64.elo + binary64.prec - 1)
        ≤ 1 / 38685626227668133590597632 := by
      have e : binary64.elo + binary64.prec - 1 = -1022 := by decide
      rw [e]
      have h1 : (2 : ℚ) ^ (-1022 : Int) ≤ (2 : ℚ) ^ (-85 : Int) :=
        zpow_le_zpow_right₀ (by norm_num) (by norm_num)
      have h2 : (2 : ℚ) ^ (-85 : Int) = 1 / 38685626227668133590597632 := by norm_num
      linarith
    have e64hi : (1000 : ℚ) < (2 : ℚ) ^ binary64.ehi := by
      have e : binary64.ehi = 1023 := by decide
      rw [e]
      have h1 : (2 : ℚ) ^ (10 : Int) ≤ (2 : ℚ) ^ (1023 : Int) :=
        zpow_le_zpow_right₀ (by norm_num) (by norm_num)
      have h2 : (2 : ℚ) ^ (10 : Int) = 1024 := by norm_num
      linarith
    obtain ⟨f1, r1⟩ := Flt.mul_spec binary32 A Cf fA fC (by rw [hAC]; linarith)
      (by rw [hAC]; linarith)
    rw [prec32, vC'] at r1
    have hMfin : M_PI.isFin = true := rfl
    have hM0 : M_PI.val ≠ 0 := by rw [M_PI_val]; norm_num
    generalize Flt.mul binary32 A Cf = m1 at f1 r1 ⊢
    -- preliminary bounds on m1
    have a1 := abs_sub_abs_le_abs_sub m1.val (A.val * (cfg.scroll_wheel_clicks : ℚ))
    have a1' := abs_sub_abs_le_abs_sub (A.val * (cfg.scroll_wheel_clicks : ℚ)) m1.val
    rw [abs_sub_comm (A.val * (cfg.scroll_wheel_clicks : ℚ)) m1.val] at a1'
    have hAC' : |A.val * (cfg.scroll_wheel_clicks : ℚ)| = |A.val| * (cfg.scroll_wheel_clicks : ℚ) := by
      rw [abs_mul, abs_of_pos (by linarith : (0 : ℚ) < (cfg.scroll_wheel_clicks : ℚ))]
    rw [hAC'] at a1 a1' r1
    have hm1lo : 1 / 4835703278458516698824704 ≤ |m1.val| := by linarith
    have hm1hi : |m1.val| ≤ 1000 := by linarith
    have hq : |m1.val / M_PI.val| = |m1.val| * (281474976710656 / 884279719003555) := by
      rw [M_PI_val, abs_div,
        abs_of_pos (by norm_num : (0 : ℚ) < 884279719003555 / 281474976710656)]
      field_simp
    obtain ⟨f2, r2⟩ := Flt.div_spec binary64 m1 M_PI f1 hMfin hM0
      (by rw [hq]; linarith) (by rw [hq]; linarith)
    have hp64 : (2 : ℚ) ^ ((binary64.prec : Int)) = 9007199254740992 := by
      norm_num [binary64]
    rw [hp64, M_PI_val] at r2
    generalize Flt.div binary64 m1 M_PI = dd at f2 r2 ⊢
    have a2 := abs_sub_abs_le_abs_sub dd.val (m1.val / (884279719003555 / 281474976710656))
    have a2' := abs_sub_abs_le_abs_sub (m1.val / (884279719003555 / 281474976710656)) dd.val
    rw [abs_sub_comm (m1.val / (884279719003555 / 281474976710656)) dd.val] at a2'
    have hq' : |m1.val / (884279719003555 / 281474976710656)|
        = |m1.val| * (281474976710656 / 884279719003555) := by
      rw [← M_PI_val]; exact hq
    rw [hq'] at a2 a2' r2
    have hdlo : 1 / 38685626227668133590597632 ≤ |dd.val| := by linarith
    have hdhi : |dd.val| ≤ 1000 := by linarith
    obtain ⟨f3, r3⟩ := Flt.toF32_spec dd f2 (by linarith) (by linarith)
    rw [← hAC'] at r1
    rw [← hq'] at r2
    obtain ⟨_, _, _, _, hfin⟩ := wheel_arith A.val (cfg.scroll_wheel_clicks : ℚ) m1.val dd.val
      (Flt.toF32 dd).val uA hAlo hC1 hC2 r1 r2 r3
    obtain ⟨k1, k2⟩ := roundf_toInt32_bound (Flt.toF32 dd) f3 cfg.scroll_wheel_clicks
      (by omega) hfin
    rw [wrap8_id _ (by omega) (by omega)]
    exact ⟨k1, k2⟩

/-! ### C16 -/

/-- C16: in `SCROLL_VALID` (within a stroke, `scroll.z ≠ 0`), with
`CIRQUE_PINNACLE_SCROLL_WHEEL_CLICKS` at most 127, a touched sample whose
`ticks = wheel_clicks` against the reference vector is not zero is reported as
`v = -ticks`, `h = 0` on the vertical axis (`axis = false`) and as `h = ticks`,
`v = 0` on the horizontal one, and becomes the reference vector; a sample with
`ticks = 0` is reported as `v = h = 0` and leaves the reference vector. -/
theorem scroll_valid_tick (cfg : Config) (sc : circular_scroll_context_t)
    (td : pinnacle_data_t) (hz : sc.z ≠ 0)
    (hs : sc.state = circular_scroll_status_t.SCROLL_VALID) (ht : td.zValue ≠ 0)
    (hc : cfg.scroll_wheel_clicks ≤ 127) :
    ((1 ≤ wheel_clicks cfg sc.x sc.y (centred cfg td.xValue) (centred cfg td.yValue) ∨
        wheel_clicks cfg sc.x sc.y (centred cfg td.xValue) (centred cfg td.yValue) ≤ -1) →
      (sc.axis = false →
        (circular_scroll cfg sc td).1.v
          = -wheel_clicks cfg sc.x sc.y (centred cfg td.xValue) (centred cfg td.yValue) ∧
        (circular_scroll cfg sc td).1.h = 0) ∧
      (sc.axis = true →
        (circular_scroll cfg sc td).1.h
          = wheel_clicks cfg sc.x sc.y (centred cfg td.xValue) (centred cfg td.yValue) ∧
        (circular_scroll cfg sc td).1.v = 0) ∧
      (circular_scroll cfg sc td).2.x = centred cfg td.xValue ∧
      (circular_scroll cfg sc td).2.y = centred cfg td.yValue) ∧
    (wheel_clicks cfg sc.x sc.y (centred cfg td.xValue) (centred cfg td.yValue) = 0 →
      (circular_scroll cfg sc td).1.v = 0 ∧ (circular_scroll cfg sc td).1.h = 0 ∧
      (circular_scroll cfg sc td).2.x = sc.x ∧ (circular_scroll cfg sc td).2.y = sc.y) := by
  obtain ⟨h1, h2⟩ := circular_scroll_valid_step cfg sc td hz hs ht
  obtain ⟨b1, b2⟩ := wheel_clicks_bound cfg hc sc.x sc.y (centred cfg td.xValue)
    (centred cfg td.yValue)
  rw [h1, h2]
  generalize wheel_clicks cfg sc.x sc.y (centred cfg td.xValue) (centred cfg td.yValue) = c
    at b1 b2 ⊢
  constructor
  · intro hne
    have hc0 : c ≠ 0 := by omega
    refine ⟨?_, ?_, by simp [hc0], by simp [hc0]⟩
    · intro ha
      simp only [tick_report, ha, if_true]
      exact ⟨wrap8_id _ (by omega) (by omega), trivial⟩
    · intro ha
      simp [tick_report, ha]
  · intro h0
    subst h0
    refine ⟨?_, ?_, by simp, by simp⟩
    · unfold tick_report; split_ifs <;> simp [wrap8]
    · unfold tick_report; split_ifs <;> simp

set_option maxRecDepth 100000 in
/-- A stroke in `SCROLL_VALID` on the vertical axis with reference vector
`(400, 0)`, and the sample at 45° from it. -/
theorem scroll_valid_tick_witness :
    wheel_clicks Config.default 400 0 (centred Config.default 812) (centred Config.default 812)
      = 2 ∧
    (circular_scroll Config.default
      { mag := .fin 400 0, x := 400, y := 0, z := 50, state := SCROLL_VALID, axis := false }
      (touch_at 812 812)).1.v
      = -wheel_clicks Config.default 400 0 (centred Config.default 812)
        (centred Config.default 812) :=
  ⟨by decide,
   (((scroll_valid_tick Config.default
      { mag := .fin 400 0, x := 400, y := 0, z := 50, state := SCROLL_VALID, axis := false }
      (touch_at 812 812) (by decide) rfl (by decide) (by decide)).1
      (Or.inl (by decide))).1 rfl).1⟩

/-! ### C17 -/

theorem toInt32_trunc (x : Flt) (hx : x.isFin = true) (hb : |x.val| < 29122) :
    IsTrunc (Flt.toInt32 x) x.val ∧ wrap16 (Flt.toInt32 x) = Flt.toInt32 x := by
  obtain ⟨m, e, rfl⟩ := Flt.exists_fin x hx
  have ht := truncDy_spec m e
  have hv : (Flt.fin m e).val = (m : ℚ) * (2 : ℚ) ^ e := rfl
  rw [hv] at hb ⊢
  obtain ⟨b1, b2⟩ := isTrunc_abs_le _ _ 29121 ht (by push_cast; linarith) (by norm_num)
  have h32 : Flt.toInt32 (.fin m e) = Flt.truncDy m e := by
    simp only [Flt.toInt32]
    rw [if_neg (by omega), if_neg (by omega)]
  rw [h32, wrap16_id _ (by omega) (by omega)]
  exact ⟨ht, rfl⟩

/-- The value `X(k)` computed by `cursor_glide` on its `k`-th call is finite,
within `|a| / v / 25` of `(v k − c k² / 2) a / v`, and its conversion to an
integer is its truncation and fits an `int16_t`. -/
theorem glide_X_spec (v0 : Flt) (a : Int) (k : Nat) (hv : v0.isFin = true)
    (hv1 : 16777215 / 16777216 ≤ v0.val) (hv2 : v0.val ≤ 182) (hk1 : 1 ≤ k)
    (hw : 2 / 5 ≤ v0.val - 13421773 / 33554432 * ((k : ℚ) - 1 / 2))
    (ha1 : -128 ≤ a) (ha2 : a ≤ 128) (hav : 16777215 / 16777216 * |(a : ℚ)| ≤ v0.val) :
    (glide_X v0 (Flt.toF32 (dbl 4 10)) a k).isFin = true ∧
    IsTrunc (Flt.toInt32 (glide_X v0 (Flt.toF32 (dbl 4 10)) a k))
      (glide_X v0 (Flt.toF32 (dbl 4 10)) a k).val ∧
    wrap16 (Flt.toInt32 (glide_X v0 (Flt.toF32 (dbl 4 10)) a k))
      = Flt.toInt32 (glide_X v0 (Flt.toF32 (dbl 4 10)) a k) ∧
    |(glide_X v0 (Flt.toF32 (dbl 4 10)) a k).val
        - (v0.val * k - 13421773 / 33554432 * k * k / 2) * a / v0.val|
      ≤ |(a : ℚ)| / v0.val / 25 := by
  have hK1 : (1 : ℚ) ≤ (k : ℚ) := by exact_mod_cast hk1
  obtain ⟨hK2, _, _, _, _, hp1, hp2⟩ := glide_arith1 v0.val k hv1 hv2 hK1 hw
  have hp1' : (2 / 5 : ℚ) ≤ v0.val * k - 13421773 / 33554432 * k * k / 2 := by linarith
  obtain ⟨Pf, Pl, Pu⟩ := glide_p_error v0 k hv hv1 hv2 hk1 hw
  have hv0 : 0 < v0.val := by linarith
  by_cases ha0 : a = 0
  · subst ha0
    have hz : glide_X v0 (Flt.toF32 (dbl 4 10)) 0 k = .fin 0 0 :=
      glide_proj_zero _ _ Pf hv hv0.ne'
    rw [hz]
    refine ⟨rfl, ?_, by decide, by simp [Flt.val]⟩
    have e1 : Flt.toInt32 (.fin 0 0) = 0 := by decide
    have e2 : (Flt.fin 0 0).val = 0 := by simp [Flt.val]
    rw [e1, e2]; exact isTrunc_zero
  · have hA1 : (1 : ℚ) ≤ |(a : ℚ)| := by
      have : 1 ≤ |a| := Int.one_le_abs ha0
      exact_mod_cast this
    have hA2 : |(a : ℚ)| ≤ 128 := by
      rw [abs_le]; constructor
      · exact_mod_cast ha1
      · exact_mod_cast ha2
    obtain ⟨af, av⟩ := Flt.ofInt_exact a (by omega)
    obtain ⟨q1, q2⟩ := proj_range1 _ _ (a : ℚ) _ Pl Pu hp1' hp2 hA1 hv2 hav
    have rU := Flt.mul_rounds _ (Flt.ofInt binary32 a) Pf af (by rw [av]; exact q1)
      (by rw [av]; exact q2)
    rw [av] at rU
    obtain ⟨q3, q4⟩ := proj_range2 _ _ (a : ℚ) _ _ Pl Pu hp1' hp2 hA1 hv1 hv2 hav rU.2
    have rX := Flt.div_rounds _ v0 rU.1 hv hv0.ne' q3 q4
    have herr := proj_arith _ _ (a : ℚ) _ _ _ Pl Pu hp1' hp2 hv1 rU.2 rX.2
    have hXb := pos_bound v0.val k (a : ℚ) hv1 hv2 hA2 (by linarith)
    have hr : |(a : ℚ)| / v0.val / 25 ≤ 1 := by
      rw [div_div, div_le_iff₀ (by positivity)]
      linarith
    have hdef : glide_X v0 (Flt.toF32 (dbl 4 10)) a k
        = Flt.div binary32 (Flt.mul binary32 (glide_p v0 (Flt.toF32 (dbl 4 10)) k)
          (Flt.ofInt binary32 a)) v0 := rfl
    rw [hdef]
    have t := abs_sub_abs_le_abs_sub
      (Flt.div binary32 (Flt.mul binary32 (glide_p v0 (Flt.toF32 (dbl 4 10)) k)
        (Flt.ofInt binary32 a)) v0).val
      ((v0.val * k - 13421773 / 33554432 * k * k / 2) * a / v0.val)
    have herr' : |(Flt.div binary32 (Flt.mul binary32 (glide_p v0 (Flt.toF32 (dbl 4 10)) k)
        (Flt.ofInt binary32 a)) v0).val
        - (v0.val * k - 13421773 / 33554432 * k * k / 2) * a / v0.val| ≤ 1 :=
      le_trans herr hr
    obtain ⟨i1, i2⟩ := toInt32_trunc _ rX.1 (by linarith)
    exact ⟨rX.1, i1, i2, herr⟩

theorem glide_pos_eq_trunc (v0 : Flt) (a : Int) (k : Nat) (hv : v0.isFin = true)
    (hv1 : 16777215 / 16777216 ≤ v0.val) (hv2 : v0.val ≤ 182)
    (hw : 2 / 5 ≤ v0.val - 13421773 / 33554432 * ((k : ℚ) - 1 / 2))
    (ha1 : -128 ≤ a) (ha2 : a ≤ 128) (hav : 16777215 / 16777216 * |(a : ℚ)| ≤ v0.val) :
    glide_pos v0 (Flt.toF32 (dbl 4 10)) a k = glide_trunc v0 (Flt.toF32 (dbl 4 10)) a k := by
  rcases Nat.eq_zero_or_pos k with h0 | hpos
  · subst h0; rfl
  · have hk0 : k ≠ 0 := by omega
    simp only [glide_pos, glide_trunc, hk0, if_false]
    exact (glide_X_spec v0 a k hv hv1 hv2 hpos hw ha1 ha2 hav).2.2.1

/-- One step of a glide with positive initial velocity: the position advances by
at least 0 and at most `a`. -/
theorem step_arith (r w a' x0 x1 X0 X1 : ℚ) (a t0 t1 : Int) (hr0 : 0 < r)
    (ha : a' = (a : ℚ)) (har : r * (w + 2 / 25) ≤ a') (hw : 2 / 5 ≤ w)
    (hX1 : X1 - X0 = r * w)
    (e0 : |x0 - X0| ≤ r / 25) (e1 : |x1 - X1| ≤ r / 25) (h0 : 0 ≤ x0)
    (i0 : IsTrunc t0 x0) (i1 : IsTrunc t1 x1) :
    0 ≤ t1 - t0 ∧ t1 - t0 ≤ a := by
  rw [abs_le] at e0 e1
  have hrw2 : r * (2 / 5) ≤ r * w := mul_le_mul_of_nonneg_left hw hr0.le
  have e4 : r * (w + 2 / 25) = r * w + r * (2 / 25) := by ring
  rw [e4] at har
  have d1 : 0 < x1 - x0 := by linarith
  obtain ⟨a0, b0⟩ := i0.1 h0
  obtain ⟨a1, b1⟩ := i1.1 (by linarith)
  have c1 : ((-1 : Int) : ℚ) < ((t1 - t0 : Int) : ℚ) := by push_cast; linarith
  have c2 : ((t1 - t0 : Int) : ℚ) < ((a + 1 : Int) : ℚ) := by push_cast; linarith
  have c1' : -1 < t1 - t0 := by exact_mod_cast c1
  have c2' : t1 - t0 < a + 1 := by exact_mod_cast c2
  omega

theorem step_core (v : ℚ) (a : Int) (j : Nat) (t0 t1 : Int) (x0 x1 : ℚ)
    (hv1 : 16777215 / 16777216 ≤ v) (ha1 : 1 ≤ a)
    (hw : 2 / 5 ≤ v - 13421773 / 33554432 * (((j + 1 : Nat) : ℚ) - 1 / 2))
    (i0 : IsTrunc t0 x0) (i1 : IsTrunc t1 x1)
    (e0 : |x0 - (v * (j : Nat) - 13421773 / 33554432 * (j : Nat) * (j : Nat) / 2) * a / v|
      ≤ |(a : ℚ)| / v / 25)
    (e1 : |x1 - (v * ((j + 1 : Nat) : ℚ)
      - 13421773 / 33554432 * ((j + 1 : Nat) : ℚ) * ((j + 1 : Nat) : ℚ) / 2) * a / v|
      ≤ |(a : ℚ)| / v / 25)
    (h0 : 0 ≤ (a : ℚ) * x0) :
    0 ≤ t1 - t0 ∧ t1 - t0 ≤ a := by
  have hv0 : 0 < v := by linarith
  have haq : (1 : ℚ) ≤ (a : ℚ) := by exact_mod_cast ha1
  have ha0 : (0 : ℚ) < (a : ℚ) := by linarith
  have hr0 : 0 < (a : ℚ) / v := div_pos ha0 hv0
  have hx0 : 0 ≤ x0 := nonneg_of_mul_nonneg_right h0 ha0
  rw [abs_of_pos ha0] at e0 e1
  push_cast at hw e1
  have hj0 : (0 : ℚ) ≤ (j : ℚ) := Nat.cast_nonneg j
  have hX1 : (v * ((j : ℚ) + 1) - 13421773 / 33554432 * ((j : ℚ) + 1) * ((j : ℚ) + 1) / 2) * a / v
      - (v * j - 13421773 / 33554432 * j * j / 2) * a / v
      = a / v * (v - 13421773 / 33554432 * ((j : ℚ) + 1 - 1 / 2)) :=
    step_exact v a j (ne_of_gt hv0)
  have har : (a : ℚ) / v * (v - 13421773 / 33554432 * ((j : ℚ) + 1 - 1 / 2) + 2 / 25)
      ≤ (a : ℚ) := by
    have h1 : v - 13421773 / 33554432 * ((j : ℚ) + 1 - 1 / 2) + 2 / 25 ≤ v := by linarith
    calc (a : ℚ) / v * (v - 13421773 / 33554432 * ((j : ℚ) + 1 - 1 / 2) + 2 / 25)
        ≤ (a : ℚ) / v * v := mul_le_mul_of_nonneg_left h1 hr0.le
      _ = (a : ℚ) := by field_simp
  exact step_arith ((a : ℚ) / v) _ (a : ℚ) x0 x1 _ _ a t0 t1 hr0 rfl har hw hX1 e0 e1 hx0 i0 i1

/-- Each call up to the last moves the position by a step between 0 and the
initial velocity `a`: the narrowing of the delta to `int8_t` does not wrap. -/
theorem glide_axis_step (V : Flt) (a : Int) (n j : Nat) (hv : V.isFin = true)
    (hv1 : 16777215 / 16777216 ≤ V.val) (hv2 : V.val ≤ 182)
    (ha1 : -128 ≤ a) (ha2 : a ≤ 127) (hav : 16777215 / 16777216 * |(a : ℚ)| ≤ V.val)
    (hn : 2 / 5 ≤ V.val - 13421773 / 33554432 * ((n : ℚ) - 1 / 2)) (hj : j + 1 ≤ n) :
    wrap8 (glide_pos V (Flt.toF32 (dbl 4 10)) a (j + 1) - glide_pos V (Flt.toF32 (dbl 4 10)) a j)
      = glide_pos V (Flt.toF32 (dbl 4 10)) a (j + 1) - glide_pos V (Flt.toF32 (dbl 4 10)) a j := by
  obtain ⟨x0, i0, e0, s0⟩ := glide_pos_all V a n hv hv1 hv2 ha1 (by omega) hav hn j (by omega)
  obtain ⟨x1, i1, e1, _⟩ := glide_pos_all V a n hv hv1 hv2 ha1 (by omega) hav hn (j + 1) (by omega)
  have hjn : ((j + 1 : Nat) : ℚ) ≤ (n : ℚ) := by exact_mod_cast hj
  have hw : 2 / 5 ≤ V.val - 13421773 / 33554432 * (((j + 1 : Nat) : ℚ) - 1 / 2) := by linarith
  generalize glide_pos V (Flt.toF32 (dbl 4 10)) a j = t0 at i0 ⊢
  generalize glide_pos V (Flt.toF32 (dbl 4 10)) a (j + 1) = t1 at i1 ⊢
  rcases lt_trichotomy a 0 with hneg | hzero | hpos
  · have n0 : |(-x0) - (V.val * (j : Nat) - 13421773 / 33554432 * (j : Nat) * (j : Nat) / 2)
        * ((-a : Int) : ℚ) / V.val| ≤ |((-a : Int) : ℚ)| / V.val / 25 := by
      have e : (-x0) - (V.val * (j : Nat) - 13421773 / 33554432 * (j : Nat) * (j : Nat) / 2)
          * ((-a : Int) : ℚ) / V.val
          = -(x0 - (V.val * (j : Nat) - 13421773 / 33554432 * (j : Nat) * (j : Nat) / 2)
            * a / V.val) := by push_cast; ring
      rw [e, abs_neg]; push_cast; rw [abs_neg]; exact e0
    have n1 : |(-x1) - (V.val * ((j + 1 : Nat) : ℚ)
        - 13421773 / 33554432 * ((j + 1 : Nat) : ℚ) * ((j + 1 : Nat) : ℚ) / 2)
        * ((-a : Int) : ℚ) / V.val| ≤ |((-a : Int) : ℚ)| / V.val / 25 := by
      have e : (-x1) - (V.val * ((j + 1 : Nat) : ℚ)
          - 13421773 / 33554432 * ((j + 1 : Nat) : ℚ) * ((j + 1 : Nat) : ℚ) / 2)
          * ((-a : Int) : ℚ) / V.val
          = -(x1 - (V.val * ((j + 1 : Nat) : ℚ)
          - 13421773 / 33554432 * ((j + 1 : Nat) : ℚ) * ((j + 1 : Nat) : ℚ) / 2)
            * a / V.val) := by push_cast; ring
      rw [e, abs_neg, Int.cast_neg, abs_neg]; exact e1
    have s0' : 0 ≤ ((-a : Int) : ℚ) * (-x0) := by push_cast; linarith
    obtain ⟨c1, c2⟩ := step_core V.val (-a) j (-t0) (-t1) (-x0) (-x1)
      hv1 (by omega) hw (isTrunc_neg _ _ i0) (isTrunc_neg _ _ i1) n0 n1 s0'
    exact wrap8_id _ (by omega) (by omega)
  · subst hzero
    have z : ∀ (x X : ℚ), |x - X * ((0 : Int) : ℚ) / V.val| ≤ |((0 : Int) : ℚ)| / V.val / 25 →
        x = 0 := by
      intro x X h
      simp at h
      exact h
    rw [z _ _ e0] at i0
    rw [z _ _ e1] at i1
    rw [isTrunc_zero_eq _ i0, isTrunc_zero_eq _ i1]
    decide
  · obtain ⟨c1, c2⟩ := step_core V.val a j t0 t1 x0 x1 hv1 (by omega) hw i0 i1 e0 e1 s0
    exact wrap8_id _ (by omega) (by omega)

theorem sum_range_diff (T : Nat → Int) (j : Nat) :
    ((List.range j).map (fun i => T (i + 1) - T i)).sum = T j - T 0 := by
  induction j with
  | zero => simp
  | succ j ih => rw [List.range_succ, List.map_append, List.sum_append, ih]; simp

/-- The facts about one axis of a glide up to call `n`. -/
theorem glide_axis_facts (V : Flt) (a : Int) (n : Nat) (hv : V.isFin = true)
    (hv1 : 16777215 / 16777216 ≤ V.val) (hv2 : V.val ≤ 182)
    (ha1 : -128 ≤ a) (ha2 : a ≤ 127) (hav : 16777215 / 16777216 * |(a : ℚ)| ≤ V.val)
    (hn : 2 / 5 ≤ V.val - 13421773 / 33554432 * ((n : ℚ) - 1 / 2)) (k : Nat) (hk : k ≤ n) :
    glide_pos V (Flt.toF32 (dbl 4 10)) a k = glide_trunc V (Flt.toF32 (dbl 4 10)) a k ∧
    (1 ≤ k →
      (glide_X V (Flt.toF32 (dbl 4 10)) a k).isFin = true ∧
      IsTrunc (glide_trunc V (Flt.toF32 (dbl 4 10)) a k)
        (glide_X V (Flt.toF32 (dbl 4 10)) a k).val ∧
      |(glide_X V (Flt.toF32 (dbl 4 10)) a k).val
          - (V.val * k - (Flt.toF32 (dbl 4 10)).val * k * k / 2) * a / V.val|
        ≤ |(a : ℚ)| / V.val / 25) ∧
    (k + 1 ≤ n →
      wrap8 (glide_pos V (Flt.toF32 (dbl 4 10)) a (k + 1)
          - glide_pos V (Flt.toF32 (dbl 4 10)) a k)
        = glide_trunc V (Flt.toF32 (dbl 4 10)) a (k + 1)
          - glide_trunc V (Flt.toF32 (dbl 4 10)) a k) := by
  have hkn : (k : ℚ) ≤ (n : ℚ) := by exact_mod_cast hk
  have hw : 2 / 5 ≤ V.val - 13421773 / 33554432 * ((k : ℚ) - 1 / 2) := by linarith
  have hpe := glide_pos_eq_trunc V a k hv hv1 hv2 hw ha1 (by omega) hav
  refine ⟨hpe, ?_, ?_⟩
  · intro hk1
    obtain ⟨f1, f2, _, f4⟩ := glide_X_spec V a k hv hv1 hv2 hk1 hw ha1 (by omega) hav
    have hk0 : k ≠ 0 := by omega
    rw [coef_val]
    refine ⟨f1, ?_, f4⟩
    simp only [glide_trunc, hk0, if_false]
    exact f2
  · intro hk1
    have hkn1 : ((k + 1 : Nat) : ℚ) ≤ (n : ℚ) := by exact_mod_cast hk1
    have hw1 : 2 / 5 ≤ V.val - 13421773 / 33554432 * (((k + 1 : Nat) : ℚ) - 1 / 2) := by linarith
    rw [glide_axis_step V a n k hv hv1 hv2 ha1 ha2 hav hn hk1, hpe,
      glide_pos_eq_trunc V a (k + 1) hv hv1 hv2 hw1 ha1 (by omega) hav]

theorem trunc_q_isTrunc (x : ℚ) : IsTrunc (trunc_q x) x := by
  unfold trunc_q
  constructor
  · intro hx
    rw [if_pos hx]
    exact ⟨Int.floor_le x, Int.lt_floor_add_one x⟩
  · intro hx
    by_cases h0 : 0 ≤ x
    · have hx0 : x = 0 := le_antisymm hx h0
      subst hx0
      simp
    · rw [if_neg h0]
      refine ⟨Int.le_ceil x, ?_⟩
      have := Int.ceil_lt_add_one x
      linarith

/-- A truncated value whose argument is within `|a| / V / 25` of `xe` is within
one of the truncation of `xe`. -/
theorem trunc_within_one (t a : Int) (xf xe V : ℚ) (ht : IsTrunc t xf)
    (hb : |xf - xe| ≤ |(a : ℚ)| / V / 25) (hav : 16777215 / 16777216 * |(a : ℚ)| ≤ V)
    (hV : 0 < V) : |t - trunc_q xe| ≤ 1 := by
  have h1 : |(a : ℚ)| / V / 25 < 1 := by
    rw [div_div, div_lt_one (by positivity)]
    linarith [abs_nonneg (a : ℚ)]
  have h2 : |xf - xe| < ((1 : Int) : ℚ) := by
    push_cast; linarith
  obtain ⟨l, u⟩ := isTrunc_diff t (trunc_q xe) xf xe 1 ht (trunc_q_isTrunc xe) (le_refl 1) h2
  rw [abs_le]
  exact ⟨l, u⟩

/-- C17, with `X(n)` read as the program computes it: in a glide started by
`cursor_glide_start` with `(dx0, dy0) ≠ (0, 0)`, for every call `n ≥ 1` up to
the end of the glide the `float` value `X(n) = p(n) * dx0 / v0`, each operation
rounded to binary32, is finite, within `|dx0| / v0 / 25` of the closed form
`(v0 n − coef n² / 2) dx0 / v0`, and `glide_trunc` is its truncation toward
zero, which is within one of the truncation of the closed form (likewise for
`y`); the delta of the `n`-th call is `trunc (X(n)) − trunc (X(n − 1))` with
`X(0) = 0`, no narrowing to `int16_t` or `int8_t` changing a value; hence the
deltas of the first `n` calls sum to `trunc (X(n))`. -/
theorem glide_deltas_are_truncated_steps (now : Nat) (nows : List Nat)
    (g : cursor_glide_context_t)
    (hx1 : -128 ≤ g.dx0) (hx2 : g.dx0 ≤ 127) (hy1 : -128 ≤ g.dy0) (hy2 : g.dy0 ≤ 127)
    (hne : ¬ (g.dx0 = 0 ∧ g.dy0 = 0)) :
    (∀ n, 1 ≤ n → n ≤ (glide_deltas now nows g).length →
      ((glide_X (cursor_glide_start now g).2.v0 (cursor_glide_start now g).2.coef g.dx0 n).isFin
          = true ∧
        IsTrunc
          (glide_trunc (cursor_glide_start now g).2.v0 (cursor_glide_start now g).2.coef g.dx0 n)
          (glide_X (cursor_glide_start now g).2.v0 (cursor_glide_start now g).2.coef g.dx0 n).val ∧
        |(glide_X (cursor_glide_start now g).2.v0 (cursor_glide_start now g).2.coef g.dx0 n).val
            - glide_exact (cursor_glide_start now g).2.v0 (cursor_glide_start now g).2.coef
                g.dx0 n|
          ≤ |(g.dx0 : ℚ)| / (cursor_glide_start now g).2.v0.val / 25 ∧
        |glide_trunc (cursor_glide_start now g).2.v0 (cursor_glide_start now g).2.coef g.dx0 n
            - trunc_q (glide_exact (cursor_glide_start now g).2.v0
                (cursor_glide_start now g).2.coef g.dx0 n)| ≤ 1) ∧
      ((glide_X (cursor_glide_start now g).2.v0 (cursor_glide_start now g).2.coef g.dy0 n).isFin
          = true ∧
        IsTrunc
          (glide_trunc (cursor_glide_start now g).2.v0 (cursor_glide_start now g).2.coef g.dy0 n)
          (glide_X (cursor_glide_start now g).2.v0 (cursor_glide_start now g).2.coef g.dy0 n).val ∧
        |(glide_X (cursor_glide_start now g).2.v0 (cursor_glide_start now g).2.coef g.dy0 n).val
            - glide_exact (cursor_glide_start now g).2.v0 (cursor_glide_start now g).2.coef
                g.dy0 n|
          ≤ |(g.dy0 : ℚ)| / (cursor_glide_start now g).2.v0.val / 25 ∧
        |glide_trunc (cursor_glide_start now g).2.v0 (cursor_glide_start now g).2.coef g.dy0 n
            - trunc_q (glide_exact (cursor_glide_start now g).2.v0
                (cursor_glide_start now g).2.coef g.dy0 n)| ≤ 1)) ∧
    glide_deltas now nows g = (List.range (glide_deltas now nows g).length).map (fun i =>
      { dx := glide_trunc (cursor_glide_start now g).2.v0 (cursor_glide_start now g).2.coef
                g.dx0 (i + 1)
              - glide_trunc (cursor_glide_start now g).2.v0 (cursor_glide_start now g).2.coef
                g.dx0 i
        dy := glide_trunc (cursor_glide_start now g).2.v0 (cursor_glide_start now g).2.coef
                g.dy0 (i + 1)
              - glide_trunc (cursor_glide_start now g).2.v0 (cursor_glide_start now g).2.coef
                g.dy0 i
        valid := true }) ∧
    (∀ n, n ≤ (glide_deltas now nows g).length →
      (((glide_deltas now nows g).take n).map (fun d => d.dx)).sum
        = glide_trunc (cursor_glide_start now g).2.v0 (cursor_glide_start now g).2.coef g.dx0 n ∧
      (((glide_deltas now nows g).take n).map (fun d => d.dy)).sum
        = glide_trunc (cursor_glide_start now g).2.v0 (cursor_glide_start now g).2.coef
          g.dy0 n) := by
  have hc : (cursor_glide_start now g).2.coef = Flt.toF32 (dbl 4 10) := rfl
  have hV : (cursor_glide_start now g).2.v0
      = hypotf (Flt.ofInt binary32 g.dx0) (Flt.ofInt binary32 g.dy0) := rfl
  rw [hc, hV]
  obtain ⟨hv, hav, hbv, hS, hv1, hv2⟩ :=
    glide_v0_spec g.dx0 g.dy0 hx1 (by omega) hy1 (by omega) hne
  have hSi : g.dx0 ^ 2 + g.dy0 ^ 2 ≤ 32768 := by nlinarith
  have hSq : (g.dx0 : ℚ) ^ 2 + (g.dy0 : ℚ) ^ 2 ≤ 32768 := by exact_mod_cast hSi
  obtain ⟨n, n1, w1, w2, nb, _⟩ := exists_last_call
    (hypotf (Flt.ofInt binary32 g.dx0) (Flt.ofInt binary32 g.dy0)).val _ hv1 hS hSq
  have nbi : 4 * ((n : Int) - 1) ^ 2 ≤ 25 * (g.dx0 ^ 2 + g.dy0 ^ 2) := by exact_mod_cast nb
  have hn65 : n < 65536 := by
    by_contra hcon
    have hc' : (65535 : Int) ≤ (n : Int) - 1 := by omega
    nlinarith
  have hstop : ∀ m, m + 1 = n → glide_stop (glide_delta
      (hypotf (Flt.ofInt binary32 g.dx0) (Flt.ofInt binary32 g.dy0)) (Flt.toF32 (dbl 4 10))
      g.dx0 g.dy0 m) := by
    intro m hm
    subst hm
    obtain ⟨x1, x2⟩ := glide_axis_stop _ g.dx0 m hv hv1 hv2 hx1 (by omega) hav w1 w2
    obtain ⟨y1, y2⟩ := glide_axis_stop _ g.dy0 m hv hv1 hv2 hy1 (by omega) hbv w1 w2
    exact ⟨x1, x2, y1, y2⟩
  obtain ⟨m, m1, m2, _⟩ := glide_deltas_spec now nows g n hn65 n1 hstop hne
  have hlen : (glide_deltas now nows g).length = m := by rw [m2]; simp
  have hxa := glide_axis_facts _ g.dx0 n hv hv1 hv2 hx1 hx2 hav w1
  have hya := glide_axis_facts _ g.dy0 n hv hv1 hv2 hy1 hy2 hbv w1
  have hlist : glide_deltas now nows g = (List.range m).map (fun i =>
      ({ dx := glide_trunc (hypotf (Flt.ofInt binary32 g.dx0) (Flt.ofInt binary32 g.dy0))
                (Flt.toF32 (dbl 4 10)) g.dx0 (i + 1)
              - glide_trunc (hypotf (Flt.ofInt binary32 g.dx0) (Flt.ofInt binary32 g.dy0))
                (Flt.toF32 (dbl 4 10)) g.dx0 i
         dy := glide_trunc (hypotf (Flt.ofInt binary32 g.dx0) (Flt.ofInt binary32 g.dy0))
                (Flt.toF32 (dbl 4 10)) g.dy0 (i + 1)
              - glide_trunc (hypotf (Flt.ofInt binary32 g.dx0) (Flt.ofInt binary32 g.dy0))
                (Flt.toF32 (dbl 4 10)) g.dy0 i
         valid := true } : cursor_glide_t)) := by
    rw [m2]
    apply List.map_congr_left
    intro i hi
    have hi' : i < m := List.mem_range.mp hi
    simp only [glide_delta]
    rw [(hxa i (by omega)).2.2 (by omega), (hya i (by omega)).2.2 (by omega)]
  refine ⟨?_, ?_, ?_⟩
  · intro k hk1 hk2
    rw [hlen] at hk2
    obtain ⟨fx, tx, bx⟩ := (hxa k (by omega)).2.1 hk1
    obtain ⟨fy, ty, b2⟩ := (hya k (by omega)).2.1 hk1
    have hV0 : 0 < (hypotf (Flt.ofInt binary32 g.dx0) (Flt.ofInt binary32 g.dy0)).val := by
      linarith
    exact ⟨⟨fx, tx, bx, trunc_within_one _ g.dx0 _ _ _ tx bx hav hV0⟩,
      ⟨fy, ty, b2, trunc_within_one _ g.dy0 _ _ _ ty b2 hbv hV0⟩⟩
  · rw [hlen]; exact hlist
  · intro k hk
    rw [hlen] at hk
    rw [hlist, ← List.map_take, List.take_range, min_eq_left hk, List.map_map, List.map_map]
    constructor
    · have := sum_range_diff (fun i => glide_trunc
        (hypotf (Flt.ofInt binary32 g.dx0) (Flt.ofInt binary32 g.dy0))
        (Flt.toF32 (dbl 4 10)) g.dx0 i) k
      simp only [glide_trunc, if_true, sub_zero] at this ⊢
      exact this
    · have := sum_range_diff (fun i => glide_trunc
        (hypotf (Flt.ofInt binary32 g.dx0) (Flt.ofInt binary32 g.dy0))
        (Flt.toF32 (dbl 4 10)) g.dy0 i) k
      simp only [glide_trunc, if_true, sub_zero] at this ⊢
      exact this

set_option maxRecDepth 100000 in
/-- The glide started with velocity `(4, 0)`: its first three deltas sum to
`trunc (X(3)) = 10`, within one of the truncation of the closed form. -/
theorem glide_deltas_are_truncated_steps_witness :
    (((glide_deltas 0 [10, 20, 30, 40, 50, 60] (glide_with 4 0)).take 3).map
        (fun d => d.dx)).sum
      = glide_trunc (cursor_glide_start 0 (glide_with 4 0)).2.v0
          (cursor_glide_start 0 (glide_with 4 0)).2.coef (glide_with 4 0).dx0 3 ∧
    glide_trunc (cursor_glide_start 0 (glide_with 4 0)).2.v0
          (cursor_glide_start 0 (glide_with 4 0)).2.coef (glide_with 4 0).dx0 3 = 10 ∧
    |glide_trunc (cursor_glide_start 0 (glide_with 4 0)).2.v0
          (cursor_glide_start 0 (glide_with 4 0)).2.coef (glide_with 4 0).dx0 3
        - trunc_q (glide_exact (cursor_glide_start 0 (glide_with 4 0)).2.v0
            (cursor_glide_start 0 (glide_with 4 0)).2.coef (glide_with 4 0).dx0 3)| ≤ 1 :=
  ⟨((glide_deltas_are_truncated_steps 0 [10, 20, 30, 40, 50, 60] (glide_with 4 0)
      (by decide) (by decide) (by decide) (by decide) (by decide)).2.2 3 (by decide)).1,
   by decide,
   ((glide_deltas_are_truncated_steps 0 [10, 20, 30, 40, 50, 60] (glide_with 4 0)
      (by decide) (by decide) (by decide) (by decide) (by decide)).1 3 (by decide)
      (by decide)).1.2.2.2⟩

set_option maxRecDepth 100000 in
theorem glide_83_24_start :
    (cursor_glide_start 0 (glide_with 83 24)).2.v0 = .fin 11324651 (-17) ∧
    (cursor_glide_start 0 (glide_with 83 24)).2.coef = .fin 13421773 (-25) := by
  decide

set_option maxRecDepth 100000 in
/-- C17, as stated, fails: in the glide started with velocity `(83, 24)` the
`dy` of the first six calls are `23, 24, 24, 24, 23, 23`, which sum to `141`,
while the closed form on the stored `v0` and `coef` gives
`(v0 * 6 - coef * 36 / 2) * 24 / v0 = 142.000005…`, whose truncation is `142`. -/
theorem glide_sum_differs_from_closed_form :
    ((glide_deltas 0 [10, 20, 30, 40, 50, 60] (glide_with 83 24)).take 6).map (fun d => d.dy)
      = [23, 24, 24, 24, 23, 23] ∧
    (((glide_deltas 0 [10, 20, 30, 40, 50, 60] (glide_with 83 24)).take 6).map
      (fun d => d.dy)).sum = 141 ∧
    glide_exact (cursor_glide_start 0 (glide_with 83 24)).2.v0
      (cursor_glide_start 0 (glide_with 83 24)).2.coef (glide_with 83 24).dy0 6
      = 25729608033 / 181194416 ∧
    trunc_q (glide_exact (cursor_glide_start 0 (glide_with 83 24)).2.v0
      (cursor_glide_start 0 (glide_with 83 24)).2.coef (glide_with 83 24).dy0 6) = 142 := by
  have he : glide_exact (cursor_glide_start 0 (glide_with 83 24)).2.v0
      (cursor_glide_start 0 (glide_with 83 24)).2.coef (glide_with 83 24).dy0 6
      = 25729608033 / 181194416 := by
    rw [glide_83_24_start.1, glide_83_24_start.2]
    have hd : (glide_with 83 24).dy0 = 24 := rfl
    rw [hd]
    norm_num [glide_exact, Flt.val]
  refine ⟨by decide, by decide, he, ?_⟩
  rw [he, trunc_q, if_pos (by norm_num), Int.floor_eq_iff]
  constructor <;> norm_num

/-! ### C18 -/

theorem circular_scroll_uninit_touched (cfg : Config) (sc : circular_scroll_context_t)
    (td : pinnacle_data_t) (hz : sc.z ≠ 0) (hs : sc.state = SCROLL_UNINITIALIZED)
    (ht : td.zValue ≠ 0) :
    (circular_scroll cfg sc td).1 = { v := 0, h := 0, suppress_touch := false } ∧
    (circular_scroll cfg sc td).2.state = SCROLL_UNINITIALIZED := by
  simp [circular_scroll, scroll_detect, scroll_emit, hz, hs, ht]

theorem scroll_calls_uninit (cfg : Config) (tds : List pinnacle_data_t)
    (hall : ∀ t ∈ tds, t.zValue ≠ 0) :
    ∀ sc : circular_scroll_context_t, sc.z ≠ 0 → sc.state = SCROLL_UNINITIALIZED →
      (∀ r ∈ scroll_calls cfg sc tds, r = { v := 0, h := 0, suppress_touch := false }) ∧
      (scroll_run cfg sc tds).state = SCROLL_UNINITIALIZED := by
  induction tds with
  | nil => intro sc _ hs; exact ⟨by simp [scroll_calls], hs⟩
  | cons t ts ih =>
    intro sc hz hs
    have ht : t.zValue ≠ 0 := hall t (List.mem_cons_self _ _)
    obtain ⟨h1, h2⟩ := circular_scroll_uninit_touched cfg sc t hz hs ht
    obtain ⟨i1, i2⟩ := ih (fun u hu => hall u (List.mem_cons_of_mem _ hu))
      (circular_scroll cfg sc t).2 (by rw [circular_scroll_z]; exact ht) h2
    refine ⟨?_, ?_⟩
    · intro r hr
      simp only [scroll_calls, List.mem_cons] at hr
      rcases hr with hr | hr
      · rw [hr, h1]
      · exact i1 r hr
    · rw [scroll_run]; exact i2

theorem circular_scroll_first_outside (cfg : Config) (sc : circular_scroll_context_t)
    (td : pinnacle_data_t) (hz : sc.z = 0) (hs : sc.state = SCROLL_UNINITIALIZED)
    (ht : td.zValue ≠ 0)
    (hring : in_outer_ring cfg
      (hypotf (Flt.ofInt binary32 (centred cfg td.xValue))
        (Flt.ofInt binary32 (centred cfg td.yValue))) (scroll_center cfg) = false) :
    (circular_scroll cfg sc td).1 = { v := 0, h := 0, suppress_touch := false } ∧
    (circular_scroll cfg sc td).2.state = SCROLL_UNINITIALIZED := by
  simp [circular_scroll, scroll_detect, hz, hs, ht, hring, scroll_emit]

set_option maxRecDepth 100000 in
theorem ring_threshold :
    Flt.div binary64 (Flt.sub binary64 (dbl 100 1) (Flt.ofInt binary64 ((33 : Nat) : Int)))
      (dbl 100 1) = .fin 6034823500676465 (-53) := by
  decide

/-- With the default ring percentage 33 and `center = 512`, the ring test
`mag / center >= (100.0 - 33) / 100.0` on `mag = hypotf (x, y)` holds exactly
when `√(x² + y²) / center ≥ 67 / 100`. -/
theorem in_outer_ring_iff (cfg : Config) (hc : scroll_center cfg = 512)
    (hp : cfg.scroll_ring_percentage = 33) (x y : Int)
    (hx1 : -32768 ≤ x) (hx2 : x ≤ 32767) (hy1 : -32768 ≤ y) (hy2 : y ≤ 32767) :
    in_outer_ring cfg (hypotf (Flt.ofInt binary32 x) (Flt.ofInt binary32 y)) (scroll_center cfg)
      = decide ((67 * 512) ^ 2 ≤ 10000 * (x ^ 2 + y ^ 2)) := by
  have hthr : (Flt.fin 6034823500676465 (-53)).val = 6034823500676465 / 9007199254740992 := by
    norm_num [Flt.val]
  obtain ⟨fc, vc⟩ := Flt.ofInt_exact (((512 : Nat) : Int)) (by norm_num)
  have vc' : (Flt.ofInt binary32 ((512 : Nat) : Int)).val = 512 := by rw [vc]; norm_num
  simp only [in_outer_ring, hc, hp, ring_threshold]
  by_cases h0 : x = 0 ∧ y = 0
  · obtain ⟨rfl, rfl⟩ := h0
    rw [hypotf_zero, Flt.div_zero binary32 (.fin 0 0) _ rfl fc (by simp [Flt.val])
      (by rw [vc']; norm_num)]
    decide
  · obtain ⟨r1, r2, r3, r4⟩ := hypotf_ofInt_spec x y (by omega) (by omega) (by omega) (by omega)
      h0
    generalize hypotf (Flt.ofInt binary32 x) (Flt.ofInt binary32 y) = v at r1 r2 r3 r4
    have hv0 : 0 < v.val := by linarith
    have hS2 : x ^ 2 + y ^ 2 ≤ 2147483648 := by nlinarith
    have hSq : (x : ℚ) ^ 2 + (y : ℚ) ^ 2 ≤ 2147483648 := by exact_mod_cast hS2
    have hvu : v.val ≤ 46342 := by
      by_contra hcon
      have hc' : 46342 < v.val := not_le.mp hcon
      have h9 : (46342 : ℚ) * 46342 < v.val * v.val :=
        mul_lt_mul'' hc' hc' (by norm_num) (by norm_num)
      have h10 : v.val ^ 2 = v.val * v.val := by ring
      rw [h10] at r4
      have h11 : ((x : ℚ) ^ 2 + (y : ℚ) ^ 2) * (1000001 / 1000000)
          ≤ 2147483648 * (1000001 / 1000000) := mul_le_mul_of_nonneg_right hSq (by norm_num)
      norm_num at h9 h11
      linarith
    have hq : v.val / (Flt.ofInt binary32 ((512 : Nat) : Int)).val = v.val / 512 := by rw [vc']
    have hq0 : 0 < v.val / 512 := by positivity
    have rX := Flt.div_rounds v _ r1 fc (by rw [vc']; norm_num)
      (by rw [hq, abs_of_pos hq0]; linarith) (by rw [hq, abs_of_pos hq0]; linarith)
    obtain ⟨fr, er⟩ := rX
    rw [hq, abs_of_pos hq0, abs_le] at er
    generalize Flt.div binary32 v (Flt.ofInt binary32 ((512 : Nat) : Int)) = rho at fr er ⊢
    have h2 : v.val ^ 2 = v.val * v.val := by ring
    rw [h2] at r3 r4
    by_cases hn : (67 * 512) ^ 2 ≤ 10000 * (x ^ 2 + y ^ 2)
    · have hn' : 117677 ≤ x ^ 2 + y ^ 2 := by omega
      have hnq : (117677 : ℚ) ≤ (x : ℚ) ^ 2 + (y : ℚ) ^ 2 := by exact_mod_cast hn'
      have hle : (Flt.fin 6034823500676465 (-53)).val ≤ rho.val := by
        rw [hthr]
        by_contra hcon
        have hlt : rho.val < 6034823500676465 / 9007199254740992 := not_le.mp hcon
        have hvb : v.val < 3430401 / 10000 := by linarith
        have h1 : v.val * v.val < 3430401 / 10000 * (3430401 / 10000) :=
          mul_lt_mul'' hvb hvb hv0.le hv0.le
        have h3 : (117677 : ℚ) * (999999 / 1000000)
            ≤ ((x : ℚ) ^ 2 + (y : ℚ) ^ 2) * (999999 / 1000000) :=
          mul_le_mul_of_nonneg_right hnq (by norm_num)
        norm_num at h1
        linarith
      rw [(Flt.le_iff (.fin 6034823500676465 (-53)) rho rfl fr).mpr hle]
      exact (decide_eq_true hn).symm
    · have hn' : x ^ 2 + y ^ 2 ≤ 117676 := by omega
      have hnq : (x : ℚ) ^ 2 + (y : ℚ) ^ 2 ≤ 117676 := by exact_mod_cast hn'
      have hlt : ¬ ((Flt.fin 6034823500676465 (-53)).val ≤ rho.val) := by
        rw [hthr]
        intro hle
        have hvb : 3430399 / 10000 ≤ v.val := by linarith
        have h1 : 3430399 / 10000 * (3430399 / 10000) ≤ v.val * v.val :=
          mul_le_mul hvb hvb (by norm_num) hv0.le
        have h3 : ((x : ℚ) ^ 2 + (y : ℚ) ^ 2) * (1000001 / 1000000)
            ≤ (117676 : ℚ) * (1000001 / 1000000) :=
          mul_le_mul_of_nonneg_right hnq (by norm_num)
        norm_num at h1
        linarith
      have : Flt.le (Flt.fin 6034823500676465 (-53)) rho = false := by
        by_contra hcon
        have ht : Flt.le (Flt.fin 6034823500676465 (-53)) rho = true := by
          simpa using hcon
        exact hlt ((Flt.le_iff (.fin 6034823500676465 (-53)) rho rfl fr).mp ht)
      rw [this]
      exact (decide_eq_false hn).symm

/-- C18: a stroke that begins (from `SCROLL_UNINITIALIZED`, `scroll.z = 0`)
with a touched sample for which the ring test
`mag / center >= (100.0 - CIRQUE_PINNACLE_SCROLL_RING_PERCENTAGE) / 100.0`
fails returns `suppress_touch = false`, `v = h = 0` on every sample and stays
in `SCROLL_UNINITIALIZED`, wherever the later samples lie; a first touched
sample that passes the test sets `SCROLL_DETECTING` with
`suppress_touch = false`; and with the default ring percentage 33 and
`center = 512` the test passes exactly when
`hypot (x, y) / center ≥ (100 - 33) / 100` in centred coordinates. -/
theorem stroke_outside_ring_passes (cfg : Config) (sc : circular_scroll_context_t)
    (td : pinnacle_data_t) (tds : List pinnacle_data_t)
    (hz : sc.z = 0) (hs : sc.state = SCROLL_UNINITIALIZED) (ht : td.zValue ≠ 0)
    (hall : ∀ t ∈ tds, t.zValue ≠ 0) :
    (in_outer_ring cfg
        (hypotf (Flt.ofInt binary32 (centred cfg td.xValue))
          (Flt.ofInt binary32 (centred cfg td.yValue))) (scroll_center cfg) = false →
      (∀ r ∈ scroll_calls cfg sc (td :: tds), r = { v := 0, h := 0, suppress_touch := false }) ∧
      (scroll_run cfg sc (td :: tds)).state = SCROLL_UNINITIALIZED) ∧
    (in_outer_ring cfg
        (hypotf (Flt.ofInt binary32 (centred cfg td.xValue))
          (Flt.ofInt binary32 (centred cfg td.yValue))) (scroll_center cfg) = true →
      (circular_scroll cfg sc td).2.state = SCROLL_DETECTING ∧
      (circular_scroll cfg sc td).1.suppress_touch = false) ∧
    (scroll_center cfg = 512 → cfg.scroll_ring_percentage = 33 →
      in_outer_ring cfg
        (hypotf (Flt.ofInt binary32 (centred cfg td.xValue))
          (Flt.ofInt binary32 (centred cfg td.yValue))) (scroll_center cfg)
        = decide ((67 * 512) ^ 2
            ≤ 10000 * ((centred cfg td.xValue) ^ 2 + (centred cfg td.yValue) ^ 2))) := by
  refine ⟨?_, ?_, ?_⟩
  · intro hring
    obtain ⟨h1, h2⟩ := circular_scroll_first_outside cfg sc td hz hs ht hring
    obtain ⟨i1, i2⟩ := scroll_calls_uninit cfg tds hall (circular_scroll cfg sc td).2
      (by rw [circular_scroll_z]; exact ht) h2
    refine ⟨?_, ?_⟩
    · intro r hr
      simp only [scroll_calls, List.mem_cons] at hr
      rcases hr with hr | hr
      · rw [hr, h1]
      · exact i1 r hr
    · rw [scroll_run]; exact i2
  · intro hring
    obtain ⟨_, h2, h3⟩ := circular_scroll_touchdown cfg sc td hz ht hring
    exact ⟨h2, by rw [h3]⟩
  · intro hc hp
    obtain ⟨x1, x2⟩ := centred_range cfg td.xValue
    obtain ⟨y1, y2⟩ := centred_range cfg td.yValue
    exact in_outer_ring_iff cfg hc hp _ _ x1 x2 y1 y2

set_option maxRecDepth 100000 in
/-- A stroke that begins at the pad centre and moves to the right edge, and a
touchdown on the right edge. -/
theorem stroke_outside_ring_passes_witness :
    scroll_calls Config.default State.init.scroll
        [touch_at 512 512, touch_at 800 512, touch_at 1000 512]
      = [{ v := 0, h := 0, suppress_touch := false }, { v := 0, h := 0, suppress_touch := false },
         { v := 0, h := 0, suppress_touch := false }] ∧
    (circular_scroll Config.default State.init.scroll (touch_at 1000 512)).2.state
      = SCROLL_DETECTING ∧
    (scroll_run Config.default State.init.scroll
      [touch_at 512 512, touch_at 800 512, touch_at 1000 512]).state = SCROLL_UNINITIALIZED :=
  ⟨by decide,
   ((stroke_outside_ring_passes Config.default State.init.scroll (touch_at 1000 512) []
      rfl rfl (by decide) (by decide)).2.1 (by decide)).1,
   ((stroke_outside_ring_passes Config.default State.init.scroll (touch_at 512 512)
      [touch_at 800 512, touch_at 1000 512] rfl rfl (by decide) (by decide)).1 (by decide)).2⟩

/-! ### C19 -/

theorem pimoroni_saturated (drv : PimoroniDriver) (read : Option pimoroni_data_t)
    (st : pimoroni_state) (mouse_report : report_mouse_t)
    (h : st.error_count = drv.error_count) :
    pimoroni_trackball_get_report drv read st mouse_report = (mouse_report, st, false) := by
  simp [pimoroni_trackball_get_report, h]

theorem pimoroni_calls_saturated (drv : PimoroniDriver) (st : pimoroni_state)
    (h : st.error_count = drv.error_count)
    (calls : List (Option pimoroni_data_t × report_mouse_t)) :
    pimoroni_calls drv st calls = calls.map (fun c => (c.2, st, false)) := by
  induction calls with
  | nil => rfl
  | cons c cs ih =>
    rw [pimoroni_calls, pimoroni_saturated drv c.1 st c.2 h, ih]
    rfl

theorem pimoroni_run_failures (drv : PimoroniDriver) (hmax : drv.error_count ≤ 255)
    (calls : List (Option pimoroni_data_t × report_mouse_t))
    (hall : ∀ c ∈ calls, c.1 = none) :
    ∀ st : pimoroni_state, st.error_count + calls.length = drv.error_count →
      (pimoroni_run drv st calls).error_count = drv.error_count := by
  induction calls with
  | nil => intro st h; simpa [pimoroni_run] using h
  | cons c cs ih =>
    intro st h
    have hc : c.1 = none := hall c (List.mem_cons_self _ _)
    simp only [List.length_cons] at h
    have hlt : st.error_count < drv.error_count := by omega
    have hstep : (pimoroni_trackball_get_report drv c.1 st c.2).2.1.error_count
        = st.error_count + 1 := by
      simp only [pimoroni_trackball_get_report, hlt, if_true, hc]
      exact Nat.mod_eq_of_lt (by omega)
    rw [pimoroni_run]
    apply ih (fun u hu => hall u (List.mem_cons_of_mem _ hu))
    rw [hstep]; omega

/-- C19: with `PIMORONI_TRACKBALL_ERROR_COUNT` at most 255 (the counter is a
`uint8_t`) and `error_count` within it, one call of
`pimoroni_trackball_get_report` keeps `error_count` within the limit; a
successful read sets it to 0; a failed read adds 1 to it and leaves the report,
`debounce` and the offsets as they were; that many failed reads in a row from
`error_count = 0` bring it to the limit; and at the limit every call returns
its input report and the statics unchanged, without reading the sensor. -/
theorem pimoroni_error_count_saturates (drv : PimoroniDriver) (read : Option pimoroni_data_t)
    (st : pimoroni_state) (mouse_report : report_mouse_t)
    (calls : List (Option pimoroni_data_t × report_mouse_t))
    (hmax : drv.error_count ≤ 255) (hinv : st.error_count ≤ drv.error_count) :
    (pimoroni_trackball_get_report drv read st mouse_report).2.1.error_count
      ≤ drv.error_count ∧
    (st.error_count < drv.error_count → read.isSome = true →
      (pimoroni_trackball_get_report drv read st mouse_report).2.1.error_count = 0) ∧
    (st.error_count < drv.error_count → read = none →
      pimoroni_trackball_get_report drv read st mouse_report
        = (mouse_report, { st with error_count := st.error_count + 1 }, true)) ∧
    (st.error_count = 0 → (∀ c ∈ calls, c.1 = none) → calls.length = drv.error_count →
      (pimoroni_run drv st calls).error_count = drv.error_count) ∧
    (st.error_count = drv.error_count →
      pimoroni_calls drv st calls = calls.map (fun c => (c.2, st, false)) ∧
      pimoroni_run drv st calls = st) := by
  refine ⟨?_, ?_, ?_, ?_, ?_⟩
  · by_cases h1 : st.error_count < drv.error_count
    · cases read with
      | none =>
        simp only [pimoroni_trackball_get_report, h1, if_true]
        rw [Nat.mod_eq_of_lt (by omega)]; omega
      | some d =>
        simp only [pimoroni_trackball_get_report, h1, if_true]
        split_ifs <;> simp
    · simp only [pimoroni_trackball_get_report, h1, if_false]
      exact hinv
  · intro h1 h2
    cases read with
    | none => simp at h2
    | some d =>
      simp only [pimoroni_trackball_get_report, h1, if_true]
      split_ifs <;> rfl
  · intro h1 h2
    subst h2
    simp only [pimoroni_trackball_get_report, h1, if_true]
    rw [Nat.mod_eq_of_lt (by omega)]
  · intro h0 hall hlen
    exact pimoroni_run_failures drv hmax calls hall st (by omega)
  · intro h
    refine ⟨pimoroni_calls_saturated drv st h calls, ?_⟩
    induction calls with
    | nil => rfl
    | cons c cs ih => rw [pimoroni_run, pimoroni_saturated drv c.1 st c.2 h]; exact ih

/-- Ten failed reads from the power-on statics, then one more call. -/
theorem pimoroni_error_count_saturates_witness :
    (pimoroni_run PimoroniDriver.sample
      { debounce := 0, error_count := 0, x_offset := 0, y_offset := 0 }
      (List.replicate 10 (none, report_zero))).error_count = 10 ∧
    pimoroni_trackball_get_report PimoroniDriver.sample
        (some { left := 0, right := 3, up := 0, down := 0, click := 0 })
        (pimoroni_run PimoroniDriver.sample
          { debounce := 0, error_count := 0, x_offset := 0, y_offset := 0 }
          (List.replicate 10 (none, report_zero)))
        report_zero
      = (report_zero,
         pimoroni_run PimoroniDriver.sample
          { debounce := 0, error_count := 0, x_offset := 0, y_offset := 0 }
          (List.replicate 10 (none, report_zero)), false) :=
  ⟨(pimoroni_error_count_saturates PimoroniDriver.sample none
      { debounce := 0, error_count := 0, x_offset := 0, y_offset := 0 } report_zero
      (List.replicate 10 (none, report_zero)) (by decide) (by decide)).2.2.2.1 rfl
      (by decide) (by decide),
   by decide⟩

/-! ### C20 -/

set_option maxRecDepth 1000000 in
theorem ring_threshold_pos : ∀ r < 100,
    Flt.le (Flt.div binary64 (Flt.sub binary64 (dbl 100 1) (Flt.ofInt binary64 ((r : Nat) : Int)))
      (dbl 100 1)) (.fin 0 0) = false := by
  decide

/-- A touchdown that passes the ring test, with a ring percentage below 100, has
a positive distance from the pad centre. -/
theorem in_outer_ring_pos (cfg : Config) (x y : Int) (center : Nat)
    (hring : cfg.scroll_ring_percentage < 100) (hc1 : 0 < center) (hc2 : center < 65536)
    (hx1 : -32768 ≤ x) (hx2 : x ≤ 32767) (hy1 : -32768 ≤ y) (hy2 : y ≤ 32767)
    (h : in_outer_ring cfg (hypotf (Flt.ofInt binary32 x) (Flt.ofInt binary32 y)) center = true) :
    (hypotf (Flt.ofInt binary32 x) (Flt.ofInt binary32 y)).isFin = true ∧
    0 < (hypotf (Flt.ofInt binary32 x) (Flt.ofInt binary32 y)).val := by
  by_cases h0 : x = 0 ∧ y = 0
  · obtain ⟨rfl, rfl⟩ := h0
    exfalso
    obtain ⟨fc, vc⟩ := Flt.ofInt_exact (center : Int) (by norm_num; omega)
    have hcv : (Flt.ofInt binary32 (center : Int)).val ≠ 0 := by
      rw [vc]
      have : (0 : ℚ) < ((center : Int) : ℚ) := by exact_mod_cast hc1
      exact this.ne'
    have hd : Flt.div binary32 (.fin 0 0) (Flt.ofInt binary32 (center : Int)) = .fin 0 0 :=
      Flt.div_zero binary32 _ _ rfl fc (by simp [Flt.val]) hcv
    simp only [in_outer_ring, hypotf_zero, hd] at h
    rw [ring_threshold_pos cfg.scroll_ring_percentage hring] at h
    exact absurd h (by decide)
  · obtain ⟨r1, r2, _, _⟩ := hypotf_ofInt_spec x y (by omega) (by omega) (by omega) (by omega) h0
    exact ⟨r1, by linarith⟩

theorem circular_scroll_mag (cfg : Config) (sc : circular_scroll_context_t)
    (td : pinnacle_data_t) :
    (circular_scroll cfg sc td).2.mag = sc.mag ∨
    (in_outer_ring cfg
        (hypotf (Flt.ofInt binary32 (centred cfg td.xValue))
          (Flt.ofInt binary32 (centred cfg td.yValue))) (scroll_center cfg) = true ∧
      (circular_scroll cfg sc td).2.mag
        = hypotf (Flt.ofInt binary32 (centred cfg td.xValue))
          (Flt.ofInt binary32 (centred cfg td.yValue))) := by
  simp only [circular_scroll, scroll_detect, scroll_emit]
  split_ifs <;> simp_all

theorem circular_scroll_keeps_detecting (cfg : Config) (sc : circular_scroll_context_t)
    (td : pinnacle_data_t) (h : (circular_scroll cfg sc td).2.state = SCROLL_DETECTING)
    (_hm : (circular_scroll cfg sc td).2.mag = sc.mag)
    (hring : in_outer_ring cfg
        (hypotf (Flt.ofInt binary32 (centred cfg td.xValue))
          (Flt.ofInt binary32 (centred cfg td.yValue))) (scroll_center cfg) = false) :
    sc.state = SCROLL_DETECTING := by
  by_contra hpre
  obtain ⟨hz, ht⟩ := circular_scroll_enter_detecting cfg sc td h hpre
  simp [circular_scroll, scroll_detect, scroll_emit_state, hz, ht, hring] at h
  exact hpre h

theorem circular_scroll_detecting_mag (cfg : Config) (sc : circular_scroll_context_t)
    (td : pinnacle_data_t) (hs2 : 2 ≤ cfg.scale) (hs16 : cfg.scale < 65536)
    (hring : cfg.scroll_ring_percentage < 100)
    (hJ : sc.state = SCROLL_DETECTING → sc.mag.isFin = true ∧ 0 < sc.mag.val)
    (h : (circular_scroll cfg sc td).2.state = SCROLL_DETECTING) :
    (circular_scroll cfg sc td).2.mag.isFin = true ∧ 0 < (circular_scroll cfg sc td).2.mag.val := by
  have hc1 : 0 < scroll_center cfg := by unfold scroll_center; omega
  have hc2 : scroll_center cfg < 65536 := by unfold scroll_center; omega
  obtain ⟨x1, x2⟩ := centred_range cfg td.xValue
  obtain ⟨y1, y2⟩ := centred_range cfg td.yValue
  by_cases hr : in_outer_ring cfg
        (hypotf (Flt.ofInt binary32 (centred cfg td.xValue))
          (Flt.ofInt binary32 (centred cfg td.yValue))) (scroll_center cfg) = true
  · have hpos := in_outer_ring_pos cfg _ _ _ hring hc1 hc2 x1 x2 y1 y2 hr
    rcases circular_scroll_mag cfg sc td with hm | ⟨_, hm⟩
    · by_cases hpre : sc.state = SCROLL_DETECTING
      · rw [hm]; exact hJ hpre
      · obtain ⟨hz, ht⟩ := circular_scroll_enter_detecting cfg sc td h hpre
        have : (circular_scroll cfg sc td).2.mag
            = hypotf (Flt.ofInt binary32 (centred cfg td.xValue))
              (Flt.ofInt binary32 (centred cfg td.yValue)) := by
          simp only [circular_scroll, scroll_detect, scroll_emit, hz, ht, hr]
          split_ifs <;> simp_all
        rw [this]; exact hpos
    · rw [hm]; exact hpos
  · have hr' : in_outer_ring cfg
        (hypotf (Flt.ofInt binary32 (centred cfg td.xValue))
          (Flt.ofInt binary32 (centred cfg td.yValue))) (scroll_center cfg) = false := by
      simpa using hr
    rcases circular_scroll_mag cfg sc td with hm | ⟨hin, _⟩
    · rw [hm]
      exact hJ (circular_scroll_keeps_detecting cfg sc td h hm hr')
    · rw [hr'] at hin; exact absurd hin (by decide)

/-- C20: with a scale of at least 2 (so that `center > 0`) and a ring
percentage below 100, whenever `circular_scroll` leaves its context in
`SCROLL_DETECTING` the stored `scroll.mag` is finite and strictly positive, from
any context in which that already holds (the power-on context is one) and
through any samples; and a first touched sample exactly at the pad centre does
not enter `SCROLL_DETECTING`. -/
theorem detecting_mag_positive (cfg : Config) (sc : circular_scroll_context_t)
    (td : pinnacle_data_t) (tds : List pinnacle_data_t)
    (hs2 : 2 ≤ cfg.scale) (hs16 : cfg.scale < 65536)
    (hring : cfg.scroll_ring_percentage < 100)
    (hJ : sc.state = SCROLL_DETECTING → sc.mag.isFin = true ∧ 0 < sc.mag.val) :
    ((scroll_run cfg sc tds).state = SCROLL_DETECTING →
      (scroll_run cfg sc tds).mag.isFin = true ∧ 0 < (scroll_run cfg sc tds).mag.val) ∧
    (sc.z = 0 → sc.state = SCROLL_UNINITIALIZED →
      centred cfg td.xValue = 0 → centred cfg td.yValue = 0 →
      (circular_scroll cfg sc td).2.state ≠ SCROLL_DETECTING) := by
  constructor
  · induction tds generalizing sc with
    | nil => exact hJ
    | cons t ts ih =>
      rw [scroll_run]
      exact ih _ (circular_scroll_detecting_mag cfg sc t hs2 hs16 hring hJ)
  · intro hz hs hx hy hd
    have hc1 : 0 < scroll_center cfg := by unfold scroll_center; omega
    have hc2 : scroll_center cfg < 65536 := by unfold scroll_center; omega
    have hpre : sc.state ≠ SCROLL_DETECTING := by rw [hs]; decide
    obtain ⟨_, ht⟩ := circular_scroll_enter_detecting cfg sc td hd hpre
    by_cases hr : in_outer_ring cfg
        (hypotf (Flt.ofInt binary32 (centred cfg td.xValue))
          (Flt.ofInt binary32 (centred cfg td.yValue))) (scroll_center cfg) = true
    · have hpos := in_outer_ring_pos cfg _ _ _ hring hc1 hc2 (by omega) (by omega) (by omega)
        (by omega) hr
      rw [hx, hy, hypotf_zero] at hpos
      simp [Flt.val] at hpos
    · have hr' : in_outer_ring cfg
          (hypotf (Flt.ofInt binary32 (centred cfg td.xValue))
            (Flt.ofInt binary32 (centred cfg td.yValue))) (scroll_center cfg) = false := by
        simpa using hr
      obtain ⟨_, h2⟩ := circular_scroll_first_outside cfg sc td hz hs ht hr'
      rw [h2] at hd
      exact absurd hd (by decide)

set_option maxRecDepth 100000 in
/-- A touchdown on the right edge from the power-on context. -/
theorem detecting_mag_positive_witness :
    (scroll_run Config.default State.init.scroll [touch_at 1000 512]).state = SCROLL_DETECTING ∧
    (scroll_run Config.default State.init.scroll [touch_at 1000 512]).mag.isFin = true ∧
    0 < (scroll_run Config.default State.init.scroll [touch_at 1000 512]).mag.val :=
  ⟨by decide,
   (detecting_mag_positive Config.default State.init.scroll (touch_at 512 512)
      [touch_at 1000 512] (by decide) (by decide) (by decide)
      (fun h => absurd h (by decide))).1 (by decide)⟩

/-! ### C21 -/

theorem circular_scroll_first_detecting (cfg : Config) (sc : circular_scroll_context_t)
    (td : pinnacle_data_t) (hz : sc.z = 0)
    (h : (circular_scroll cfg sc td).2.state = SCROLL_DETECTING) :
    td.zValue ≠ 0 ∧ (circular_scroll cfg sc td).1.suppress_touch = false := by
  have ht : td.zValue ≠ 0 := by
    intro ht
    rw [circular_scroll_state_lift cfg sc td ht] at h
    exact absurd h (by decide)
  refine ⟨ht, ?_⟩
  by_cases hring : in_outer_ring cfg
      (hypotf (Flt.ofInt binary32 (centred cfg td.xValue))
        (Flt.ofInt binary32 (centred cfg td.yValue))) (scroll_center cfg) = true
  · exact (congrArg circular_scroll_t.suppress_touch
      (circular_scroll_touchdown cfg sc td hz ht hring).2.2)
  · by_cases hv : sc.state = SCROLL_VALID
    · exfalso
      simp [circular_scroll, scroll_detect, scroll_emit_state, hz, ht, hring, hv] at h
    · simp [circular_scroll, scroll_detect, scroll_emit, hz, ht, hring, hv]

theorem circular_scroll_detecting_stays (cfg : Config) (sc : circular_scroll_context_t)
    (td : pinnacle_data_t) (hz : sc.z ≠ 0) (hs : sc.state = SCROLL_DETECTING)
    (h : (circular_scroll cfg sc td).2.state = SCROLL_DETECTING) :
    td.zValue ≠ 0 ∧
      (circular_scroll cfg sc td).1 = { v := 0, h := 0, suppress_touch := true } := by
  have ht : td.zValue ≠ 0 := by
    intro ht
    rw [circular_scroll_state_lift cfg sc td ht] at h
    exact absurd h (by decide)
  refine ⟨ht, ?_⟩
  by_cases hm : moved_enough cfg
      (hypotf (Flt.ofInt binary32 (centred cfg td.xValue - sc.x))
        (Flt.ofInt binary32 (centred cfg td.yValue - sc.y))) (scroll_center cfg) = true
  · exfalso
    by_cases hw : is_swipe cfg sc.mag sc.x sc.y (centred cfg td.xValue) (centred cfg td.yValue)
        = true
    · rw [(circular_scroll_detecting_swipe cfg sc td hz hs ht hm hw).2] at h
      exact absurd h (by decide)
    · simp [circular_scroll, scroll_detect, scroll_emit_state, hz, hs, ht, hm, hw] at h
  · rw [circular_scroll_detecting_hold cfg sc td hz hs ht (by simpa using hm)]

theorem circular_scroll_detecting_released (cfg : Config) (sc : circular_scroll_context_t)
    (td : pinnacle_data_t) (hz : sc.z ≠ 0) (hs : sc.state = SCROLL_DETECTING)
    (h : (circular_scroll cfg sc td).2.state = NOT_SCROLL) :
    td.zValue ≠ 0 ∧
      (circular_scroll cfg sc td).1 = { v := 0, h := 0, suppress_touch := false } := by
  have ht : td.zValue ≠ 0 := by
    intro ht
    rw [circular_scroll_state_lift cfg sc td ht] at h
    exact absurd h (by decide)
  refine ⟨ht, ?_⟩
  by_cases hm : moved_enough cfg
      (hypotf (Flt.ofInt binary32 (centred cfg td.xValue - sc.x))
        (Flt.ofInt binary32 (centred cfg td.yValue - sc.y))) (scroll_center cfg) = true
  · by_cases hw : is_swipe cfg sc.mag sc.x sc.y (centred cfg td.xValue) (centred cfg td.yValue)
        = true
    · exact (circular_scroll_detecting_swipe cfg sc td hz hs ht hm hw).1
    · exfalso
      simp [circular_scroll, scroll_detect, scroll_emit_state, hz, hs, ht, hm, hw] at h
  · exfalso
    rw [circular_scroll_detecting_hold cfg sc td hz hs ht (by simpa using hm)] at h
    simp [hs] at h

/-- The statics after a tick that processes a sample with `touchDown`. -/
theorem get_report_touched_state (cfg : Config) (inp : Input) (st : State) (mr : report_mouse_t)
    (hp : cfg.motion_pin = true ∨ inp.data_ready = true)
    (hsc : cfg.enable_circular_scroll = true) (htd : inp.touchData.touchDown = true) :
    (cirque_pinnacle_get_report cfg inp st mr).state.scroll
      = (circular_scroll cfg st.scroll inp.touchData).2 ∧
    (cirque_pinnacle_get_report cfg inp st mr).state.x
      = (if (circular_scroll cfg st.scroll inp.touchData).1.suppress_touch then st.x
         else inp.touchData.xValue % 65536) ∧
    (cirque_pinnacle_get_report cfg inp st mr).state.y
      = (if (circular_scroll cfg st.scroll inp.touchData).1.suppress_touch then st.y
         else inp.touchData.yValue % 65536) ∧
    (cfg.enable_cursor_glide = true →
      (cirque_pinnacle_get_report cfg inp st mr).state.glide.z = inp.touchData.zValue) := by
  have hp' : (!cfg.motion_pin && !inp.data_ready) = false := by
    rcases hp with h | h <;> simp [h]
  refine ⟨?_, ?_, ?_, ?_⟩
  · simp [cirque_pinnacle_get_report, process_sample, hp', hsc]
  · simp [cirque_pinnacle_get_report, process_sample, hp', hsc]
  · simp [cirque_pinnacle_get_report, process_sample, hp', hsc]
  · intro hg
    simp [cirque_pinnacle_get_report, process_sample, hp', hsc, hg, htd, cursor_glide_update]

/-- The `(x, y)` returned by a tick that processes a sample with `touchDown`
while the glide context holds a non-zero pressure. -/
theorem get_report_touched_xy (cfg : Config) (inp : Input) (st : State) (mr : report_mouse_t)
    (hp : cfg.motion_pin = true ∨ inp.data_ready = true)
    (hsc : cfg.enable_circular_scroll = true) (htd : inp.touchData.touchDown = true)
    (hg : cfg.enable_cursor_glide = true → st.glide.z ≠ 0) :
    (cirque_pinnacle_get_report cfg inp st mr).report.x
      = (if (!(circular_scroll cfg st.scroll inp.touchData).1.suppress_touch &&
            decide (st.x ≠ 0 ∧ st.y ≠ 0 ∧ inp.touchData.xValue ≠ 0 ∧ inp.touchData.yValue ≠ 0))
            = true
         then wrap8 ((inp.touchData.xValue : Int) - st.x) else 0) ∧
    (cirque_pinnacle_get_report cfg inp st mr).report.y
      = (if (!(circular_scroll cfg st.scroll inp.touchData).1.suppress_touch &&
            decide (st.x ≠ 0 ∧ st.y ≠ 0 ∧ inp.touchData.xValue ≠ 0 ∧ inp.touchData.yValue ≠ 0))
            = true
         then wrap8 ((inp.touchData.yValue : Int) - st.y) else 0) := by
  have hp' : (!cfg.motion_pin && !inp.data_ready) = false := by
    rcases hp with h | h <;> simp [h]
  by_cases hgl : cfg.enable_cursor_glide = true
  · have hc := cursor_glide_check_touched inp.now st.glide (hg hgl)
    simp only [cirque_pinnacle_get_report, process_sample, hp', hsc, hgl, htd, hc, if_true]
    simp
  · simp only [cirque_pinnacle_get_report, process_sample, hp', hsc, hgl, htd, if_true]
    simp

theorem run_reports_append (cfg : Config) (mr : report_mouse_t) (l2 : List Input) :
    ∀ (l1 : List Input) (st : State),
      run_reports cfg mr st (l1 ++ l2)
        = run_reports cfg mr st l1 ++ run_reports cfg mr (run_state cfg mr st l1) l2 := by
  intro l1
  induction l1 with
  | nil => intro st; rfl
  | cons i l ih =>
      intro st
      rw [List.cons_append, run_reports, run_reports, run_state, ih, List.cons_append]

/-- Ticks that keep the stroke in `SCROLL_DETECTING`: each reports `(0, 0)` and
leaves the stored last position as it was. -/
theorem detecting_ticks (cfg : Config) (mr : report_mouse_t)
    (hsc : cfg.enable_circular_scroll = true) :
    ∀ (pre : List Input) (st : State),
      st.scroll.state = SCROLL_DETECTING → st.scroll.z ≠ 0 →
      (cfg.enable_cursor_glide = true → st.glide.z ≠ 0) →
      stays_detecting cfg st.scroll (pre.map Input.touchData) = true →
      (∀ i ∈ pre, (cfg.motion_pin = true ∨ i.data_ready = true) ∧ i.touchData.coherent) →
      (run_state cfg mr st pre).x = st.x ∧ (run_state cfg mr st pre).y = st.y ∧
      (run_state cfg mr st pre).scroll = scroll_run cfg st.scroll (pre.map Input.touchData) ∧
      (run_state cfg mr st pre).scroll.state = SCROLL_DETECTING ∧
      (run_state cfg mr st pre).scroll.z ≠ 0 ∧
      (cfg.enable_cursor_glide = true → (run_state cfg mr st pre).glide.z ≠ 0) ∧
      (∀ r ∈ run_reports cfg mr st pre, r.x = 0 ∧ r.y = 0) := by
  intro pre
  induction pre with
  | nil =>
      intro st hs hz hg _ _
      exact ⟨rfl, rfl, rfl, hs, hz, hg, fun r hr => absurd hr (List.not_mem_nil r)⟩
  | cons i l ih =>
      intro st hs hz hg hst hall
      simp only [List.map_cons, stays_detecting, Bool.and_eq_true, decide_eq_true_eq] at hst
      obtain ⟨hd, hrest⟩ := hst
      obtain ⟨hp, hco⟩ := hall i (List.mem_cons_self _ _)
      obtain ⟨ht, hrep⟩ := circular_scroll_detecting_stays cfg st.scroll i.touchData hz hs hd
      have htd : i.touchData.touchDown = true := hco ht
      obtain ⟨e1, e2, e3, e4⟩ := get_report_touched_state cfg i st mr hp hsc htd
      obtain ⟨x1, y1⟩ := get_report_touched_xy cfg i st mr hp hsc htd hg
      rw [hrep] at e2 e3 x1 y1
      simp only [if_true, Bool.not_true, Bool.false_and, Bool.false_eq_true, if_false]
        at e2 e3 x1 y1
      have hz1 : (cirque_pinnacle_get_report cfg i st mr).state.scroll.z ≠ 0 := by
        rw [e1, circular_scroll_z]; exact ht
      have hs1 : (cirque_pinnacle_get_report cfg i st mr).state.scroll.state = SCROLL_DETECTING := by
        rw [e1]; exact hd
      have hg1 : cfg.enable_cursor_glide = true →
          (cirque_pinnacle_get_report cfg i st mr).state.glide.z ≠ 0 := by
        intro h; rw [e4 h]; exact ht
      have hrest1 : stays_detecting cfg (cirque_pinnacle_get_report cfg i st mr).state.scroll
          (l.map Input.touchData) = true := by rw [e1]; exact hrest
      obtain ⟨a1, a2, a3, a4, a5, a6, a7⟩ :=
        ih (cirque_pinnacle_get_report cfg i st mr).state hs1 hz1 hg1 hrest1
          (fun j hj => hall j (List.mem_cons_of_mem _ hj))
      refine ⟨?_, ?_, ?_, a4, a5, a6, ?_⟩
      · rw [run_state, a1, e2]
      · rw [run_state, a2, e3]
      · rw [run_state, a3, e1]; rfl
      · intro r hr
        rw [run_reports, List.mem_cons] at hr
        rcases hr with h | h
        · rw [h]; exact ⟨x1, y1⟩
        · exact a7 r h

theorem sum_map_zero {α : Type} (f : α → Int) (l : List α) (h : ∀ r ∈ l, f r = 0) :
    (l.map f).sum = 0 := by
  induction l with
  | nil => rfl
  | cons a l ih =>
      rw [List.map_cons, List.sum_cons, h a (List.mem_cons_self _ _),
        ih (fun r hr => h r (List.mem_cons_of_mem _ hr)), add_zero]

/-- C21, with the condition that the claim leaves out: a stroke that touches
down in the ring (`SCROLL_DETECTING`), stays there for the ticks `pre`, and is
released as a swipe on the tick `s` (`NOT_SCROLL`), every tick processing a
coherent sample.  The ticks `pre` report `(0, 0)` and keep the stored last
position at the touchdown position; when the touchdown position and the
position of `s` have non-zero coordinates and their differences fit in
`[-127, 127]`, the tick `s` reports the position of `s` minus the touchdown
position, so that the reports after the touchdown tick sum to the
displacement since touchdown. -/
theorem swipe_release_reports_displacement (cfg : Config) (st : State) (mr : report_mouse_t)
    (td0 : Input) (pre : List Input) (s : Input)
    (hsc : cfg.enable_circular_scroll = true)
    (hall : ∀ i ∈ td0 :: (pre ++ [s]),
      (cfg.motion_pin = true ∨ i.data_ready = true) ∧ i.touchData.coherent)
    (hz : st.scroll.z = 0)
    (h0 : (circular_scroll cfg st.scroll td0.touchData).2.state = SCROLL_DETECTING)
    (hpre : stays_detecting cfg (circular_scroll cfg st.scroll td0.touchData).2
      (pre.map Input.touchData) = true)
    (hrel : (circular_scroll cfg
      (scroll_run cfg (circular_scroll cfg st.scroll td0.touchData).2 (pre.map Input.touchData))
      s.touchData).2.state = NOT_SCROLL)
    (hx0 : td0.touchData.xValue ≠ 0) (hy0 : td0.touchData.yValue ≠ 0)
    (hx16 : td0.touchData.xValue < 65536) (hy16 : td0.touchData.yValue < 65536)
    (hx : s.touchData.xValue ≠ 0) (hy : s.touchData.yValue ≠ 0)
    (hfx : -127 ≤ (s.touchData.xValue : Int) - td0.touchData.xValue ∧
      (s.touchData.xValue : Int) - td0.touchData.xValue ≤ 127)
    (hfy : -127 ≤ (s.touchData.yValue : Int) - td0.touchData.yValue ∧
      (s.touchData.yValue : Int) - td0.touchData.yValue ≤ 127) :
    (run_state cfg mr (cirque_pinnacle_get_report cfg td0 st mr).state pre).x
      = td0.touchData.xValue ∧
    (run_state cfg mr (cirque_pinnacle_get_report cfg td0 st mr).state pre).y
      = td0.touchData.yValue ∧
    (∀ r ∈ run_reports cfg mr (cirque_pinnacle_get_report cfg td0 st mr).state pre,
      r.x = 0 ∧ r.y = 0) ∧
    (cirque_pinnacle_get_report cfg s
      (run_state cfg mr (cirque_pinnacle_get_report cfg td0 st mr).state pre) mr).state.scroll.state
      = NOT_SCROLL ∧
    (cirque_pinnacle_get_report cfg s
      (run_state cfg mr (cirque_pinnacle_get_report cfg td0 st mr).state pre) mr).report.x
      = (s.touchData.xValue : Int) - td0.touchData.xValue ∧
    (cirque_pinnacle_get_report cfg s
      (run_state cfg mr (cirque_pinnacle_get_report cfg td0 st mr).state pre) mr).report.y
      = (s.touchData.yValue : Int) - td0.touchData.yValue ∧
    ((run_reports cfg mr (cirque_pinnacle_get_report cfg td0 st mr).state (pre ++ [s])).map
      report_mouse_t.x).sum = (s.touchData.xValue : Int) - td0.touchData.xValue ∧
    ((run_reports cfg mr (cirque_pinnacle_get_report cfg td0 st mr).state (pre ++ [s])).map
      report_mouse_t.y).sum = (s.touchData.yValue : Int) - td0.touchData.yValue := by
  -- the touchdown tick
  obtain ⟨hp0, hco0⟩ := hall td0 (List.mem_cons_self _ _)
  obtain ⟨ht0, hsup0⟩ := circular_scroll_first_detecting cfg st.scroll td0.touchData hz h0
  obtain ⟨e1, e2, e3, e4⟩ := get_report_touched_state cfg td0 st mr hp0 hsc (hco0 ht0)
  rw [hsup0] at e2 e3
  simp only [Bool.false_eq_true, if_false, Nat.mod_eq_of_lt hx16, Nat.mod_eq_of_lt hy16] at e2 e3
  obtain ⟨st1, hst1⟩ : ∃ st1, st1 = (cirque_pinnacle_get_report cfg td0 st mr).state := ⟨_, rfl⟩
  rw [← hst1] at e1 e2 e3 e4 ⊢
  rw [← e1] at hpre hrel
  -- the detecting ticks
  obtain ⟨a1, a2, a3, a4, a5, a6, a7⟩ := detecting_ticks cfg mr hsc pre st1
    (by rw [e1]; exact h0) (by rw [e1, circular_scroll_z]; exact ht0)
    (fun h => by rw [e4 h]; exact ht0) hpre
    (fun j hj => hall j (List.mem_cons_of_mem _ (List.mem_append_left _ hj)))
  obtain ⟨st2, hst2⟩ : ∃ st2, st2 = run_state cfg mr st1 pre := ⟨_, rfl⟩
  rw [← hst2] at a1 a2 a3 a4 a5 a6 ⊢
  rw [← a3] at hrel
  -- the release tick
  obtain ⟨hps, hcos⟩ := hall s
    (List.mem_cons_of_mem _ (List.mem_append_right _ (List.mem_singleton_self s)))
  obtain ⟨hts, hreps⟩ := circular_scroll_detecting_released cfg st2.scroll s.touchData a5 a4 hrel
  obtain ⟨f1, _, _, _⟩ := get_report_touched_state cfg s st2 mr hps hsc (hcos hts)
  obtain ⟨x1, y1⟩ := get_report_touched_xy cfg s st2 mr hps hsc (hcos hts) a6
  have hnz : st2.x ≠ 0 ∧ st2.y ≠ 0 ∧ s.touchData.xValue ≠ 0 ∧ s.touchData.yValue ≠ 0 := by
    rw [a1, a2, e2, e3]; exact ⟨hx0, hy0, hx, hy⟩
  rw [hreps] at x1 y1
  simp only [Bool.not_false, Bool.true_and, decide_eq_true hnz, if_true] at x1 y1
  rw [a1, e2] at x1
  rw [a2, e3] at y1
  rw [wrap8_id _ (by omega) hfx.2] at x1
  rw [wrap8_id _ (by omega) hfy.2] at y1
  refine ⟨by rw [a1, e2], by rw [a2, e3], a7, by rw [f1]; exact hrel, x1, y1, ?_, ?_⟩
  · rw [run_reports_append, List.map_append, List.sum_append,
      sum_map_zero _ _ (fun r hr => (a7 r hr).1), ← hst2]
    simp [run_reports, x1]
  · rw [run_reports_append, List.map_append, List.sum_append,
      sum_map_zero _ _ (fun r hr => (a7 r hr).2), ← hst2]
    simp [run_reports, y1]

set_option maxRecDepth 100000 in
theorem swipe_release_reports_displacement_witness :
    (cirque_pinnacle_get_report Config.default (sample 10 960 512 50)
      (run_state Config.default report_zero
        (cirque_pinnacle_get_report Config.default (sample 0 1000 512 50) State.init
          report_zero).state [sample 5 995 512 50]) report_zero).report.x = -40 ∧
    ((run_reports Config.default report_zero
        (cirque_pinnacle_get_report Config.default (sample 0 1000 512 50) State.init
          report_zero).state ([sample 5 995 512 50] ++ [sample 10 960 512 50])).map
      report_mouse_t.x).sum = -40 :=
  have h := swipe_release_reports_displacement Config.default State.init report_zero
    (sample 0 1000 512 50) [sample 5 995 512 50] (sample 10 960 512 50)
    (by decide) (by decide) (by decide) (by decide) (by decide) (by decide)
    (by decide) (by decide) (by decide) (by decide) (by decide) (by decide)
    (by decide) (by decide)
  ⟨h.2.2.2.2.1, h.2.2.2.2.2.2.1⟩

set_option maxRecDepth 100000 in
/-- C21, as stated, fails: a touchdown on the left edge (`xValue = 0`, in the
ring) followed by a straight move inwards to `xValue = 40` is released as a
swipe, the sample has `touchDown` and no glide is valid, the difference
`(40, 0)` fits, and the tick reports `(0, 0)`. -/
theorem edge_touchdown_swipe_reports_nothing :
    (cirque_pinnacle_get_report Config.default (sample 0 0 512 50) State.init
      report_zero).state.scroll.state = SCROLL_DETECTING ∧
    (cirque_pinnacle_get_report Config.default (sample 10 40 512 50)
      (cirque_pinnacle_get_report Config.default (sample 0 0 512 50) State.init
        report_zero).state report_zero).state.scroll.state = NOT_SCROLL ∧
    (sample 10 40 512 50).touchData.touchDown = true ∧
    (cursor_glide_check 10 (cirque_pinnacle_get_report Config.default (sample 0 0 512 50)
      State.init report_zero).state.glide).1.valid = false ∧
    ((sample 10 40 512 50).touchData.xValue : Int) - (sample 0 0 512 50).touchData.xValue = 40 ∧
    ((sample 10 40 512 50).touchData.yValue : Int) - (sample 0 0 512 50).touchData.yValue = 0 ∧
    (cirque_pinnacle_get_report Config.default (sample 10 40 512 50)
      (cirque_pinnacle_get_report Config.default (sample 0 0 512 50) State.init
        report_zero).state report_zero).report.x = 0 ∧
    (cirque_pinnacle_get_report Config.default (sample 10 40 512 50)
      (cirque_pinnacle_get_report Config.default (sample 0 0 512 50) State.init
        report_zero).state report_zero).report.y = 0 := by
  decide

/-! ### C22 -/

/-- C22: for every integer `amt`, `constrain_hid amt` lies in `[-127, 127]`,
is `amt` when `amt` is in `[-127, 127]`, is `-127` when `amt < -127` and `127`
when `amt > 127`; and `adns9800_get_report_driver` returns the input report
with `x` and `y` replaced by the sensor's `x` and `y` clamped to
`[-127, 127]`, the fields `buttons`, `v` and `h` being those of the input
report. -/
theorem constrain_hid_clamps (amt : Int) (sensor_report : report_adns9800_t)
    (mouse_report : report_mouse_t) :
    (-127 ≤ constrain_hid amt ∧ constrain_hid amt ≤ 127) ∧
    (-127 ≤ amt → amt ≤ 127 → constrain_hid amt = amt) ∧
    (amt < -127 → constrain_hid amt = -127) ∧
    (amt > 127 → constrain_hid amt = 127) ∧
    adns9800_get_report_driver sensor_report mouse_report
      = { buttons := mouse_report.buttons
          x := constrain_hid sensor_report.x
          y := constrain_hid sensor_report.y
          v := mouse_report.v
          h := mouse_report.h } := by
  have hr : ∀ a : Int, -127 ≤ constrain_hid a ∧ constrain_hid a ≤ 127 := by
    intro a; unfold constrain_hid; split_ifs <;> omega
  refine ⟨hr amt, ?_, ?_, ?_, ?_⟩
  · intro h1 h2; unfold constrain_hid; split_ifs <;> omega
  · intro h; rw [constrain_hid, if_pos h]
  · intro h; unfold constrain_hid; split_ifs <;> omega
  · unfold adns9800_get_report_driver
    rw [wrap8_id _ (by have := hr sensor_report.x; omega) (hr sensor_report.x).2,
      wrap8_id _ (by have := hr sensor_report.y; omega) (hr sensor_report.y).2]

theorem constrain_hid_clamps_witness :
    constrain_hid 300 = 127 ∧
    adns9800_get_report_driver { x := 300, y := -5 }
        { buttons := 1, x := 9, y := 9, v := 2, h := 3 }
      = { buttons := 1, x := 127, y := -5, v := 2, h := 3 } :=
  ⟨(constrain_hid_clamps 300 { x := 300, y := -5 }
      { buttons := 1, x := 9, y := 9, v := 2, h := 3 }).2.2.2.1 (by decide),
   (constrain_hid_clamps 300 { x := 300, y := -5 }
      { buttons := 1, x := 9, y := 9, v := 2, h := 3 }).2.2.2.2⟩
end PointingDevice
